import Mathlib

/-! # skindiff: kernels, mesh, matrix assembly, parameters, loggers and the run loop

A shallow embedding of the diffusion simulator (`tdmatrix.h`, `tdmatrix.cpp`,
`algorithms.h`, `geometry.cpp`, `matrixbuilder.cpp`, `parameter.cpp`,
`compartmentlog2d.cpp`, `compartmentlog3d.cpp`, `system.cpp`, `session.cpp`,
`main.cpp`).

Conventions of the embedding:

* `double` values are rational numbers (exact arithmetic);
* a `std::vector<double>` is a `List ℚ`; `v[i]` is `rd v i` and
  `v[i] = x` is `v.set i x`;
* a counted `for` loop is a fold over the list of its indices
  (`forUp`, `forDown`);
* `int` values are unbounded integers;
* a pointer a logger holds to an object of the system is a flag (the sink) or
  a position in the list of compartments; the virtual hooks of `run` are given
  by their results; a function that reaches `assert(false)` returns `none`.
-/

set_option autoImplicit false

namespace sc

/-! ## Loops -/

/-- The loop `for (i = lo; i < hi; ++i) st = body i st`. -/
def forUp {σ : Type} (lo hi : ℕ) (body : ℕ → σ → σ) (st : σ) : σ :=
  (List.range' lo (hi - lo)).foldl (fun s i => body i s) st

/-- The loop `for (i = hi - 1; i >= lo; --i) st = body i st`. -/
def forDown {σ : Type} (hi lo : ℕ) (body : ℕ → σ → σ) (st : σ) : σ :=
  (List.range' lo (hi - lo)).foldr (fun i s => body i s) st

/-- The read `v[i]` of a `std::vector<double>`; outside the vector it is 0. -/
def rd (v : List ℚ) (i : ℕ) : ℚ := v.getD i 0

/-- The read `v[i]` of a `std::vector<int>` of indices. -/
def rdi (v : List ℕ) (i : ℕ) : ℕ := v.getD i 0

/-! ## TDMatrix (tdmatrix.h, tdmatrix.cpp) -/

/-- The class `TDMatrix`: three bands, the extra band and pivot indices of the
pivoted factorisation, the size and the `prepared` flag. -/
structure TDMatrix where
  m_upper : List ℚ
  m_diag : List ℚ
  m_lower : List ℚ
  m_superupper : List ℚ
  m_ipivot : List ℕ
  m_size : ℕ
  m_prepared : Bool
deriving DecidableEq, Repr

namespace TDMatrix

/-- The constructor `TDMatrix(int size)`: zero bands, not prepared. -/
def new (size : ℕ) : TDMatrix where
  m_upper := List.replicate (size - 1) 0
  m_diag := List.replicate size 0
  m_lower := List.replicate (size - 1) 0
  m_superupper := []
  m_ipivot := []
  m_size := size
  m_prepared := false

/-- The band lengths the constructor establishes. -/
def WF (A : TDMatrix) : Prop :=
  A.m_diag.length = A.m_size ∧ A.m_lower.length = A.m_size - 1 ∧
    A.m_upper.length = A.m_size - 1

instance (A : TDMatrix) : Decidable A.WF := by
  unfold WF; infer_instance

/-- The accessor `diag(idx)`. -/
def diag (A : TDMatrix) (idx : ℕ) : ℚ := rd A.m_diag idx

/-- The accessor `lower(idx)`. -/
def lower (A : TDMatrix) (idx : ℕ) : ℚ := rd A.m_lower idx

/-- The accessor `upper(idx)`. -/
def upper (A : TDMatrix) (idx : ℕ) : ℚ := rd A.m_upper idx

/-- The accessor `operator()(i, j)`: row `i`, column `j`. -/
def op_call (A : TDMatrix) (i j : ℕ) : ℚ :=
  if i = j then rd A.m_diag i
  else if i < j then rd A.m_upper i
  else rd A.m_lower (i - 1)

/-- The product `operator*(vec)`. -/
def op_mul (A : TDMatrix) (vec : List ℚ) : List ℚ :=
  let result : List ℚ := List.replicate A.m_size 0
  let result := result.set 0 (rd vec 0 * rd A.m_diag 0 + rd vec 1 * rd A.m_upper 0)
  let result := forUp 1 (A.m_size - 1) (fun i result =>
    result.set i (rd A.m_lower (i - 1) * rd vec (i - 1)
      + rd A.m_diag i * rd vec i + rd A.m_upper i * rd vec (i + 1))) result
  let idx := A.m_size - 1
  result.set idx (rd A.m_lower (idx - 1) * rd vec (idx - 1)
    + rd A.m_diag idx * rd vec idx)

/-- The in-place product `inlineMultiply(vec)`; the loop state is the vector
and the carried scalar `tmp`. The method is `const`: the matrix is an input
only. -/
def inlineMultiply (A : TDMatrix) (vec : List ℚ) : List ℚ :=
  let tmp := rd vec 0
  let vec := vec.set 0 (rd vec 0 * rd A.m_diag 0 + rd vec 1 * rd A.m_upper 0)
  let st := forUp 1 (A.m_size - 1) (fun i (st : List ℚ × ℚ) =>
    let old_val_i := rd st.1 i
    (st.1.set i (rd A.m_lower (i - 1) * st.2 + rd A.m_diag i * old_val_i
      + rd A.m_upper i * rd st.1 (i + 1)), old_val_i)) (vec, tmp)
  let idx := A.m_size - 1
  st.1.set idx (rd A.m_lower (idx - 1) * st.2 + rd A.m_diag idx * rd st.1 idx)

end TDMatrix

/-! ## Solvers (algorithms.h) -/

namespace algorithm

/-- The scratch vector `c_star` of `thomasIP` after its first loop: the
modified upper band. -/
def thomasCStar (matrix : TDMatrix) : List ℚ :=
  let size := matrix.m_size
  let c_star := matrix.m_upper
  let c_star := c_star.set 0 (rd c_star 0 / matrix.diag 0)
  forUp 1 (size - 1) (fun i c_star =>
    c_star.set i (rd c_star i / (matrix.diag i - rd c_star (i - 1) * matrix.lower (i - 1))))
    c_star

/-- The solver `thomasIP(matrix, rhs)`; the result is the overwritten `rhs`. -/
def thomasIP (matrix : TDMatrix) (rhs : List ℚ) : List ℚ :=
  let size := matrix.m_size
  let c_star := thomasCStar matrix
  let rhs := rhs.set 0 (rd rhs 0 / matrix.diag 0)
  let rhs := forUp 1 size (fun i rhs =>
    rhs.set i ((rd rhs i - rd rhs (i - 1) * matrix.lower (i - 1)) /
      (matrix.diag i - rd c_star (i - 1) * matrix.lower (i - 1)))) rhs
  forDown (size - 1) 0 (fun i rhs => rhs.set i (rd rhs i - rd c_star i * rd rhs (i + 1))) rhs

/-- The value `thomasIP` divides by in row `i`: `diag[0]` for `i = 0` and
`diag[i] - c_star[i-1]*lower[i-1]` for `i >= 1`. -/
def thomasPivot (matrix : TDMatrix) (i : ℕ) : ℚ :=
  if i = 0 then matrix.diag 0
  else matrix.diag i - rd (thomasCStar matrix) (i - 1) * matrix.lower (i - 1)

/-- The preparation block of `thomasReUseIP` (run when the matrix is not
prepared): the upper band becomes `c_star`, the diagonal becomes the
post-elimination diagonal, and `prepared` is set. -/
def thomasPrepare (matrix : TDMatrix) : TDMatrix :=
  let size := matrix.m_size
  let matrix := { matrix with
    m_upper := matrix.m_upper.set 0 (rd matrix.m_upper 0 / matrix.diag 0) }
  let matrix := forUp 1 (size - 1) (fun i (m : TDMatrix) =>
    { m with
      m_upper := m.m_upper.set i
        (rd m.m_upper i / (m.diag i - rd m.m_upper (i - 1) * m.lower (i - 1))) }) matrix
  let matrix := forUp 1 size (fun i (m : TDMatrix) =>
    { m with
      m_diag := m.m_diag.set i (rd m.m_diag i - rd m.m_upper (i - 1) * m.lower (i - 1)) })
    matrix
  { matrix with m_prepared := true }

/-- The solver `thomasReUseIP(matrix, rhs)`; the result is the pair of the
(possibly overwritten) matrix and the overwritten `rhs`. -/
def thomasReUseIP (matrix : TDMatrix) (rhs : List ℚ) : TDMatrix × List ℚ :=
  let size := matrix.m_size
  let matrix := if !matrix.m_prepared then thomasPrepare matrix else matrix
  let rhs := rhs.set 0 (rd rhs 0 / matrix.diag 0)
  let rhs := forUp 1 size (fun i rhs =>
    rhs.set i ((rd rhs i - rd rhs (i - 1) * matrix.lower (i - 1)) / rd matrix.m_diag i)) rhs
  let rhs := forDown (size - 1) 0 (fun i rhs =>
    rhs.set i (rd rhs i - rd matrix.m_upper i * rd rhs (i + 1))) rhs
  (matrix, rhs)

/-- The local vectors of `gaussPivotIP`: the copies `du`, `d`, `dl` of the
bands and the right-hand side. -/
structure GaussWork where
  du : List ℚ
  d : List ℚ
  dl : List ℚ
  rhs : List ℚ
deriving DecidableEq, Repr

/-- Body of the elimination loop of `gaussPivotIP` for a row `i < n - 2`. -/
def gaussPivotStep (i : ℕ) (w : GaussWork) : GaussWork :=
  if |rd w.d i| ≥ |rd w.dl i| then
    let fact := rd w.dl i / rd w.d i
    let d := w.d.set (i + 1) (rd w.d (i + 1) - fact * rd w.du i)
    let rhs := w.rhs.set (i + 1) (rd w.rhs (i + 1) - fact * rd w.rhs i)
    let dl := w.dl.set i 0
    { du := w.du, d := d, dl := dl, rhs := rhs }
  else
    let fact := rd w.d i / rd w.dl i
    let d := w.d.set i (rd w.dl i)
    let temp := rd d (i + 1)
    let d := d.set (i + 1) (rd w.du i - fact * temp)
    let dl := w.dl.set i (rd w.du (i + 1))
    let du := w.du.set (i + 1) (-fact * rd dl i)
    let du := du.set i temp
    let temp := rd w.rhs i
    let rhs := w.rhs.set i (rd w.rhs (i + 1))
    let rhs := rhs.set (i + 1) (temp - fact * rd rhs (i + 1))
    { du := du, d := d, dl := dl, rhs := rhs }

/-- The elimination step of `gaussPivotIP` for the row `i = n - 2`. -/
def gaussPivotLast (i : ℕ) (w : GaussWork) : GaussWork :=
  if |rd w.d i| ≥ |rd w.dl i| then
    let fact := rd w.dl i / rd w.d i
    let d := w.d.set (i + 1) (rd w.d (i + 1) - fact * rd w.du i)
    let rhs := w.rhs.set (i + 1) (rd w.rhs (i + 1) - fact * rd w.rhs i)
    { du := w.du, d := d, dl := w.dl, rhs := rhs }
  else
    let fact := rd w.d i / rd w.dl i
    let d := w.d.set i (rd w.dl i)
    let temp := rd d (i + 1)
    let d := d.set (i + 1) (rd w.du i - fact * temp)
    let du := w.du.set i temp
    let temp := rd w.rhs i
    let rhs := w.rhs.set i (rd w.rhs (i + 1))
    let rhs := rhs.set (i + 1) (temp - fact * rd rhs (i + 1))
    { du := du, d := d, dl := w.dl, rhs := rhs }

/-- The elimination phase of `gaussPivotIP`: the loop over the rows
`0 .. n-3` and the separate step for row `n-2`. -/
def gaussEliminate (matrix : TDMatrix) (rhs : List ℚ) : GaussWork :=
  let n := matrix.m_size
  let w : GaussWork := { du := matrix.m_upper, d := matrix.m_diag, dl := matrix.m_lower, rhs := rhs }
  let w := forUp 0 (n - 2) gaussPivotStep w
  gaussPivotLast (n - 2) w

/-- The back substitution of the pivoted solvers with the upper-triangular
factor: diagonal `d`, first super-diagonal `du`, second super-diagonal `du2`. -/
def gaussBackSolve (n : ℕ) (d du du2 rhs : List ℚ) : List ℚ :=
  let rhs := rhs.set (n - 1) (rd rhs (n - 1) / rd d (n - 1))
  let rhs := rhs.set (n - 2) ((rd rhs (n - 2) - rd du (n - 2) * rd rhs (n - 1)) / rd d (n - 2))
  forDown (n - 2) 0 (fun i rhs =>
    rhs.set i ((rd rhs i - rd du i * rd rhs (i + 1) - rd du2 i * rd rhs (i + 2)) / rd d i)) rhs

/-- The solver `gaussPivotIP(matrix, rhs)`; the result is the overwritten
`rhs`. The second super-diagonal is kept in the local copy `dl`. -/
def gaussPivotIP (matrix : TDMatrix) (rhs : List ℚ) : List ℚ :=
  let n := matrix.m_size
  let w := gaussEliminate matrix rhs
  gaussBackSolve n w.d w.du w.dl w.rhs

/-- The call `v.resize(n)` of a `std::vector`: truncate or pad with zeros. -/
def resize {α : Type} [Zero α] (v : List α) (n : ℕ) : List α :=
  v.take n ++ List.replicate (n - v.length) 0

/-- Body of the factorisation loop of `gaussReUsePivotIP` for a row
`i < n - 2`. -/
def gaussFactorStep (i : ℕ) (m : TDMatrix) : TDMatrix :=
  if |rd m.m_diag i| ≥ |rd m.m_lower i| then
    let fact := rd m.m_lower i / rd m.m_diag i
    let dl := m.m_lower.set i fact
    let d := m.m_diag.set (i + 1) (rd m.m_diag (i + 1) - fact * rd m.m_upper i)
    { m with m_lower := dl, m_diag := d }
  else
    let fact := rd m.m_diag i / rd m.m_lower i
    let d := m.m_diag.set i (rd m.m_lower i)
    let dl := m.m_lower.set i fact
    let temp := rd m.m_upper i
    let du := m.m_upper.set i (rd d (i + 1))
    let d := d.set (i + 1) (temp - fact * rd d (i + 1))
    let du2 := m.m_superupper.set i (rd du (i + 1))
    let du := du.set (i + 1) (-fact * rd du (i + 1))
    let ipiv := m.m_ipivot.set i (i + 1)
    { m with m_upper := du, m_diag := d, m_lower := dl, m_superupper := du2, m_ipivot := ipiv }

/-- The factorisation step of `gaussReUsePivotIP` for the row `i = n - 2`. -/
def gaussFactorLast (i : ℕ) (m : TDMatrix) : TDMatrix :=
  if |rd m.m_diag i| ≥ |rd m.m_lower i| then
    let fact := rd m.m_lower i / rd m.m_diag i
    let dl := m.m_lower.set i fact
    let d := m.m_diag.set (i + 1) (rd m.m_diag (i + 1) - fact * rd m.m_upper i)
    { m with m_lower := dl, m_diag := d }
  else
    let fact := rd m.m_diag i / rd m.m_lower i
    let d := m.m_diag.set i (rd m.m_lower i)
    let dl := m.m_lower.set i fact
    let temp := rd m.m_upper i
    let du := m.m_upper.set i (rd d (i + 1))
    let d := d.set (i + 1) (temp - fact * rd d (i + 1))
    let ipiv := m.m_ipivot.set i (i + 1)
    { m with m_upper := du, m_diag := d, m_lower := dl, m_ipivot := ipiv }

/-- The preparation block of `gaussReUsePivotIP` (run when the matrix is not
prepared): resize and initialise `du2` and `ipiv`, factorise, set `prepared`. -/
def gaussPrepare (matrix : TDMatrix) : TDMatrix :=
  let n := matrix.m_size
  let matrix := { matrix with
    m_superupper := resize matrix.m_superupper (n - 2)
    m_ipivot := resize matrix.m_ipivot n }
  let matrix := forUp 0 n (fun i (m : TDMatrix) => { m with m_ipivot := m.m_ipivot.set i i }) matrix
  let matrix := forUp 0 (n - 2) (fun i (m : TDMatrix) =>
    { m with m_superupper := m.m_superupper.set i 0 }) matrix
  let matrix := forUp 0 (n - 2) gaussFactorStep matrix
  let matrix := gaussFactorLast (n - 2) matrix
  { matrix with m_prepared := true }

/-- Body of the loop `Solve L*x = b` of `gaussReUsePivotIP`. -/
def gaussLSolveStep (matrix : TDMatrix) (i : ℕ) (rhs : List ℚ) : List ℚ :=
  let ip := rdi matrix.m_ipivot i
  let temp := rd rhs (2 * i + 1 - ip) - rd matrix.m_lower i * rd rhs ip
  let rhs := rhs.set i (rd rhs ip)
  rhs.set (i + 1) temp

/-- The loop `Solve L*x = b` of `gaussReUsePivotIP`. -/
def gaussLSolve (matrix : TDMatrix) (rhs : List ℚ) : List ℚ :=
  forUp 0 (matrix.m_size - 1) (gaussLSolveStep matrix) rhs

/-- The solver `gaussReUsePivotIP(matrix, rhs)`; the result is the pair of
the (possibly factorised) matrix and the overwritten `rhs`. -/
def gaussReUsePivotIP (matrix : TDMatrix) (rhs : List ℚ) : TDMatrix × List ℚ :=
  let n := matrix.m_size
  let matrix := if !matrix.m_prepared then gaussPrepare matrix else matrix
  let rhs := gaussLSolve matrix rhs
  let rhs := gaussBackSolve n matrix.m_diag matrix.m_upper matrix.m_superupper rhs
  (matrix, rhs)

end algorithm

/-- The 5x5 matrix of the solver unit tests (thomasalgorithmtests.cpp):
diag {1..5}, off-diagonals {2..5}. -/
def testMatrix5 : TDMatrix := TDMatrix.mk [2, 3, 4, 5] [1, 2, 3, 4, 5] [2, 3, 4, 5] [] [] 5 false

/-- The right-hand side of the solver unit tests. -/
def testRhs5 : List ℚ := [5, 15, 31, 53, 45]

/-- Strict diagonal dominance by rows: `|diag[i]| > |lower[i-1]| + |upper[i]|`
in every row, a missing neighbour counting as 0. -/
def TDMatrix.StrictlyDominant (A : TDMatrix) : Prop :=
  ∀ i, i < A.m_size →
    (if i = 0 then 0 else |A.lower (i - 1)|) + (if i = A.m_size - 1 then 0 else |A.upper i|)
      < |A.diag i|

instance (A : TDMatrix) : Decidable A.StrictlyDominant := by
  unfold TDMatrix.StrictlyDominant; infer_instance

/-- The vector lengths of the working copies of `gaussPivotIP`. -/
def algorithm.GaussWork.WF (n : ℕ) (w : algorithm.GaussWork) : Prop :=
  w.d.length = n ∧ w.du.length = n - 1 ∧ w.dl.length = n - 1 ∧ w.rhs.length = n

/-- The linear system held by the working copies when the rows below `k` are
eliminated: rows `j < k` are rows of the upper-triangular factor (with second
super-diagonal in `dl`), row `k` has no sub-diagonal entry left, rows `j > k`
are still rows of the tridiagonal matrix. -/
def gaussSat (n k : ℕ) (w : algorithm.GaussWork) (x : List ℚ) : Prop :=
  (∀ j, j < k → j < n →
    rd w.d j * rd x j + rd w.du j * rd x (j + 1) + rd w.dl j * rd x (j + 2) = rd w.rhs j) ∧
  (k < n → rd w.d k * rd x k + rd w.du k * rd x (k + 1) = rd w.rhs k) ∧
  (∀ j, k < j → j < n →
    rd w.dl (j - 1) * rd x (j - 1) + rd w.d j * rd x j + rd w.du j * rd x (j + 1) = rd w.rhs j)

/-! ## Compartment and Sink (compartment.cpp, sink.cpp) -/

/-- The class `Compartment`. -/
structure Compartment where
  m_name : String
  m_size : ℤ
  m_D : ℚ
  m_K : ℚ
  m_A : ℚ
  m_geo_from : ℤ
  m_geo_to : ℤ
  m_c_init : ℚ
  m_finite_dose : Bool
deriving DecidableEq, Repr

/-- The constructor `Compartment(size, D, K, A, name)`. -/
def Compartment.new (size : ℤ) (D K A : ℚ) (name : String) : Compartment where
  m_name := name
  m_size := size
  m_D := D
  m_K := K
  m_A := A
  m_geo_from := 0
  m_geo_to := 0
  m_c_init := 0
  m_finite_dose := true

/-- The setter `Compartment::setGeometryIdx(from, to)`. -/
def Compartment.setGeometryIdx (c : Compartment) (fromIdx toIdx : ℤ) : Compartment :=
  { c with m_geo_from := fromIdx, m_geo_to := toIdx }

/-- The setter `Compartment::setCInit(value)`. -/
def Compartment.setCInit (c : Compartment) (value : ℚ) : Compartment :=
  { c with m_c_init := value }

/-- The setter `Compartment::setFiniteDose(value)`. -/
def Compartment.setFiniteDose (c : Compartment) (value : Bool) : Compartment :=
  { c with m_finite_dose := value }

/-- The enumeration `Sink::Type`. -/
inductive SinkType where
  | Perfect_Sink
  | PK_Compartment
deriving DecidableEq, Repr

/-- The class `Sink`. -/
structure Sink where
  m_name : String
  m_type : SinkType
  m_A : ℚ
  m_Vd : ℚ
  m_t_half : ℚ
  m_geo_from : ℤ
  m_geo_to : ℤ
  m_c_init : ℚ
deriving DecidableEq, Repr

/-- The setter `Sink::setGeometryIdx(from, to)`. -/
def Sink.setGeometryIdx (s : Sink) (fromIdx toIdx : ℤ) : Sink :=
  { s with m_geo_from := fromIdx, m_geo_to := toIdx }

/-- The value of the `double` constant `std::log(2)`. -/
def log2 : ℚ := 6243314768165359 / 9007199254740992

/-- The getter `Sink::kEl()`: `std::log(2) / m_t_half`. -/
def Sink.kEl (s : Sink) : ℚ := log2 / s.m_t_half

/-! ## Geometry (geometry.cpp) -/

/-- The enumeration `Geometry::DiscMethod`. -/
inductive DiscMethod where
  | Undefined
  | EQUI_DIST
  | B_AND_K
deriving DecidableEq, Repr

/-- The class `Geometry`. -/
structure Geometry where
  m_space_steps : List ℚ
  m_min_space_step : ℚ
  m_max_space_step : ℚ
  m_disc_method : DiscMethod
  m_valid : Bool
  m_eta : ℚ
  m_calcuated_eta : ℚ
deriving DecidableEq, Repr

/-- The constructor `Geometry()`. -/
def Geometry.new : Geometry where
  m_space_steps := []
  m_min_space_step := 1
  m_max_space_step := 1
  m_disc_method := DiscMethod.EQUI_DIST
  m_valid := false
  m_eta := 3 / 5
  m_calcuated_eta := 0

/-- The getter `Geometry::size()`. -/
def Geometry.size (g : Geometry) : ℕ := g.m_space_steps.length

/-- The getter `Geometry::minSpaceStep()`. -/
def Geometry.minSpaceStep (g : Geometry) : ℚ := g.m_min_space_step

/-- The getter `Geometry::maxSpaceStep()`. -/
def Geometry.maxSpaceStep (g : Geometry) : ℚ := g.m_max_space_step

/-- The values `findOptTransition` leaves in its reference arguments. The
search itself (a Newton iteration in floating point with `log10` and `pow`)
is not embedded; `Geometry::create` takes its results as an argument. -/
structure Transition where
  n_trans_eles : ℤ
  calcuated_eta : ℚ
  n_trans_size : ℤ
  ss_boundary : ℚ
deriving DecidableEq, Repr

/-- What `Geometry::create` returns and leaves behind: the returned flag, the
geometry, the compartments with their cell ranges, and the sink. -/
structure CreateResult where
  ok : Bool
  geometry : Geometry
  compartments : List Compartment
  sink : Option Sink
deriving DecidableEq, Repr

/-- The state of the compartment loop of the equidistant branch: the running
`counter`, the running `size`, and the compartments processed so far. -/
structure EquiLoop where
  counter : ℤ
  size : ℤ
  done : List Compartment
deriving DecidableEq, Repr

/-- Body of the loop `for (auto& c : compartments)` of the equidistant branch. -/
def equiStep (ss_per_um : ℤ) (st : EquiLoop) (c : Compartment) : EquiLoop :=
  let comp_size := c.m_size
  let start_idx := st.counter
  let counter := st.counter + (comp_size * ss_per_um - 1)
  let c := c.setGeometryIdx start_idx counter
  let counter := counter + 1
  let size := st.size + comp_size
  { counter := counter, size := size, done := st.done ++ [c] }

/-- The equidistant branch of `Geometry::create`. -/
def Geometry.createEqui (g : Geometry) (compartments : List Compartment) (ss_per_um : ℤ)
    (sink : Option Sink) : CreateResult :=
  let ss : ℚ := 1 / (ss_per_um : ℚ)
  let st := compartments.foldl (equiStep ss_per_um) { counter := 0, size := 0, done := [] }
  let size := st.size * ss_per_um
  let size := if sink.isSome then size + 1 else size
  let sink := sink.map (fun s => s.setGeometryIdx st.counter st.counter)
  let g := { g with m_valid := decide (size > 0) }
  if g.m_valid then
    { ok := true
      geometry := { g with
        m_min_space_step := ss
        m_max_space_step := ss
        m_space_steps := List.replicate size.toNat ss }
      compartments := st.done
      sink := sink }
  else
    { ok := false, geometry := g, compartments := st.done, sink := sink }

/-- The symmetric transition vector of the refined branch. -/
def transVec (t : Transition) : List ℚ :=
  let st := forUp 0 (t.n_trans_eles - 1).toNat
    (fun _ (st : ℚ × List ℚ) => (st.1 * t.calcuated_eta, st.2 ++ [st.1 * t.calcuated_eta]))
    ((1 : ℚ), ([] : List ℚ))
  let trans_vec := st.2 ++ [st.1]
  forDown t.n_trans_eles.toNat 0 (fun i (v : List ℚ) => v ++ [rd v i]) trans_vec

/-- The state of the compartment loop of the refined branch. -/
structure BKLoop where
  counter : ℤ
  c_carry : ℤ
  steps : List ℚ
  done : List Compartment
deriving DecidableEq, Repr

/-- Body of the loop over the compartments of the refined branch, for the
compartment `c` at position `i` of `c_size`. -/
def bkStep (t : Transition) (trans_vec : List ℚ) (c_size : ℤ) (st : BKLoop)
    (ic : ℕ × Compartment) : BKLoop :=
  let i : ℤ := ic.1
  let c := ic.2
  let t_vec_size : ℤ := trans_vec.length
  let start_idx := st.counter
  let size := c.m_size - (if i = 0 ∨ i = c_size - 1 then t.n_trans_size else t.n_trans_size * 2)
  let steps := st.steps ++ List.replicate size.toNat 1
  let counter := st.counter + (size.toNat : ℤ)
  let counter := if i < c_size - 1 then counter + t_vec_size / 2 else counter
  let steps := if i < c_size - 1 then steps ++ trans_vec else steps
  let counter := counter + st.c_carry
  let end_idx := counter - 1
  { counter := counter, c_carry := t_vec_size / 2, steps := steps,
    done := st.done ++ [c.setGeometryIdx start_idx end_idx] }

/-- The refined (`B_AND_K`) branch of `Geometry::create`, with the results of
`findOptTransition` given. -/
def Geometry.createBK (g : Geometry) (compartments : List Compartment)
    (sink : Option Sink) (t : Transition) : CreateResult :=
  let g := { g with m_calcuated_eta := t.calcuated_eta }
  let trans_vec := transVec t
  let st := compartments.enum.foldl (bkStep t trans_vec compartments.length)
    { counter := 0, c_carry := 0, steps := g.m_space_steps, done := [] }
  let steps := if sink.isSome then st.steps ++ [1] else st.steps
  let sink := sink.map (fun s => s.setGeometryIdx st.counter st.counter)
  { ok := true
    geometry := { g with
      m_space_steps := steps
      m_valid := true
      m_max_space_step := 1
      m_min_space_step := t.ss_boundary }
    compartments := st.done
    sink := sink }

/-- The method `Geometry::create(method, compartments, ss_per_um, sink)`. -/
def Geometry.create (g : Geometry) (method : DiscMethod) (compartments : List Compartment)
    (ss_per_um : ℤ) (sink : Option Sink) (t : Transition) : CreateResult :=
  let g := { g with
    m_disc_method := method
    m_space_steps := []
    m_min_space_step := 1
    m_max_space_step := 1 }
  if method = DiscMethod.EQUI_DIST ∨ ss_per_um = 1 ∨ compartments.length = 1 then
    g.createEqui compartments ss_per_um sink
  else if method = DiscMethod.B_AND_K then
    g.createBK compartments sink t
  else
    { ok := false, geometry := { g with m_valid := false }, compartments := compartments,
      sink := sink }

/-! ## MatrixBuilder (matrixbuilder.h, matrixbuilder.cpp) -/

namespace TDMatrix

/-- The assignment `diag(idx) = x`. -/
def setDiag (A : TDMatrix) (idx : ℕ) (x : ℚ) : TDMatrix := { A with m_diag := A.m_diag.set idx x }

/-- The assignment `lower(idx) = x`. -/
def setLower (A : TDMatrix) (idx : ℕ) (x : ℚ) : TDMatrix :=
  { A with m_lower := A.m_lower.set idx x }

/-- The assignment `upper(idx) = x`. -/
def setUpper (A : TDMatrix) (idx : ℕ) (x : ℚ) : TDMatrix :=
  { A with m_upper := A.m_upper.set idx x }

/-- The method `absMax()`. -/
def absMax (A : TDMatrix) : ℚ :=
  let max_el : ℚ := 0
  if A.m_size < 1 then max_el
  else
    let max_el := forUp 0 (A.m_size - 1) (fun i max_el =>
      max (max (max |max_el| |rd A.m_diag i|) |rd A.m_lower i|) |rd A.m_upper i|) max_el
    max max_el |rd A.m_diag (A.m_size - 1)|

/-- The method `multiplyBy(val)`. -/
def multiplyBy (A : TDMatrix) (val : ℚ) : TDMatrix :=
  { A with
    m_diag := A.m_diag.map (fun d => d * val)
    m_upper := A.m_upper.map (fun d => d * val)
    m_lower := A.m_lower.map (fun d => d * val) }

end TDMatrix

/-- The enumeration `MatrixBuilder::Method`. -/
inductive Method where
  | DSkin_1_3
  | DSkin_1_4
  | DSkin_1_5
deriving DecidableEq, Repr

/-- The class `MatrixBuilder`. -/
structure MatrixBuilder where
  m_method : Method
  m_max_module : ℚ
  m_matrix_rhs : TDMatrix
  m_matrix_lhs : TDMatrix
  m_timesteps : ℤ
deriving DecidableEq, Repr

/-- The loop `for (int i = lo; i < hi; ++i)` over `int` bounds. -/
def forUpZ {σ : Type} (lo hi : ℤ) (body : ℤ → σ → σ) (st : σ) : σ :=
  forUp 0 (hi - lo).toNat (fun k s => body (lo + (k : ℤ)) s) st

/-- The write `v[i] = x` with an `int` index (no effect for a negative one). -/
def wrZ (v : List ℚ) (i : ℤ) (x : ℚ) : List ℚ := if 0 ≤ i then v.set i.toNat x else v

/-- The read `v[i]` with an `int` index. -/
def rdZ (v : List ℚ) (i : ℤ) : ℚ := if 0 ≤ i then rd v i.toNat else 0

namespace MatrixBuilder

/-- The constructor `MatrixBuilder(method)`. -/
def new (method : Method) : MatrixBuilder where
  m_method := method
  m_max_module := 50
  m_matrix_rhs := TDMatrix.new 0
  m_matrix_lhs := TDMatrix.new 0
  m_timesteps := 1

/-- The getter `timesteps()`. -/
def timesteps (mb : MatrixBuilder) : ℤ := mb.m_timesteps

/-- The setter `setMaxModule(max_module)`. -/
def setMaxModule (mb : MatrixBuilder) (max_module : ℚ) : MatrixBuilder :=
  { mb with m_max_module := max_module }

/-- The helper `createParamVector(size, compartments, fun, sink)`. -/
def createParamVector (size : ℕ) (compartments : List Compartment) (f : Compartment → ℚ)
    (sink : Option Sink) : List ℚ :=
  let result : List ℚ := List.replicate size 0
  let result := compartments.foldl (fun result comp =>
    let start_idx := comp.m_geo_from
    let end_idx := comp.m_geo_to
    let val := f comp
    forUpZ start_idx (end_idx + 1) (fun i result => wrZ result i val) result) result
  match sink with
  | some s =>
    let idx := s.m_geo_from
    wrZ result idx (rdZ result (idx - 1))
  | none => result

/-- The helper `avgFromIdx(vec, i, j)`. -/
def avgFromIdx (vec : List ℚ) (i j : ℕ) : ℚ := (1 / 2 : ℚ) * (rd vec i + rd vec j)

/-- The helper `harmMeanFromIdx(vec, i, j)`. -/
def harmMeanFromIdx (vec : List ℚ) (i j : ℕ) : ℚ :=
  if rd vec i = rd vec j then rd vec i
  else 2 * rd vec i * rd vec j / (rd vec i + rd vec j)

/-- The helper `backFluxCorrection(K, idx, k1, k2, k3, k4)`; the four
reference arguments (all 1 at the call) are returned as a tuple. -/
def backFluxCorrection (K : List ℚ) (idx : ℕ) (k1 k2 k3 k4 : ℚ) : ℚ × ℚ × ℚ × ℚ :=
  let (k2, k4) := if rd K (idx + 1) > rd K idx then (rd K idx / rd K (idx + 1), k4)
    else (k2, rd K (idx + 1) / rd K idx)
  let (k1, k3) := if rd K (idx - 1) > rd K idx then (rd K idx / rd K (idx - 1), k3)
    else (k1, rd K (idx - 1) / rd K idx)
  (k1, k2, k3, k4)

/-- The helper `areaCorrection(A, idx, v1, v2)`; the two reference arguments
are returned as a pair. -/
def areaCorrection (A : List ℚ) (idx : ℕ) (v1 v2 : ℚ) : ℚ × ℚ :=
  let v1 := if rd A (idx + 1) < rd A idx then rd A (idx + 1) / rd A idx else v1
  let v2 := if rd A (idx - 1) < rd A idx then rd A (idx - 1) / rd A idx else v2
  (v1, v2)

/-- The helper `fromRhs(rhs)`. -/
def fromRhs (rhs : TDMatrix) : TDMatrix :=
  let res := rhs
  let size := res.m_size
  let res := forUp 0 (size - 1) (fun i (res : TDMatrix) =>
    let res := res.setDiag i (2 - res.diag i)
    let res := res.setUpper i (-res.upper i)
    res.setLower i (-res.lower i)) res
  res.setDiag (size - 1) (2 - res.diag (size - 1))

/-- Whether the vehicle `compartments[0]` is marked finite dose. -/
def vehicleFinite (compartments : List Compartment) : Bool :=
  (compartments.head?.map (fun c => c.m_finite_dose)).getD true

/-- The sink row shared by `build_M_DS_1_4` and `build_M_DS_1_5`: with a sink
the last diagonal entry is 2 in both matrices, and `2 -+ dt*kEl` for a
`PK_Compartment`. The pair is `(rhs, lhs)`. -/
def sinkRows (sys_size : ℕ) (dt : ℚ) (sink : Option Sink) (m : TDMatrix × TDMatrix) :
    TDMatrix × TDMatrix :=
  match sink with
  | some s =>
    let rhs := m.1.setDiag (sys_size - 1) 2
    let lhs := m.2.setDiag (sys_size - 1) 2
    if s.m_type = SinkType.PK_Compartment then
      (rhs.setDiag (sys_size - 1) (2 - dt * s.kEl), lhs.setDiag (sys_size - 1) (2 + dt * s.kEl))
    else (rhs, lhs)
  | none => m

/-- The infinite-dose block shared by `build_M_DS_1_4` and `build_M_DS_1_5`. -/
def infiniteDoseRows (compartments : List Compartment) (m : TDMatrix × TDMatrix) :
    TDMatrix × TDMatrix :=
  if !vehicleFinite compartments then
    let rhs := m.1.setDiag 0 2
    let lhs := m.2.setDiag 0 2
    let rhs := rhs.setUpper 0 0
    let lhs := lhs.setUpper 0 0
    (rhs, lhs)
  else m

/-- The loop `Correct the matrix and populate lhs matrix` shared by
`build_M_DS_1_4` and `build_M_DS_1_5`. The pair is `(rhs, lhs)`. -/
def crankRows (sys_size : ℕ) (m : TDMatrix × TDMatrix) : TDMatrix × TDMatrix :=
  forUp 0 (sys_size - 1) (fun i (m : TDMatrix × TDMatrix) =>
    let lhs := m.2.setDiag i (2 + m.1.diag i)
    let lhs := lhs.setLower i (-m.1.lower i)
    let lhs := lhs.setUpper i (-m.1.upper i)
    let rhs := m.1.setDiag i (2 - m.1.diag i)
    (rhs, lhs)) m

/-- The pre-matrix of `build_M_DS_1_5` (before `absMax`): the raw transfer
coefficients, with `K` replaced by `K * A`. -/
def preMatrix_1_5 (sys_size : ℕ) (space_steps D_vec K_vec A_vec : List ℚ) : TDMatrix :=
  let rhs := TDMatrix.new sys_size
  let l_c := rd space_steps 0
  let l_r := rd space_steps 1
  let D_c := rd D_vec 0
  let D_r := rd D_vec 1
  let K_c := rd K_vec 0 * rd A_vec 0
  let K_r := rd K_vec 1 * rd A_vec 1
  let h2 := (l_c + l_r) / 2
  let upper_f := (l_c + l_r) * D_c * D_r / (l_c * D_r + K_c / K_r * l_r * D_c) / (h2 * h2)
  let upper_val := upper_f * K_c / K_r
  let mid_val := upper_f
  let rhs := rhs.setDiag 0 mid_val
  let rhs := rhs.setUpper 0 upper_val
  let rhs := forUp 1 (sys_size - 1) (fun i (rhs : TDMatrix) =>
    let l_l := rd space_steps (i - 1)
    let l_c := rd space_steps i
    let l_r := rd space_steps (i + 1)
    let D_l := rd D_vec (i - 1)
    let D_c := rd D_vec i
    let D_r := rd D_vec (i + 1)
    let K_l := rd K_vec (i - 1) * rd A_vec (i - 1)
    let K_c := rd K_vec i * rd A_vec i
    let K_r := rd K_vec (i + 1) * rd A_vec (i + 1)
    let h1 := (l_l + l_c) / 2
    let h2 := (l_c + l_r) / 2
    let lower_f := (l_l + l_c) * D_l * D_c / (l_l * D_c + K_l / K_c * l_c * D_l) * 2 * h2
      / (h1 * h2 * (h1 + h2))
    let upper_f := (l_c + l_r) * D_c * D_r / (l_c * D_r + K_c / K_r * l_r * D_c) * 2 * h1
      / (h1 * h2 * (h1 + h2))
    let lower_val := lower_f
    let upper_val := upper_f * K_c / K_r
    let mid_val := lower_f * K_l / K_c + upper_f
    let rhs := rhs.setDiag i mid_val
    let rhs := rhs.setUpper i upper_val
    rhs.setLower (i - 1) lower_val) rhs
  let l_l := rd space_steps (sys_size - 2)
  let l_c := rd space_steps (sys_size - 1)
  let D_l := rd D_vec (sys_size - 2)
  let D_c := rd D_vec (sys_size - 1)
  let K_l := rd K_vec (sys_size - 2) * rd A_vec (sys_size - 2)
  let K_c := rd K_vec (sys_size - 1) * rd A_vec (sys_size - 1)
  let h1 := (l_l + l_c) / 2
  let lower_f := (l_l + l_c) * D_l * D_c / (l_l * D_c + K_l / K_c * l_c * D_l) / (h1 * h1)
  let lower_val := lower_f
  let mid_val := lower_f * K_l / K_c
  let rhs := rhs.setDiag (sys_size - 1) mid_val
  rhs.setLower (sys_size - 2) lower_val

/-- The pre-matrix of `build_M_DS_1_4` (before `absMax`). -/
def preMatrix_1_4 (sys_size : ℕ) (space_steps D_vec K_vec A_vec : List ℚ) : TDMatrix :=
  let rhs := TDMatrix.new sys_size
  let l_c := rd space_steps 0
  let l_r := rd space_steps 1
  let D_c := rd D_vec 0
  let D_r := rd D_vec 1
  let K_c := rd K_vec 0
  let K_r := rd K_vec 1
  let A_c := rd A_vec 0
  let A_r := rd A_vec 1
  let h2 := (l_c + l_r) / 2
  let upper_f := (l_c + l_r) * D_c * D_r / (l_c * D_r + K_c / K_r * l_r * D_c) / (h2 * h2)
  let upper_val := upper_f * K_c / K_r * min 1 (A_r / A_c)
  let mid_val := upper_f * min 1 (A_r / A_c)
  let rhs := rhs.setDiag 0 mid_val
  let rhs := rhs.setUpper 0 upper_val
  let rhs := forUp 1 (sys_size - 1) (fun i (rhs : TDMatrix) =>
    let l_l := rd space_steps (i - 1)
    let l_c := rd space_steps i
    let l_r := rd space_steps (i + 1)
    let D_l := rd D_vec (i - 1)
    let D_c := rd D_vec i
    let D_r := rd D_vec (i + 1)
    let K_l := rd K_vec (i - 1)
    let K_c := rd K_vec i
    let K_r := rd K_vec (i + 1)
    let A_l := rd A_vec (i - 1)
    let A_c := rd A_vec i
    let A_r := rd A_vec (i + 1)
    let h1 := (l_l + l_c) / 2
    let h2 := (l_c + l_r) / 2
    let lower_f := (l_l + l_c) * D_l * D_c / (l_l * D_c + K_l / K_c * l_c * D_l) * 2 * h2
      / (h1 * h2 * (h1 + h2))
    let upper_f := (l_c + l_r) * D_c * D_r / (l_c * D_r + K_c / K_r * l_r * D_c) * 2 * h1
      / (h1 * h2 * (h1 + h2))
    let lower_val := lower_f * min 1 (A_l / A_c)
    let upper_val := upper_f * K_c / K_r * min 1 (A_r / A_c)
    let mid_val := lower_f * K_l / K_c * min 1 (A_l / A_c) + upper_f * min 1 (A_r / A_c)
    let rhs := rhs.setDiag i mid_val
    let rhs := rhs.setUpper i upper_val
    rhs.setLower (i - 1) lower_val) rhs
  let l_l := rd space_steps (sys_size - 2)
  let l_c := rd space_steps (sys_size - 1)
  let D_l := rd D_vec (sys_size - 2)
  let D_c := rd D_vec (sys_size - 1)
  let K_l := rd K_vec (sys_size - 2)
  let K_c := rd K_vec (sys_size - 1)
  let A_l := rd A_vec (sys_size - 2)
  let A_c := rd A_vec (sys_size - 1)
  let h1 := (l_l + l_c) / 2
  let lower_f := (l_l + l_c) * D_l * D_c / (l_l * D_c + K_l / K_c * l_c * D_l) / (h1 * h1)
  let lower_val := lower_f * min 1 (A_l / A_c)
  let mid_val := lower_f * K_l / K_c * min 1 (A_l / A_c)
  let rhs := rhs.setDiag (sys_size - 1) mid_val
  rhs.setLower (sys_size - 2) lower_val

/-- The part of `build_M_DS_1_4` and `build_M_DS_1_5` after the pre-matrix is
assembled: sub-step count, scaling by `dt`, Crank-Nicolson rows, sink row,
infinite-dose rows. Returns the builder with both matrices and `true`. -/
def finishCrank (mb : MatrixBuilder) (sys_size : ℕ) (pre : TDMatrix)
    (compartments : List Compartment) (sink : Option Sink) : MatrixBuilder × Bool :=
  let lhs := TDMatrix.new sys_size
  let max_m := pre.absMax
  let m_timesteps : ℤ := max 1 ⌈max_m / mb.m_max_module⌉
  let dt : ℚ := 1 / (m_timesteps : ℚ)
  let rhs := pre.multiplyBy dt
  let m := crankRows sys_size (rhs, lhs)
  let m := (m.1.setUpper (sys_size - 2) 0, m.2.setUpper (sys_size - 2) 0)
  let m := sinkRows sys_size dt sink m
  let m := infiniteDoseRows compartments m
  ({ mb with m_matrix_rhs := m.1, m_matrix_lhs := m.2, m_timesteps := m_timesteps }, true)

/-- The method `build_M_DS_1_4(compartments, geometry, sink)`. -/
def build_M_DS_1_4 (mb : MatrixBuilder) (compartments : List Compartment)
    (geometry : Geometry) (sink : Option Sink) : MatrixBuilder × Bool :=
  let sys_size := geometry.size
  let D_vec := createParamVector sys_size compartments (fun comp => comp.m_D) sink
  let K_vec := createParamVector sys_size compartments (fun comp => comp.m_K) sink
  let A_vec := createParamVector sys_size compartments (fun comp => comp.m_A) sink
  let space_steps := geometry.m_space_steps
  finishCrank mb sys_size (preMatrix_1_4 sys_size space_steps D_vec K_vec A_vec) compartments sink

/-- The method `build_M_DS_1_5(compartments, geometry, sink)`. -/
def build_M_DS_1_5 (mb : MatrixBuilder) (compartments : List Compartment)
    (geometry : Geometry) (sink : Option Sink) : MatrixBuilder × Bool :=
  let sys_size := geometry.size
  let D_vec := createParamVector sys_size compartments (fun comp => comp.m_D) sink
  let K_vec := createParamVector sys_size compartments (fun comp => comp.m_K) sink
  let A_vec := createParamVector sys_size compartments (fun comp => comp.m_A) sink
  let space_steps := geometry.m_space_steps
  finishCrank mb sys_size (preMatrix_1_5 sys_size space_steps D_vec K_vec A_vec) compartments sink

/-- The pre-matrix of `build_M_DS_1_3` (before `absMax`). -/
def preMatrix_1_3 (sys_size : ℕ) (space_steps D_vec K_vec A_vec : List ℚ) : TDMatrix :=
  let rhs := TDMatrix.new sys_size
  let l_dx := rd space_steps 0
  let r_dx := avgFromIdx space_steps 0 1
  let rhs := rhs.setDiag 0 (2 * rd D_vec 0 / (l_dx * r_dx))
  let rhs := rhs.setUpper 0 (rd D_vec 0 * 4 / (r_dx * (l_dx + r_dx)))
  let rhs := forUp 1 (sys_size - 1) (fun i (rhs : TDMatrix) =>
    let l := avgFromIdx space_steps i (i - 1)
    let r := avgFromIdx space_steps i (i + 1)
    let D_r := harmMeanFromIdx D_vec i (i + 1)
    let D_l := harmMeanFromIdx D_vec i (i - 1)
    let k := backFluxCorrection K_vec i 1 1 1 1
    let k1 := k.1
    let k2 := k.2.1
    let k3 := k.2.2.1
    let k4 := k.2.2.2
    let v := areaCorrection A_vec i 1 1
    let v1 := v.1
    let v2 := v.2
    let lower_val := D_l * k1 * v2 * 2 / (l * (l + r))
    let mid_val := (D_l * k3 * v2 + D_r * k4 * v1) / (l * r)
    let upper_val := D_r * k2 * v1 * 2 / (r * (l + r))
    let rhs := rhs.setDiag i mid_val
    let rhs := rhs.setUpper i upper_val
    rhs.setLower (i - 1) lower_val) rhs
  let l_dx := avgFromIdx space_steps (sys_size - 1) (sys_size - 2)
  let r_dx := rd space_steps (sys_size - 1)
  let D_l := rd D_vec (sys_size - 1)
  rhs.setLower (sys_size - 2) (D_l * 2 / (l_dx * (l_dx + r_dx)))

/-- The method `build_M_DS_1_3(compartments, geometry, sink)`. The result is
`none` when the `assert(false)` of the infinite-dose block is reached. -/
def build_M_DS_1_3 (mb : MatrixBuilder) (compartments : List Compartment)
    (geometry : Geometry) (sink : Option Sink) : Option (MatrixBuilder × Bool) :=
  let sys_size := geometry.size
  let D_vec := createParamVector sys_size compartments (fun comp => comp.m_D) sink
  let K_vec := createParamVector sys_size compartments (fun comp => comp.m_K) sink
  let A_vec := createParamVector sys_size compartments (fun comp => comp.m_A) sink
  let space_steps := geometry.m_space_steps
  let rhs := preMatrix_1_3 sys_size space_steps D_vec K_vec A_vec
  let max_m := rhs.absMax
  let m_timesteps : ℤ := ⌈max_m / mb.m_max_module⌉
  let dt : ℚ := 1 / (m_timesteps : ℚ)
  let rhs := rhs.multiplyBy dt
  let rhs := forUp 0 (sys_size - 1) (fun i (rhs : TDMatrix) =>
    let rhs := rhs.setDiag i (1 - rhs.diag i / 2)
    let rhs := rhs.setLower i (rhs.lower i / 2)
    rhs.setUpper i (rhs.upper i / 2)) rhs
  let rhs := rhs.setUpper (sys_size - 2) 0
  let rhs :=
    match sink with
    | some s =>
      let rhs := rhs.setDiag (sys_size - 1) 1
      if s.m_type = SinkType.PK_Compartment then rhs.setDiag (sys_size - 1) (1 - dt * s.kEl / 2)
      else rhs
    | none => rhs
  if !vehicleFinite compartments then none
  else
    some ({ mb with m_matrix_rhs := rhs, m_matrix_lhs := fromRhs rhs, m_timesteps := m_timesteps },
      true)

/-- The method `buildMatrix(compartments, geometry, sink)`. -/
def buildMatrix (mb : MatrixBuilder) (compartments : List Compartment) (geometry : Geometry)
    (sink : Option Sink) : Option (MatrixBuilder × Bool) :=
  match mb.m_method with
  | Method.DSkin_1_3 => mb.build_M_DS_1_3 compartments geometry sink
  | Method.DSkin_1_4 => some (mb.build_M_DS_1_4 compartments geometry sink)
  | Method.DSkin_1_5 => some (mb.build_M_DS_1_5 compartments geometry sink)

end MatrixBuilder

/-! ## System (system.cpp): the inner sub-step loop of `run` -/

/-- Body of the inner loop of `System::run`: `rhs_matrix.inlineMultiply` on the
concentrations, then `thomasReUseIP` with the (cached) left-hand matrix. The
state is the local copy `lhs_matrix` and `m_concentrations`. -/
def subStep (rhs_matrix : TDMatrix) (st : TDMatrix × List ℚ) : TDMatrix × List ℚ :=
  let m_concentrations := rhs_matrix.inlineMultiply st.2
  algorithm.thomasReUseIP st.1 m_concentrations

/-- The inner loop `for (int ts = 1; ts <= n_ts; ++ts)` of `System::run`. -/
def innerLoop (n_ts : ℤ) (rhs_matrix : TDMatrix) (st : TDMatrix × List ℚ) :
    TDMatrix × List ℚ :=
  forUp 1 (n_ts.toNat + 1) (fun _ st => subStep rhs_matrix st) st

/-- The cell ranges the equidistant branch assigns, as a recursion over the
compartments: each takes `h * s` cells starting where the previous one ended. -/
def assignRanges (ss_per_um : ℤ) : ℤ → List Compartment → List Compartment
  | _, [] => []
  | start, c :: cs =>
    c.setGeometryIdx start (start + (c.m_size * ss_per_um - 1))
      :: assignRanges ss_per_um (start + (c.m_size * ss_per_um - 1) + 1) cs

/-- The vehicle and the layer of the seed scenario S1 (`h = 10`, `D = 1`,
`K = 1`), with areas 1. -/
def scenarioS1 : List Compartment :=
  [Compartment.new 10 1 1 1 "vehicle", Compartment.new 10 1 1 1 "layer"]

/-- A perfect sink. -/
def perfectSink : Sink :=
  { m_name := "sink", m_type := SinkType.Perfect_Sink, m_A := 1, m_Vd := 1, m_t_half := 1,
    m_geo_from := 0, m_geo_to := 0, m_c_init := 0 }

/-- Transition values for calls of `Geometry::create` that take the
equidistant branch, where they are not used. -/
def noTransition : Transition :=
  { n_trans_eles := 1, calcuated_eta := 3 / 5, n_trans_size := 1, ss_boundary := 1 }

/-- Strict diagonal dominance by columns: `|diag[j]| > |upper[j-1]| + |lower[j]|`
in every column, a missing neighbour counting as 0. -/
def TDMatrix.ColDominant (A : TDMatrix) : Prop :=
  ∀ j, j < A.m_size →
    (if j = 0 then 0 else |rd A.m_upper (j - 1)|) + |rd A.m_lower j| < |rd A.m_diag j|

/-- The sum of column `j` of a tridiagonal matrix. -/
def TDMatrix.colSum (A : TDMatrix) (j : ℕ) : ℚ :=
  (if j = 0 then 0 else rd A.m_upper (j - 1)) + rd A.m_diag j + rd A.m_lower j

/-- A pre-matrix whose transfer coefficients are non-negative and balanced
by columns: what leaves cell `j` (`diag[j]`) is what its neighbours gain
(`upper[j-1]` in row `j-1`, `lower[j]` in row `j+1`). -/
def TDMatrix.PreConservative (P : TDMatrix) : Prop :=
  P.WF ∧ ∀ j, j < P.m_size - 1 →
    0 ≤ rd P.m_upper j ∧ 0 ≤ rd P.m_lower j ∧
    rd P.m_diag j = (if j = 0 then 0 else rd P.m_upper (j - 1)) + rd P.m_lower j

/-- The one-sided transfer coefficient of `build_M_DS_1_5` between the cells
`i` and `j` (the `upper_f` of row 0 and the `lower_f` of the last row). -/
def edge15 (ss D K A : List ℚ) (i j : ℕ) : ℚ :=
  (rd ss i + rd ss j) * rd D i * rd D j
    / (rd ss i * rd D j + rd K i * rd A i / (rd K j * rd A j) * rd ss j * rd D i)
    / ((rd ss i + rd ss j) / 2 * ((rd ss i + rd ss j) / 2))

/-- The coefficient `lower_f` of an interior row `i` of `build_M_DS_1_5`. -/
def lower15 (ss D K A : List ℚ) (i : ℕ) : ℚ :=
  (rd ss (i - 1) + rd ss i) * rd D (i - 1) * rd D i
    / (rd ss (i - 1) * rd D i
      + rd K (i - 1) * rd A (i - 1) / (rd K i * rd A i) * rd ss i * rd D (i - 1))
    * 2 * ((rd ss i + rd ss (i + 1)) / 2)
    / ((rd ss (i - 1) + rd ss i) / 2 * ((rd ss i + rd ss (i + 1)) / 2)
      * ((rd ss (i - 1) + rd ss i) / 2 + (rd ss i + rd ss (i + 1)) / 2))

/-- The coefficient `upper_f` of an interior row `i` of `build_M_DS_1_5`. -/
def upper15 (ss D K A : List ℚ) (i : ℕ) : ℚ :=
  (rd ss i + rd ss (i + 1)) * rd D i * rd D (i + 1)
    / (rd ss i * rd D (i + 1)
      + rd K i * rd A i / (rd K (i + 1) * rd A (i + 1)) * rd ss (i + 1) * rd D i)
    * 2 * ((rd ss (i - 1) + rd ss i) / 2)
    / ((rd ss (i - 1) + rd ss i) / 2 * ((rd ss i + rd ss (i + 1)) / 2)
      * ((rd ss (i - 1) + rd ss i) / 2 + (rd ss i + rd ss (i + 1)) / 2))

/-- The mesh of scenario S1: equidistant, resolution 1, with the sink. -/
def s1Geo : CreateResult :=
  Geometry.new.create DiscMethod.EQUI_DIST scenarioS1 1 (some perfectSink) noTransition

/-- The matrices of scenario S1 under `DSkin_1_5` (`max_module = 50`). -/
def s1Built : MatrixBuilder :=
  ((MatrixBuilder.new Method.DSkin_1_5).build_M_DS_1_5 s1Geo.compartments s1Geo.geometry
    s1Geo.sink).1

/-- Concentrations on the mesh of scenario S1: 1 in the vehicle cells, 0 in
the layer and the sink. -/
def s1Conc : List ℚ := List.replicate 10 1 ++ List.replicate 11 0

/-- A vehicle and a layer of thickness 3 that do not diffuse (`D = 0`, which
the parameter validation admits), `K = 1`, area 1, finite dose. -/
def zeroDComps : List Compartment :=
  [Compartment.new 3 0 1 1 "vehicle", Compartment.new 3 0 1 1 "layer"]

/-- The equidistant mesh (resolution 1, with a perfect sink) of `zeroDComps`. -/
def zeroDGeo : CreateResult :=
  Geometry.new.create DiscMethod.EQUI_DIST zeroDComps 1 (some perfectSink) noTransition

/-- The matrix with diag {4,4,4}, lower {1,1}, upper {2,2}. -/
def dominantMatrix3 : TDMatrix := TDMatrix.mk [2, 2] [4, 4, 4] [1, 1] [] [] 3 false

/-- The simulation relation between the working copies of `gaussPivotIP` and
the matrix being factorised by `gaussReUsePivotIP`, before row `k`. -/
def gaussSim (n k : ℕ) (w : algorithm.GaussWork) (m : TDMatrix) : Prop :=
  w.d = m.m_diag ∧ w.du = m.m_upper ∧
  (∀ j, k ≤ j → rd w.dl j = rd m.m_lower j) ∧
  (∀ j, j < k → rd w.dl j = rd m.m_superupper j) ∧
  (∀ j, k ≤ j → rd m.m_superupper j = 0) ∧
  (∀ j, k ≤ j → j < n → rdi m.m_ipivot j = j) ∧
  w.WF n ∧ m.m_lower.length = n - 1 ∧ m.m_superupper.length = n - 2 ∧
  m.m_ipivot.length = n ∧ m.m_size = n

/-- The matrix of `gaussReUsePivotIP` after the resize and initialisation of
`du2` and `ipiv`, before the factorisation loop. -/
def gaussInit (matrix : TDMatrix) : TDMatrix :=
  forUp 0 (matrix.m_size - 2) (fun i (m : TDMatrix) =>
    { m with m_superupper := m.m_superupper.set i 0 })
    (forUp 0 matrix.m_size (fun i (m : TDMatrix) => { m with m_ipivot := m.m_ipivot.set i i })
      { matrix with
        m_superupper := algorithm.resize matrix.m_superupper (matrix.m_size - 2)
        m_ipivot := algorithm.resize matrix.m_ipivot matrix.m_size })

/-! ## Parameter (parameter.h, parameter.cpp) -/

/-- The enumeration `LogParameter::Scaling`. -/
inductive Scaling where
  | MG
  | UG
  | NG
deriving DecidableEq, Repr

/-- The class `SystemParameter`. -/
structure SystemParameter where
  m_disc_method : DiscMethod
  m_matrix_builder_method : Method
  m_resolution : ℤ
  m_max_module : ℚ
  m_eta : ℚ
  m_simulation_time : ℤ
deriving DecidableEq, Repr

/-- The constructor `SystemParameter()`. -/
def SystemParameter.new : SystemParameter where
  m_disc_method := DiscMethod.EQUI_DIST
  m_matrix_builder_method := Method.DSkin_1_3
  m_resolution := 1
  m_max_module := 50
  m_eta := 3 / 5
  m_simulation_time := 60

/-- The method `SystemParameter::isValid(error_string)`: the returned flag and
the error string afterwards. -/
def SystemParameter.isValid (p : SystemParameter) (error_string : String) : Bool × String :=
  if p.m_resolution ≤ 0 then (false, "Resulution is <= 0.")
  else if p.m_max_module ≤ 0 then (false, "Max module is <= 0.")
  else if p.m_simulation_time ≤ 0 then (false, "Simulation time is <= 0.")
  else if p.m_eta ≤ 0 ∨ p.m_eta > 1 then (false, "mb_eta is <= 0 or > 1.0.")
  else (true, error_string)

/-- The class `PKParameter`. -/
structure PKParameter where
  m_enabled : Bool
  m_thalf : ℚ
deriving DecidableEq, Repr

/-- The constructor `PKParameter()`. -/
def PKParameter.new : PKParameter where
  m_enabled := false
  m_thalf := 0

/-- The method `PKParameter::isValid(error_string)`. -/
def PKParameter.isValid (p : PKParameter) (error_string : String) : Bool × String :=
  if p.m_enabled then
    if p.m_thalf ≤ 0 then (false, "t_half <= 0.") else (true, error_string)
  else (true, error_string)

/-- The class `SinkParameter`. -/
structure SinkParameter where
  m_log : Bool
  m_name : String
  m_Vd : ℚ
  m_c_init : ℚ
deriving DecidableEq, Repr

/-- The constructor `SinkParameter()`. -/
def SinkParameter.new : SinkParameter where
  m_log := true
  m_name := "Sink"
  m_Vd := 1
  m_c_init := 0

/-- The method `SinkParameter::isValid(error_string)`. -/
def SinkParameter.isValid (p : SinkParameter) (error_string : String) : Bool × String :=
  if p.m_name = "" then (false, "Sink name is empty.")
  else if p.m_Vd ≤ 0 then (false, "Vd <= 0.0")
  else if p.m_c_init < 0 then (false, "Sink C_init < 0.0")
  else (true, error_string)

/-- The class `VehicleParameter`. -/
structure VehicleParameter where
  m_log : Bool
  m_log_cdp : Bool
  m_name : String
  m_c_init : ℚ
  m_app_area : ℚ
  m_D : ℚ
  m_height : ℤ
  m_replace_after : ℤ
  m_remove_at : ℤ
  m_finite_dose : Bool
deriving DecidableEq, Repr

/-- The constructor `VehicleParameter()`. -/
def VehicleParameter.new : VehicleParameter where
  m_log := true
  m_log_cdp := false
  m_name := "Vehicle"
  m_c_init := 1
  m_app_area := 1
  m_D := 1
  m_height := 10
  m_replace_after := 0
  m_remove_at := 0
  m_finite_dose := true

/-- The getter `VehicleParameter::remove()`. -/
def VehicleParameter.remove (p : VehicleParameter) : Bool := decide (p.m_remove_at > 0)

/-- The getter `VehicleParameter::replace()`. -/
def VehicleParameter.replace (p : VehicleParameter) : Bool := decide (p.m_replace_after > 0)

/-- The method `VehicleParameter::isValid(error_string)`. -/
def VehicleParameter.isValid (p : VehicleParameter) (error_string : String) : Bool × String :=
  if p.m_name = "" then (false, "Vehicle name is empty.")
  else if p.m_c_init < 0 then (false, "Vehicle C_init < 0.0.")
  else if p.m_app_area ≤ 0 then (false, "Vehicle App Area <= 0.0.")
  else if p.m_D < 0 then (false, "Vehicle D < 0.0.")
  else if p.m_height ≤ 2 then (false, "Vehicle height < 2.")
  else if p.m_remove_at < 0 then (false, "Vehicle remove at < 0.")
  else if p.m_replace_after < 0 then (false, "Vehicle replace after < 0.")
  else (true, error_string)

/-- The class `LayerParameter`. -/
structure LayerParameter where
  m_log : Bool
  m_log_cdp : Bool
  m_name : String
  m_c_init : ℚ
  m_D : ℚ
  m_K : ℚ
  m_cross_section : ℚ
  m_height : ℤ
deriving DecidableEq, Repr

/-- The constructor `LayerParameter()`. -/
def LayerParameter.new : LayerParameter where
  m_log := true
  m_log_cdp := false
  m_name := ""
  m_c_init := 0
  m_D := 1
  m_K := 1
  m_cross_section := 1
  m_height := 10

/-- The method `LayerParameter::isValid(error_string)`. -/
def LayerParameter.isValid (p : LayerParameter) (error_string : String) : Bool × String :=
  if p.m_name = "" then (false, "Layer name is empty.")
  else if p.m_c_init < 0 then (false, "Layer C_init < 0.0.")
  else if p.m_D < 0 then (false, "Layer D < 0.0.")
  else if p.m_K ≤ 0 then (false, "Layer K <= 0.0.")
  else if p.m_cross_section ≤ 0 ∨ p.m_cross_section > 1 then
    (false, "Layer cross section not in ]0,1].")
  else if p.m_height ≤ 2 then (false, "Layer height < 2.")
  else (true, error_string)

/-- The class `LogParameter`. -/
structure LogParameter where
  m_show_progress_bar : Bool
  m_gzip_cdp : Bool
  m_gzip_mass : Bool
  m_mass_log_interval : ℤ
  m_cdp_log_interval : ℤ
  m_mass_file_postfix : String
  m_cdp_file_postfix : String
  m_tag : String
  m_scaling : Scaling
  m_working_dir : String
deriving DecidableEq, Repr

/-- The constructor `LogParameter()`. -/
def LogParameter.new : LogParameter where
  m_show_progress_bar := true
  m_gzip_cdp := true
  m_gzip_mass := false
  m_mass_log_interval := 1
  m_cdp_log_interval := 1
  m_mass_file_postfix := "mass"
  m_cdp_file_postfix := "cdp"
  m_tag := "unknonw"
  m_scaling := Scaling.MG
  m_working_dir := ""

/-- The getter `LogParameter::massFilePostfix()`. -/
def LogParameter.massFilePostfix : LogParameter → String
  | ⟨_, _, _, _, _, m, _, _, _, _⟩ => m

/-- The getter `LogParameter::CDPFilePostfix()`. -/
def LogParameter.CDPFilePostfix : LogParameter → String
  | ⟨_, _, _, _, _, _, c, _, _, _⟩ => c

/-- The method `LogParameter::isValid(error_string)`. -/
def LogParameter.isValid (p : LogParameter) (error_string : String) : Bool × String :=
  if p.m_mass_log_interval ≤ 0 then (false, "Mass log interval <=0")
  else if p.m_cdp_log_interval ≤ 0 then (false, "CDP log interval <=0")
  else if p.massFilePostfix = "" then (false, "Mass file postfix is empty.")
  else if p.CDPFilePostfix = "" then (false, "CDP file postfix is empty.")
  else if p.m_tag = "" then (false, "File tag is empty.")
  else (true, error_string)

/-- The class `Parameter`. -/
structure Parameter where
  m_system_parameter : SystemParameter
  m_log_parameter : LogParameter
  m_pk_parameter : PKParameter
  m_sink_parameter : SinkParameter
  m_vehicle_parameter : VehicleParameter
  m_layer_parameter : List LayerParameter
deriving DecidableEq, Repr

/-- The constructor `Parameter()`. -/
def Parameter.new : Parameter where
  m_system_parameter := SystemParameter.new
  m_log_parameter := LogParameter.new
  m_pk_parameter := PKParameter.new
  m_sink_parameter := SinkParameter.new
  m_vehicle_parameter := VehicleParameter.new
  m_layer_parameter := []

/-- The getter `Parameter::layerCount()`. -/
def Parameter.layerCount (p : Parameter) : ℤ := p.m_layer_parameter.length

/-- The loop `for (const auto& layer : m_layer_parameter)` of
`Parameter::isValid`, which returns at the first layer that is not valid; `ok`
is the flag before the loop. -/
def Parameter.layersValid : List LayerParameter → Bool → String → Bool × String
  | [], ok, error_string => (ok, error_string)
  | layer :: rest, _, error_string =>
    let r := layer.isValid error_string
    if !r.1 then (false, r.2) else Parameter.layersValid rest r.1 r.2

/-- The method `Parameter::isValid(error_string)`. -/
def Parameter.isValid (p : Parameter) (error_string : String) : Bool × String :=
  let r := p.m_system_parameter.isValid error_string
  if !r.1 then (false, r.2)
  else
    let r := p.m_log_parameter.isValid r.2
    if !r.1 then (false, r.2)
    else
      let r := p.m_pk_parameter.isValid r.2
      if !r.1 then (false, r.2)
      else
        let r := p.m_sink_parameter.isValid r.2
        if !r.1 then (false, r.2)
        else
          let r := p.m_vehicle_parameter.isValid r.2
          if !r.1 then (false, r.2)
          else
            let r := Parameter.layersValid p.m_layer_parameter r.1 r.2
            if !r.1 then (false, r.2)
            else if p.m_vehicle_parameter.remove && decide (p.layerCount < 1) then
              (false, "Cannot remove the vehicle if no layer is defined.")
            else (r.1, r.2)

/-- The ranges of the system parameters: `resolution >= 1`, `sim_time >= 1`,
`max_module > 0`, `0 < mb_eta <= 1`. -/
def SystemParameter.InRange (p : SystemParameter) : Prop :=
  1 ≤ p.m_resolution ∧ 1 ≤ p.m_simulation_time ∧ 0 < p.m_max_module ∧ 0 < p.m_eta ∧ p.m_eta ≤ 1

/-- The ranges of the log parameters: both log intervals `>= 1`, file tag and
both file postfixes non-empty. -/
def LogParameter.InRange (p : LogParameter) : Prop :=
  1 ≤ p.m_mass_log_interval ∧ 1 ≤ p.m_cdp_log_interval ∧ p.m_tag ≠ "" ∧
    p.massFilePostfix ≠ "" ∧ p.CDPFilePostfix ≠ ""

/-- The range of the PK parameters: `t_half > 0` whenever PK is enabled. -/
def PKParameter.InRange (p : PKParameter) : Prop := p.m_enabled = true → 0 < p.m_thalf

/-- The ranges of the sink parameters: name non-empty, `Vd > 0`, `c_init >= 0`. -/
def SinkParameter.InRange (p : SinkParameter) : Prop :=
  p.m_name ≠ "" ∧ 0 < p.m_Vd ∧ 0 ≤ p.m_c_init

/-- The ranges of the vehicle parameters: name non-empty, `c_init >= 0`,
`app_area > 0`, `D >= 0`, `h > 2`, `remove_at >= 0`, `replace_after >= 0`. -/
def VehicleParameter.InRange (p : VehicleParameter) : Prop :=
  p.m_name ≠ "" ∧ 0 ≤ p.m_c_init ∧ 0 < p.m_app_area ∧ 0 ≤ p.m_D ∧ 2 < p.m_height ∧
    0 ≤ p.m_remove_at ∧ 0 ≤ p.m_replace_after

/-- The ranges of a layer's parameters: name non-empty, `c_init >= 0`,
`D >= 0`, `K > 0`, `cross_section` in `(0, 1]`, `h > 2`. -/
def LayerParameter.InRange (p : LayerParameter) : Prop :=
  p.m_name ≠ "" ∧ 0 ≤ p.m_c_init ∧ 0 ≤ p.m_D ∧ 0 < p.m_K ∧ 0 < p.m_cross_section ∧
    p.m_cross_section ≤ 1 ∧ 2 < p.m_height

/-- All ranges of a parameter set, with removal requested (`remove_at > 0`)
only when at least one layer exists. -/
def Parameter.InRange (p : Parameter) : Prop :=
  p.m_system_parameter.InRange ∧ p.m_log_parameter.InRange ∧ p.m_pk_parameter.InRange ∧
    p.m_sink_parameter.InRange ∧ p.m_vehicle_parameter.InRange ∧
    (∀ l ∈ p.m_layer_parameter, l.InRange) ∧
    (0 < p.m_vehicle_parameter.m_remove_at → 1 ≤ p.m_layer_parameter.length)

/-! ## Loggers (compartmentlog2d.cpp, compartmentlog3d.cpp) -/

/-- The conversion `static_cast<int>(x)` of a `double`: truncation toward zero. -/
def toInt (x : ℚ) : ℤ := if 0 ≤ x then ⌊x⌋ else ⌈x⌉

/-- The class `CompartmentLog2D`. The pointer `m_registered_sink` is null
(`false`) or points to the system's `m_sink` (`true`); the pointer
`m_registered_compartment` is null or points to a position of the system's
`m_compartments`. The column names, the separator and the capacity hint
`m_time_hint` (read by `reserve` only) are left out. -/
structure CompartmentLog2D where
  m_x : List ℚ
  m_y : List ℚ
  m_name : String
  m_filename : String
  m_registered_sink : Bool
  m_registered_compartment : Option ℕ
  m_auto_log_enabled : Bool
  m_enabled : Bool
  m_zip : Bool
  m_log_interval : ℤ
  m_app_area : ℚ
  m_mb_method : Method
deriving DecidableEq, Repr

namespace CompartmentLog2D

/-- The constructor `CompartmentLog2D(method, app_area)`. -/
def new (method : Method) (app_area : ℚ) : CompartmentLog2D where
  m_x := []
  m_y := []
  m_name := ""
  m_filename := "logger.dat"
  m_registered_sink := false
  m_registered_compartment := none
  m_auto_log_enabled := true
  m_enabled := true
  m_zip := false
  m_log_interval := 1
  m_app_area := app_area
  m_mb_method := method

/-- The setter `setName(name)`. -/
def setName (l : CompartmentLog2D) (name : String) : CompartmentLog2D := { l with m_name := name }

/-- The setter `setFilename(filename)`. -/
def setFilename (l : CompartmentLog2D) (filename : String) : CompartmentLog2D :=
  { l with m_filename := filename }

/-- The method `registerSink(registered_sink)`. -/
def registerSink (l : CompartmentLog2D) (registered_sink : Bool) : CompartmentLog2D :=
  { l with m_registered_sink := registered_sink, m_registered_compartment := none }

/-- The method `registerCompartment(registered_compartment)`. -/
def registerCompartment (l : CompartmentLog2D) (registered_compartment : Option ℕ) :
    CompartmentLog2D :=
  { l with m_registered_compartment := registered_compartment, m_registered_sink := false }

/-- The setter `setAutoLogEnabled(value)`. -/
def setAutoLogEnabled (l : CompartmentLog2D) (value : Bool) : CompartmentLog2D :=
  { l with m_auto_log_enabled := value }

/-- The setter `setEnabled(enabled)`. -/
def setEnabled (l : CompartmentLog2D) (enabled : Bool) : CompartmentLog2D :=
  { l with m_enabled := enabled }

/-- The setter `setZip(zip)`. -/
def setZip (l : CompartmentLog2D) (zip : Bool) : CompartmentLog2D := { l with m_zip := zip }

/-- The setter `setLogInterval(log_interval)`; its `reserve` call changes
capacities only. -/
def setLogInterval (l : CompartmentLog2D) (log_interval : ℤ) : CompartmentLog2D :=
  { l with m_log_interval := log_interval }

/-- The method `log(x, y)`: one more sample. -/
def logPoint (l : CompartmentLog2D) (x y : ℚ) : CompartmentLog2D :=
  { l with m_x := l.m_x ++ [x], m_y := l.m_y ++ [y] }

/-- The method `log(x_val, geometry, concentrations, scale_fac)`; `sink` and
`compartments` are the system's objects the registered pointers refer to. -/
def log (l : CompartmentLog2D) (x_val : ℚ) (geometry : Geometry) (concentrations : List ℚ)
    (scale_fac : ℚ) (sink : Sink) (compartments : List Compartment) : CompartmentLog2D :=
  if l.m_auto_log_enabled = false ∨ (toInt x_val).tmod l.m_log_interval ≠ 0 then l
  else if l.m_registered_sink then
    let A := if l.m_mb_method = Method.DSkin_1_5 then l.m_app_area else sink.m_A
    let idx := sink.m_geo_from
    let conc := rdZ concentrations idx
    let ss := rdZ geometry.m_space_steps idx
    let mass := conc * ss * A * scale_fac / sink.m_Vd
    l.logPoint x_val mass
  else
    match l.m_registered_compartment.bind (fun i => compartments[i]?) with
    | some comp =>
      let idx_from := comp.m_geo_from
      let idx_to := comp.m_geo_to
      let A := if l.m_mb_method = Method.DSkin_1_5 then l.m_app_area else comp.m_A
      let mass := forUpZ idx_from (idx_to + 1) (fun i (mass : ℚ) =>
        let ss := rdZ geometry.m_space_steps i
        let conc := rdZ concentrations i
        mass + conc * ss) 0
      l.logPoint x_val (mass * scale_fac * A)
    | none => l.logPoint x_val 0

/-- The method `writeToFile()`: `canOpen` tells for which file names the output
stream opens; `useZip` is the compile-time switch `DSKIN_CORE_USE_ZIP`. -/
def writeToFile (l : CompartmentLog2D) (canOpen : String → Bool) (useZip : Bool) : Bool :=
  if useZip && l.m_zip then
    if !canOpen (l.m_filename ++ ".gz") then false else true
  else
    if !canOpen l.m_filename then false else true

end CompartmentLog2D

/-- The enumeration `CompartmentLog3D::CPosition`. -/
inductive CPosition where
  | Left
  | Center
  | Right
deriving DecidableEq, Repr

/-- The class `CompartmentLog3D`; the registered compartment is a position of
the system's `m_compartments` or null. The separator and the capacity hint
are left out. -/
structure CompartmentLog3D where
  m_name : String
  m_filename : String
  m_concentration_position : CPosition
  m_step_sizes : List ℚ
  m_times : List ℤ
  m_data : List (List ℚ)
  m_registered_compartment : Option ℕ
  m_auto_log_enabled : Bool
  m_enabled : Bool
  m_zip : Bool
  m_log_interval : ℤ
deriving DecidableEq, Repr

namespace CompartmentLog3D

/-- The constructor `CompartmentLog3D()`. -/
def new : CompartmentLog3D where
  m_name := ""
  m_filename := "unknown.dat"
  m_concentration_position := CPosition.Left
  m_step_sizes := []
  m_times := []
  m_data := []
  m_registered_compartment := none
  m_auto_log_enabled := true
  m_enabled := false
  m_zip := true
  m_log_interval := 1

/-- The setter `setName(name)`. -/
def setName (l : CompartmentLog3D) (name : String) : CompartmentLog3D := { l with m_name := name }

/-- The setter `setFilename(filename)`. -/
def setFilename (l : CompartmentLog3D) (filename : String) : CompartmentLog3D :=
  { l with m_filename := filename }

/-- The method `registerCompartment(registered_compartment)`. -/
def registerCompartment (l : CompartmentLog3D) (registered_compartment : Option ℕ) :
    CompartmentLog3D :=
  { l with m_registered_compartment := registered_compartment }

/-- The setter `setAutoLogEnabled(value)`. -/
def setAutoLogEnabled (l : CompartmentLog3D) (value : Bool) : CompartmentLog3D :=
  { l with m_auto_log_enabled := value }

/-- The setter `setEnabled(enabled)`. -/
def setEnabled (l : CompartmentLog3D) (enabled : Bool) : CompartmentLog3D :=
  { l with m_enabled := enabled }

/-- The setter `setZip(zip)`. -/
def setZip (l : CompartmentLog3D) (zip : Bool) : CompartmentLog3D := { l with m_zip := zip }

/-- The setter `setLogInterval(log_interval)`. -/
def setLogInterval (l : CompartmentLog3D) (log_interval : ℤ) : CompartmentLog3D :=
  { l with m_log_interval := log_interval }

/-- The method `setConcentrationPosition(from_method)`. -/
def setConcentrationPosition (l : CompartmentLog3D) (from_method : Method) : CompartmentLog3D :=
  match from_method with
  | Method.DSkin_1_3 => { l with m_concentration_position := CPosition.Center }
  | Method.DSkin_1_4 => { l with m_concentration_position := CPosition.Center }
  | Method.DSkin_1_5 => { l with m_concentration_position := CPosition.Center }

/-- The setter `setStepSizes(data)`. -/
def setStepSizes (l : CompartmentLog3D) (data : List ℚ) : CompartmentLog3D :=
  { l with m_step_sizes := data }

/-- The method `log(time, data)`: one more snapshot; the time is stored as an
`int`. -/
def logPoint (l : CompartmentLog3D) (time : ℚ) (data : List ℚ) : CompartmentLog3D :=
  { l with m_times := l.m_times ++ [toInt time], m_data := l.m_data ++ [data] }

/-- The method `log(time, concentrations, scale_fac)`; `compartments` are the
system's compartments the registered pointer refers to. -/
def log (l : CompartmentLog3D) (time : ℚ) (concentrations : List ℚ) (scale_fac : ℚ)
    (compartments : List Compartment) : CompartmentLog3D :=
  if l.m_auto_log_enabled = false ∨ (toInt time).tmod l.m_log_interval ≠ 0 then l
  else
    let data : List ℚ := List.replicate l.m_step_sizes.length 0
    let data :=
      match l.m_registered_compartment.bind (fun i => compartments[i]?) with
      | some comp =>
        let idx_from := comp.m_geo_from
        let idx_to := comp.m_geo_to
        (forUpZ idx_from (idx_to + 1) (fun i (st : List ℚ × ℤ) =>
          (wrZ st.1 st.2 (rdZ concentrations i * scale_fac), st.2 + 1)) (data, 0)).1
      | none => data
    l.logPoint time data

/-- The method `writeToFile()`: `canOpen` tells for which file names the output
stream opens. -/
def writeToFile (l : CompartmentLog3D) (canOpen : String → Bool) : Bool :=
  if l.m_zip then
    if !canOpen (l.m_filename ++ ".gz") then false else true
  else
    if !canOpen l.m_filename then false else true

end CompartmentLog3D

/-! ## System (system.h, system.cpp) -/

/-- The constructor `Sink()`. -/
def Sink.new : Sink where
  m_name := ""
  m_type := SinkType.Perfect_Sink
  m_A := 1
  m_Vd := 1
  m_t_half := 1
  m_geo_from := 0
  m_geo_to := 0
  m_c_init := 0

/-- The setter `Sink::setType(type)`. -/
def Sink.setType (s : Sink) (type : SinkType) : Sink := { s with m_type := type }

/-- The setter `Sink::setA(A)`. -/
def Sink.setA (s : Sink) (A : ℚ) : Sink := if A > 0 then { s with m_A := A } else s

/-- The setter `Sink::setVd(Vd)`. -/
def Sink.setVd (s : Sink) (Vd : ℚ) : Sink := if Vd > 0 then { s with m_Vd := Vd } else s

/-- The setter `Sink::setT_half(t_half)`. -/
def Sink.setT_half (s : Sink) (t_half : ℚ) : Sink :=
  if t_half > 0 then { s with m_t_half := t_half } else s

/-- The setter `Sink::setName(name)`. -/
def Sink.setName (s : Sink) (name : String) : Sink := { s with m_name := name }

/-- The setter `Sink::setCinit(c_init)`. -/
def Sink.setCinit (s : Sink) (c_init : ℚ) : Sink := { s with m_c_init := c_init }

/-- The setter `Geometry::setEta(eta)`. -/
def Geometry.setEta (g : Geometry) (eta : ℚ) : Geometry := { g with m_eta := eta }

/-- The method `Geometry::remove(from_idx, to_idx)`: the cells
`from_idx .. to_idx - 1` are erased and the extreme steps recomputed. -/
def Geometry.remove (g : Geometry) (from_idx to_idx : ℤ) : Geometry :=
  let steps := g.m_space_steps.take from_idx.toNat ++ g.m_space_steps.drop to_idx.toNat
  match steps with
  | [] => { g with m_space_steps := steps }
  | x :: xs =>
    { g with
      m_space_steps := steps
      m_max_space_step := xs.foldl max x
      m_min_space_step := xs.foldl min x }

/-- The setter `MatrixBuilder::setMethod(method)`. -/
def MatrixBuilder.setMethod (mb : MatrixBuilder) (method : Method) : MatrixBuilder :=
  { mb with m_method := method }

/-- The enumeration `System::Result`. -/
inductive Result where
  | Executed
  | Failed
  | Stopped
deriving DecidableEq, Repr

/-- The class `System`. -/
structure System where
  m_compartments : List Compartment
  m_concentrations : List ℚ
  m_sink : Sink
  m_geometry : Geometry
  m_matrix_builder : MatrixBuilder
  m_compartment_logger : List CompartmentLog2D
  m_sink_logger : CompartmentLog2D
  m_cdp_logger : List CompartmentLog3D
  m_parameter : Parameter
  m_sim_time : ℤ
  m_replace_after : ℤ
  m_remove_at : ℤ
  m_scale : ℚ

namespace System

/-- The method `createInitConcentrations(geometry, compartments, sink)`. -/
def createInitConcentrations (geometry : Geometry) (compartments : List Compartment)
    (sink : Option Sink) : List ℚ :=
  let c_size := geometry.m_space_steps.length
  let conc : List ℚ := List.replicate c_size 0
  let conc := compartments.foldl (fun conc comp =>
    let start_idx := comp.m_geo_from
    let stop_idx := comp.m_geo_to
    let comp_c := comp.m_c_init
    forUpZ start_idx (stop_idx + 1) (fun i conc => wrZ conc i comp_c) conc) conc
  match sink with
  | some s =>
    let ss := rdZ geometry.m_space_steps s.m_geo_from
    let A := s.m_A
    let Vd := s.m_Vd * 1000000000000
    wrZ conc s.m_geo_from (s.m_c_init * Vd / (ss * A))
  | none => conc

/-- The method `resetCompartmentConcentration(comp, concentrations)`. -/
def resetCompartmentConcentration (comp : Compartment) (concentrations : List ℚ) : List ℚ :=
  let start_idx := comp.m_geo_from
  let stop_idx := comp.m_geo_to
  let comp_c := comp.m_c_init
  forUpZ start_idx (stop_idx + 1) (fun i conc => wrZ conc i comp_c) concentrations

/-- The loop of the constructor that sets up the mass loggers: the state is
the counter `i` and `m_compartment_logger`. -/
def massLoggerStep (parameter : Parameter) (st : ℕ × List CompartmentLog2D)
    (comp : Compartment) : ℕ × List CompartmentLog2D :=
  let i := st.1
  let log_params := parameter.m_log_parameter
  let logger := CompartmentLog2D.new parameter.m_system_parameter.m_matrix_builder_method
    (parameter.m_vehicle_parameter.m_app_area * 100000000)
  let logger := logger.setName (comp.m_name ++ " logger")
  let logger := logger.setFilename (log_params.m_working_dir ++ log_params.m_tag ++ "_"
    ++ comp.m_name ++ "_" ++ log_params.massFilePostfix ++ ".dat")
  let logger := logger.registerCompartment (some i)
  let enabled := if i = 0 then parameter.m_vehicle_parameter.m_log
    else ((parameter.m_layer_parameter[i - 1]?).map (fun l => l.m_log)).getD false
  let logger := logger.setAutoLogEnabled enabled
  let logger := logger.setEnabled logger.m_auto_log_enabled
  let logger := logger.setZip log_params.m_gzip_mass
  let logger := logger.setLogInterval log_params.m_mass_log_interval
  (i + 1, st.2 ++ [logger])

/-- The loop of the constructor that sets up the profile loggers. -/
def cdpLoggerStep (parameter : Parameter) (method : Method) (ss : List ℚ)
    (st : ℕ × List CompartmentLog3D) (comp : Compartment) : ℕ × List CompartmentLog3D :=
  let i := st.1
  let log_params := parameter.m_log_parameter
  let logger := CompartmentLog3D.new
  let logger := logger.setName (comp.m_name ++ " CDP logger")
  let logger := logger.setFilename (log_params.m_working_dir ++ log_params.m_tag ++ "_"
    ++ comp.m_name ++ "_" ++ log_params.CDPFilePostfix ++ ".dat")
  let logger := logger.registerCompartment (some i)
  let enabled := if i = 0 then parameter.m_vehicle_parameter.m_log_cdp
    else ((parameter.m_layer_parameter[i - 1]?).map (fun l => l.m_log_cdp)).getD false
  let logger := logger.setAutoLogEnabled enabled
  let logger := logger.setEnabled logger.m_auto_log_enabled
  let logger := logger.setZip log_params.m_gzip_cdp
  let logger := logger.setLogInterval log_params.m_cdp_log_interval
  let logger := logger.setConcentrationPosition method
  let logger := logger.setStepSizes
    ((ss.drop comp.m_geo_from.toNat).take ((comp.m_geo_to + 1).toNat - comp.m_geo_from.toNat))
  (i + 1, st.2 ++ [logger])

/-- The constructor `System(parameter)`. The transition values `t` stand for
what `findOptTransition` computes inside `Geometry::create`; the result is
`none` when `buildMatrix` reaches its `assert(false)`. -/
def new (parameter : Parameter) (t : Transition) : Option System :=
  let v_params := parameter.m_vehicle_parameter
  let sys_params := parameter.m_system_parameter
  let sink_params := parameter.m_sink_parameter
  let pk_params := parameter.m_pk_parameter
  let layer_params := parameter.m_layer_parameter
  let log_params := parameter.m_log_parameter
  let m_replace_after := v_params.m_replace_after
  let m_remove_at := v_params.m_remove_at
  let m_sim_time : ℤ := if sys_params.m_simulation_time ≥ 0 then sys_params.m_simulation_time else 1
  let m_scale : ℚ :=
    if log_params.m_scaling = Scaling.UG then 1000
    else if log_params.m_scaling = Scaling.NG then 1000000
    else 1
  let m_matrix_builder := (MatrixBuilder.new Method.DSkin_1_3).setMaxModule sys_params.m_max_module
  let app_area := v_params.m_app_area * 100000000
  let donor := Compartment.new v_params.m_height v_params.m_D 1 app_area v_params.m_name
  let donor := donor.setCInit (v_params.m_c_init * (1 / 1000000000000))
  let donor := donor.setFiniteDose v_params.m_finite_dose
  let m_compartments := layer_params.foldl (fun comps layer =>
    let comp := Compartment.new layer.m_height layer.m_D layer.m_K
      (app_area * layer.m_cross_section) layer.m_name
    let comp := comp.setCInit (layer.m_c_init * (1 / 1000000000000))
    comps ++ [comp]) [donor]
  let sink := Sink.new
  let sink := sink.setType
    (if pk_params.m_enabled then SinkType.PK_Compartment else SinkType.Perfect_Sink)
  let sink := sink.setA (app_area *
    (match layer_params.getLast? with
      | none => 1
      | some l => l.m_cross_section))
  let sink := sink.setVd sink_params.m_Vd
  let sink := sink.setT_half (pk_params.m_thalf * 60)
  let sink := sink.setName sink_params.m_name
  let sink := sink.setCinit (sink_params.m_c_init * (1 / 1000000000000))
  let created := (Geometry.new.setEta sys_params.m_eta).create sys_params.m_disc_method
    m_compartments sys_params.m_resolution (some sink) t
  let m_geometry := created.geometry
  let m_compartments := created.compartments
  let m_sink := created.sink.getD sink
  let m_matrix_builder := m_matrix_builder.setMethod sys_params.m_matrix_builder_method
  match m_matrix_builder.buildMatrix m_compartments m_geometry (some m_sink) with
  | none => none
  | some built =>
    let m_matrix_builder := built.1
    let m_concentrations := createInitConcentrations m_geometry m_compartments (some m_sink)
    let m_sink_logger := CompartmentLog2D.new sys_params.m_matrix_builder_method
      (v_params.m_app_area * 100000000)
    let m_sink_logger := m_sink_logger.setName (m_sink.m_name ++ " Logger")
    let m_sink_logger := m_sink_logger.setFilename (log_params.m_working_dir ++ log_params.m_tag
      ++ "_" ++ m_sink.m_name ++ "_" ++ log_params.massFilePostfix ++ ".dat")
    let m_sink_logger := m_sink_logger.registerSink true
    let m_sink_logger := m_sink_logger.setAutoLogEnabled sink_params.m_log
    let m_sink_logger := m_sink_logger.setEnabled m_sink_logger.m_auto_log_enabled
    let m_sink_logger := m_sink_logger.setZip log_params.m_gzip_mass
    let m_sink_logger := m_sink_logger.setLogInterval log_params.m_mass_log_interval
    let m_compartment_logger := (m_compartments.foldl (massLoggerStep parameter) (0, [])).2
    let m_cdp_logger := (m_compartments.foldl
      (cdpLoggerStep parameter m_matrix_builder.m_method m_geometry.m_space_steps) (0, [])).2
    some
      { m_compartments := m_compartments
        m_concentrations := m_concentrations
        m_sink := m_sink
        m_geometry := m_geometry
        m_matrix_builder := m_matrix_builder
        m_compartment_logger := m_compartment_logger
        m_sink_logger := m_sink_logger
        m_cdp_logger := m_cdp_logger
        m_parameter := parameter
        m_sim_time := m_sim_time
        m_replace_after := m_replace_after
        m_remove_at := m_remove_at
        m_scale := m_scale }

/-- The method `removeTopCompartment()`. The result is `none` when there is no
compartment to remove or `buildMatrix` reaches its `assert(false)`. -/
def removeTopCompartment (sys : System) : Option System :=
  match sys.m_compartments with
  | [] => none
  | top_comp :: rest =>
    let loggers2 := sys.m_compartment_logger.modify (fun l => l.registerCompartment none) 0
    let loggers3 := sys.m_cdp_logger.modify (fun l => l.registerCompartment none) 0
    let loggers := forUp 1 sys.m_compartment_logger.length
      (fun i (st : List CompartmentLog2D × List CompartmentLog3D) =>
        (st.1.modify (fun l => l.registerCompartment (some (i - 1))) i,
          st.2.modify (fun l => l.registerCompartment (some (i - 1))) i)) (loggers2, loggers3)
    let m_geometry := sys.m_geometry.remove top_comp.m_geo_from (top_comp.m_geo_to + 1)
    let m_concentrations := sys.m_concentrations.drop (top_comp.m_geo_to + 1).toNat
    let top_comp_size := top_comp.m_geo_to + 1
    let m_compartments := rest.map (fun comp =>
      comp.setGeometryIdx (comp.m_geo_from - top_comp_size) (comp.m_geo_to - top_comp_size))
    let m_sink := sys.m_sink.setGeometryIdx (sys.m_sink.m_geo_from - top_comp_size)
      (sys.m_sink.m_geo_to - top_comp_size)
    match sys.m_matrix_builder.buildMatrix m_compartments m_geometry (some m_sink) with
    | none => none
    | some built =>
      some { sys with
        m_compartments := m_compartments
        m_compartment_logger := loggers.1
        m_cdp_logger := loggers.2
        m_geometry := m_geometry
        m_concentrations := m_concentrations
        m_sink := m_sink
        m_matrix_builder := built.1 }

/-- The method `log(time)`. -/
def log (sys : System) (time : ℚ) : System :=
  { sys with
    m_sink_logger := sys.m_sink_logger.log time sys.m_geometry sys.m_concentrations sys.m_scale
      sys.m_sink sys.m_compartments
    m_compartment_logger := sys.m_compartment_logger.map (fun logger =>
      logger.log time sys.m_geometry sys.m_concentrations sys.m_scale sys.m_sink
        sys.m_compartments)
    m_cdp_logger := sys.m_cdp_logger.map (fun logger =>
      logger.log time sys.m_concentrations (sys.m_scale * 1000000000000) sys.m_compartments) }

/-- The method `writeLogsToFiles()`. -/
def writeLogsToFiles (sys : System) (canOpen : String → Bool) (useZip : Bool) : Bool :=
  let ok := true
  let ok := if sys.m_sink_logger.m_enabled then sys.m_sink_logger.writeToFile canOpen useZip
    else ok
  let ok :=
    if ok then
      sys.m_compartment_logger.foldl (fun (st : Bool × Bool) logger =>
        if st.2 then st
        else if logger.m_enabled then
          let ok := logger.writeToFile canOpen useZip
          if !ok then (ok, true) else (ok, false)
        else st) (ok, false) |>.1
    else ok
  let ok :=
    if ok then
      sys.m_cdp_logger.foldl (fun (st : Bool × Bool) logger =>
        if st.2 then st
        else if logger.m_enabled then
          let ok := logger.writeToFile canOpen
          if !ok then (ok, true) else (ok, false)
        else st) (ok, false) |>.1
    else ok
  ok

/-- The local variables of `run` together with the system: the sub-step
count, the local copies of the matrices, the flag `vehicle_removed` and the
constants `must_replace` and `must_remove`. -/
structure RunState where
  sys : System
  n_ts : ℤ
  rhs_matrix : TDMatrix
  lhs_matrix : TDMatrix
  vehicle_removed : Bool
  must_replace : Bool
  must_remove : Bool

/-- The inner loop of a minute of `run`: `n_ts` sub-steps on the local
matrices and the concentrations. -/
def subSteps (st : RunState) : RunState :=
  let r := innerLoop st.n_ts st.rhs_matrix (st.lhs_matrix, st.sys.m_concentrations)
  { st with lhs_matrix := r.1, sys := { st.sys with m_concentrations := r.2 } }

/-- The replacement branch of minute `t` of `run`. With no compartment left
there is nothing to reset. -/
def replaceStep (t : ℤ) (st : RunState) : RunState :=
  if st.must_replace && !st.vehicle_removed && decide (t > 1)
      && decide (t.tmod st.sys.m_replace_after = 0) then
    match st.sys.m_compartments with
    | comp :: _ =>
      { st with sys := { st.sys with
          m_concentrations := resetCompartmentConcentration comp st.sys.m_concentrations } }
    | [] => st
  else st

/-- The removal branch of minute `t` of `run`. -/
def removeStep (t : ℤ) (st : RunState) : Option RunState :=
  if st.must_remove && decide (t = st.sys.m_remove_at) then
    match st.sys.removeTopCompartment with
    | none => none
    | some sys =>
      some { st with
        vehicle_removed := true
        sys := sys
        rhs_matrix := sys.m_matrix_builder.m_matrix_rhs
        lhs_matrix := sys.m_matrix_builder.m_matrix_lhs
        n_ts := sys.m_matrix_builder.timesteps }
  else some st

/-- The call `log(t)` that ends minute `t` of `run`. -/
def logStep (t : ℤ) (st : RunState) : RunState := { st with sys := st.sys.log t }

/-- One pass of the main loop of `run` for minute `t`, after the stop test:
the sub-steps, the replacement, the removal and the logging. -/
def minute (t : ℤ) (st : RunState) : Option RunState :=
  (removeStep t (replaceStep t (subSteps st))).map (logStep t)

/-- The state of the main loop of `run`: `none` once the run has aborted,
otherwise whether a stop was requested and the run state. -/
def loopStep (testForStop : ℤ → Bool) (t : ℕ) (st : Option (Bool × RunState)) :
    Option (Bool × RunState) :=
  match st with
  | none => none
  | some (true, rs) => some (true, rs)
  | some (false, rs) =>
    if testForStop t then some (true, rs)
    else (minute t rs).map (fun rs => (false, rs))

/-- The state of `run` after `initLogger` and `log(0)`, before the main loop. -/
def runInit (sys : System) : RunState :=
  { sys := sys.log 0
    n_ts := sys.m_matrix_builder.timesteps
    rhs_matrix := sys.m_matrix_builder.m_matrix_rhs
    lhs_matrix := sys.m_matrix_builder.m_matrix_lhs
    vehicle_removed := false
    must_replace := decide (sys.m_replace_after ≠ 0)
    must_remove := decide (sys.m_remove_at ≠ 0) }

/-- The main loop of `run` up to and including minute `t`. -/
def runLoop (sys : System) (testForStop : ℤ → Bool) (t : ℕ) : Option (Bool × RunState) :=
  forUp 1 (t + 1) (loopStep testForStop) (some (false, runInit sys))

/-- The method `run()`. The virtual hooks are given by their results:
`initRun`, `tearDownRun`, and `testForStop` for each minute
(`progressCallback` and `initLogger` change no modelled state). The result is
the returned status and the system afterwards, or `none` when the run aborts. -/
def run (sys : System) (initRun : Bool) (testForStop : ℤ → Bool) (tearDownRun : Bool) :
    Option (Result × System) :=
  if !initRun then some (Result.Failed, sys)
  else
    match runLoop sys testForStop sys.m_sim_time.toNat with
    | none => none
    | some (true, rs) => some (Result.Stopped, rs.sys)
    | some (false, rs) =>
      if !tearDownRun then some (Result.Failed, rs.sys)
      else some (Result.Executed, rs.sys)

end System

/-! ## Session and main (session.cpp, main.cpp) -/

/-- The enumeration `CmdLineParser::Status`. -/
inductive Status where
  | Error
  | Write_CFG_Template
  | Version_Info
  | Parsed_CFG_File
  | Parsed_CMD_Line
deriving DecidableEq, Repr

/-- The conversion of an `int` to `bool` at a `return`: non-zero is `true`. -/
def intToBool (x : ℤ) : Bool := decide (x ≠ 0)

/-- The method `Session::runFromCmdLineArgs(nargs, args)`, given what its
environment answers: `status` is what `CmdLineParser::parse` returns for the
arguments, `fileOk` whether the template file opens, `result` what
`system.run()` returns and `logsOk` what `system.writeLogsToFiles()` returns.
The body declares `cmdline_result` as an `int` and returns it from a
function of return type `bool`. -/
def Session.runFromCmdLineArgs (nargs : ℤ) (status : Status) (fileOk : Bool) (result : Result)
    (logsOk : Bool) : Bool :=
  if nargs < 2 then true
  else if status = Status.Error then false
  else if status = Status.Version_Info then true
  else if status = Status.Write_CFG_Template then
    if fileOk then true else false
  else
    let cmdline_result : ℤ := 1
    let cmdline_result : ℤ :=
      if result = Result.Executed ∨ result = Result.Stopped then
        let ok := logsOk
        if ok then 0 else 1
      else cmdline_result
    intToBool cmdline_result

/-- The function `main(nargs, args)`: the exit code. -/
def main (nargs : ℤ) (status : Status) (fileOk : Bool) (result : Result) (logsOk : Bool) : ℤ :=
  let ok := Session.runFromCmdLineArgs nargs status fileOk result logsOk
  if ok then 0 else 1

/-- The run state after `t` complete minutes of `run` (no stop requested), or
`none` when the run has aborted. -/
def System.minutes (sys : System) (t : ℕ) : Option System.RunState :=
  forUp 1 (t + 1) (fun i (st : Option System.RunState) => st.bind (System.minute i))
    (some (System.runInit sys))

/-- What a logger holds as far as sampling goes: the sample times (through an
embedding `e` of `int`), the number of stored values, the auto-log flag and
the log interval. -/
def CompartmentLog2D.info (l : CompartmentLog2D) : List ℚ × ℕ × Bool × ℤ :=
  (l.m_x, l.m_y.length, l.m_auto_log_enabled, l.m_log_interval)

/-- The sampling record of a profile logger. -/
def CompartmentLog3D.info (l : CompartmentLog3D) : List ℤ × ℕ × Bool × ℤ :=
  (l.m_times, l.m_data.length, l.m_auto_log_enabled, l.m_log_interval)

/-- The effect of an auto-log call at minute `t` on a sampling record: one
more sample at `t` when auto-logging is on and `t % interval == 0`. -/
def infoLog {α : Type} (e : ℤ → α) (t : ℤ) (i : List α × ℕ × Bool × ℤ) : List α × ℕ × Bool × ℤ :=
  if i.2.2.1 = false ∨ t.tmod i.2.2.2 ≠ 0 then i
  else (i.1 ++ [e t], i.2.1 + 1, i.2.2.1, i.2.2.2)

/-- The sampling record after the auto-log calls at the minutes `0 .. k`. -/
def infoAfter {α : Type} (e : ℤ → α) (k : ℕ) (i : List α × ℕ × Bool × ℤ) :
    List α × ℕ × Bool × ℤ :=
  (List.range (k + 1)).foldl (fun i (t : ℕ) => infoLog e (t : ℤ) i) i

/-- The invariant of the main loop of `run` after `k` complete minutes of a
run started on `sys`: the constants, the fields no minute changes, the
removal flag, the compartments before the removal, and the sampling records
of all loggers. -/
def RunInv (sys : System) (k : ℕ) (rs : System.RunState) : Prop :=
  rs.must_replace = decide (sys.m_replace_after ≠ 0) ∧
  rs.must_remove = decide (sys.m_remove_at ≠ 0) ∧
  rs.sys.m_replace_after = sys.m_replace_after ∧
  rs.sys.m_remove_at = sys.m_remove_at ∧
  rs.sys.m_scale = sys.m_scale ∧
  rs.sys.m_matrix_builder.m_method = sys.m_matrix_builder.m_method ∧
  (rs.vehicle_removed = true ↔ (1 ≤ sys.m_remove_at ∧ sys.m_remove_at ≤ (k : ℤ))) ∧
  (rs.vehicle_removed = false → rs.sys.m_compartments = sys.m_compartments) ∧
  rs.sys.m_sink_logger.info = infoAfter (fun t => (t : ℚ)) k sys.m_sink_logger.info ∧
  rs.sys.m_compartment_logger.map CompartmentLog2D.info
    = sys.m_compartment_logger.map (fun l => infoAfter (fun t => (t : ℚ)) k l.info) ∧
  rs.sys.m_cdp_logger.map CompartmentLog3D.info
    = sys.m_cdp_logger.map (fun l => infoAfter (fun t => t) k l.info)

/-- The setter `LogParameter::setScaling(scaling)`. -/
def LogParameter.setScaling (p : LogParameter) (scaling : Scaling) : LogParameter :=
  { p with m_scaling := scaling }

/-- A mass logger with every stored value multiplied by `c`; the sample times
and the settings are kept. Used to compare runs under two unit scales. -/
def CompartmentLog2D.rescale (c : ℚ) (l : CompartmentLog2D) : CompartmentLog2D :=
  { l with m_y := l.m_y.map (fun y => c * y) }

/-- A profile logger with every stored value multiplied by `c`. -/
def CompartmentLog3D.rescale (c : ℚ) (l : CompartmentLog3D) : CompartmentLog3D :=
  { l with m_data := l.m_data.map (fun d => d.map (fun y => c * y)) }

/-- The system `sys` as it is under a unit scale `c` times larger and the
parameter set `p`: the same compartments, mesh, matrices and concentrations,
and every logged value multiplied by `c`. -/
def System.rescale (c : ℚ) (p : Parameter) (sys : System) : System :=
  { sys with
    m_scale := c * sys.m_scale
    m_parameter := p
    m_sink_logger := sys.m_sink_logger.rescale c
    m_compartment_logger := sys.m_compartment_logger.map (CompartmentLog2D.rescale c)
    m_cdp_logger := sys.m_cdp_logger.map (CompartmentLog3D.rescale c) }

/-- The run state over the rescaled system. -/
def System.RunState.rescale (c : ℚ) (p : Parameter) (st : System.RunState) : System.RunState :=
  { st with sys := st.sys.rescale c p }

/-! ## Further methods: `TDMatrix::max`, `operator()`, `CompartmentLog3D::space` -/

/-- The method `max()`; `std::max` of an initializer list is the maximum of
its elements. -/
def TDMatrix.max (A : TDMatrix) : ℚ :=
  let max_el : ℚ := 0
  if A.m_size < 1 then max_el
  else
    let max_el := forUp 0 (A.m_size - 1) (fun i max_el =>
      Max.max (Max.max (Max.max max_el (rd A.m_diag i)) (rd A.m_lower i)) (rd A.m_upper i))
      max_el
    Max.max max_el (rd A.m_diag (A.m_size - 1))

/-- The three `assert`s at the head of `operator()(i, j)`, in their order:
whether all of them hold. -/
def TDMatrix.op_call_asserts (A : TDMatrix) (i j : ℤ) : Bool :=
  decide (i < (A.m_size : ℤ) ∧ j < (A.m_size : ℤ)) && decide (i ≥ 0 ∧ j ≥ 0)
    && decide (j ≤ i + 1 ∨ j ≥ i - 1)

/-- The accessor `operator()(i, j)` with `int` arguments and its assertions:
`none` when an assertion fails, otherwise the entry it refers to. -/
def TDMatrix.op_call_checked (A : TDMatrix) (i j : ℤ) : Option ℚ :=
  if A.op_call_asserts i j then
    some (if i = j then rdZ A.m_diag i
      else if i < j then rdZ A.m_upper i
      else rdZ A.m_lower (i - 1))
  else none

/-- The matrix of the test cases of `tdmatrixtests.cpp`: diag {1,2,3},
lower {4,5}, upper {6,7}. -/
def testMatrix3 : TDMatrix := TDMatrix.mk [6, 7] [1, 2, 3] [4, 5] [] [] 3 false

/-- The method `CompartmentLog3D::space()`: the loop state is `result` and
`x_pos`. -/
def CompartmentLog3D.space (l : CompartmentLog3D) : List ℚ :=
  let result : List ℚ := []
  let x_pos : ℚ := 0
  (l.m_step_sizes.foldl (fun (st : List ℚ × ℚ) val =>
    let inc : ℚ × ℚ :=
      if l.m_concentration_position = CPosition.Center then (val / 2, val / 2)
      else if l.m_concentration_position = CPosition.Left then (0, val)
      else (val, 0)
    let pre_inc := inc.1
    let pos_inc := inc.2
    let x_pos := st.2 + pre_inc
    (st.1 ++ [x_pos], x_pos + pos_inc)) (result, x_pos)).1

/-! ## CmdLineParser (cmdlineparser.cpp) -/

/-- The lambda `toUpr` of the `...FromString` helpers: `std::toupper` on
every character. -/
def toUpr (s : String) : String := String.mk (s.data.map Char.toUpper)

/-- The helper `scalingFromString(str, ok)`: the result and the value stored
through `ok`. -/
def scalingFromString (str : String) : Scaling × Bool :=
  let upp_str := toUpr str
  if upp_str = "MG" then (Scaling.MG, true)
  else if upp_str = "NG" then (Scaling.NG, true)
  else if upp_str = "UG" then (Scaling.UG, true)
  else (Scaling.MG, false)

/-- The helper `discMethodFromString(str, ok)`. -/
def discMethodFromString (str : String) : DiscMethod × Bool :=
  let upp_str := toUpr str
  if upp_str = "EQUIDIST" then (DiscMethod.EQUI_DIST, true)
  else if upp_str = "BK" then (DiscMethod.B_AND_K, true)
  else (DiscMethod.EQUI_DIST, false)

/-- The helper `mbMethodFromString(str, ok)`. -/
def mbMethodFromString (str : String) : Method × Bool :=
  if str = "DSkin_1_3" then (Method.DSkin_1_3, true)
  else if str = "DSkin_1_4" then (Method.DSkin_1_4, true)
  else if str = "DSkin_1_5" then (Method.DSkin_1_5, true)
  else (Method.DSkin_1_3, false)

/-- The class `CmdLineParser`. -/
structure CmdLineParser where
  m_last_error : String
  m_parameter : Parameter
deriving DecidableEq, Repr

namespace CmdLineParser

/-- The method `strToDouble(value, ok)`. The library function `std::stod` is
a parameter (`none`: it throws). The pointer `ok` is `none` when the caller
passes no flag (the default `nullptr`) and holds the flag otherwise; the
result is the returned number and the flag afterwards. -/
def strToDouble (stod : String → Option ℚ) (value : String) (ok : Option Bool) :
    ℚ × Option Bool :=
  let res : ℚ := 0
  let ok := ok.map (fun _ => true)
  match stod value with
  | some x => (x, ok)
  | none => (res, ok.map (fun _ => false))

/-- The method `strToInt(value, ok)`, with `std::stoi` as a parameter. -/
def strToInt (stoi : String → Option ℤ) (value : String) (ok : Option Bool) :
    ℤ × Option Bool :=
  let res : ℤ := 0
  let ok := ok.map (fun _ => true)
  match stoi value with
  | some x => (x, ok)
  | none => (res, ok.map (fun _ => false))

/-- The return `m_last_error = msg; return Status::Error;`. -/
def fail (cp : CmdLineParser) (msg : String) : Status × CmdLineParser :=
  (Status.Error, { cp with m_last_error := msg })

/-- The tail of `parse` from the optional arguments on: `remove_at`,
`replace_after`, `vd` and `t_half` are converted without a flag, so the local
`ok` keeps the value it has (it is `true` here, after the finite-dose
check). The local layers `sc` and `dsl` are `layer_sc` and `layer_dsl`. -/
def parseOptional (cp : CmdLineParser) (stod : String → Option ℚ) (stoi : String → Option ℤ)
    (parameter : List String) (ok : Bool) (layer_sc layer_dsl : LayerParameter) :
    Status × CmdLineParser :=
  let n_params := parameter.length
  let i : ℕ := 18
  -- if (n_params >= 20)
  let st1 : Option (Status × CmdLineParser) × CmdLineParser × ℕ :=
    if n_params ≥ 20 then
      let rem_at := (strToInt stoi (parameter.getD i "") none).1
      if !ok then (some (cp.fail "Remove at is not an int."), cp, i)
      else if rem_at < 0 then (some (cp.fail "Remove at < 0"), cp, i)
      else
        (none, { cp with m_parameter := { cp.m_parameter with
          m_vehicle_parameter := { cp.m_parameter.m_vehicle_parameter with
            m_remove_at := rem_at } } }, i + 1)
    else (none, cp, i)
  match st1 with
  | (some r, _, _) => r
  | (none, cp, i) =>
  -- if (n_params >= 21)
  let st2 : Option (Status × CmdLineParser) × CmdLineParser × ℕ :=
    if n_params ≥ 21 then
      let rep_after := (strToInt stoi (parameter.getD i "") none).1
      if !ok then (some (cp.fail "Replicate after is not an int."), cp, i)
      else if rep_after < 0 then (some (cp.fail "Replicate after < 0"), cp, i)
      else
        (none, { cp with m_parameter := { cp.m_parameter with
          m_vehicle_parameter := { cp.m_parameter.m_vehicle_parameter with
            m_replace_after := rep_after } } }, i + 1)
    else (none, cp, i)
  match st2 with
  | (some r, _, _) => r
  | (none, cp, i) =>
  -- if (n_params == 23)
  let st3 : Option (Status × CmdLineParser) × CmdLineParser × ℕ :=
    if n_params = 23 then
      let cp := { cp with m_parameter := { cp.m_parameter with
        m_pk_parameter := { cp.m_parameter.m_pk_parameter with m_enabled := true } } }
      let vd := (strToDouble stod (parameter.getD i "") none).1
      if !ok then (some (cp.fail "Vd is not a double."), cp, i)
      else if vd ≤ 0 then (some (cp.fail "Vd <= 0"), cp, i)
      else
        let cp := { cp with m_parameter := { cp.m_parameter with
          m_sink_parameter := { cp.m_parameter.m_sink_parameter with m_Vd := vd } } }
        let i := i + 1
        let t_half := (strToDouble stod (parameter.getD i "") none).1
        if !ok then (some (cp.fail "t_half is not a double."), cp, i)
        else if t_half ≤ 0 then (some (cp.fail "t_half <= 0"), cp, i)
        else
          (none, { cp with m_parameter := { cp.m_parameter with
            m_pk_parameter := { cp.m_parameter.m_pk_parameter with m_thalf := t_half } } },
            i + 1)
    else (none, cp, i)
  match st3 with
  | (some r, _, _) => r
  | (none, cp, i) =>
  let file_str := parameter.getD i ""
  if file_str = "" then cp.fail "File Tag is empty"
  else
    let cp := { cp with m_parameter := { cp.m_parameter with
      m_log_parameter := { cp.m_parameter.m_log_parameter with m_tag := file_str } } }
    let cp := { cp with m_parameter := { cp.m_parameter with
      m_layer_parameter := cp.m_parameter.m_layer_parameter ++ [layer_sc] } }
    let cp := { cp with m_parameter := { cp.m_parameter with
      m_layer_parameter := cp.m_parameter.m_layer_parameter ++ [layer_dsl] } }
    (Status.Parsed_CMD_Line, cp)

/-- The part of `parse` for the arguments 15 to 18: scaling, discretisation
method, matrix builder method and the finite-dose word (each assigns the local `ok`);
then the optional arguments. -/
def parseWords (cp : CmdLineParser) (stod : String → Option ℚ) (stoi : String → Option ℤ)
    (parameter : List String) (layer_sc layer_dsl : LayerParameter) :
    Status × CmdLineParser :=
  let scaling_str := parameter.getD 14 ""
  let r := scalingFromString scaling_str
  let ok := r.2
  let cp := { cp with m_parameter := { cp.m_parameter with
    m_log_parameter := cp.m_parameter.m_log_parameter.setScaling r.1 } }
  if !ok then cp.fail ("Unknown scaling string: \x27" ++ scaling_str ++ "\x27")
  else
  let disc_str := parameter.getD 15 ""
  let r := discMethodFromString disc_str
  let ok := r.2
  let cp := { cp with m_parameter := { cp.m_parameter with
    m_system_parameter := { cp.m_parameter.m_system_parameter with m_disc_method := r.1 } } }
  if !ok then cp.fail ("Unknown discretization method: \x27" ++ disc_str ++ "\x27")
  else
  let mb_str := parameter.getD 16 ""
  let r := mbMethodFromString mb_str
  let ok := r.2
  let cp := { cp with m_parameter := { cp.m_parameter with
    m_system_parameter := { cp.m_parameter.m_system_parameter with
      m_matrix_builder_method := r.1 } } }
  if !ok then cp.fail ("Unknown matrix builder method: \x27" ++ mb_str ++ "\x27")
  else
  let dose_str := parameter.getD 17 ""
  let ok := decide (dose_str = "yes" ∨ dose_str = "no")
  if !ok then
    cp.fail ("Unknown finite dose string (expected yes or no): \x27" ++ dose_str ++ "\x27")
  else
  let cp := { cp with m_parameter := { cp.m_parameter with
    m_vehicle_parameter := { cp.m_parameter.m_vehicle_parameter with
      m_finite_dose := decide (dose_str = "yes") } } }
  cp.parseOptional stod stoi parameter ok layer_sc layer_dsl

/-- The part of `parse` for the arguments 10 to 14: the three heights, the simulation time and
the resolution; then the
following arguments. -/
def parseSizes (cp : CmdLineParser) (stod : String → Option ℚ) (stoi : String → Option ℤ)
    (parameter : List String) (ok : Bool) (layer_sc layer_dsl : LayerParameter) :
    Status × CmdLineParser :=
  let r := strToInt stoi (parameter.getD 9 "") (some ok)
  let h_don := r.1
  let ok := r.2.getD ok
  if !ok then cp.fail "h_Donor is not an int."
  else if h_don < 1 then cp.fail "h_Donor < 1"
  else
  let cp := { cp with m_parameter := { cp.m_parameter with
    m_vehicle_parameter := { cp.m_parameter.m_vehicle_parameter with m_height := h_don } } }
  let r := strToInt stoi (parameter.getD 10 "") (some ok)
  let h_sc := r.1
  let ok := r.2.getD ok
  if !ok then cp.fail "h_SC is not an int."
  else if h_sc < 1 then cp.fail "h_SC < 1"
  else
  let layer_sc := { layer_sc with m_height := h_sc }
  let r := strToInt stoi (parameter.getD 11 "") (some ok)
  let h_dsl := r.1
  let ok := r.2.getD ok
  if !ok then cp.fail "h_DSL is not an int."
  else if h_dsl < 1 then cp.fail "h_DSL < 1"
  else
  let layer_dsl := { layer_dsl with m_height := h_dsl }
  let r := strToInt stoi (parameter.getD 12 "") (some ok)
  let sim_time := r.1
  let ok := r.2.getD ok
  if !ok then cp.fail "Sim time is not an int."
  else if sim_time < 1 then cp.fail "Sim time < 1"
  else
  let cp := { cp with m_parameter := { cp.m_parameter with
    m_system_parameter := { cp.m_parameter.m_system_parameter with m_simulation_time := sim_time } } }
  let r := strToInt stoi (parameter.getD 13 "") (some ok)
  let resolution := r.1
  let ok := r.2.getD ok
  if !ok then cp.fail "Resolution is not an int."
  else if resolution < 1 then cp.fail "Resolution < 1"
  else
  let cp := { cp with m_parameter := { cp.m_parameter with
    m_system_parameter := { cp.m_parameter.m_system_parameter with m_resolution := resolution } } }
  cp.parseWords stod stoi parameter layer_sc layer_dsl

/-- The part of `parse` for the arguments 7 to 9: the application area and the two cross
sections; then the
following arguments. -/
def parseAreas (cp : CmdLineParser) (stod : String → Option ℚ) (stoi : String → Option ℤ)
    (parameter : List String) (ok : Bool) (layer_sc layer_dsl : LayerParameter) :
    Status × CmdLineParser :=
  let r := strToDouble stod (parameter.getD 6 "") (some ok)
  let A := r.1
  let ok := r.2.getD ok
  if !ok then cp.fail "App Area is not a double."
  else if A ≤ 0 then cp.fail "App Area < 0.0"
  else
  let cp := { cp with m_parameter := { cp.m_parameter with
    m_vehicle_parameter := { cp.m_parameter.m_vehicle_parameter with m_app_area := A } } }
  let r := strToDouble stod (parameter.getD 7 "") (some ok)
  let l_cross_section := r.1
  let ok := r.2.getD ok
  if !ok then cp.fail "Lipid CS is not a double."
  else if l_cross_section ≤ 0 ∨ l_cross_section > 1 then cp.fail "Lipid CS <= 0.0 or > 1.0"
  else
  let layer_sc := { layer_sc with m_cross_section := l_cross_section }
  let r := strToDouble stod (parameter.getD 8 "") (some ok)
  let dsl_cross_section := r.1
  let ok := r.2.getD ok
  if !ok then cp.fail "DSL CS is not a double."
  else if dsl_cross_section ≤ 0 ∨ dsl_cross_section > 1 then cp.fail "DSL CS <= 0.0 or > 1.0"
  else
  let layer_dsl := { layer_dsl with m_cross_section := dsl_cross_section }
  cp.parseSizes stod stoi parameter ok layer_sc layer_dsl

/-- The part of `parse` for the arguments 1 to 6: the initial concentration, the diffusion
and the partition coefficients; then the
following arguments. -/
def parseCoefficients (cp : CmdLineParser) (stod : String → Option ℚ) (stoi : String → Option ℤ)
    (parameter : List String) (ok : Bool) (layer_sc layer_dsl : LayerParameter) :
    Status × CmdLineParser :=
  let r := strToDouble stod (parameter.getD 0 "") (some ok)
  let c_init := r.1
  let ok := r.2.getD ok
  if !ok then cp.fail "C_0 is not a double."
  else if c_init < 0 then cp.fail "C_0 < 0.0"
  else
  let cp := { cp with m_parameter := { cp.m_parameter with
    m_vehicle_parameter := { cp.m_parameter.m_vehicle_parameter with m_c_init := c_init } } }
  let r := strToDouble stod (parameter.getD 1 "") (some ok)
  let d_donor := r.1
  let ok := r.2.getD ok
  if !ok then cp.fail "D_Donor is not a double."
  else if d_donor ≤ 0 then cp.fail "D_Donor <= 0.0"
  else
  let cp := { cp with m_parameter := { cp.m_parameter with
    m_vehicle_parameter := { cp.m_parameter.m_vehicle_parameter with m_D := d_donor } } }
  let r := strToDouble stod (parameter.getD 2 "") (some ok)
  let d_sc := r.1
  let ok := r.2.getD ok
  if !ok then cp.fail "D_SC is not a double."
  else if d_sc ≤ 0 then cp.fail "D_SC <= 0.0"
  else
  let layer_sc := { layer_sc with m_D := d_sc }
  let r := strToDouble stod (parameter.getD 3 "") (some ok)
  let d_dsl := r.1
  let ok := r.2.getD ok
  if !ok then cp.fail "D_DSL is not a double."
  else if d_dsl ≤ 0 then cp.fail "D_DSL <= 0.0"
  else
  let layer_dsl := { layer_dsl with m_D := d_dsl }
  let r := strToDouble stod (parameter.getD 4 "") (some ok)
  let k_sc := r.1
  let ok := r.2.getD ok
  if !ok then cp.fail "K_SC/Don is not a double."
  else if k_sc ≤ 0 then cp.fail "K_SC/Don <= 0.0"
  else
  let layer_sc := { layer_sc with m_K := k_sc }
  let r := strToDouble stod (parameter.getD 5 "") (some ok)
  let k_acc := r.1
  let ok := r.2.getD ok
  if !ok then cp.fail "K_DSL/Don is not a double."
  else if k_acc ≤ 0 then cp.fail "K_DSL/Don <= 0.0"
  else
  let layer_dsl := { layer_dsl with m_K := k_acc }
  cp.parseAreas stod stoi parameter ok layer_sc layer_dsl

/-- The method `parse(parameter)`, whose body continues in `parseCoefficients`,
`parseAreas`, `parseSizes`, `parseWords` and `parseOptional`. The library
functions `std::stod` and `std::stoi` are parameters (`none`: the function
throws), and so is `JsonParser::parseFromFile` (the error message or the
parameter set). The local layers `sc` and `dsl` are `layer_sc` and
`layer_dsl`; every early `return` is the `then` branch of its `if`. -/
def parse (cp : CmdLineParser) (stod : String → Option ℚ) (stoi : String → Option ℤ)
    (parseFromFile : String → Except String Parameter) (parameter : List String) :
    Status × CmdLineParser :=
  let cp := { cp with m_parameter := Parameter.new }
  let n_params := parameter.length
  if n_params = 1 then
    if parameter.getD 0 "" = "--template" then (Status.Write_CFG_Template, cp)
    else if parameter.getD 0 "" = "--version" then (Status.Version_Info, cp)
    else
      match parseFromFile (parameter.getD 0 "") with
      | Except.error e => (Status.Error, { cp with m_last_error := e })
      | Except.ok p => (Status.Parsed_CFG_File, { cp with m_parameter := p })
  else if n_params < 19 then cp.fail "Need at least 19 input parameters."
  else if n_params ≠ 19 ∧ n_params ≠ 20 ∧ n_params ≠ 21 ∧ n_params ≠ 23 then
    cp.fail "Need 19, 20, 21 or 23 input parameters."
  else
    let layer_sc := { LayerParameter.new with m_name := "SC" }
    let layer_dsl := { LayerParameter.new with m_name := "DSL" }
    let ok := false
    cp.parseCoefficients stod stoi parameter ok layer_sc layer_dsl

end CmdLineParser

/-- A stand-in for the conversions of `std::stoi` and `std::stod` on plain
decimal tokens: a non-empty string of digits is its value, every other
string (such as `abc`) is not converted. -/
def decimalToken (s : String) : Option ℕ :=
  if s.data = [] then none
  else s.data.foldl (fun (acc : Option ℕ) ch =>
    acc.bind (fun n => if ch.isDigit then some (10 * n + (ch.toNat - 48)) else none)) (some 0)

/-- The positional argument list `1 1 1 1 1 1 1 1 1 10 10 10 60 1 mg EQUIDIST
DSkin_1_5 yes abc tag`: 20 arguments, the one at the place of `remove_at`
not a number. -/
def badRemoveAtArgs : List String :=
  ["1", "1", "1", "1", "1", "1", "1", "1", "1", "10", "10", "10", "60", "1", "mg", "EQUIDIST",
    "DSkin_1_5", "yes", "abc", "tag"]

/-- The mesh of scenario S1 built without a sink (`Geometry::create` with the
null pointer, the default of `MatrixBuilder::buildMatrix` as well). -/
def s1GeoNoSink : CreateResult :=
  Geometry.new.create DiscMethod.EQUI_DIST scenarioS1 1 none noTransition

/-- A pharmacokinetic sink with a half-life of 60 minutes. -/
def pkSink : Sink :=
  { m_name := "sink", m_type := SinkType.PK_Compartment, m_A := 1, m_Vd := 1, m_t_half := 60,
    m_geo_from := 0, m_geo_to := 0, m_c_init := 0 }

/-- The mesh of scenario S1 (equidistant, resolution 1) with the
pharmacokinetic sink `pkSink`. -/
def pkS1Geo : CreateResult :=
  Geometry.new.create DiscMethod.EQUI_DIST scenarioS1 1 (some pkSink) noTransition

/-- The vectors the Thomas solvers index: the upper band (`c_star`, a copy of
it in `thomasIP` and the band itself in `thomasReUseIP`), the lower band, the
diagonal (`c_diag`) and the right-hand side. -/
inductive SolverVec where
  | upper
  | lower
  | diag
  | rhs
deriving DecidableEq, Repr

/-- The length of the vector an access refers to. -/
def SolverVec.len (matrix : TDMatrix) (rhs : List ℚ) : SolverVec → ℕ
  | SolverVec.upper => matrix.m_upper.length
  | SolverVec.lower => matrix.m_lower.length
  | SolverVec.diag => matrix.m_diag.length
  | SolverVec.rhs => rhs.length

/-- The element accesses of the first loop of the Thomas solvers,
`c_star[0] = c_star[0] / matrix.diag(0)` and, for `i = 1 .. size - 2`,
`c_star[i] = c_star[i] / (matrix.diag(i) - c_star[i - 1] * matrix.lower(i - 1))`,
as pairs of the vector and the index, in the order of the program text. -/
def algorithm.cStarAccesses (size : ℕ) : List (SolverVec × ℕ) :=
  forUp 1 (size - 1) (fun i acc =>
    acc ++ [(SolverVec.upper, i), (SolverVec.upper, i), (SolverVec.diag, i),
      (SolverVec.upper, i - 1), (SolverVec.lower, i - 1)])
    [(SolverVec.upper, 0), (SolverVec.upper, 0), (SolverVec.diag, 0)]

/-- The element accesses of the back substitution of the Thomas solvers, for
`i = size - 2` down to 0: `rhs[i] = rhs[i] - c_star[i] * rhs[i + 1]`. -/
def algorithm.backAccesses (size : ℕ) : List (SolverVec × ℕ) :=
  forDown (size - 1) 0 (fun i acc =>
    acc ++ [(SolverVec.rhs, i), (SolverVec.rhs, i), (SolverVec.upper, i), (SolverVec.rhs, i + 1)])
    []

/-- The element accesses of `thomasIP(matrix, rhs)` for a matrix of size
`size`: the loop over `c_star`, then `rhs[0] = rhs[0] / matrix.diag(0)` and,
for `i = 1 .. size - 1`, `rhs[i] = (rhs[i] - rhs[i - 1] * matrix.lower(i - 1)) /
(matrix.diag(i) - c_star[i - 1] * matrix.lower(i - 1))`, then the back
substitution. -/
def algorithm.thomasIP_accesses (size : ℕ) : List (SolverVec × ℕ) :=
  algorithm.cStarAccesses size
    ++ forUp 1 size (fun i acc =>
      acc ++ [(SolverVec.rhs, i), (SolverVec.rhs, i), (SolverVec.rhs, i - 1),
        (SolverVec.lower, i - 1), (SolverVec.diag, i), (SolverVec.upper, i - 1),
        (SolverVec.lower, i - 1)])
      [(SolverVec.rhs, 0), (SolverVec.rhs, 0), (SolverVec.diag, 0)]
    ++ algorithm.backAccesses size

/-- The element accesses of `thomasReUseIP(matrix, rhs)` for a matrix of size
`size` with the flag `prepared`: when it is not set, the loop over `c_star`
and, for `i = 1 .. size - 1`,
`c_diag[i] = c_diag[i] - c_star[i - 1] * matrix.lower(i - 1)`; then
`rhs[0] = rhs[0] / matrix.diag(0)` and, for `i = 1 .. size - 1`,
`rhs[i] = (rhs[i] - rhs[i - 1] * matrix.lower(i - 1)) / c_diag[i]`, then the
back substitution. -/
def algorithm.thomasReUseIP_accesses (size : ℕ) (prepared : Bool) : List (SolverVec × ℕ) :=
  (if !prepared then
      algorithm.cStarAccesses size
        ++ forUp 1 size (fun i acc =>
          acc ++ [(SolverVec.diag, i), (SolverVec.diag, i), (SolverVec.upper, i - 1),
            (SolverVec.lower, i - 1)]) []
    else [])
    ++ forUp 1 size (fun i acc =>
      acc ++ [(SolverVec.rhs, i), (SolverVec.rhs, i), (SolverVec.rhs, i - 1),
        (SolverVec.lower, i - 1), (SolverVec.diag, i)])
      [(SolverVec.rhs, 0), (SolverVec.rhs, 0), (SolverVec.diag, 0)]
    ++ algorithm.backAccesses size

/-- A valid parameter set for the first sink sample: the defaults with one
layer of thickness 3 and cross-section 1/2, a vehicle of thickness 3 and a
sink with `c_init = 1` under the given method. -/
def crossParam (method : Method) : Parameter :=
  { Parameter.new with
    m_system_parameter :=
      { SystemParameter.new with
        m_matrix_builder_method := method
        m_simulation_time := 6 }
    m_vehicle_parameter := { VehicleParameter.new with m_height := 3 }
    m_sink_parameter := { SinkParameter.new with m_c_init := 1 }
    m_layer_parameter :=
      [{ LayerParameter.new with m_name := "layer", m_height := 3, m_cross_section := 1 / 2 }] }

/-- The positional argument list `1 1 1 1 1 1 1 1 1 1 10 10 60 1 mg EQUIDIST
DSkin_1_5 yes tag`: 19 arguments, every token well formed, the vehicle
thickness `h_Donor` (the tenth) equal to 1. -/
def thinVehicleArgs : List String :=
  ["1", "1", "1", "1", "1", "1", "1", "1", "1", "1", "10", "10", "60", "1", "mg", "EQUIDIST",
    "DSkin_1_5", "yes", "tag"]

/-- The divisor of the weighted harmonic mean of the neighbouring cells
`i` and `i + 1` in `build_M_DS_1_4` and `build_M_DS_1_5`,
`l_c * D_r + K_c / K_r * l_r * D_c`, where `Kv` gives the partition value of
a cell (`K` under `DSkin_1_4`, `K * A` under `DSkin_1_5`). -/
def MatrixBuilder.harmDivisor (ss D : List ℚ) (Kv : ℕ → ℚ) (i : ℕ) : ℚ :=
  rd ss i * rd D (i + 1) + Kv i / Kv (i + 1) * rd ss (i + 1) * rd D i

/-- The divisors of all divisions `build_M_DS_1_4` performs up to the scaling
by `dt`, in the order of the program text: first row, the rows of the main
loop, last row, `max_m / m_max_module` and `1.0 / m_timesteps`. -/
def MatrixBuilder.divisors_1_4 (max_module : ℚ) (sys_size : ℕ) (ss D K A : List ℚ) : List ℚ :=
  let h := fun (i : ℕ) => (rd ss i + rd ss (i + 1)) / 2
  [2, rd K 1, MatrixBuilder.harmDivisor ss D (rd K) 0, h 0 * h 0, rd K 1, rd A 0, rd A 0]
    ++ forUp 1 (sys_size - 1) (fun i acc =>
      acc ++ [2, 2, rd K i, MatrixBuilder.harmDivisor ss D (rd K) (i - 1),
        h (i - 1) * h i * (h (i - 1) + h i), rd K (i + 1),
        MatrixBuilder.harmDivisor ss D (rd K) i, h (i - 1) * h i * (h (i - 1) + h i),
        rd A i, rd K (i + 1), rd A i, rd K i, rd A i, rd A i]) []
    ++ [2, rd K (sys_size - 1), MatrixBuilder.harmDivisor ss D (rd K) (sys_size - 2),
      h (sys_size - 2) * h (sys_size - 2), rd A (sys_size - 1), rd K (sys_size - 1),
      rd A (sys_size - 1)]
    ++ [max_module,
      ((max 1 ⌈(MatrixBuilder.preMatrix_1_4 sys_size ss D K A).absMax / max_module⌉ : ℤ) : ℚ)]

/-- The divisors of all divisions `build_M_DS_1_5` performs up to the scaling
by `dt`, in the order of the program text. -/
def MatrixBuilder.divisors_1_5 (max_module : ℚ) (sys_size : ℕ) (ss D K A : List ℚ) : List ℚ :=
  let h := fun (i : ℕ) => (rd ss i + rd ss (i + 1)) / 2
  let Kv := fun (i : ℕ) => rd K i * rd A i
  [2, Kv 1, MatrixBuilder.harmDivisor ss D Kv 0, h 0 * h 0, Kv 1]
    ++ forUp 1 (sys_size - 1) (fun i acc =>
      acc ++ [2, 2, Kv i, MatrixBuilder.harmDivisor ss D Kv (i - 1),
        h (i - 1) * h i * (h (i - 1) + h i), Kv (i + 1),
        MatrixBuilder.harmDivisor ss D Kv i, h (i - 1) * h i * (h (i - 1) + h i),
        Kv (i + 1), Kv i]) []
    ++ [2, Kv (sys_size - 1), MatrixBuilder.harmDivisor ss D Kv (sys_size - 2),
      h (sys_size - 2) * h (sys_size - 2), Kv (sys_size - 1)]
    ++ [max_module,
      ((max 1 ⌈(MatrixBuilder.preMatrix_1_5 sys_size ss D K A).absMax / max_module⌉ : ℤ) : ℚ)]

/-- The first assignment of `Geometry::findOptTransition(n, x, a, delta_x, err)`:
`n = static_cast<int>(std::ceil(log10(delta_x) / log10(start_x)))`, with
`start_x` the user's `eta` and `delta_x = 1 / ss_per_um`. The library
function `log10` is a parameter. -/
def Geometry.initialTransEles (log10 : ℚ → ℚ) (delta_x start_x : ℚ) : ℤ :=
  ⌈log10 delta_x / log10 start_x⌉

/-- The method `Geometry::powerSeriesDoubleLastElement(n, x)`: the state of
the loop is `(sum, last_comp)`. -/
def Geometry.powerSeriesDoubleLastElement (n : ℤ) (x : ℚ) : ℚ :=
  let st := forUpZ 1 n (fun _ (st : ℚ × ℚ) =>
    let last_comp := st.2 * x
    (st.1 + last_comp, last_comp)) ((0 : ℚ), (1 : ℚ))
  st.1 + st.2

/-- The space steps the refined branch pushes for the cells of the
compartment `c` at position `i` of `c_size`, as one list: the second half of
the preceding transition (pushed one iteration earlier), the steps of size 1,
and the first half of the following transition. -/
def bkBlock (t : Transition) (trans_vec : List ℚ) (c_size : ℤ) (i : ℕ) (c : Compartment) :
    List ℚ :=
  (if i = 0 then [] else trans_vec.drop (trans_vec.length / 2))
    ++ List.replicate
      (c.m_size - (if (i : ℤ) = 0 ∨ (i : ℤ) = c_size - 1 then t.n_trans_size
        else t.n_trans_size * 2)).toNat 1
    ++ (if (i : ℤ) < c_size - 1 then trans_vec.take (trans_vec.length / 2) else [])

/-- The cell ranges of the refined branch as a recursion over the
compartments from position `i` on: each takes the cells of its block,
starting where the previous one ended. -/
def bkRanges (t : Transition) (trans_vec : List ℚ) (c_size : ℤ) :
    ℕ → ℤ → List Compartment → List Compartment
  | _, _, [] => []
  | i, start, c :: cs =>
    c.setGeometryIdx start (start + ((bkBlock t trans_vec c_size i c).length : ℤ) - 1)
      :: bkRanges t trans_vec c_size (i + 1)
        (start + ((bkBlock t trans_vec c_size i c).length : ℤ)) cs

/-- The blocks of the compartments from position `i` on, one after the other. -/
def bkSteps (t : Transition) (trans_vec : List ℚ) (c_size : ℤ) :
    ℕ → List Compartment → List ℚ
  | _, [] => []
  | i, c :: cs => bkBlock t trans_vec c_size i c ++ bkSteps t trans_vec c_size (i + 1) cs

/-- Transition values for resolution 2: two elements of size 1/2 on each side
of a boundary, which fill a transition length of 1. -/
def halfTransition : Transition :=
  { n_trans_eles := 2, calcuated_eta := 1 / 2, n_trans_size := 1, ss_boundary := 1 / 2 }

/-- A refined mesh: vehicle, layer and a second layer of thickness 3, 4 and 3
with a perfect sink, resolution 2 and the transition `halfTransition`. -/
def bkGeo : CreateResult :=
  Geometry.new.create DiscMethod.B_AND_K
    [Compartment.new 3 1 1 1 "vehicle", Compartment.new 4 1 1 1 "layer",
      Compartment.new 3 1 1 1 "deep"] 2 (some perfectSink) halfTransition

/-- A small parameter set: the defaults with method `DSkin_1_5`, a vehicle of
thickness 3 that is removed at minute 2 and replaced every 3 minutes, one
layer of thickness 3, 6 minutes of simulation. -/
def smallParam : Parameter :=
  { Parameter.new with
    m_system_parameter :=
      { SystemParameter.new with
        m_matrix_builder_method := Method.DSkin_1_5
        m_simulation_time := 6 }
    m_vehicle_parameter :=
      { VehicleParameter.new with m_height := 3, m_remove_at := 2, m_replace_after := 3 }
    m_layer_parameter := [{ LayerParameter.new with m_name := "layer", m_height := 3 }] }

/-- The system built from `smallParam`: the constructor succeeds on it. -/
def smallSystem : System :=
  match System.new smallParam noTransition with
  | some sys => sys
  | none =>
    { m_compartments := []
      m_concentrations := []
      m_sink := Sink.new
      m_geometry := Geometry.new
      m_matrix_builder := MatrixBuilder.new Method.DSkin_1_3
      m_compartment_logger := []
      m_sink_logger := CompartmentLog2D.new Method.DSkin_1_3 0
      m_cdp_logger := []
      m_parameter := smallParam
      m_sim_time := 1
      m_replace_after := 0
      m_remove_at := 0
      m_scale := 1 }

/-- Scenario S1 with its vehicle marked infinite dose. -/
def infiniteS1 : List Compartment :=
  [(Compartment.new 10 1 1 1 "vehicle").setFiniteDose false, Compartment.new 10 1 1 1 "layer"]

/-- The equidistant mesh (resolution 1, with a perfect sink) of `infiniteS1`. -/
def infiniteS1Geo : CreateResult :=
  Geometry.new.create DiscMethod.EQUI_DIST infiniteS1 1 (some perfectSink) noTransition

/-! ## Recurrences used in the proofs about the Thomas solvers -/

/-- The modified upper band as a recurrence. -/
def thomasC (A : TDMatrix) : ℕ → ℚ
  | 0 => A.upper 0 / A.diag 0
  | i + 1 => A.upper (i + 1) / (A.diag (i + 1) - thomasC A i * A.lower i)

/-- The pivots as a recurrence. -/
def thomasP (A : TDMatrix) : ℕ → ℚ
  | 0 => A.diag 0
  | i + 1 => A.diag (i + 1) - thomasC A i * A.lower i

/-- The forward-eliminated right-hand side as a recurrence. -/
def thomasY (A : TDMatrix) (b : List ℚ) : ℕ → ℚ
  | 0 => rd b 0 / A.diag 0
  | i + 1 => (rd b (i + 1) - thomasY A b i * A.lower i) / thomasP A (i + 1)

/-! ## Loop and vector lemmas -/

theorem forUp_self {σ : Type} (lo : ℕ) (body : ℕ → σ → σ) (st : σ) :
    forUp lo lo body st = st := by
  simp [forUp]

theorem forUp_of_le {σ : Type} (lo hi : ℕ) (h : hi ≤ lo) (body : ℕ → σ → σ) (st : σ) :
    forUp lo hi body st = st := by
  simp [forUp, Nat.sub_eq_zero_of_le h]

theorem forUp_succ {σ : Type} (lo hi : ℕ) (h : lo ≤ hi) (body : ℕ → σ → σ) (st : σ) :
    forUp lo (hi + 1) body st = body hi (forUp lo hi body st) := by
  unfold forUp
  have e : hi + 1 - lo = (hi - lo) + 1 := by omega
  rw [e, List.range'_concat, List.foldl_append]
  simp
  congr 1
  omega

/-- Invariant rule for an ascending loop. -/
theorem forUp_inv {σ : Type} (P : ℕ → σ → Prop) (lo hi : ℕ) (h : lo ≤ hi)
    (body : ℕ → σ → σ) (st : σ) (h0 : P lo st)
    (hstep : ∀ i s, lo ≤ i → i < hi → P i s → P (i + 1) (body i s)) :
    P hi (forUp lo hi body st) := by
  induction hi with
  | zero =>
    have : lo = 0 := by omega
    subst this
    simpa [forUp_self] using h0
  | succ k ih =>
    rcases Nat.eq_or_lt_of_le h with e | hlt
    · subst e
      simpa [forUp_self] using h0
    · have hk : lo ≤ k := by omega
      rw [forUp_succ lo k hk]
      apply hstep k _ hk (by omega)
      exact ih hk (fun i s h1 h2 hp => hstep i s h1 (by omega) hp)

theorem forDown_self {σ : Type} (lo : ℕ) (body : ℕ → σ → σ) (st : σ) :
    forDown lo lo body st = st := by
  simp [forDown]

theorem forDown_succ {σ : Type} (hi lo : ℕ) (h : lo ≤ hi) (body : ℕ → σ → σ) (st : σ) :
    forDown (hi + 1) lo body st = forDown hi lo body (body hi st) := by
  unfold forDown
  have e : hi + 1 - lo = (hi - lo) + 1 := by omega
  rw [e, List.range'_concat, List.foldr_append]
  simp
  congr 2
  omega

theorem forDown_pred {σ : Type} (hi lo : ℕ) (h : lo < hi) (body : ℕ → σ → σ) (st : σ) :
    forDown hi lo body st = body lo (forDown hi (lo + 1) body st) := by
  unfold forDown
  have e : hi - lo = (hi - (lo + 1)) + 1 := by omega
  rw [e, List.range']
  simp

/-- Invariant rule for a descending loop: `P i` holds when the indices
`i, i+1, .., hi-1` have been processed. -/
theorem forDown_inv {σ : Type} (P : ℕ → σ → Prop) (hi lo : ℕ) (h : lo ≤ hi)
    (body : ℕ → σ → σ) (st : σ) (h0 : P hi st)
    (hstep : ∀ i s, lo ≤ i → i < hi → P (i + 1) s → P i (body i s)) :
    P lo (forDown hi lo body st) := by
  induction hi generalizing st with
  | zero =>
    have : lo = 0 := by omega
    subst this
    simpa [forDown_self] using h0
  | succ k ih =>
    rcases Nat.eq_or_lt_of_le h with e | hlt
    · subst e
      simpa [forDown_self] using h0
    · have hk : lo ≤ k := by omega
      rw [forDown_succ k lo hk]
      apply ih hk
      · exact hstep k st hk (by omega) h0
      · exact fun i s h1 h2 hp => hstep i s h1 (by omega) hp

theorem rd_set (v : List ℚ) (i j : ℕ) (x : ℚ) :
    rd (v.set i x) j = if i = j ∧ i < v.length then x else rd v j := by
  simp only [rd, List.getD_eq_getElem?_getD, List.getElem?_set]
  by_cases h : i = j
  · by_cases h2 : i < v.length
    · subst h
      simp [h2]
    · subst h
      have : v[i]? = none := by
        rw [List.getElem?_eq_none_iff]; omega
      simp [h2, this]
  · simp [h]

theorem rd_set_eq (v : List ℚ) (i : ℕ) (x : ℚ) (h : i < v.length) :
    rd (v.set i x) i = x := by
  rw [rd_set, if_pos ⟨rfl, h⟩]

theorem rd_set_ne (v : List ℚ) (i j : ℕ) (x : ℚ) (h : i ≠ j) :
    rd (v.set i x) j = rd v j := by
  rw [rd_set, if_neg (fun hh => h hh.1)]

theorem rd_replicate_zero (n j : ℕ) : rd (List.replicate n (0 : ℚ)) j = 0 := by
  simp only [rd, List.getD_eq_getElem?_getD, List.getElem?_replicate]
  split <;> simp

theorem rd_of_length_le (v : List ℚ) (j : ℕ) (h : v.length ≤ j) : rd v j = 0 := by
  unfold rd
  exact List.getD_eq_default _ _ h

/-- Two vectors of the same length with the same reads are equal. -/
theorem ext_rd (u v : List ℚ) (hl : u.length = v.length)
    (h : ∀ j, j < u.length → rd u j = rd v j) : u = v := by
  apply List.ext_getElem hl
  intro n h1 h2
  have := h n h1
  unfold rd at this
  rwa [List.getD_eq_getElem _ _ h1, List.getD_eq_getElem _ _ h2] at this

/-- A loop that stores a value depending only on the index. -/
theorem forUp_set_const (f : ℕ → ℚ) (lo hi : ℕ) (r : List ℚ) :
    (forUp lo hi (fun i r => r.set i (f i)) r).length = r.length ∧
    ∀ j, rd (forUp lo hi (fun i r => r.set i (f i)) r) j
      = if lo ≤ j ∧ j < hi ∧ j < r.length then f j else rd r j := by
  rcases Nat.lt_or_ge hi lo with hlt | h
  · rw [forUp_of_le lo hi (by omega)]
    refine ⟨rfl, fun j => ?_⟩
    rw [if_neg (by omega)]
  apply forUp_inv (fun k (s : List ℚ) => s.length = r.length ∧
    ∀ j, rd s j = if lo ≤ j ∧ j < k ∧ j < r.length then f j else rd r j) lo hi h
  · refine ⟨rfl, fun j => ?_⟩
    rw [if_neg (by omega)]
  · rintro i s h1 h2 ⟨hl, hs⟩
    refine ⟨by simp [hl], fun j => ?_⟩
    rw [rd_set, hs j, hl]
    by_cases hij : i = j
    · subst hij
      by_cases hlen : i < r.length
      · rw [if_pos ⟨rfl, hlen⟩, if_pos (by omega)]
      · rw [if_neg (by omega), if_neg (by omega), if_neg (by omega)]
    · rw [if_neg (by omega)]
      by_cases hc : lo ≤ j ∧ j < i ∧ j < r.length
      · rw [if_pos hc, if_pos (by omega)]
      · rw [if_neg hc, if_neg (by omega)]

namespace TDMatrix

theorem op_mul_length (A : TDMatrix) (v : List ℚ) : (A.op_mul v).length = A.m_size := by
  unfold op_mul
  simp only [List.length_set]
  rw [(forUp_set_const _ 1 (A.m_size - 1) _).1]
  simp

/-- Entry `i` of `A * v`, row by row as the code stores it. -/
theorem op_mul_rd (A : TDMatrix) (v : List ℚ) (hN : 1 < A.m_size) (i : ℕ)
    (hi : i < A.m_size) :
    rd (A.op_mul v) i =
      if i = 0 then rd v 0 * rd A.m_diag 0 + rd v 1 * rd A.m_upper 0
      else if i = A.m_size - 1 then
        rd A.m_lower (i - 1) * rd v (i - 1) + rd A.m_diag i * rd v i
      else rd A.m_lower (i - 1) * rd v (i - 1) + rd A.m_diag i * rd v i
        + rd A.m_upper i * rd v (i + 1) := by
  unfold op_mul
  simp only
  rw [rd_set, (forUp_set_const _ 1 (A.m_size - 1) _).1, (forUp_set_const _ 1 (A.m_size - 1) _).2]
  simp only [List.length_set, List.length_replicate, rd_set, rd_replicate_zero]
  by_cases h0 : i = 0
  · subst h0
    rw [if_neg (by omega), if_neg (by omega), if_pos rfl, if_pos ⟨rfl, by omega⟩]
  · by_cases h1 : i = A.m_size - 1
    · subst h1
      rw [if_pos ⟨rfl, by omega⟩, if_neg h0, if_pos rfl]
    · rw [if_neg (by omega), if_pos (by omega), if_neg h0, if_neg h1]

/-- State of the loop of `inlineMultiply` before iteration `k`: the cells
below `k` hold the product, the others still hold `v`, and `tmp` is `v[k-1]`. -/
theorem inlineMultiply_loop (A : TDMatrix) (v : List ℚ) (hN : 1 < A.m_size)
    (hv : v.length = A.m_size) :
    let st := forUp 1 (A.m_size - 1) (fun i (st : List ℚ × ℚ) =>
      (st.1.set i (rd A.m_lower (i - 1) * st.2 + rd A.m_diag i * rd st.1 i
        + rd A.m_upper i * rd st.1 (i + 1)), rd st.1 i))
      (v.set 0 (rd v 0 * rd A.m_diag 0 + rd v 1 * rd A.m_upper 0), rd v 0)
    st.1.length = A.m_size ∧ st.2 = rd v (A.m_size - 1 - 1) ∧
      ∀ j, rd st.1 j = if j < A.m_size - 1 then rd (A.op_mul v) j else rd v j := by
  intro st
  apply forUp_inv (fun k (s : List ℚ × ℚ) => s.1.length = A.m_size ∧ s.2 = rd v (k - 1) ∧
      ∀ j, rd s.1 j = if j < k then rd (A.op_mul v) j else rd v j) 1 (A.m_size - 1) (by omega)
  · refine ⟨by simp [hv], rfl, fun j => ?_⟩
    rw [rd_set]
    by_cases hj : j < 1
    · have : j = 0 := by omega
      subst this
      rw [if_pos ⟨rfl, by omega⟩, if_pos hj, op_mul_rd A v hN 0 (by omega), if_pos rfl]
    · rw [if_neg (by omega), if_neg hj]
  · rintro i s h1 h2 ⟨hl, ht, hs⟩
    have hi : rd s.1 i = rd v i := by rw [hs i, if_neg (by omega)]
    have hi1 : rd s.1 (i + 1) = rd v (i + 1) := by rw [hs (i + 1), if_neg (by omega)]
    refine ⟨by simp [hl], by simpa using hi, fun j => ?_⟩
    simp only
    rw [rd_set, hl, ht, hi, hi1]
    by_cases hij : i = j
    · subst hij
      rw [if_pos ⟨rfl, by omega⟩, if_pos (by omega), op_mul_rd A v hN i (by omega),
        if_neg (by omega), if_neg (by omega)]
    · rw [if_neg (by omega), hs j]
      by_cases hc : j < i
      · rw [if_pos hc, if_pos (by omega)]
      · rw [if_neg hc, if_neg (by omega)]

end TDMatrix

/-! ## Claims C3 and C4: the matrix-vector products -/

/-- The vector left by `inlineMultiply` has the length and the reads of the
vector returned by `operator*`. -/
theorem inlineMultiply_rd (A : TDMatrix) (v : List ℚ) (hN : 1 < A.m_size)
    (hv : v.length = A.m_size) :
    (A.inlineMultiply v).length = A.m_size ∧
    ∀ j, j < A.m_size → rd (A.inlineMultiply v) j = rd (A.op_mul v) j := by
  obtain ⟨hl, ht, hs⟩ := TDMatrix.inlineMultiply_loop A v hN hv
  constructor
  · unfold TDMatrix.inlineMultiply
    simp only [List.length_set]
    exact hl
  · intro j hjN
    unfold TDMatrix.inlineMultiply
    simp only
    have hlast := hs (A.m_size - 1)
    rw [if_neg (by omega)] at hlast
    rw [rd_set, hl, ht, hlast]
    by_cases hj : A.m_size - 1 = j
    · subst hj
      rw [if_pos ⟨rfl, by omega⟩, TDMatrix.op_mul_rd A v hN _ (by omega), if_neg (by omega),
        if_pos rfl]
    · rw [if_neg (by omega), hs j, if_pos (by omega)]

/-- C3. In-place and out-of-place multiplication agree: for every matrix of
size `N > 1` and every vector `v` of length `N`, the vector left by
`inlineMultiply` is the vector returned by `operator*`. (The matrix is an
input of the pure function `inlineMultiply` only, so it is not modified.) -/
theorem inlineMultiply_eq_op_mul (A : TDMatrix) (v : List ℚ) (hN : 1 < A.m_size)
    (hv : v.length = A.m_size) : A.inlineMultiply v = A.op_mul v := by
  obtain ⟨hl, hr⟩ := inlineMultiply_rd A v hN hv
  apply ext_rd
  · rw [hl, TDMatrix.op_mul_length]
  · intro j hj
    rw [hl] at hj
    exact hr j hj

/-- C3, witness: the 3x3 matrix of the unit test. -/
theorem inlineMultiply_eq_op_mul_witness :
    (TDMatrix.mk [6, 7] [1, 2, 3] [4, 15] [] [] 3 false).inlineMultiply [4, 2, 9]
      = (TDMatrix.mk [6, 7] [1, 2, 3] [4, 15] [] [] 3 false).op_mul [4, 2, 9] :=
  inlineMultiply_eq_op_mul _ _ (by decide) (by decide)

/-- The band sum of row `i`: only the columns `i-1`, `i`, `i+1` contribute. -/
theorem band_sum (A : TDMatrix) (v : List ℚ) (i : ℕ) (hi : i < A.m_size) :
    (∑ j in Finset.range A.m_size,
        (if i ≤ j + 1 ∧ j ≤ i + 1 then A.op_call i j else 0) * rd v j)
      = (if i = 0 then 0 else rd A.m_lower (i - 1) * rd v (i - 1)) + rd A.m_diag i * rd v i
        + (if i = A.m_size - 1 then 0 else rd A.m_upper i * rd v (i + 1)) := by
  have hg : ∀ j ∈ Finset.range A.m_size,
      (if i ≤ j + 1 ∧ j ≤ i + 1 then A.op_call i j else 0) * rd v j
        = (if j = i - 1 then (if i = 0 then 0 else rd A.m_lower (i - 1) * rd v (i - 1)) else 0)
          + (if j = i then rd A.m_diag i * rd v i else 0)
          + (if j = i + 1 then rd A.m_upper i * rd v (i + 1) else 0) := by
    intro j _
    unfold TDMatrix.op_call
    by_cases h1 : j = i
    · subst h1
      by_cases h0 : j = 0
      · subst h0
        simp
      · rw [if_pos (by omega), if_pos rfl, if_neg (by omega), if_pos rfl, if_neg (by omega)]
        simp
    · by_cases h2 : j = i + 1
      · subst h2
        rw [if_pos (by omega), if_neg (by omega), if_pos (by omega), if_neg (by omega),
          if_neg (by omega), if_pos rfl]
        simp
      · by_cases h3 : j + 1 = i
        · subst h3
          rw [if_pos (by omega), if_neg (by omega), if_neg (by omega), if_pos (by simp),
            if_neg (by omega), if_neg (by omega), if_neg (by omega)]
          simp
        · rw [if_neg (by omega), if_neg h1, if_neg h2]
          by_cases h0 : i = 0
          · simp [h0]
          · rw [if_neg (by omega)]
            simp
  rw [Finset.sum_congr rfl hg, Finset.sum_add_distrib, Finset.sum_add_distrib,
    Finset.sum_ite_eq', Finset.sum_ite_eq', Finset.sum_ite_eq']
  rw [if_pos (Finset.mem_range.mpr (by omega)), if_pos (Finset.mem_range.mpr hi)]
  congr 1
  by_cases hl : i = A.m_size - 1
  · rw [if_neg (by simp; omega), if_pos hl]
  · rw [if_pos (Finset.mem_range.mpr (by omega)), if_neg hl]

/-- C4. `operator*` is the tridiagonal matrix-vector product: the result has
length `N`, and for every row `i < N` entry `i` is
`lower[i-1]*v[i-1] + diag[i]*v[i] + upper[i]*v[i+1]` (lower term absent for
`i = 0`, upper term absent for `i = N-1`), which is the sum over all columns
`j` of `A(i,j)*v[j]`, `A(i,j)` read through the `(i,j)` accessor inside the
band and 0 outside. -/
theorem op_mul_is_band_product (A : TDMatrix) (v : List ℚ) (hN : 1 < A.m_size) :
    (A.op_mul v).length = A.m_size ∧
    ∀ i, i < A.m_size →
      rd (A.op_mul v) i =
        (if i = 0 then 0 else A.lower (i - 1) * rd v (i - 1)) + A.diag i * rd v i
          + (if i = A.m_size - 1 then 0 else A.upper i * rd v (i + 1))
      ∧ rd (A.op_mul v) i = ∑ j in Finset.range A.m_size,
          (if i ≤ j + 1 ∧ j ≤ i + 1 then A.op_call i j else 0) * rd v j := by
  refine ⟨TDMatrix.op_mul_length A v, fun i hi => ?_⟩
  have key : rd (A.op_mul v) i =
      (if i = 0 then 0 else A.lower (i - 1) * rd v (i - 1)) + A.diag i * rd v i
          + (if i = A.m_size - 1 then 0 else A.upper i * rd v (i + 1)) := by
    rw [TDMatrix.op_mul_rd A v hN i hi]
    unfold TDMatrix.lower TDMatrix.diag TDMatrix.upper
    by_cases h0 : i = 0
    · subst h0
      rw [if_pos rfl, if_pos rfl, if_neg (by omega)]
      ring
    · rw [if_neg h0, if_neg h0]
      by_cases h1 : i = A.m_size - 1
      · rw [if_pos h1, if_pos h1]
        ring
      · rw [if_neg h1, if_neg h1]
  refine ⟨key, ?_⟩
  rw [key, band_sum A v i hi]
  rfl

/-- C4, witness: diag {1,2,3}, lower {4,15}, upper {6,7}, v = {4,2,9} gives
{16,83,57}. -/
theorem op_mul_is_band_product_witness :
    (TDMatrix.mk [6, 7] [1, 2, 3] [4, 15] [] [] 3 false).op_mul [4, 2, 9] = [16, 83, 57] ∧
    rd ((TDMatrix.mk [6, 7] [1, 2, 3] [4, 15] [] [] 3 false).op_mul [4, 2, 9]) 1
      = ∑ j in Finset.range 3,
          (if 1 ≤ j + 1 ∧ j ≤ 1 + 1
            then (TDMatrix.mk [6, 7] [1, 2, 3] [4, 15] [] [] 3 false).op_call 1 j else 0)
            * rd [4, 2, 9] j :=
  ⟨by decide!, ((op_mul_is_band_product (TDMatrix.mk [6, 7] [1, 2, 3] [4, 15] [] [] 3 false)
    [4, 2, 9] (by decide)).2 1 (by decide)).2⟩

open algorithm

theorem forUp_congr {σ : Type} (lo hi : ℕ) (body body' : ℕ → σ → σ) (st : σ)
    (h : ∀ i s, lo ≤ i → i < hi → body i s = body' i s) :
    forUp lo hi body st = forUp lo hi body' st := by
  rcases Nat.lt_or_ge hi lo with hlt | hle
  · rw [forUp_of_le lo hi (by omega), forUp_of_le lo hi (by omega)]
  · apply forUp_inv (fun k s => s = forUp lo k body' st) lo hi hle
    · rw [forUp_self]
    · intro i s h1 h2 hs
      rw [forUp_succ lo i h1, hs, h i _ h1 h2]

theorem forDown_congr {σ : Type} (hi lo : ℕ) (body body' : ℕ → σ → σ) (st : σ)
    (h : ∀ i s, lo ≤ i → i < hi → body i s = body' i s) :
    forDown hi lo body st = forDown hi lo body' st := by
  unfold forDown
  apply List.foldr_ext
  intro i hi' s
  rw [List.mem_range'_1] at hi'
  exact h i s hi'.1 (by omega)

/-- The first loop of `thomasIP` computes the recurrence `thomasC`. -/
theorem thomasCStar_spec (A : TDMatrix) (hN : 2 ≤ A.m_size) (hA : A.WF) :
    (thomasCStar A).length = A.m_size - 1 ∧
    ∀ j, j < A.m_size - 1 → rd (thomasCStar A) j = thomasC A j := by
  obtain ⟨_, _, hu⟩ := hA
  have key : (thomasCStar A).length = A.m_size - 1 ∧
      ∀ j, rd (thomasCStar A) j = if j < A.m_size - 1 then thomasC A j else A.upper j := by
    unfold thomasCStar
    apply forUp_inv (fun k (cs : List ℚ) => cs.length = A.m_size - 1 ∧
      ∀ j, rd cs j = if j < k then thomasC A j else A.upper j) 1 (A.m_size - 1) (by omega)
    · refine ⟨by simp [hu], fun j => ?_⟩
      rw [rd_set]
      by_cases hj : j < 1
      · have : j = 0 := by omega
        subst this
        rw [if_pos ⟨rfl, by omega⟩, if_pos hj]
        rfl
      · rw [if_neg (by omega), if_neg hj]
        rfl
    · rintro i cs h1 h2 ⟨hl, hs⟩
      have hi : rd cs i = A.upper i := by rw [hs i, if_neg (by omega)]
      have hp : rd cs (i - 1) = thomasC A (i - 1) := by rw [hs (i - 1), if_pos (by omega)]
      refine ⟨by simp [hl], fun j => ?_⟩
      rw [rd_set, hl, hi, hp]
      by_cases hij : i = j
      · subst hij
        rw [if_pos ⟨rfl, by omega⟩, if_pos (by omega)]
        obtain ⟨k, rfl⟩ : ∃ k, i = k + 1 := ⟨i - 1, by omega⟩
        rfl
      · rw [if_neg (by omega), hs j]
        by_cases hc : j < i
        · rw [if_pos hc, if_pos (by omega)]
        · rw [if_neg hc, if_neg (by omega)]
  exact ⟨key.1, fun j hj => by rw [key.2 j, if_pos hj]⟩

theorem thomasPivot_eq (A : TDMatrix) (hN : 2 ≤ A.m_size) (hA : A.WF) (i : ℕ)
    (hi : i < A.m_size) : thomasPivot A i = thomasP A i := by
  unfold thomasPivot
  by_cases h0 : i = 0
  · subst h0
    rfl
  · obtain ⟨k, rfl⟩ : ∃ k, i = k + 1 := ⟨i - 1, by omega⟩
    rw [if_neg h0, (thomasCStar_spec A hN hA).2 _ (by omega)]
    rfl

/-- The forward sweep of the Thomas solvers computes the recurrence `thomasY`. -/
theorem thomas_forward (A : TDMatrix) (b cs : List ℚ) (hN : 2 ≤ A.m_size)
    (hb : b.length = A.m_size) (hcs : ∀ j, j < A.m_size - 1 → rd cs j = thomasC A j) :
    (forUp 1 A.m_size (fun i rhs =>
        rhs.set i ((rd rhs i - rd rhs (i - 1) * A.lower (i - 1)) /
          (A.diag i - rd cs (i - 1) * A.lower (i - 1))))
        (b.set 0 (rd b 0 / A.diag 0))).length = A.m_size ∧
    ∀ j, j < A.m_size →
      rd (forUp 1 A.m_size (fun i rhs =>
        rhs.set i ((rd rhs i - rd rhs (i - 1) * A.lower (i - 1)) /
          (A.diag i - rd cs (i - 1) * A.lower (i - 1))))
        (b.set 0 (rd b 0 / A.diag 0))) j = thomasY A b j := by
  have key := forUp_inv (fun k (r : List ℚ) => r.length = A.m_size ∧
      ∀ j, rd r j = if j < k then thomasY A b j else rd b j) 1 A.m_size (by omega)
      (fun i rhs =>
        rhs.set i ((rd rhs i - rd rhs (i - 1) * A.lower (i - 1)) /
          (A.diag i - rd cs (i - 1) * A.lower (i - 1))))
      (b.set 0 (rd b 0 / A.diag 0)) ?_ ?_
  · exact ⟨key.1, fun j hj => by rw [key.2 j, if_pos hj]⟩
  · refine ⟨by simp [hb], fun j => ?_⟩
    rw [rd_set]
    by_cases hj : j < 1
    · have : j = 0 := by omega
      subst this
      rw [if_pos ⟨rfl, by omega⟩, if_pos hj]
      rfl
    · rw [if_neg (by omega), if_neg hj]
  · rintro i r h1 h2 ⟨hl, hs⟩
    have hi : rd r i = rd b i := by rw [hs i, if_neg (by omega)]
    have hp : rd r (i - 1) = thomasY A b (i - 1) := by rw [hs (i - 1), if_pos (by omega)]
    refine ⟨by simp [hl], fun j => ?_⟩
    rw [rd_set, hl, hi, hp, hcs (i - 1) (by omega)]
    by_cases hij : i = j
    · subst hij
      rw [if_pos ⟨rfl, by omega⟩, if_pos (by omega)]
      obtain ⟨k, rfl⟩ : ∃ k, i = k + 1 := ⟨i - 1, by omega⟩
      rfl
    · rw [if_neg (by omega), hs j]
      by_cases hc : j < i
      · rw [if_pos hc, if_pos (by omega)]
      · rw [if_neg hc, if_neg (by omega)]

/-- The back substitution of the Thomas solvers: the last cell is kept and
every other cell satisfies `x[j] = r[j] - cs[j]*x[j+1]`. -/
theorem thomas_backward (n : ℕ) (cs r : List ℚ) (hn : 1 ≤ n) (hr : r.length = n) :
    (forDown (n - 1) 0 (fun i rhs => rhs.set i (rd rhs i - rd cs i * rd rhs (i + 1))) r).length
      = n ∧
    rd (forDown (n - 1) 0 (fun i rhs => rhs.set i (rd rhs i - rd cs i * rd rhs (i + 1))) r)
      (n - 1) = rd r (n - 1) ∧
    ∀ j, j < n - 1 →
      rd (forDown (n - 1) 0 (fun i rhs => rhs.set i (rd rhs i - rd cs i * rd rhs (i + 1))) r) j
        = rd r j - rd cs j *
          rd (forDown (n - 1) 0 (fun i rhs => rhs.set i (rd rhs i - rd cs i * rd rhs (i + 1))) r)
            (j + 1) := by
  have key := forDown_inv (fun k (x : List ℚ) => x.length = n ∧
      (∀ j, j < k ∨ n - 1 ≤ j → rd x j = rd r j) ∧
      (∀ j, k ≤ j → j < n - 1 → rd x j = rd r j - rd cs j * rd x (j + 1))) (n - 1) 0
      (Nat.zero_le _)
      (fun i rhs => rhs.set i (rd rhs i - rd cs i * rd rhs (i + 1))) r ?_ ?_
  · exact ⟨key.1, key.2.1 (n - 1) (Or.inr le_rfl), fun j hj => key.2.2 j (Nat.zero_le _) hj⟩
  · exact ⟨hr, fun _ _ => rfl, fun j h1 h2 => by omega⟩
  · rintro i x _ h2 ⟨hl, hlow, hup⟩
    refine ⟨by simp [hl], fun j hj => ?_, fun j h3 h4 => ?_⟩
    · rw [rd_set_ne _ _ _ _ (by omega)]
      exact hlow j (by omega)
    · rw [rd_set_ne x i (j + 1) _ (by omega)]
      by_cases hij : i = j
      · subst hij
        rw [rd_set_eq _ _ _ (by omega), hlow i (by omega)]
      · rw [rd_set_ne _ _ _ _ hij]
        exact hup j (by omega) h4

theorem thomasP_mul_Y (A : TDMatrix) (b : List ℚ) (k : ℕ) (hp : thomasP A (k + 1) ≠ 0) :
    (rd A.m_diag (k + 1) - thomasC A k * rd A.m_lower k) * thomasY A b (k + 1)
      = rd b (k + 1) - thomasY A b k * rd A.m_lower k := by
  have e : thomasY A b (k + 1)
      = (rd b (k + 1) - thomasY A b k * rd A.m_lower k)
        / (rd A.m_diag (k + 1) - thomasC A k * rd A.m_lower k) := rfl
  have hp' : rd A.m_diag (k + 1) - thomasC A k * rd A.m_lower k ≠ 0 := hp
  rw [e, mul_div_cancel₀ _ hp']

theorem thomasP_mul_C (A : TDMatrix) (k : ℕ) (hp : thomasP A (k + 1) ≠ 0) :
    (rd A.m_diag (k + 1) - thomasC A k * rd A.m_lower k) * thomasC A (k + 1)
      = rd A.m_upper (k + 1) := by
  have e : thomasC A (k + 1)
      = rd A.m_upper (k + 1) / (rd A.m_diag (k + 1) - thomasC A k * rd A.m_lower k) := rfl
  have hp' : rd A.m_diag (k + 1) - thomasC A k * rd A.m_lower k ≠ 0 := hp
  rw [e, mul_div_cancel₀ _ hp']

/-- A vector that satisfies the back-substitution relations solves the system. -/
theorem thomas_algebra (A : TDMatrix) (b x : List ℚ) (hN : 2 ≤ A.m_size)
    (hb : b.length = A.m_size)
    (hlast : rd x (A.m_size - 1) = thomasY A b (A.m_size - 1))
    (hrec : ∀ j, j < A.m_size - 1 → rd x j = thomasY A b j - thomasC A j * rd x (j + 1))
    (hp : ∀ i, i < A.m_size → thomasP A i ≠ 0) : A.op_mul x = b := by
  apply ext_rd
  · rw [TDMatrix.op_mul_length, hb]
  intro j hj
  rw [TDMatrix.op_mul_length] at hj
  rw [TDMatrix.op_mul_rd A x (by omega) j hj]
  by_cases h0 : j = 0
  · subst h0
    rw [if_pos rfl]
    have h1 := hrec 0 (by omega)
    have hd : rd A.m_diag 0 ≠ 0 := hp 0 (by omega)
    have hY : rd A.m_diag 0 * thomasY A b 0 = rd b 0 := by
      show rd A.m_diag 0 * (rd b 0 / rd A.m_diag 0) = rd b 0
      rw [mul_div_cancel₀ _ hd]
    have hC : rd A.m_diag 0 * thomasC A 0 = rd A.m_upper 0 := by
      show rd A.m_diag 0 * (rd A.m_upper 0 / rd A.m_diag 0) = rd A.m_upper 0
      rw [mul_div_cancel₀ _ hd]
    simp only [Nat.zero_add] at h1
    linear_combination rd A.m_diag 0 * h1 + hY - rd x 1 * hC
  · obtain ⟨k, rfl⟩ : ∃ k, j = k + 1 := ⟨j - 1, by omega⟩
    rw [if_neg h0]
    simp only [Nat.add_sub_cancel]
    have h1 := hrec k (by omega)
    have hPY := thomasP_mul_Y A b k (hp (k + 1) hj)
    by_cases hl : k + 1 = A.m_size - 1
    · rw [if_pos hl]
      rw [← hl] at hlast
      linear_combination rd A.m_lower k * h1
        + (rd A.m_diag (k + 1) - thomasC A k * rd A.m_lower k) * hlast + hPY
    · rw [if_neg hl]
      have h2 := hrec (k + 1) (by omega)
      have hPC := thomasP_mul_C A k (hp (k + 1) hj)
      linear_combination rd A.m_lower k * h1
        + (rd A.m_diag (k + 1) - thomasC A k * rd A.m_lower k) * h2 + hPY
        - rd x (k + 1 + 1) * hPC

/-- `thomasIP` solves the system when the pivot recurrence has no zero. -/
theorem thomasIP_op_mul (A : TDMatrix) (b : List ℚ) (hN : 2 ≤ A.m_size) (hA : A.WF)
    (hb : b.length = A.m_size) (hp : ∀ i, i < A.m_size → thomasP A i ≠ 0) :
    A.op_mul (algorithm.thomasIP A b) = b := by
  obtain ⟨_, hcs⟩ := thomasCStar_spec A hN hA
  obtain ⟨hfl, hf⟩ := thomas_forward A b (algorithm.thomasCStar A) hN hb hcs
  obtain ⟨_, hlast, hrec⟩ := thomas_backward A.m_size (algorithm.thomasCStar A) _ (by omega) hfl
  apply thomas_algebra A b _ hN hb
  · unfold algorithm.thomasIP
    simp only
    rw [hlast, hf _ (by omega)]
  · intro j hj
    unfold algorithm.thomasIP
    simp only
    rw [hrec j hj, hf j (by omega), hcs j hj]
  · exact hp

/-- C1. `thomasIP` solves the system: for every tridiagonal matrix of size
`N >= 2`, every right-hand side `b` of length `N`, when every Thomas pivot
(`diag[0]`, and `diag[i] - cstar[i-1]*lower[i-1]` for `1 <= i < N`) is
non-zero, the vector `x` left in `b` satisfies `A * x = b`, the product
being `operator*`. -/
theorem thomasIP_solves (A : TDMatrix) (b : List ℚ) (hN : 2 ≤ A.m_size) (hA : A.WF)
    (hb : b.length = A.m_size)
    (hp : ∀ i, i < A.m_size → algorithm.thomasPivot A i ≠ 0) :
    A.op_mul (algorithm.thomasIP A b) = b := by
  apply thomasIP_op_mul A b hN hA hb
  intro i hi
  rw [← thomasPivot_eq A hN hA i hi]
  exact hp i hi

/-- C1, witness: the unit test `ThomasIP test 1`; the solution is {1,2,3,4,5}. -/
theorem thomasIP_solves_witness :
    algorithm.thomasIP testMatrix5 testRhs5 = [1, 2, 3, 4, 5] ∧
    testMatrix5.op_mul (algorithm.thomasIP testMatrix5 testRhs5) = testRhs5 :=
  ⟨by decide!, thomasIP_solves testMatrix5 testRhs5 (by decide) (by decide) (by decide)
    (by decide!)⟩

/-- A loop that replaces cell `i` by a function of `i` and of its old value. -/
theorem forUp_set_self (g : ℕ → ℚ → ℚ) (lo hi : ℕ) (r : List ℚ) :
    (forUp lo hi (fun i r => r.set i (g i (rd r i))) r).length = r.length ∧
    ∀ j, rd (forUp lo hi (fun i r => r.set i (g i (rd r i))) r) j
      = if lo ≤ j ∧ j < hi ∧ j < r.length then g j (rd r j) else rd r j := by
  rcases Nat.lt_or_ge hi lo with hlt | h
  · rw [forUp_of_le lo hi (by omega)]
    refine ⟨rfl, fun j => ?_⟩
    rw [if_neg (by omega)]
  apply forUp_inv (fun k (s : List ℚ) => s.length = r.length ∧
    ∀ j, rd s j = if lo ≤ j ∧ j < k ∧ j < r.length then g j (rd r j) else rd r j) lo hi h
  · refine ⟨rfl, fun j => ?_⟩
    rw [if_neg (by omega)]
  · rintro i s h1 h2 ⟨hl, hs⟩
    have hi : rd s i = rd r i := by rw [hs i, if_neg (by omega)]
    refine ⟨by simp [hl], fun j => ?_⟩
    rw [rd_set, hs j, hl, hi]
    by_cases hij : i = j
    · subst hij
      by_cases hlen : i < r.length
      · rw [if_pos ⟨rfl, hlen⟩, if_pos (by omega)]
      · rw [if_neg (by omega), if_neg (by omega), if_neg (by omega)]
    · rw [if_neg (by omega)]
      by_cases hc : lo ≤ j ∧ j < i ∧ j < r.length
      · rw [if_pos hc, if_pos (by omega)]
      · rw [if_neg hc, if_neg (by omega)]

/-- The first preparation loop of `thomasReUseIP` touches the upper band only. -/
theorem thomasPrepare_loop1 (m0 : TDMatrix) (n : ℕ) :
    forUp 1 n (fun i (m : TDMatrix) =>
      { m with
        m_upper := m.m_upper.set i
          (rd m.m_upper i / (m.diag i - rd m.m_upper (i - 1) * m.lower (i - 1))) }) m0
    = { m0 with
        m_upper := forUp 1 n (fun i c_star =>
          c_star.set i (rd c_star i / (m0.diag i - rd c_star (i - 1) * m0.lower (i - 1))))
          m0.m_upper } := by
  rcases Nat.lt_or_ge n 1 with hlt | h
  · rw [forUp_of_le 1 n (by omega), forUp_of_le 1 n (by omega)]
  apply forUp_inv (fun k (m : TDMatrix) => m = { m0 with
        m_upper := forUp 1 k (fun i c_star =>
          c_star.set i (rd c_star i / (m0.diag i - rd c_star (i - 1) * m0.lower (i - 1))))
          m0.m_upper }) 1 n h
  · rw [forUp_self]
  · intro i m h1 _ hm
    rw [forUp_succ 1 i h1, hm]
    rfl

/-- The second preparation loop of `thomasReUseIP` touches the diagonal only. -/
theorem thomasPrepare_loop2 (m0 : TDMatrix) (n : ℕ) :
    forUp 1 n (fun i (m : TDMatrix) =>
      { m with
        m_diag := m.m_diag.set i (rd m.m_diag i - rd m.m_upper (i - 1) * m.lower (i - 1)) }) m0
    = { m0 with
        m_diag := forUp 1 n (fun i c_diag =>
          c_diag.set i (rd c_diag i - rd m0.m_upper (i - 1) * m0.lower (i - 1))) m0.m_diag } := by
  rcases Nat.lt_or_ge n 1 with hlt | h
  · rw [forUp_of_le 1 n (by omega), forUp_of_le 1 n (by omega)]
  apply forUp_inv (fun k (m : TDMatrix) => m = { m0 with
        m_diag := forUp 1 k (fun i c_diag =>
          c_diag.set i (rd c_diag i - rd m0.m_upper (i - 1) * m0.lower (i - 1))) m0.m_diag })
      1 n h
  · rw [forUp_self]
  · intro i m h1 _ hm
    rw [forUp_succ 1 i h1, hm]
    rfl

/-- What the preparation block leaves in the matrix. -/
theorem thomasPrepare_spec (A : TDMatrix) :
    (thomasPrepare A).m_upper = thomasCStar A ∧
    (thomasPrepare A).m_lower = A.m_lower ∧
    (thomasPrepare A).m_size = A.m_size ∧
    (thomasPrepare A).m_prepared = true ∧
    (thomasPrepare A).m_diag.length = A.m_diag.length ∧
    ∀ j, rd (thomasPrepare A).m_diag j
      = if 1 ≤ j ∧ j < A.m_size ∧ j < A.m_diag.length
        then rd A.m_diag j - rd (thomasCStar A) (j - 1) * A.lower (j - 1)
        else rd A.m_diag j := by
  have e : thomasPrepare A = { A with
      m_upper := thomasCStar A
      m_diag := forUp 1 A.m_size (fun i c_diag =>
          c_diag.set i (rd c_diag i - rd (thomasCStar A) (i - 1) * A.lower (i - 1))) A.m_diag
      m_prepared := true } := by
    unfold thomasPrepare
    simp only
    rw [thomasPrepare_loop1, thomasPrepare_loop2]
    rfl
  rw [e]
  refine ⟨rfl, rfl, rfl, rfl, ?_, ?_⟩
  · exact (forUp_set_self (fun i x => x - rd (thomasCStar A) (i - 1) * A.lower (i - 1)) 1
      A.m_size A.m_diag).1
  · exact (forUp_set_self (fun i x => x - rd (thomasCStar A) (i - 1) * A.lower (i - 1)) 1
      A.m_size A.m_diag).2

/-- The solve phase of `thomasReUseIP` on a prepared matrix `M` that holds the
factors of `A` computes what `thomasIP` computes on `A`. -/
theorem thomasReUse_solve (A M : TDMatrix) (b : List ℚ) (hsz : M.m_size = A.m_size)
    (hl : M.m_lower = A.m_lower) (hu : M.m_upper = thomasCStar A)
    (hd0 : M.diag 0 = A.diag 0)
    (hd : ∀ i, 1 ≤ i → i < A.m_size →
      rd M.m_diag i = A.diag i - rd (thomasCStar A) (i - 1) * A.lower (i - 1)) :
    forDown (M.m_size - 1) 0 (fun i rhs => rhs.set i (rd rhs i - rd M.m_upper i * rd rhs (i + 1)))
      (forUp 1 M.m_size (fun i rhs =>
        rhs.set i ((rd rhs i - rd rhs (i - 1) * M.lower (i - 1)) / rd M.m_diag i))
        (b.set 0 (rd b 0 / M.diag 0)))
    = thomasIP A b := by
  unfold thomasIP
  simp only
  rw [hu, hd0, hsz]
  congr 1
  apply forUp_congr
  intro i s h1 h2
  rw [hd i h1 h2]
  unfold TDMatrix.lower
  rw [hl]

/-- `thomasReUseIP` on an unprepared matrix: the matrix becomes the prepared
one and the vector is the one of `thomasIP`. -/
theorem thomasReUseIP_fresh (A0 : TDMatrix) (b : List ℚ) (hA : A0.WF)
    (hprep : A0.m_prepared = false) :
    thomasReUseIP A0 b = (thomasPrepare A0, thomasIP A0 b) := by
  obtain ⟨hu, hl, hsz, hp, _, hd⟩ := thomasPrepare_spec A0
  have hd0 : (thomasPrepare A0).diag 0 = A0.diag 0 := by
    unfold TDMatrix.diag
    rw [hd 0, if_neg (by omega)]
  have hdi : ∀ i, 1 ≤ i → i < A0.m_size → rd (thomasPrepare A0).m_diag i
      = A0.diag i - rd (thomasCStar A0) (i - 1) * A0.lower (i - 1) := by
    intro i h1 h2
    rw [hd i, if_pos ⟨h1, h2, by rw [hA.1]; exact h2⟩]
    rfl
  unfold thomasReUseIP
  simp only [hprep, Bool.not_false, if_true]
  rw [← hsz, thomasReUse_solve A0 (thomasPrepare A0) b hsz hl hu hd0 hdi]

/-- `thomasReUseIP` on the matrix prepared from `A0`: the matrix is kept and
the vector is the one of `thomasIP` on `A0`. -/
theorem thomasReUseIP_prepared (A0 : TDMatrix) (b : List ℚ) (hA : A0.WF) :
    thomasReUseIP (thomasPrepare A0) b = (thomasPrepare A0, thomasIP A0 b) := by
  obtain ⟨hu, hl, hsz, hp, _, hd⟩ := thomasPrepare_spec A0
  have hd0 : (thomasPrepare A0).diag 0 = A0.diag 0 := by
    unfold TDMatrix.diag
    rw [hd 0, if_neg (by omega)]
  have hdi : ∀ i, 1 ≤ i → i < A0.m_size → rd (thomasPrepare A0).m_diag i
      = A0.diag i - rd (thomasCStar A0) (i - 1) * A0.lower (i - 1) := by
    intro i h1 h2
    rw [hd i, if_pos ⟨h1, h2, by rw [hA.1]; exact h2⟩]
    rfl
  unfold thomasReUseIP
  simp only [hp, Bool.not_true, Bool.false_eq_true, if_false]
  rw [thomasReUse_solve A0 (thomasPrepare A0) b hsz hl hu hd0 hdi]

/-- C2. The cached-LU Thomas solver agrees with the plain one on the first
and on every later call: for an unprepared matrix `A0` (size `N`, bands of
the lengths the constructor gives) and right-hand sides `b1`, `b2`,
`thomasReUseIP(A, b1)` on `A = A0` returns the vector of `thomasIP(A0, b1)`
and sets `prepared`, and a following `thomasReUseIP(A, b2)` on the
overwritten matrix returns the vector of `thomasIP(A0, b2)`. Both solvers
perform the same divisions, so the equalities need no hypothesis on the
pivots. -/
theorem thomasReUseIP_agrees (A0 : TDMatrix) (b1 b2 : List ℚ) (hA : A0.WF)
    (hprep : A0.m_prepared = false) :
    (algorithm.thomasReUseIP A0 b1).2 = algorithm.thomasIP A0 b1 ∧
    (algorithm.thomasReUseIP A0 b1).1.m_prepared = true ∧
    (algorithm.thomasReUseIP (algorithm.thomasReUseIP A0 b1).1 b2).2
      = algorithm.thomasIP A0 b2 := by
  have h1 := thomasReUseIP_fresh A0 b1 hA hprep
  have h2 := thomasReUseIP_prepared A0 b2 hA
  refine ⟨?_, ?_, ?_⟩
  · rw [h1]
  · rw [h1]
    exact (thomasPrepare_spec A0).2.2.2.1
  · rw [h1]
    simp only
    rw [h2]

/-- C2, witness: the unit test `ThomasReUseIP test 1`, solved twice. -/
theorem thomasReUseIP_agrees_witness :
    (algorithm.thomasReUseIP testMatrix5 testRhs5).2 = [1, 2, 3, 4, 5] ∧
    (algorithm.thomasReUseIP (algorithm.thomasReUseIP testMatrix5 testRhs5).1 testRhs5).2
      = algorithm.thomasIP testMatrix5 testRhs5 :=
  ⟨by decide!, (thomasReUseIP_agrees testMatrix5 testRhs5 testRhs5 (by decide) rfl).2.2⟩

/-- Under strict row dominance every pivot is non-zero and every modified
upper entry has absolute value below 1. -/
theorem thomasP_ne_zero_of_dominant (A : TDMatrix) (hN : 2 ≤ A.m_size)
    (hdom : A.StrictlyDominant) (i : ℕ) (hi : i < A.m_size) :
    (if i = A.m_size - 1 then 0 else |A.upper i|) < |thomasP A i| ∧
      (i < A.m_size - 1 → |thomasC A i| < 1) := by
  induction i with
  | zero =>
    have h := hdom 0 hi
    rw [if_pos rfl, if_neg (by omega), zero_add] at h
    have hP : thomasP A 0 = A.diag 0 := rfl
    rw [hP, if_neg (by omega)]
    refine ⟨h, fun _ => ?_⟩
    have hpos : 0 < |A.diag 0| := lt_of_le_of_lt (abs_nonneg _) h
    show |A.upper 0 / A.diag 0| < 1
    rw [abs_div, div_lt_one hpos]
    exact h
  | succ k ih =>
    obtain ⟨_, hC⟩ := ih (by omega)
    have hC1 := hC (by omega)
    have h := hdom (k + 1) hi
    rw [if_neg (by omega)] at h
    simp only [Nat.add_sub_cancel] at h
    have hP : thomasP A (k + 1) = A.diag (k + 1) - thomasC A k * A.lower k := rfl
    have hge : |A.diag (k + 1)| - |A.lower k| ≤ |thomasP A (k + 1)| := by
      rw [hP]
      have h1 := abs_sub_abs_le_abs_sub (A.diag (k + 1)) (thomasC A k * A.lower k)
      have h2 : |thomasC A k * A.lower k| ≤ |A.lower k| := by
        rw [abs_mul]
        calc |thomasC A k| * |A.lower k| ≤ 1 * |A.lower k| :=
              mul_le_mul_of_nonneg_right hC1.le (abs_nonneg _)
          _ = |A.lower k| := one_mul _
      linarith
    have hlt : (if k + 1 = A.m_size - 1 then 0 else |A.upper (k + 1)|) < |thomasP A (k + 1)| := by
      linarith
    refine ⟨hlt, fun hk => ?_⟩
    rw [if_neg (by omega)] at hlt
    have hpos : 0 < |thomasP A (k + 1)| := lt_of_le_of_lt (abs_nonneg _) hlt
    show |A.upper (k + 1) / (A.diag (k + 1) - thomasC A k * A.lower k)| < 1
    rw [← hP, abs_div, div_lt_one hpos]
    exact hlt

/-- C7. Diagonal dominance makes the Thomas solve well defined: for every
matrix of size `N >= 2` that is strictly diagonally dominant by rows, every
divisor used by `thomasIP` (`diag[0]`, and `diag[i] - cstar[i-1]*lower[i-1]`
for `1 <= i < N`) is non-zero, and the diagonal that `thomasReUseIP` stores
when it prepares the matrix, by which its solve phase divides, holds exactly
these values. -/
theorem thomas_pivots_ne_zero_of_dominant (A : TDMatrix) (hN : 2 ≤ A.m_size) (hA : A.WF)
    (hdom : A.StrictlyDominant) :
    ∀ i, i < A.m_size →
      algorithm.thomasPivot A i ≠ 0 ∧
      rd (algorithm.thomasPrepare A).m_diag i = algorithm.thomasPivot A i := by
  intro i hi
  constructor
  · rw [thomasPivot_eq A hN hA i hi]
    have h := (thomasP_ne_zero_of_dominant A hN hdom i hi).1
    have hpos : 0 < |thomasP A i| := by
      refine lt_of_le_of_lt ?_ h
      split
      · exact le_rfl
      · exact abs_nonneg _
    exact abs_pos.mp hpos
  · rw [(thomasPrepare_spec A).2.2.2.2.2 i]
    unfold algorithm.thomasPivot
    by_cases h0 : i = 0
    · subst h0
      rw [if_neg (by omega), if_pos rfl]
      rfl
    · rw [if_pos ⟨by omega, hi, by rw [hA.1]; exact hi⟩, if_neg h0]
      rfl

/-- C7, witness: a strictly dominant 3x3 matrix. -/
theorem thomas_pivots_ne_zero_of_dominant_witness :
    dominantMatrix3.StrictlyDominant ∧
    ∀ i, i < 3 →
      algorithm.thomasPivot dominantMatrix3 i ≠ 0 ∧
      rd (algorithm.thomasPrepare dominantMatrix3).m_diag i
        = algorithm.thomasPivot dominantMatrix3 i :=
  ⟨by decide!, thomas_pivots_ne_zero_of_dominant dominantMatrix3 (by decide) (by decide)
    (by decide!)⟩

theorem gaussPivotStep_noswap (k : ℕ) (w : GaussWork) (h : |rd w.d k| ≥ |rd w.dl k|) :
    gaussPivotStep k w =
      { du := w.du
        d := w.d.set (k + 1) (rd w.d (k + 1) - rd w.dl k / rd w.d k * rd w.du k)
        dl := w.dl.set k 0
        rhs := w.rhs.set (k + 1) (rd w.rhs (k + 1) - rd w.dl k / rd w.d k * rd w.rhs k) } := by
  unfold gaussPivotStep
  rw [if_pos h]

theorem gaussPivotStep_swap (k : ℕ) (w : GaussWork) (h : ¬ |rd w.d k| ≥ |rd w.dl k|) :
    gaussPivotStep k w =
      { du := (w.du.set (k + 1) (-(rd w.d k / rd w.dl k) * rd (w.dl.set k (rd w.du (k + 1))) k)).set
          k (rd (w.d.set k (rd w.dl k)) (k + 1))
        d := (w.d.set k (rd w.dl k)).set (k + 1)
          (rd w.du k - rd w.d k / rd w.dl k * rd (w.d.set k (rd w.dl k)) (k + 1))
        dl := w.dl.set k (rd w.du (k + 1))
        rhs := (w.rhs.set k (rd w.rhs (k + 1))).set (k + 1)
          (rd w.rhs k - rd w.d k / rd w.dl k * rd (w.rhs.set k (rd w.rhs (k + 1))) (k + 1)) } := by
  unfold gaussPivotStep
  rw [if_neg h]

/-- One elimination step keeps the vector lengths. -/
theorem gaussPivotStep_WF (n k : ℕ) (w : GaussWork) (hw : w.WF n) :
    (gaussPivotStep k w).WF n := by
  obtain ⟨h1, h2, h3, h4⟩ := hw
  by_cases h : |rd w.d k| ≥ |rd w.dl k|
  · rw [gaussPivotStep_noswap k w h]
    exact ⟨by simp [h1], h2, by simp [h3], by simp [h4]⟩
  · rw [gaussPivotStep_swap k w h]
    exact ⟨by simp [h1], by simp [h2], by simp [h3], by simp [h4]⟩

/-- One elimination step changes the cells `k` and `k+1` only (`dl`: cell `k`). -/
theorem gaussPivotStep_frame (k : ℕ) (w : GaussWork) (j : ℕ) (hj : j ≠ k) :
    rd (gaussPivotStep k w).dl j = rd w.dl j ∧
    (j ≠ k + 1 → rd (gaussPivotStep k w).d j = rd w.d j ∧
      rd (gaussPivotStep k w).du j = rd w.du j ∧
      rd (gaussPivotStep k w).rhs j = rd w.rhs j) := by
  by_cases h : |rd w.d k| ≥ |rd w.dl k|
  · rw [gaussPivotStep_noswap k w h]
    refine ⟨rd_set_ne _ _ _ _ (Ne.symm hj), fun hj1 => ⟨?_, rfl, ?_⟩⟩
    · exact rd_set_ne _ _ _ _ (Ne.symm hj1)
    · exact rd_set_ne _ _ _ _ (Ne.symm hj1)
  · rw [gaussPivotStep_swap k w h]
    refine ⟨rd_set_ne _ _ _ _ (Ne.symm hj), fun hj1 => ⟨?_, ?_, ?_⟩⟩
    · simp only
      rw [rd_set_ne _ _ _ _ (Ne.symm hj1), rd_set_ne _ _ _ _ (Ne.symm hj)]
    · simp only
      rw [rd_set_ne _ _ _ _ (Ne.symm hj), rd_set_ne _ _ _ _ (Ne.symm hj1)]
    · simp only
      rw [rd_set_ne _ _ _ _ (Ne.symm hj1), rd_set_ne _ _ _ _ (Ne.symm hj)]

/-- The multiplier of a step without interchange reproduces the eliminated
entry: `dl[k]/d[k] * d[k] = dl[k]` also when `d[k] = 0`. -/
theorem gauss_fact_noswap (a b : ℚ) (h : |a| ≥ |b|) : b / a * a = b := by
  by_cases ha : a = 0
  · subst ha
    have : |b| ≤ 0 := by simpa using h
    have hb : b = 0 := abs_eq_zero.mp (le_antisymm this (abs_nonneg b))
    simp [hb]
  · exact div_mul_cancel₀ b ha

theorem gauss_fact_swap (a b : ℚ) (h : ¬ |a| ≥ |b|) : a / b * b = a ∧ b ≠ 0 := by
  have hb : b ≠ 0 := by
    intro hb
    subst hb
    apply h
    simp
  exact ⟨div_mul_cancel₀ a hb, hb⟩

/-- Values of the cells `k`, `k+1` after a step without interchange. -/
theorem gaussPivotStep_noswap_rd (n k : ℕ) (w : GaussWork) (hw : w.WF n) (hk : k + 2 < n)
    (h : |rd w.d k| ≥ |rd w.dl k|) :
    rd (gaussPivotStep k w).d k = rd w.d k ∧
    rd (gaussPivotStep k w).d (k + 1) = rd w.d (k + 1) - rd w.dl k / rd w.d k * rd w.du k ∧
    rd (gaussPivotStep k w).du k = rd w.du k ∧
    rd (gaussPivotStep k w).du (k + 1) = rd w.du (k + 1) ∧
    rd (gaussPivotStep k w).dl k = 0 ∧
    rd (gaussPivotStep k w).rhs k = rd w.rhs k ∧
    rd (gaussPivotStep k w).rhs (k + 1)
      = rd w.rhs (k + 1) - rd w.dl k / rd w.d k * rd w.rhs k := by
  obtain ⟨h1, h2, h3, h4⟩ := hw
  rw [gaussPivotStep_noswap k w h]
  refine ⟨?_, ?_, rfl, rfl, ?_, ?_, ?_⟩
  · exact rd_set_ne _ _ _ _ (by omega)
  · exact rd_set_eq _ _ _ (by omega)
  · exact rd_set_eq _ _ _ (by omega)
  · exact rd_set_ne _ _ _ _ (by omega)
  · exact rd_set_eq _ _ _ (by omega)

/-- Values of the cells `k`, `k+1` after a step with interchange. -/
theorem gaussPivotStep_swap_rd (n k : ℕ) (w : GaussWork) (hw : w.WF n) (hk : k + 2 < n)
    (h : ¬ |rd w.d k| ≥ |rd w.dl k|) :
    rd (gaussPivotStep k w).d k = rd w.dl k ∧
    rd (gaussPivotStep k w).d (k + 1) = rd w.du k - rd w.d k / rd w.dl k * rd w.d (k + 1) ∧
    rd (gaussPivotStep k w).du k = rd w.d (k + 1) ∧
    rd (gaussPivotStep k w).du (k + 1) = -(rd w.d k / rd w.dl k) * rd w.du (k + 1) ∧
    rd (gaussPivotStep k w).dl k = rd w.du (k + 1) ∧
    rd (gaussPivotStep k w).rhs k = rd w.rhs (k + 1) ∧
    rd (gaussPivotStep k w).rhs (k + 1)
      = rd w.rhs k - rd w.d k / rd w.dl k * rd w.rhs (k + 1) := by
  obtain ⟨h1, h2, h3, h4⟩ := hw
  rw [gaussPivotStep_swap k w h]
  simp only
  refine ⟨?_, ?_, ?_, ?_, ?_, ?_, ?_⟩
  · rw [rd_set_ne _ _ _ _ (by omega), rd_set_eq _ _ _ (by omega)]
  · rw [rd_set_eq _ _ _ (by simp; omega), rd_set_ne _ _ _ _ (by omega)]
  · rw [rd_set_eq _ _ _ (by simp; omega), rd_set_ne _ _ _ _ (by omega)]
  · rw [rd_set_ne _ _ _ _ (by omega), rd_set_eq _ _ _ (by omega), rd_set_eq _ _ _ (by omega)]
  · rw [rd_set_eq _ _ _ (by omega)]
  · rw [rd_set_ne _ _ _ _ (by omega), rd_set_eq _ _ _ (by omega)]
  · rw [rd_set_eq _ _ _ (by simp; omega), rd_set_ne _ _ _ _ (by omega)]

/-- A vector that satisfies the system after an elimination step satisfies the
system before it. -/
theorem gaussPivotStep_sat (n k : ℕ) (w : GaussWork) (x : List ℚ) (hw : w.WF n)
    (hk : k + 2 < n) (hs : gaussSat n (k + 1) (gaussPivotStep k w) x) : gaussSat n k w x := by
  obtain ⟨ha, hb, hc⟩ := hs
  have hak := ha k (by omega) (by omega)
  have hbk := hb (by omega)
  refine ⟨fun j hj hjn => ?_, fun _ => ?_, fun j hj hjn => ?_⟩
  · have := ha j (by omega) hjn
    obtain ⟨f1, f2⟩ := gaussPivotStep_frame k w j (by omega)
    obtain ⟨f3, f4, f5⟩ := f2 (by omega)
    rwa [f1, f3, f4, f5] at this
  · by_cases h : |rd w.d k| ≥ |rd w.dl k|
    · obtain ⟨e1, e2, e3, e4, e5, e6, e7⟩ := gaussPivotStep_noswap_rd n k w hw hk h
      rw [e1, e3, e5, e6] at hak
      linear_combination hak
    · obtain ⟨e1, e2, e3, e4, e5, e6, e7⟩ := gaussPivotStep_swap_rd n k w hw hk h
      obtain ⟨g1, g2⟩ := gauss_fact_swap _ _ h
      rw [e1, e3, e5, e6] at hak
      rw [e2, e4, e7] at hbk
      linear_combination hbk + rd w.d k / rd w.dl k * hak - rd x k * g1
  · by_cases hj1 : j = k + 1
    · subst hj1
      simp only [Nat.add_sub_cancel]
      by_cases h : |rd w.d k| ≥ |rd w.dl k|
      · obtain ⟨e1, e2, e3, e4, e5, e6, e7⟩ := gaussPivotStep_noswap_rd n k w hw hk h
        have g1 := gauss_fact_noswap _ _ h
        rw [e1, e3, e5, e6] at hak
        rw [e2, e4, e7] at hbk
        linear_combination hbk + rd w.dl k / rd w.d k * hak - rd x k * g1
      · obtain ⟨e1, e2, e3, e4, e5, e6, e7⟩ := gaussPivotStep_swap_rd n k w hw hk h
        rw [e1, e3, e5, e6] at hak
        linear_combination hak
    · have := hc j (by omega) hjn
      obtain ⟨f1, _⟩ := gaussPivotStep_frame k w (j - 1) (by omega)
      obtain ⟨_, f2⟩ := gaussPivotStep_frame k w j (by omega)
      obtain ⟨f3, f4, f5⟩ := f2 hj1
      rwa [f1, f3, f4, f5] at this

theorem gaussPivotLast_noswap (k : ℕ) (w : GaussWork) (h : |rd w.d k| ≥ |rd w.dl k|) :
    gaussPivotLast k w =
      { du := w.du
        d := w.d.set (k + 1) (rd w.d (k + 1) - rd w.dl k / rd w.d k * rd w.du k)
        dl := w.dl
        rhs := w.rhs.set (k + 1) (rd w.rhs (k + 1) - rd w.dl k / rd w.d k * rd w.rhs k) } := by
  unfold gaussPivotLast
  rw [if_pos h]

theorem gaussPivotLast_swap (k : ℕ) (w : GaussWork) (h : ¬ |rd w.d k| ≥ |rd w.dl k|) :
    gaussPivotLast k w =
      { du := w.du.set k (rd (w.d.set k (rd w.dl k)) (k + 1))
        d := (w.d.set k (rd w.dl k)).set (k + 1)
          (rd w.du k - rd w.d k / rd w.dl k * rd (w.d.set k (rd w.dl k)) (k + 1))
        dl := w.dl
        rhs := (w.rhs.set k (rd w.rhs (k + 1))).set (k + 1)
          (rd w.rhs k - rd w.d k / rd w.dl k * rd (w.rhs.set k (rd w.rhs (k + 1))) (k + 1)) } := by
  unfold gaussPivotLast
  rw [if_neg h]

theorem gaussPivotLast_WF (n k : ℕ) (w : GaussWork) (hw : w.WF n) :
    (gaussPivotLast k w).WF n := by
  obtain ⟨h1, h2, h3, h4⟩ := hw
  by_cases h : |rd w.d k| ≥ |rd w.dl k|
  · rw [gaussPivotLast_noswap k w h]
    exact ⟨by simp [h1], h2, h3, by simp [h4]⟩
  · rw [gaussPivotLast_swap k w h]
    exact ⟨by simp [h1], by simp [h2], h3, by simp [h4]⟩

theorem gaussPivotLast_frame (k : ℕ) (w : GaussWork) (j : ℕ) (hj : j ≠ k) (hj1 : j ≠ k + 1) :
    rd (gaussPivotLast k w).d j = rd w.d j ∧
      rd (gaussPivotLast k w).du j = rd w.du j ∧
      rd (gaussPivotLast k w).rhs j = rd w.rhs j := by
  by_cases h : |rd w.d k| ≥ |rd w.dl k|
  · rw [gaussPivotLast_noswap k w h]
    exact ⟨rd_set_ne _ _ _ _ (Ne.symm hj1), rfl, rd_set_ne _ _ _ _ (Ne.symm hj1)⟩
  · rw [gaussPivotLast_swap k w h]
    refine ⟨?_, ?_, ?_⟩
    · simp only
      rw [rd_set_ne _ _ _ _ (Ne.symm hj1), rd_set_ne _ _ _ _ (Ne.symm hj)]
    · exact rd_set_ne _ _ _ _ (Ne.symm hj)
    · simp only
      rw [rd_set_ne _ _ _ _ (Ne.symm hj1), rd_set_ne _ _ _ _ (Ne.symm hj)]

theorem gaussPivotLast_dl (k : ℕ) (w : GaussWork) : (gaussPivotLast k w).dl = w.dl := by
  by_cases h : |rd w.d k| ≥ |rd w.dl k|
  · rw [gaussPivotLast_noswap k w h]
  · rw [gaussPivotLast_swap k w h]

/-- Values of the cells `k`, `k+1` after the last step without interchange. -/
theorem gaussPivotLast_noswap_rd (n k : ℕ) (w : GaussWork) (hw : w.WF n) (hk : k + 2 = n)
    (h : |rd w.d k| ≥ |rd w.dl k|) :
    rd (gaussPivotLast k w).d k = rd w.d k ∧
    rd (gaussPivotLast k w).d (k + 1) = rd w.d (k + 1) - rd w.dl k / rd w.d k * rd w.du k ∧
    rd (gaussPivotLast k w).du k = rd w.du k ∧
    rd (gaussPivotLast k w).rhs k = rd w.rhs k ∧
    rd (gaussPivotLast k w).rhs (k + 1)
      = rd w.rhs (k + 1) - rd w.dl k / rd w.d k * rd w.rhs k := by
  obtain ⟨h1, h2, h3, h4⟩ := hw
  rw [gaussPivotLast_noswap k w h]
  refine ⟨?_, ?_, rfl, ?_, ?_⟩
  · exact rd_set_ne _ _ _ _ (by omega)
  · exact rd_set_eq _ _ _ (by omega)
  · exact rd_set_ne _ _ _ _ (by omega)
  · exact rd_set_eq _ _ _ (by omega)

/-- Values of the cells `k`, `k+1` after the last step with interchange. -/
theorem gaussPivotLast_swap_rd (n k : ℕ) (w : GaussWork) (hw : w.WF n) (hk : k + 2 = n)
    (h : ¬ |rd w.d k| ≥ |rd w.dl k|) :
    rd (gaussPivotLast k w).d k = rd w.dl k ∧
    rd (gaussPivotLast k w).d (k + 1) = rd w.du k - rd w.d k / rd w.dl k * rd w.d (k + 1) ∧
    rd (gaussPivotLast k w).du k = rd w.d (k + 1) ∧
    rd (gaussPivotLast k w).rhs k = rd w.rhs (k + 1) ∧
    rd (gaussPivotLast k w).rhs (k + 1)
      = rd w.rhs k - rd w.d k / rd w.dl k * rd w.rhs (k + 1) := by
  obtain ⟨h1, h2, h3, h4⟩ := hw
  rw [gaussPivotLast_swap k w h]
  simp only
  refine ⟨?_, ?_, ?_, ?_, ?_⟩
  · rw [rd_set_ne _ _ _ _ (by omega), rd_set_eq _ _ _ (by omega)]
  · rw [rd_set_eq _ _ _ (by simp; omega), rd_set_ne _ _ _ _ (by omega)]
  · rw [rd_set_eq _ _ _ (by omega), rd_set_ne _ _ _ _ (by omega)]
  · rw [rd_set_ne _ _ _ _ (by omega), rd_set_eq _ _ _ (by omega)]
  · rw [rd_set_eq _ _ _ (by simp; omega), rd_set_ne _ _ _ _ (by omega)]

/-- A vector of length `n` that satisfies the system after the last
elimination step satisfies the system before it. -/
theorem gaussPivotLast_sat (n k : ℕ) (w : GaussWork) (x : List ℚ) (hw : w.WF n)
    (hk : k + 2 = n) (hx : x.length = n)
    (hs : gaussSat n (k + 1) (gaussPivotLast k w) x) : gaussSat n k w x := by
  obtain ⟨ha, hb, _⟩ := hs
  have hak := ha k (by omega) (by omega)
  have hbk := hb (by omega)
  have hx2 : rd x (k + 2) = 0 := rd_of_length_le _ _ (by omega)
  have hdu1 : rd w.du (k + 1) = 0 := rd_of_length_le _ _ (by rw [hw.2.1]; omega)
  have hdu1' : rd (gaussPivotLast k w).du (k + 1) = 0 :=
    rd_of_length_le _ _ (by rw [(gaussPivotLast_WF n k w hw).2.1]; omega)
  rw [hx2] at hak
  rw [hdu1'] at hbk
  refine ⟨fun j hj hjn => ?_, fun _ => ?_, fun j hj hjn => ?_⟩
  · have := ha j (by omega) hjn
    obtain ⟨f3, f4, f5⟩ := gaussPivotLast_frame k w j (by omega) (by omega)
    rwa [gaussPivotLast_dl, f3, f4, f5] at this
  · by_cases h : |rd w.d k| ≥ |rd w.dl k|
    · obtain ⟨e1, e2, e3, e6, e7⟩ := gaussPivotLast_noswap_rd n k w hw hk h
      rw [e1, e3, e6] at hak
      linear_combination hak
    · obtain ⟨e1, e2, e3, e6, e7⟩ := gaussPivotLast_swap_rd n k w hw hk h
      obtain ⟨g1, g2⟩ := gauss_fact_swap _ _ h
      rw [e1, e3, e6] at hak
      rw [e2, e7] at hbk
      linear_combination hbk + rd w.d k / rd w.dl k * hak - rd x k * g1
  · have hj1 : j = k + 1 := by omega
    subst hj1
    simp only [Nat.add_sub_cancel]
    rw [hdu1]
    by_cases h : |rd w.d k| ≥ |rd w.dl k|
    · obtain ⟨e1, e2, e3, e6, e7⟩ := gaussPivotLast_noswap_rd n k w hw hk h
      have g1 := gauss_fact_noswap _ _ h
      rw [e1, e3, e6] at hak
      rw [e2, e7] at hbk
      linear_combination hbk + rd w.dl k / rd w.d k * hak - rd x k * g1
    · obtain ⟨e1, e2, e3, e6, e7⟩ := gaussPivotLast_swap_rd n k w hw hk h
      rw [e1, e3, e6] at hak
      linear_combination hak

/-- The back substitution returns a vector of length `n` that satisfies every
row of the upper-triangular system when no diagonal entry is zero. -/
theorem gaussBackSolve_spec (n : ℕ) (d du du2 rhs : List ℚ) (hn : 2 ≤ n)
    (hr : rhs.length = n) (hd : ∀ i, i < n → rd d i ≠ 0) :
    (gaussBackSolve n d du du2 rhs).length = n ∧
    ∀ j, j < n →
      rd d j * rd (gaussBackSolve n d du du2 rhs) j
        + (if j + 1 < n then rd du j * rd (gaussBackSolve n d du du2 rhs) (j + 1) else 0)
        + (if j + 2 < n then rd du2 j * rd (gaussBackSolve n d du du2 rhs) (j + 2) else 0)
        = rd rhs j := by
  unfold gaussBackSolve
  simp only
  have hl0 : ((rhs.set (n - 1) (rd rhs (n - 1) / rd d (n - 1))).set (n - 2)
      ((rd (rhs.set (n - 1) (rd rhs (n - 1) / rd d (n - 1))) (n - 2)
        - rd du (n - 2) * rd (rhs.set (n - 1) (rd rhs (n - 1) / rd d (n - 1))) (n - 1))
        / rd d (n - 2))).length = n := by simp [hr]
  have e1 : rd (rhs.set (n - 1) (rd rhs (n - 1) / rd d (n - 1))) (n - 2) = rd rhs (n - 2) :=
    rd_set_ne _ _ _ _ (by omega)
  have e2 : rd (rhs.set (n - 1) (rd rhs (n - 1) / rd d (n - 1))) (n - 1)
      = rd rhs (n - 1) / rd d (n - 1) := rd_set_eq _ _ _ (by omega)
  rw [e1, e2] at hl0 ⊢
  have key := forDown_inv (fun k (r : List ℚ) => r.length = n ∧
      (∀ j, j < k → rd r j = rd rhs j) ∧
      ∀ j, k ≤ j → j < n → rd d j * rd r j + (if j + 1 < n then rd du j * rd r (j + 1) else 0)
        + (if j + 2 < n then rd du2 j * rd r (j + 2) else 0) = rd rhs j) (n - 2) 0
      (Nat.zero_le _)
      (fun i rhs =>
        rhs.set i ((rd rhs i - rd du i * rd rhs (i + 1) - rd du2 i * rd rhs (i + 2)) / rd d i))
      ((rhs.set (n - 1) (rd rhs (n - 1) / rd d (n - 1))).set (n - 2)
        ((rd rhs (n - 2) - rd du (n - 2) * (rd rhs (n - 1) / rd d (n - 1))) / rd d (n - 2)))
      ?_ ?_
  · exact ⟨key.1, fun j hj => key.2.2 j (Nat.zero_le _) hj⟩
  · refine ⟨hl0, fun j hj => ?_, fun j h1 h2 => ?_⟩
    · rw [rd_set_ne _ _ _ _ (by omega), rd_set_ne _ _ _ _ (by omega)]
    · by_cases hj : j = n - 1
      · subst hj
        rw [if_neg (by omega), if_neg (by omega), rd_set_ne _ _ _ _ (by omega), e2,
          mul_div_cancel₀ _ (hd _ (by omega))]
        ring
      · have hj2 : j = n - 2 := by omega
        subst hj2
        have hn1 : n - 2 + 1 = n - 1 := by omega
        rw [if_pos (by omega), if_neg (by omega), hn1, rd_set_eq _ _ _ (by simp [hr]; omega),
          rd_set_ne _ _ _ _ (by omega), e2, mul_div_cancel₀ _ (hd _ (by omega))]
        ring
  · rintro i r _ h2 ⟨hl, hlow, hup⟩
    refine ⟨by simp [hl], fun j hj => ?_, fun j h3 h4 => ?_⟩
    · rw [rd_set_ne _ _ _ _ (by omega)]
      exact hlow j (by omega)
    · rw [rd_set_ne r i (j + 1) _ (by omega), rd_set_ne r i (j + 2) _ (by omega)]
      by_cases hij : i = j
      · subst hij
        rw [rd_set_eq _ _ _ (by omega), hlow i (by omega), if_pos (by omega), if_pos (by omega),
          mul_div_cancel₀ _ (hd _ (by omega))]
        ring
      · rw [rd_set_ne _ _ _ _ hij]
        exact hup j (by omega) h4

/-- A vector that satisfies the initial system of `gaussPivotIP` is a solution
of `A * x = b`. -/
theorem gaussSat_zero_op_mul (A : TDMatrix) (b x : List ℚ) (hN : 2 ≤ A.m_size) (hA : A.WF)
    (hb : b.length = A.m_size)
    (hs : gaussSat A.m_size 0
      { du := A.m_upper, d := A.m_diag, dl := A.m_lower, rhs := b } x) :
    A.op_mul x = b := by
  obtain ⟨_, hb0, hc⟩ := hs
  apply ext_rd
  · rw [TDMatrix.op_mul_length, hb]
  intro j hj
  rw [TDMatrix.op_mul_length] at hj
  rw [TDMatrix.op_mul_rd A x (by omega) j hj]
  by_cases h0 : j = 0
  · subst h0
    rw [if_pos rfl]
    have := hb0 (by omega)
    simp only [Nat.zero_add] at this
    linear_combination this
  · rw [if_neg h0]
    have := hc j (by omega) hj
    simp only at this
    by_cases hl : j = A.m_size - 1
    · rw [if_pos hl]
      have hu : rd A.m_upper j = 0 := rd_of_length_le _ _ (by rw [hA.2.2]; omega)
      rw [hu] at this
      linear_combination this
    · rw [if_neg hl]
      exact this

/-- C5. `gaussPivotIP` solves the system with partial pivoting: for every
tridiagonal matrix of size `N >= 2` and every `b` of length `N`, when the
diagonal of the upper-triangular factor left by the elimination has no zero
(these are the values the elimination and the back substitution divide by;
the divisor `dl[i]` of an interchange step is non-zero by the pivot test),
the vector `x` left in `b` satisfies `A * x = b`, rows interchanged or not. -/
theorem gaussPivotIP_solves (A : TDMatrix) (b : List ℚ) (hN : 2 ≤ A.m_size) (hA : A.WF)
    (hb : b.length = A.m_size)
    (hd : ∀ i, i < A.m_size → rd (algorithm.gaussEliminate A b).d i ≠ 0) :
    A.op_mul (algorithm.gaussPivotIP A b) = b := by
  have hw0 : GaussWork.WF A.m_size
      { du := A.m_upper, d := A.m_diag, dl := A.m_lower, rhs := b } := ⟨hA.1, hA.2.2, hA.2.1, hb⟩
  apply gaussSat_zero_op_mul A b _ hN hA hb
  have hloop := forUp_inv (fun k (w : GaussWork) => w.WF A.m_size ∧
      (gaussSat A.m_size k w (gaussPivotIP A b) → gaussSat A.m_size 0
        { du := A.m_upper, d := A.m_diag, dl := A.m_lower, rhs := b } (gaussPivotIP A b)))
      0 (A.m_size - 2) (Nat.zero_le _) gaussPivotStep
      { du := A.m_upper, d := A.m_diag, dl := A.m_lower, rhs := b } ⟨hw0, id⟩
      (fun i w _ h2 hP => ⟨gaussPivotStep_WF _ i w hP.1,
        fun hs => hP.2 (gaussPivotStep_sat _ i w _ hP.1 (by omega) hs)⟩)
  obtain ⟨hwl, himp⟩ := hloop
  have hwf : (gaussEliminate A b).WF A.m_size := gaussPivotLast_WF _ _ _ hwl
  obtain ⟨hxl, hx⟩ := gaussBackSolve_spec A.m_size (gaussEliminate A b).d (gaussEliminate A b).du
    (gaussEliminate A b).dl (gaussEliminate A b).rhs hN hwf.2.2.2 hd
  have hxe : gaussBackSolve A.m_size (gaussEliminate A b).d (gaussEliminate A b).du
    (gaussEliminate A b).dl (gaussEliminate A b).rhs = gaussPivotIP A b := rfl
  rw [hxe] at hxl hx
  apply himp
  apply gaussPivotLast_sat A.m_size (A.m_size - 2) _ _ hwl (by omega) hxl
  have hn1 : A.m_size - 2 + 1 = A.m_size - 1 := by omega
  rw [hn1]
  show gaussSat A.m_size (A.m_size - 1) (gaussEliminate A b) (gaussPivotIP A b)
  refine ⟨fun j hj hjn => ?_, fun hlt => ?_, fun j hj hjn => by omega⟩
  · have := hx j hjn
    rw [if_pos (by omega)] at this
    by_cases h2 : j + 2 < A.m_size
    · rw [if_pos h2] at this
      exact this
    · rw [if_neg h2] at this
      rw [rd_of_length_le (gaussPivotIP A b) (j + 2) (by omega)]
      linear_combination this
  · have := hx (A.m_size - 1) hlt
    rw [if_neg (by omega), if_neg (by omega)] at this
    rw [rd_of_length_le (gaussPivotIP A b) (A.m_size - 1 + 1) (by omega)]
    linear_combination this

/-- C5, witness: the unit test `GaussPivot test 1`; rows 0 and 1 are
interchanged in the first step, and the solution is {1,2,3,4,5}. -/
theorem gaussPivotIP_solves_witness :
    ¬ (|rd testMatrix5.m_diag 0| ≥ |rd testMatrix5.m_lower 0|) ∧
    algorithm.gaussPivotIP testMatrix5 testRhs5 = [1, 2, 3, 4, 5] ∧
    testMatrix5.op_mul (algorithm.gaussPivotIP testMatrix5 testRhs5) = testRhs5 :=
  ⟨by decide!, by decide!, gaussPivotIP_solves testMatrix5 testRhs5 (by decide) (by decide)
    (by decide) (by decide!)⟩

theorem rdi_set (v : List ℕ) (i j x : ℕ) :
    rdi (v.set i x) j = if i = j ∧ i < v.length then x else rdi v j := by
  simp only [rdi, List.getD_eq_getElem?_getD, List.getElem?_set]
  by_cases h : i = j
  · by_cases h2 : i < v.length
    · subst h
      simp [h2]
    · subst h
      have : v[i]? = none := by
        rw [List.getElem?_eq_none_iff]; omega
      simp [h2, this]
  · simp [h]

theorem set_rd_self (v : List ℚ) (i : ℕ) : v.set i (rd v i) = v := by
  apply ext_rd
  · simp
  · intro j _
    rw [rd_set]
    by_cases h : i = j ∧ i < v.length
    · rw [if_pos h, h.1]
    · rw [if_neg h]

theorem gaussFactorStep_noswap (k : ℕ) (m : TDMatrix) (h : |rd m.m_diag k| ≥ |rd m.m_lower k|) :
    gaussFactorStep k m =
      { m with
        m_lower := m.m_lower.set k (rd m.m_lower k / rd m.m_diag k)
        m_diag := m.m_diag.set (k + 1)
          (rd m.m_diag (k + 1) - rd m.m_lower k / rd m.m_diag k * rd m.m_upper k) } := by
  unfold gaussFactorStep
  rw [if_pos h]

theorem gaussFactorStep_swap (k : ℕ) (m : TDMatrix) (h : ¬ |rd m.m_diag k| ≥ |rd m.m_lower k|) :
    gaussFactorStep k m =
      { m with
        m_upper := (m.m_upper.set k (rd (m.m_diag.set k (rd m.m_lower k)) (k + 1))).set (k + 1)
          (-(rd m.m_diag k / rd m.m_lower k)
            * rd (m.m_upper.set k (rd (m.m_diag.set k (rd m.m_lower k)) (k + 1))) (k + 1))
        m_diag := (m.m_diag.set k (rd m.m_lower k)).set (k + 1)
          (rd m.m_upper k - rd m.m_diag k / rd m.m_lower k
            * rd (m.m_diag.set k (rd m.m_lower k)) (k + 1))
        m_lower := m.m_lower.set k (rd m.m_diag k / rd m.m_lower k)
        m_superupper := m.m_superupper.set k
          (rd (m.m_upper.set k (rd (m.m_diag.set k (rd m.m_lower k)) (k + 1))) (k + 1))
        m_ipivot := m.m_ipivot.set k (k + 1) } := by
  unfold gaussFactorStep
  rw [if_neg h]

/-- One factorisation step changes `m_lower` and `m_ipivot` at row `k` only. -/
theorem gaussFactorStep_frame (k : ℕ) (m : TDMatrix) :
    (gaussFactorStep k m).m_size = m.m_size ∧
    (gaussFactorStep k m).m_lower.length = m.m_lower.length ∧
    (gaussFactorStep k m).m_superupper.length = m.m_superupper.length ∧
    (gaussFactorStep k m).m_ipivot.length = m.m_ipivot.length ∧
    ∀ j, j ≠ k → rd (gaussFactorStep k m).m_lower j = rd m.m_lower j ∧
      rd (gaussFactorStep k m).m_superupper j = rd m.m_superupper j ∧
      rdi (gaussFactorStep k m).m_ipivot j = rdi m.m_ipivot j := by
  by_cases h : |rd m.m_diag k| ≥ |rd m.m_lower k|
  · rw [gaussFactorStep_noswap k m h]
    refine ⟨rfl, by simp, rfl, rfl, fun j hj => ⟨rd_set_ne _ _ _ _ (Ne.symm hj), rfl, rfl⟩⟩
  · rw [gaussFactorStep_swap k m h]
    refine ⟨rfl, by simp, by simp, by simp, fun j hj => ⟨rd_set_ne _ _ _ _ (Ne.symm hj),
      rd_set_ne _ _ _ _ (Ne.symm hj), ?_⟩⟩
    simp only
    rw [rdi_set, if_neg (by omega)]

/-- One elimination step of `gaussPivotIP` and one factorisation step of
`gaussReUsePivotIP` keep the simulation relation, and the right-hand side
update of the former is the `L`-solve step with the stored multiplier. -/
theorem gaussStep_sim (n k : ℕ) (w : GaussWork) (m : TDMatrix) (hk : k + 2 < n)
    (hs : gaussSim n k w m) :
    gaussSim n (k + 1) (gaussPivotStep k w) (gaussFactorStep k m) ∧
    (gaussPivotStep k w).rhs = gaussLSolveStep (gaussFactorStep k m) k w.rhs := by
  obtain ⟨hd, hdu, hdl, hsu, hz, hip, hw, hll, hsl, hil, hsz⟩ := hs
  obtain ⟨f1, f2, f3, f4, f5⟩ := gaussFactorStep_frame k m
  have hwf := gaussPivotStep_WF n k w hw
  obtain ⟨w1, w2, w3, w4⟩ := hw
  have hdlk := hdl k le_rfl
  have hfr := fun j (hj : j ≠ k) => (gaussPivotStep_frame k w j hj).1
  by_cases h : |rd w.d k| ≥ |rd w.dl k|
  · have h' : |rd m.m_diag k| ≥ |rd m.m_lower k| := by rw [← hd, ← hdlk]; exact h
    have eW := gaussPivotStep_noswap k w h
    have eM := gaussFactorStep_noswap k m h'
    refine ⟨⟨?_, ?_, ?_, ?_, ?_, ?_, hwf, by rw [f2, hll], by rw [f3, hsl], by rw [f4, hil],
      by rw [f1, hsz]⟩, ?_⟩
    · rw [eW, eM]
      simp only
      rw [hd, hdu, hdlk]
    · rw [eW, eM]
      exact hdu
    · intro j hj
      rw [hfr j (by omega), (f5 j (by omega)).1]
      exact hdl j (by omega)
    · intro j hj
      by_cases hjk : j = k
      · subst hjk
        rw [eW, eM]
        simp only
        rw [rd_set_eq _ _ _ (by omega), hz j le_rfl]
      · rw [hfr j hjk, (f5 j hjk).2.1]
        exact hsu j (by omega)
    · intro j hj
      rw [(f5 j (by omega)).2.1]
      exact hz j (by omega)
    · intro j hj hjn
      rw [(f5 j (by omega)).2.2]
      exact hip j (by omega) hjn
    · unfold gaussLSolveStep
      have hipk : rdi (gaussFactorStep k m).m_ipivot k = k := by
        rw [eM]
        exact hip k le_rfl (by omega)
      have hlk : rd (gaussFactorStep k m).m_lower k = rd m.m_lower k / rd m.m_diag k := by
        rw [eM]
        exact rd_set_eq _ _ _ (by omega)
      simp only
      rw [hipk, hlk, set_rd_self, eW]
      simp only
      have e : 2 * k + 1 - k = k + 1 := by omega
      rw [e, hd, hdlk]
  · have h' : ¬ |rd m.m_diag k| ≥ |rd m.m_lower k| := by rw [← hd, ← hdlk]; exact h
    have eW := gaussPivotStep_swap k w h
    have eM := gaussFactorStep_swap k m h'
    refine ⟨⟨?_, ?_, ?_, ?_, ?_, ?_, hwf, by rw [f2, hll], by rw [f3, hsl], by rw [f4, hil],
      by rw [f1, hsz]⟩, ?_⟩
    · rw [eW, eM]
      simp only
      rw [hd, hdu, hdlk]
    · rw [eW, eM]
      simp only
      rw [rd_set_eq _ _ _ (by omega), rd_set_ne m.m_upper k (k + 1) _ (by omega), hd, hdu,
        hdlk]
      exact List.set_comm _ _ _ (by omega)
    · intro j hj
      rw [hfr j (by omega), (f5 j (by omega)).1]
      exact hdl j (by omega)
    · intro j hj
      by_cases hjk : j = k
      · subst hjk
        rw [eW, eM]
        simp only
        rw [rd_set_eq _ _ _ (by omega), rd_set_eq _ _ _ (by omega),
          rd_set_ne _ _ _ _ (by omega), hdu]
      · rw [hfr j hjk, (f5 j hjk).2.1]
        exact hsu j (by omega)
    · intro j hj
      rw [(f5 j (by omega)).2.1]
      exact hz j (by omega)
    · intro j hj hjn
      rw [(f5 j (by omega)).2.2]
      exact hip j (by omega) hjn
    · unfold gaussLSolveStep
      have hipk : rdi (gaussFactorStep k m).m_ipivot k = k + 1 := by
        rw [eM]
        simp only
        rw [rdi_set, if_pos ⟨rfl, by omega⟩]
      have hlk : rd (gaussFactorStep k m).m_lower k = rd m.m_diag k / rd m.m_lower k := by
        rw [eM]
        exact rd_set_eq _ _ _ (by omega)
      simp only
      rw [hipk, hlk, eW]
      simp only
      have e : 2 * k + 1 - (k + 1) = k := by omega
      rw [e, hd, hdlk, rd_set_ne _ _ _ _ (by omega)]

theorem gaussFactorLast_noswap (k : ℕ) (m : TDMatrix) (h : |rd m.m_diag k| ≥ |rd m.m_lower k|) :
    gaussFactorLast k m =
      { m with
        m_lower := m.m_lower.set k (rd m.m_lower k / rd m.m_diag k)
        m_diag := m.m_diag.set (k + 1)
          (rd m.m_diag (k + 1) - rd m.m_lower k / rd m.m_diag k * rd m.m_upper k) } := by
  unfold gaussFactorLast
  rw [if_pos h]

theorem gaussFactorLast_swap (k : ℕ) (m : TDMatrix) (h : ¬ |rd m.m_diag k| ≥ |rd m.m_lower k|) :
    gaussFactorLast k m =
      { m with
        m_upper := m.m_upper.set k (rd (m.m_diag.set k (rd m.m_lower k)) (k + 1))
        m_diag := (m.m_diag.set k (rd m.m_lower k)).set (k + 1)
          (rd m.m_upper k - rd m.m_diag k / rd m.m_lower k
            * rd (m.m_diag.set k (rd m.m_lower k)) (k + 1))
        m_lower := m.m_lower.set k (rd m.m_diag k / rd m.m_lower k)
        m_ipivot := m.m_ipivot.set k (k + 1) } := by
  unfold gaussFactorLast
  rw [if_neg h]

/-- The last factorisation step changes `m_lower` and `m_ipivot` at row `k`
only and leaves `m_superupper` alone. -/
theorem gaussFactorLast_frame (k : ℕ) (m : TDMatrix) :
    (gaussFactorLast k m).m_size = m.m_size ∧
    (gaussFactorLast k m).m_superupper = m.m_superupper ∧
    ∀ j, j ≠ k → rd (gaussFactorLast k m).m_lower j = rd m.m_lower j ∧
      rdi (gaussFactorLast k m).m_ipivot j = rdi m.m_ipivot j := by
  by_cases h : |rd m.m_diag k| ≥ |rd m.m_lower k|
  · rw [gaussFactorLast_noswap k m h]
    exact ⟨rfl, rfl, fun j hj => ⟨rd_set_ne _ _ _ _ (Ne.symm hj), rfl⟩⟩
  · rw [gaussFactorLast_swap k m h]
    refine ⟨rfl, rfl, fun j hj => ⟨rd_set_ne _ _ _ _ (Ne.symm hj), ?_⟩⟩
    simp only
    rw [rdi_set, if_neg (by omega)]

/-- The last elimination step and the last factorisation step agree. -/
theorem gaussLast_sim (n k : ℕ) (w : GaussWork) (m : TDMatrix) (hk : k + 2 = n)
    (hs : gaussSim n k w m) :
    (gaussPivotLast k w).d = (gaussFactorLast k m).m_diag ∧
    (gaussPivotLast k w).du = (gaussFactorLast k m).m_upper ∧
    (∀ j, j < k → rd (gaussPivotLast k w).dl j = rd (gaussFactorLast k m).m_superupper j) ∧
    (gaussPivotLast k w).rhs = gaussLSolveStep (gaussFactorLast k m) k w.rhs := by
  obtain ⟨hd, hdu, hdl, hsu, hz, hip, hw, hll, hsl, hil, hsz⟩ := hs
  obtain ⟨f1, f2, f5⟩ := gaussFactorLast_frame k m
  obtain ⟨w1, w2, w3, w4⟩ := hw
  have hdlk := hdl k le_rfl
  by_cases h : |rd w.d k| ≥ |rd w.dl k|
  · have h' : |rd m.m_diag k| ≥ |rd m.m_lower k| := by rw [← hd, ← hdlk]; exact h
    have eW := gaussPivotLast_noswap k w h
    have eM := gaussFactorLast_noswap k m h'
    refine ⟨?_, ?_, ?_, ?_⟩
    · rw [eW, eM]
      simp only
      rw [hd, hdu, hdlk]
    · rw [eW, eM]
      exact hdu
    · intro j hj
      rw [gaussPivotLast_dl, f2]
      exact hsu j hj
    · unfold gaussLSolveStep
      have hipk : rdi (gaussFactorLast k m).m_ipivot k = k := by
        rw [eM]
        exact hip k le_rfl (by omega)
      have hlk : rd (gaussFactorLast k m).m_lower k = rd m.m_lower k / rd m.m_diag k := by
        rw [eM]
        exact rd_set_eq _ _ _ (by omega)
      simp only
      rw [hipk, hlk, set_rd_self, eW]
      simp only
      have e : 2 * k + 1 - k = k + 1 := by omega
      rw [e, hd, hdlk]
  · have h' : ¬ |rd m.m_diag k| ≥ |rd m.m_lower k| := by rw [← hd, ← hdlk]; exact h
    have eW := gaussPivotLast_swap k w h
    have eM := gaussFactorLast_swap k m h'
    refine ⟨?_, ?_, ?_, ?_⟩
    · rw [eW, eM]
      simp only
      rw [hd, hdu, hdlk]
    · rw [eW, eM]
      simp only
      rw [hd, hdu, hdlk]
    · intro j hj
      rw [gaussPivotLast_dl, f2]
      exact hsu j hj
    · unfold gaussLSolveStep
      have hipk : rdi (gaussFactorLast k m).m_ipivot k = k + 1 := by
        rw [eM]
        simp only
        rw [rdi_set, if_pos ⟨rfl, by omega⟩]
      have hlk : rd (gaussFactorLast k m).m_lower k = rd m.m_diag k / rd m.m_lower k := by
        rw [eM]
        exact rd_set_eq _ _ _ (by omega)
      simp only
      rw [hipk, hlk, eW]
      simp only
      have e : 2 * k + 1 - (k + 1) = k := by omega
      rw [e, hd, hdlk, rd_set_ne _ _ _ _ (by omega)]

theorem resize_length {α : Type} [Zero α] (v : List α) (n : ℕ) : (resize v n).length = n := by
  unfold resize
  simp only [List.length_append, List.length_take, List.length_replicate]
  omega

/-- The loop `for (i = 0; i < n; ++i) ipiv[i] = i`. -/
theorem forUp_set_index (hi : ℕ) (r : List ℕ) :
    (forUp 0 hi (fun i (r : List ℕ) => r.set i i) r).length = r.length ∧
    ∀ j, j < hi → j < r.length → rdi (forUp 0 hi (fun i (r : List ℕ) => r.set i i) r) j = j := by
  apply forUp_inv (fun k (s : List ℕ) => s.length = r.length ∧
    ∀ j, j < k → j < r.length → rdi s j = j) 0 hi (Nat.zero_le _)
  · exact ⟨rfl, fun j hj => by omega⟩
  · rintro i s _ _ ⟨hl, hs⟩
    refine ⟨by simp [hl], fun j hj hjr => ?_⟩
    rw [rdi_set, hl]
    by_cases hij : i = j
    · rw [if_pos ⟨hij, by omega⟩, hij]
    · rw [if_neg (by omega)]
      exact hs j (by omega) hjr

theorem gaussInit_ipiv (m0 : TDMatrix) (n : ℕ) :
    forUp 0 n (fun i (m : TDMatrix) => { m with m_ipivot := m.m_ipivot.set i i }) m0
    = { m0 with m_ipivot := forUp 0 n (fun i (r : List ℕ) => r.set i i) m0.m_ipivot } := by
  apply forUp_inv (fun k (m : TDMatrix) => m = { m0 with
        m_ipivot := forUp 0 k (fun i (r : List ℕ) => r.set i i) m0.m_ipivot }) 0 n
      (Nat.zero_le _)
  · rw [forUp_self]
  · intro i m h1 _ hm
    rw [forUp_succ 0 i h1, hm]

theorem gaussInit_du2 (m0 : TDMatrix) (n : ℕ) :
    forUp 0 n (fun i (m : TDMatrix) => { m with m_superupper := m.m_superupper.set i 0 }) m0
    = { m0 with
        m_superupper := forUp 0 n (fun i (r : List ℚ) => r.set i 0) m0.m_superupper } := by
  apply forUp_inv (fun k (m : TDMatrix) => m = { m0 with
        m_superupper := forUp 0 k (fun i (r : List ℚ) => r.set i 0) m0.m_superupper }) 0 n
      (Nat.zero_le _)
  · rw [forUp_self]
  · intro i m h1 _ hm
    rw [forUp_succ 0 i h1, hm]

theorem gaussPrepare_eq (A : TDMatrix) :
    gaussPrepare A = { gaussFactorLast (A.m_size - 2)
      (forUp 0 (A.m_size - 2) gaussFactorStep (gaussInit A)) with m_prepared := true } := rfl

/-- The initial states of the two solvers are in the simulation relation. -/
theorem gaussInit_sim (A : TDMatrix) (b : List ℚ) (hA : A.WF) (hb : b.length = A.m_size) :
    gaussSim A.m_size 0 { du := A.m_upper, d := A.m_diag, dl := A.m_lower, rhs := b }
      (gaussInit A) := by
  have e : gaussInit A = { A with
      m_superupper := forUp 0 (A.m_size - 2) (fun i (r : List ℚ) => r.set i 0)
        (resize A.m_superupper (A.m_size - 2))
      m_ipivot := forUp 0 A.m_size (fun i (r : List ℕ) => r.set i i)
        (resize A.m_ipivot A.m_size) } := by
    unfold gaussInit
    rw [gaussInit_ipiv, gaussInit_du2]
  obtain ⟨z1, z2⟩ := forUp_set_const (fun _ => (0 : ℚ)) 0 (A.m_size - 2)
    (resize A.m_superupper (A.m_size - 2))
  obtain ⟨i1, i2⟩ := forUp_set_index A.m_size (resize A.m_ipivot A.m_size)
  rw [resize_length] at z1 i1
  rw [e]
  refine ⟨rfl, rfl, fun _ _ => rfl, fun j hj => by omega, fun j _ => ?_, fun j _ hj => ?_,
    ⟨hA.1, hA.2.2, hA.2.1, hb⟩, hA.2.1, z1, i1, rfl⟩
  · show rd (forUp 0 (A.m_size - 2) (fun i (r : List ℚ) => r.set i 0)
        (resize A.m_superupper (A.m_size - 2))) j = 0
    rw [z2 j]
    by_cases hc : 0 ≤ j ∧ j < A.m_size - 2 ∧ j < (resize A.m_superupper (A.m_size - 2)).length
    · rw [if_pos hc]
    · rw [if_neg hc]
      rw [resize_length] at hc
      exact rd_of_length_le _ _ (by rw [resize_length]; omega)
  · exact i2 j hj (by rw [resize_length]; exact hj)

theorem gaussLSolveStep_congr (m m' : TDMatrix) (i : ℕ) (s : List ℚ)
    (h1 : rd m.m_lower i = rd m'.m_lower i) (h2 : rdi m.m_ipivot i = rdi m'.m_ipivot i) :
    gaussLSolveStep m i s = gaussLSolveStep m' i s := by
  unfold gaussLSolveStep
  rw [h1, h2]

/-- The elimination loop of `gaussPivotIP` and the factorisation loop of
`gaussReUsePivotIP` run in lockstep. -/
theorem gaussLoop_sim (n : ℕ) (w0 : GaussWork) (m0 : TDMatrix) (hs0 : gaussSim n 0 w0 m0)
    (k : ℕ) (hk : k + 2 ≤ n) :
    gaussSim n k (forUp 0 k gaussPivotStep w0) (forUp 0 k gaussFactorStep m0) ∧
    (forUp 0 k gaussPivotStep w0).rhs
      = forUp 0 k (gaussLSolveStep (forUp 0 k gaussFactorStep m0)) w0.rhs := by
  induction k with
  | zero =>
    rw [forUp_self, forUp_self, forUp_self]
    exact ⟨hs0, rfl⟩
  | succ k ih =>
    obtain ⟨hs, hr⟩ := ih (by omega)
    rw [forUp_succ 0 k (Nat.zero_le _), forUp_succ 0 k (Nat.zero_le _)]
    obtain ⟨hs', hr'⟩ := gaussStep_sim n k _ _ (by omega) hs
    refine ⟨hs', ?_⟩
    rw [hr', hr, forUp_succ 0 k (Nat.zero_le _)]
    congr 1
    apply forUp_congr
    intro i s _ hi
    obtain ⟨_, _, _, _, f5⟩ := gaussFactorStep_frame k (forUp 0 k gaussFactorStep m0)
    obtain ⟨g1, _, g3⟩ := f5 i (by omega)
    exact gaussLSolveStep_congr _ _ i s g1.symm g3.symm

theorem gaussBackSolve_congr (n : ℕ) (d du du2 du2' rhs : List ℚ)
    (h : ∀ j, j < n - 2 → rd du2 j = rd du2' j) :
    gaussBackSolve n d du du2 rhs = gaussBackSolve n d du du2' rhs := by
  unfold gaussBackSolve
  simp only
  apply forDown_congr
  intro i s _ hi
  rw [h i hi]

/-- The factorisation stored by `gaussReUsePivotIP` reproduces the working
copies of `gaussPivotIP` after its elimination. -/
theorem gaussPrepare_spec (A : TDMatrix) (b : List ℚ) (hN : 2 ≤ A.m_size) (hA : A.WF)
    (hb : b.length = A.m_size) :
    (gaussEliminate A b).d = (gaussPrepare A).m_diag ∧
    (gaussEliminate A b).du = (gaussPrepare A).m_upper ∧
    (∀ j, j < A.m_size - 2 → rd (gaussEliminate A b).dl j = rd (gaussPrepare A).m_superupper j) ∧
    (gaussEliminate A b).rhs = gaussLSolve (gaussPrepare A) b ∧
    (gaussPrepare A).m_size = A.m_size ∧ (gaussPrepare A).m_prepared = true := by
  obtain ⟨hs, hr⟩ := gaussLoop_sim A.m_size _ _ (gaussInit_sim A b hA hb) (A.m_size - 2)
    (by omega)
  obtain ⟨l1, l2, l3, l4⟩ := gaussLast_sim A.m_size (A.m_size - 2) _ _ (by omega) hs
  obtain ⟨f1, _, f5⟩ := gaussFactorLast_frame (A.m_size - 2)
    (forUp 0 (A.m_size - 2) gaussFactorStep (gaussInit A))
  have hsz : (gaussPrepare A).m_size = A.m_size := by
    rw [gaussPrepare_eq]
    show (gaussFactorLast _ _).m_size = A.m_size
    rw [f1]
    exact hs.2.2.2.2.2.2.2.2.2.2
  refine ⟨l1, l2, l3, ?_, hsz, rfl⟩
  show (gaussPivotLast _ _).rhs = _
  rw [l4, hr]
  unfold gaussLSolve
  rw [hsz]
  have e : A.m_size - 1 = (A.m_size - 2) + 1 := by omega
  rw [e, forUp_succ 0 _ (Nat.zero_le _)]
  have e2 : gaussLSolveStep (gaussPrepare A) = gaussLSolveStep (gaussFactorLast (A.m_size - 2)
      (forUp 0 (A.m_size - 2) gaussFactorStep (gaussInit A))) := rfl
  rw [e2]
  congr 1
  apply forUp_congr
  intro i s _ hi
  obtain ⟨g1, g3⟩ := f5 i (by omega)
  exact gaussLSolveStep_congr _ _ i s g1.symm g3.symm

/-- C6. The cached pivoted-Gauss solver agrees with the plain one on the
first and on every later call: for an unprepared matrix `A0` of size
`N >= 2` and right-hand sides `b1`, `b2` of length `N`,
`gaussReUsePivotIP(A, b1)` on `A = A0` returns the vector of
`gaussPivotIP(A0, b1)` and sets `prepared`, and a following
`gaussReUsePivotIP(A, b2)` on the factorised matrix (stored multipliers,
super-upper band, pivot indices) returns the vector of
`gaussPivotIP(A0, b2)`. Both solvers perform the same divisions, so the
equalities need no hypothesis on the divisors. -/
theorem gaussReUsePivotIP_agrees (A0 : TDMatrix) (b1 b2 : List ℚ) (hN : 2 ≤ A0.m_size)
    (hA : A0.WF) (hprep : A0.m_prepared = false) (hb1 : b1.length = A0.m_size)
    (hb2 : b2.length = A0.m_size) :
    (algorithm.gaussReUsePivotIP A0 b1).2 = algorithm.gaussPivotIP A0 b1 ∧
    (algorithm.gaussReUsePivotIP A0 b1).1.m_prepared = true ∧
    (algorithm.gaussReUsePivotIP (algorithm.gaussReUsePivotIP A0 b1).1 b2).2
      = algorithm.gaussPivotIP A0 b2 := by
  have key : ∀ b, b.length = A0.m_size →
      gaussBackSolve A0.m_size (gaussPrepare A0).m_diag (gaussPrepare A0).m_upper
        (gaussPrepare A0).m_superupper (gaussLSolve (gaussPrepare A0) b) = gaussPivotIP A0 b := by
    intro b hb
    obtain ⟨h1, h2, h3, h4, _, _⟩ := gaussPrepare_spec A0 b hN hA hb
    unfold gaussPivotIP
    simp only
    rw [h1, h2, h4]
    exact (gaussBackSolve_congr _ _ _ _ _ _ h3).symm
  obtain ⟨_, _, _, _, hsz, hp⟩ := gaussPrepare_spec A0 b1 hN hA hb1
  have hm : (gaussReUsePivotIP A0 b1).1 = gaussPrepare A0 := by
    unfold gaussReUsePivotIP
    simp only [hprep, Bool.not_false, if_true]
  refine ⟨?_, by rw [hm, hp], ?_⟩
  · unfold gaussReUsePivotIP
    simp only [hprep, Bool.not_false, if_true]
    exact key b1 hb1
  · rw [hm]
    unfold gaussReUsePivotIP
    simp only [hp, Bool.not_true, Bool.false_eq_true, if_false, hsz]
    exact key b2 hb2

/-- C6, witness: the unit test `GaussReUsePivot test 1`, solved twice. -/
theorem gaussReUsePivotIP_agrees_witness :
    (algorithm.gaussReUsePivotIP testMatrix5 testRhs5).2 = [1, 2, 3, 4, 5] ∧
    (algorithm.gaussReUsePivotIP (algorithm.gaussReUsePivotIP testMatrix5 testRhs5).1
      testRhs5).2 = algorithm.gaussPivotIP testMatrix5 testRhs5 :=
  ⟨by decide!, (gaussReUsePivotIP_agrees testMatrix5 testRhs5 testRhs5 (by decide) (by decide)
    rfl rfl rfl).2.2⟩

/-- The compartment loop of the equidistant branch, from any loop state. -/
theorem equiFold_spec (s : ℤ) (comps : List Compartment) (st : EquiLoop) :
    (comps.foldl (equiStep s) st).size = st.size + (comps.map (fun c => c.m_size)).sum ∧
    (comps.foldl (equiStep s) st).counter
      = st.counter + (comps.map (fun c => c.m_size)).sum * s ∧
    (comps.foldl (equiStep s) st).done = st.done ++ assignRanges s st.counter comps := by
  induction comps generalizing st with
  | nil => simp [assignRanges]
  | cons c cs ih =>
    simp only [List.foldl_cons, List.map_cons, List.sum_cons]
    obtain ⟨h1, h2, h3⟩ := ih (equiStep s st c)
    rw [h1, h2, h3]
    refine ⟨?_, ?_, ?_⟩
    · simp only [equiStep]
      ring
    · simp only [equiStep]
      ring
    · simp only [equiStep, assignRanges, List.append_assoc, List.singleton_append]

theorem sum_sizes_pos (comps : List Compartment) (hne : comps ≠ [])
    (hh : ∀ c ∈ comps, 1 ≤ c.m_size) : 1 ≤ (comps.map (fun c => c.m_size)).sum := by
  induction comps with
  | nil => exact absurd rfl hne
  | cons c cs ih =>
    simp only [List.map_cons, List.sum_cons]
    have hc := hh c (List.mem_cons_self _ _)
    by_cases hcs : cs = []
    · subst hcs
      simpa using hc
    · have := ih hcs (fun c' hc' => hh c' (List.mem_cons_of_mem _ hc'))
      omega

/-- The equidistant branch on compartments of thickness at least 1 with at
least one subdivision per micrometre. -/
theorem createEqui_spec (g : Geometry) (comps : List Compartment) (s : ℤ) (sink : Option Sink)
    (hne : comps ≠ []) (hh : ∀ c ∈ comps, 1 ≤ c.m_size) (hs : 1 ≤ s) :
    (g.createEqui comps s sink).ok = true ∧
    ((g.createEqui comps s sink).geometry.size : ℤ)
      = (comps.map (fun c => c.m_size)).sum * s + (if sink.isSome then 1 else 0) ∧
    (g.createEqui comps s sink).geometry.m_space_steps
      = List.replicate (g.createEqui comps s sink).geometry.size (1 / (s : ℚ)) ∧
    (g.createEqui comps s sink).geometry.m_min_space_step = 1 / (s : ℚ) ∧
    (g.createEqui comps s sink).geometry.m_max_space_step = 1 / (s : ℚ) ∧
    (g.createEqui comps s sink).compartments = assignRanges s 0 comps ∧
    (g.createEqui comps s sink).sink = sink.map (fun k =>
      k.setGeometryIdx ((comps.map (fun c => c.m_size)).sum * s)
        ((comps.map (fun c => c.m_size)).sum * s)) := by
  obtain ⟨h1, h2, h3⟩ := equiFold_spec s comps { counter := 0, size := 0, done := [] }
  simp only [zero_add, List.nil_append] at h1 h2 h3
  have hsum := sum_sizes_pos comps hne hh
  have hpos : 0 < (comps.map (fun c => c.m_size)).sum * s := by positivity
  have hsize : (if sink.isSome = true then (comps.map (fun c => c.m_size)).sum * s + 1
      else (comps.map (fun c => c.m_size)).sum * s) > 0 := by
    split <;> omega
  unfold Geometry.createEqui
  simp only [h1, h2, h3, decide_eq_true hsize, if_true, Geometry.size, List.length_replicate]
  refine ⟨trivial, ?_, trivial, trivial, trivial, trivial, trivial⟩
  rw [Int.toNat_of_nonneg (le_of_lt hsize)]
  split <;> simp

/-- C10. Equidistant mesh size and step: for every non-empty list of
compartments with thicknesses `h_k >= 1` and every `ss_per_um = s >= 1`,
`Geometry::create` with method `EQUI_DIST` (and also with `B_AND_K` when
`s = 1` or there is a single compartment) returns true with
`size() = (sum of h_k)*s + (1 if a sink is given, else 0)`, every space step
equal to `1/s`, and `minSpaceStep() = maxSpaceStep() = 1/s`. -/
theorem create_equidistant_size_and_step (g : Geometry) (method : DiscMethod)
    (comps : List Compartment) (s : ℤ) (sink : Option Sink) (t : Transition)
    (hne : comps ≠ []) (hh : ∀ c ∈ comps, 1 ≤ c.m_size) (hs : 1 ≤ s)
    (hm : method = DiscMethod.EQUI_DIST ∨
      (method = DiscMethod.B_AND_K ∧ (s = 1 ∨ comps.length = 1))) :
    (g.create method comps s sink t).ok = true ∧
    ((g.create method comps s sink t).geometry.size : ℤ)
      = (comps.map (fun c => c.m_size)).sum * s + (if sink.isSome then 1 else 0) ∧
    (g.create method comps s sink t).geometry.m_space_steps
      = List.replicate (g.create method comps s sink t).geometry.size (1 / (s : ℚ)) ∧
    (g.create method comps s sink t).geometry.minSpaceStep = 1 / (s : ℚ) ∧
    (g.create method comps s sink t).geometry.maxSpaceStep = 1 / (s : ℚ) := by
  have hc : method = DiscMethod.EQUI_DIST ∨ s = 1 ∨ comps.length = 1 := by
    rcases hm with h | ⟨_, h⟩
    · exact Or.inl h
    · exact Or.inr h
  unfold Geometry.create
  simp only [if_pos hc]
  obtain ⟨h1, h2, h3, h4, h5, _, _⟩ := createEqui_spec
    { g with
      m_disc_method := method
      m_space_steps := []
      m_min_space_step := 1
      m_max_space_step := 1 } comps s sink hne hh hs
  exact ⟨h1, h2, h3, h4, h5⟩

/-- C10, witness: the vehicle and the layer of scenario S1 (`h = 10` each)
with two subdivisions per micrometre and a sink: 41 cells of width 1/2. -/
theorem create_equidistant_size_and_step_witness :
    (Geometry.new.create DiscMethod.EQUI_DIST scenarioS1 2 (some perfectSink)
      noTransition).geometry.size = 41 ∧
    (Geometry.new.create DiscMethod.EQUI_DIST scenarioS1 2 (some perfectSink)
      noTransition).geometry.m_space_steps
      = List.replicate (Geometry.new.create DiscMethod.EQUI_DIST scenarioS1 2 (some perfectSink)
          noTransition).geometry.size (1 / ((2 : ℤ) : ℚ)) :=
  ⟨by decide!, (create_equidistant_size_and_step Geometry.new DiscMethod.EQUI_DIST scenarioS1 2
    (some perfectSink) noTransition (by decide) (by decide) (by decide)
    (Or.inl rfl)).2.2.1⟩

/-- A loop that stores at the shifted index `a + k`. -/
theorem forUp_set_add (f : ℕ → ℚ) (a n : ℕ) (r : List ℚ) :
    (forUp 0 n (fun k r => r.set (a + k) (f k)) r).length = r.length ∧
    ∀ j, rd (forUp 0 n (fun k r => r.set (a + k) (f k)) r) j
      = if a ≤ j ∧ j < a + n ∧ j < r.length then f (j - a) else rd r j := by
  apply forUp_inv (fun k (s : List ℚ) => s.length = r.length ∧
    ∀ j, rd s j = if a ≤ j ∧ j < a + k ∧ j < r.length then f (j - a) else rd r j) 0 n
    (Nat.zero_le _)
  · refine ⟨rfl, fun j => ?_⟩
    rw [if_neg (by omega)]
  · rintro i s _ _ ⟨hl, hs⟩
    refine ⟨by simp [hl], fun j => ?_⟩
    rw [rd_set, hs j, hl]
    by_cases hij : a + i = j
    · subst hij
      by_cases hlen : a + i < r.length
      · rw [if_pos ⟨rfl, hlen⟩, if_pos (by omega)]
        congr 1
        omega
      · rw [if_neg (by omega), if_neg (by omega), if_neg (by omega)]
    · rw [if_neg (by omega)]
      by_cases hc : a ≤ j ∧ j < a + i ∧ j < r.length
      · rw [if_pos hc, if_pos (by omega)]
      · rw [if_neg hc, if_neg (by omega)]

/-- A loop that stores at the index `i - 1`. -/
theorem forUp_set_pred (f : ℕ → ℚ) (n : ℕ) (r : List ℚ) :
    (forUp 1 n (fun i r => r.set (i - 1) (f i)) r).length = r.length ∧
    ∀ j, rd (forUp 1 n (fun i r => r.set (i - 1) (f i)) r) j
      = if j + 1 < n ∧ j < r.length then f (j + 1) else rd r j := by
  rcases Nat.lt_or_ge n 1 with hlt | h
  · rw [forUp_of_le 1 n (by omega)]
    refine ⟨rfl, fun j => ?_⟩
    rw [if_neg (by omega)]
  apply forUp_inv (fun k (s : List ℚ) => s.length = r.length ∧
    ∀ j, rd s j = if j + 1 < k ∧ j < r.length then f (j + 1) else rd r j) 1 n h
  · refine ⟨rfl, fun j => ?_⟩
    rw [if_neg (by omega)]
  · rintro i s h1 _ ⟨hl, hs⟩
    refine ⟨by simp [hl], fun j => ?_⟩
    rw [rd_set, hs j, hl]
    by_cases hij : i - 1 = j
    · subst hij
      have e : i - 1 + 1 = i := by omega
      by_cases hlen : i - 1 < r.length
      · rw [if_pos ⟨rfl, hlen⟩, if_pos (by omega), e]
      · rw [if_neg (by omega), if_neg (by omega), if_neg (by omega)]
    · rw [if_neg (by omega)]
      by_cases hc : j + 1 < i ∧ j < r.length
      · rw [if_pos hc, if_pos (by omega)]
      · rw [if_neg hc, if_neg (by omega)]

/-- The write loop of `createParamVector` over one compartment's range. -/
theorem paramRange_spec (a : ℤ) (ha : 0 ≤ a) (cnt : ℕ) (val : ℚ) (r : List ℚ) :
    (forUpZ a (a + cnt) (fun i result => wrZ result i val) r).length = r.length ∧
    ∀ j, rd (forUpZ a (a + cnt) (fun i result => wrZ result i val) r) j
      = if a.toNat ≤ j ∧ j < a.toNat + cnt ∧ j < r.length then val else rd r j := by
  have e : forUpZ a (a + cnt) (fun i result => wrZ result i val) r
      = forUp 0 cnt (fun k r => r.set (a.toNat + k) ((fun _ => val) k)) r := by
    unfold forUpZ
    have e1 : (a + (cnt : ℤ) - a).toNat = cnt := by simp
    rw [e1]
    apply forUp_congr
    intro i s _ _
    have h0 : 0 ≤ a + (i : ℤ) := by omega
    have h1 : (a + (i : ℤ)).toNat = a.toNat + i := by omega
    simp only [wrZ, if_pos h0, h1]
  rw [e]
  exact forUp_set_add (fun _ => val) a.toNat cnt r

theorem wrZ_nonneg (v : List ℚ) (i : ℤ) (x : ℚ) (h : 0 ≤ i) : wrZ v i x = v.set i.toNat x := by
  unfold wrZ
  rw [if_pos h]

theorem wrZ_length (v : List ℚ) (i : ℤ) (x : ℚ) : (wrZ v i x).length = v.length := by
  unfold wrZ
  split
  · simp
  · rfl

theorem rdZ_nonneg (v : List ℚ) (i : ℤ) (h : 0 ≤ i) : rdZ v i = rd v i.toNat := by
  unfold rdZ
  rw [if_pos h]

/-- The compartment loop of `createParamVector` over equidistant ranges that
start at cell `start`: every cell below the end of the last range holds a
positive value when the cells below `start` do and `f` is positive. -/
theorem paramFold_pos (f : Compartment → ℚ) (s : ℤ) (hs : 1 ≤ s)
    (hf : ∀ (c : Compartment) (a b : ℤ), f (c.setGeometryIdx a b) = f c)
    (comps : List Compartment) :
    ∀ (start : ℤ) (r : List ℚ), 0 ≤ start → (∀ c ∈ comps, 1 ≤ c.m_size ∧ 0 < f c) →
      (∀ j, j < start.toNat → j < r.length → 0 < rd r j) →
      ((assignRanges s start comps).foldl (fun result comp =>
          forUpZ comp.m_geo_from (comp.m_geo_to + 1) (fun i result => wrZ result i (f comp))
            result) r).length = r.length ∧
      ∀ j, j < (start + (comps.map (fun c => c.m_size)).sum * s).toNat → j < r.length →
        0 < rd ((assignRanges s start comps).foldl (fun result comp =>
          forUpZ comp.m_geo_from (comp.m_geo_to + 1) (fun i result => wrZ result i (f comp))
            result) r) j := by
  induction comps with
  | nil =>
    intro start r _ _ hr
    simp only [assignRanges, List.foldl_nil, List.map_nil, List.sum_nil, zero_mul, add_zero]
    exact ⟨trivial, hr⟩
  | cons c cs ih =>
    intro start r hstart hc hr
    obtain ⟨hc1, hc2⟩ := hc c (List.mem_cons_self _ _)
    have hpos : 1 ≤ c.m_size * s := by nlinarith
    simp only [assignRanges, List.foldl_cons, List.map_cons, List.sum_cons]
    have hcnt : start + (c.m_size * s - 1) + 1 = start + ((c.m_size * s).toNat : ℤ) := by
      rw [Int.toNat_of_nonneg (by omega)]
      ring
    have hgf : (c.setGeometryIdx start (start + (c.m_size * s - 1))).m_geo_from = start := rfl
    have hgt : (c.setGeometryIdx start (start + (c.m_size * s - 1))).m_geo_to
        = start + (c.m_size * s - 1) := rfl
    rw [hgf, hgt, hf, hcnt]
    obtain ⟨hl, hv⟩ := paramRange_spec start hstart (c.m_size * s).toNat (f c) r
    obtain ⟨hl', hv'⟩ := ih (start + ((c.m_size * s).toNat : ℤ))
      (forUpZ start (start + ((c.m_size * s).toNat : ℤ)) (fun i result => wrZ result i (f c)) r)
      (by omega) (fun c' hc' => hc c' (List.mem_cons_of_mem _ hc')) (by
        intro j hj hjl
        rw [hv j]
        by_cases hcond : start.toNat ≤ j ∧ j < start.toNat + (c.m_size * s).toNat ∧ j < r.length
        · rw [if_pos hcond]
          exact hc2
        · rw [if_neg hcond]
          rw [hl] at hjl
          exact hr j (by omega) hjl)
    refine ⟨by rw [hl', hl], fun j hj hjl => ?_⟩
    apply hv' j _ (by rw [hl]; exact hjl)
    have e : start + ((c.m_size * s).toNat : ℤ) + (cs.map (fun c => c.m_size)).sum * s
        = start + (c.m_size + (cs.map (fun c => c.m_size)).sum) * s := by
      rw [Int.toNat_of_nonneg (by omega)]
      ring
    rw [e]
    exact hj

/-- The parameter vectors on an equidistant mesh with a sink: length
`N = H*s + 1` and a positive value in every cell. -/
theorem createParamVector_pos (f : Compartment → ℚ) (s : ℤ) (hs : 1 ≤ s)
    (hf : ∀ (c : Compartment) (a b : ℤ), f (c.setGeometryIdx a b) = f c)
    (comps : List Compartment) (hne : comps ≠ []) (hc : ∀ c ∈ comps, 1 ≤ c.m_size ∧ 0 < f c)
    (k : Sink) (N : ℕ) (hN : (N : ℤ) = (comps.map (fun c => c.m_size)).sum * s + 1) :
    ∀ j, j < N → 0 < rd (MatrixBuilder.createParamVector N (assignRanges s 0 comps) f
      (some (k.setGeometryIdx ((comps.map (fun c => c.m_size)).sum * s)
        ((comps.map (fun c => c.m_size)).sum * s)))) j := by
  have hsum := sum_sizes_pos comps hne (fun c h => (hc c h).1)
  have hH : 1 ≤ (comps.map (fun c => c.m_size)).sum * s := by nlinarith
  obtain ⟨hl, hv⟩ := paramFold_pos f s hs hf comps 0 (List.replicate N 0) le_rfl hc
    (fun j hj => by simp at hj)
  simp only [zero_add, List.length_replicate] at hl hv
  intro j hj
  unfold MatrixBuilder.createParamVector
  simp only
  have hidx : (k.setGeometryIdx ((comps.map (fun c => c.m_size)).sum * s)
      ((comps.map (fun c => c.m_size)).sum * s)).m_geo_from
      = (comps.map (fun c => c.m_size)).sum * s := rfl
  rw [hidx]
  have h0 : 0 ≤ (comps.map (fun c => c.m_size)).sum * s := by omega
  have h1 : 0 ≤ (comps.map (fun c => c.m_size)).sum * s - 1 := by omega
  have hn1 : ((comps.map (fun c => c.m_size)).sum * s).toNat = N - 1 := by omega
  have hn2 : ((comps.map (fun c => c.m_size)).sum * s - 1).toNat = N - 2 := by omega
  rw [wrZ_nonneg _ _ _ h0, rdZ_nonneg _ _ h1, hn1, hn2, rd_set, hl]
  by_cases hjl : N - 1 = j
  · rw [if_pos ⟨hjl, by omega⟩]
    exact hv (N - 2) (by omega) (by omega)
  · rw [if_neg (by omega)]
    exact hv j (by omega) hj

theorem createParamVector_length (N : ℕ) (comps : List Compartment) (f : Compartment → ℚ)
    (sink : Option Sink) : (MatrixBuilder.createParamVector N comps f sink).length = N := by
  unfold MatrixBuilder.createParamVector
  have h : ∀ (cs : List Compartment) (r : List ℚ), (cs.foldl (fun result comp =>
      forUpZ comp.m_geo_from (comp.m_geo_to + 1) (fun i result => wrZ result i (f comp))
        result) r).length = r.length := by
    intro cs
    induction cs with
    | nil => intro r; rfl
    | cons c cs ih =>
      intro r
      simp only [List.foldl_cons]
      rw [ih]
      unfold forUpZ
      apply forUp_inv (fun _ (v : List ℚ) => v.length = r.length) 0 _ (Nat.zero_le _) _ _ rfl
      intro i v _ _ hv
      simp only
      rw [wrZ_length, hv]
  cases sink with
  | none => simp only [h, List.length_replicate]
  | some k =>
    simp only
    rw [wrZ_length, h, List.length_replicate]

theorem sum_shift_down (f : ℕ → ℚ) (n : ℕ) :
    (∑ i in Finset.range (n + 1), (if i = 0 then 0 else f (i - 1)))
      = ∑ j in Finset.range n, f j := by
  rw [Finset.sum_range_succ']
  simp

theorem sum_drop_last (g : ℕ → ℚ) (n : ℕ) :
    (∑ i in Finset.range (n + 1), (if i = n then 0 else g i))
      = ∑ i in Finset.range n, g i := by
  rw [Finset.sum_range_succ]
  simp only [if_true, add_zero]
  apply Finset.sum_congr rfl
  intro i hi
  rw [Finset.mem_range] at hi
  rw [if_neg (by omega)]

/-- Summing the entries of `A * v` groups by columns: the total is the sum
over the columns `j` of (column sum of `A`) times `v[j]`. -/
theorem sum_op_mul (A : TDMatrix) (v : List ℚ) (hN : 2 ≤ A.m_size)
    (hl : A.m_lower.length = A.m_size - 1) :
    (∑ i in Finset.range A.m_size, rd (A.op_mul v) i)
      = ∑ j in Finset.range A.m_size,
          ((if j = 0 then 0 else rd A.m_upper (j - 1)) + rd A.m_diag j + rd A.m_lower j)
            * rd v j := by
  obtain ⟨n, hn⟩ : ∃ n, A.m_size = n + 1 := ⟨A.m_size - 1, by omega⟩
  have h1 : ∀ i ∈ Finset.range A.m_size, rd (A.op_mul v) i
      = (if i = 0 then 0 else rd A.m_lower (i - 1) * rd v (i - 1)) + rd A.m_diag i * rd v i
        + (if i = n then 0 else rd A.m_upper i * rd v (i + 1)) := by
    intro i hi
    rw [Finset.mem_range] at hi
    rw [TDMatrix.op_mul_rd A v (by omega) i hi]
    have e : A.m_size - 1 = n := by omega
    rw [e]
    by_cases h0 : i = 0
    · subst h0
      rw [if_pos rfl, if_pos rfl, if_neg (by omega)]
      ring
    · rw [if_neg h0, if_neg h0]
      by_cases hl : i = n
      · rw [if_pos hl, if_pos hl]
        ring
      · rw [if_neg hl, if_neg hl]
  have h2 : ∀ j ∈ Finset.range A.m_size,
      ((if j = 0 then 0 else rd A.m_upper (j - 1)) + rd A.m_diag j + rd A.m_lower j) * rd v j
      = (if j = 0 then 0 else rd A.m_upper (j - 1) * rd v (j - 1 + 1)) + rd A.m_diag j * rd v j
        + rd A.m_lower j * rd v j := by
    intro j _
    by_cases h0 : j = 0
    · simp only [h0, if_true]
      ring
    · have e : j - 1 + 1 = j := by omega
      simp only [h0, if_false, e]
      ring
  rw [Finset.sum_congr rfl h1, Finset.sum_congr rfl h2, hn]
  simp only [Finset.sum_add_distrib]
  rw [sum_shift_down (fun j => rd A.m_lower j * rd v j) n,
    sum_drop_last (fun i => rd A.m_upper i * rd v (i + 1)) n,
    sum_shift_down (fun j => rd A.m_upper j * rd v (j + 1)) n,
    Finset.sum_range_succ (fun j => rd A.m_lower j * rd v j) n,
    rd_of_length_le A.m_lower n (by rw [hl]; omega)]
  ring

theorem thomasC_eq (A : TDMatrix) (i : ℕ) : thomasC A i = A.upper i / thomasP A i := by
  cases i <;> rfl

/-- Under strict column dominance every pivot exceeds the sub-diagonal entry
of its column in absolute value; in particular it is non-zero. -/
theorem thomasP_gt_of_colDominant (A : TDMatrix) (hcol : A.ColDominant) (i : ℕ)
    (hi : i < A.m_size) : |rd A.m_lower i| < |thomasP A i| := by
  induction i with
  | zero =>
    have h := hcol 0 hi
    rw [if_pos rfl, zero_add] at h
    exact h
  | succ k ih =>
    have hk := ih (by omega)
    have h := hcol (k + 1) hi
    rw [if_neg (by omega)] at h
    simp only [Nat.add_sub_cancel] at h
    have hpos : 0 < |thomasP A k| := lt_of_le_of_lt (abs_nonneg _) hk
    have hP : thomasP A (k + 1) = A.diag (k + 1) - thomasC A k * A.lower k := rfl
    have hCl : |thomasC A k * A.lower k| ≤ |rd A.m_upper k| := by
      rw [thomasC_eq, abs_mul, abs_div]
      have e : |A.upper k| / |thomasP A k| * |A.lower k|
          = |A.upper k| * (|A.lower k| / |thomasP A k|) := by ring
      rw [e]
      have hr : |A.lower k| / |thomasP A k| ≤ 1 := by
        rw [div_le_one hpos]
        exact hk.le
      calc |A.upper k| * (|A.lower k| / |thomasP A k|) ≤ |A.upper k| * 1 :=
            mul_le_mul_of_nonneg_left hr (abs_nonneg _)
        _ = |rd A.m_upper k| := by rw [mul_one]; rfl
    have h1 := abs_sub_abs_le_abs_sub (A.diag (k + 1)) (thomasC A k * A.lower k)
    rw [hP]
    have h2 : |A.diag (k + 1)| = |rd A.m_diag (k + 1)| := rfl
    linarith

theorem thomasIP_length (A : TDMatrix) (b : List ℚ) (hN : 1 ≤ A.m_size)
    (hb : b.length = A.m_size) : (thomasIP A b).length = A.m_size := by
  unfold thomasIP
  simp only
  refine (thomas_backward A.m_size (thomasCStar A) _ hN ?_).1
  have := forUp_inv (fun _ (r : List ℚ) => r.length = A.m_size) 1 A.m_size hN
      (fun i rhs => rhs.set i ((rd rhs i - rd rhs (i - 1) * A.lower (i - 1)) /
        (A.diag i - rd (thomasCStar A) (i - 1) * A.lower (i - 1))))
      (b.set 0 (rd b 0 / A.diag 0)) (by simp [hb]) (fun i r _ _ h => by simp [h])
  exact this

/-- One sub-step with a column-dominant left-hand matrix whose columns and
those of the right-hand matrix all sum to the same non-zero value keeps the
sum of the vector. -/
theorem substep_sum (R L : TDMatrix) (c : List ℚ) (σ : ℚ) (hσ : σ ≠ 0)
    (hN : 2 ≤ L.m_size) (hRN : R.m_size = L.m_size) (hL : L.WF) (hR : R.WF)
    (hc : c.length = L.m_size) (hcol : L.ColDominant)
    (hsL : ∀ j, j < L.m_size → L.colSum j = σ) (hsR : ∀ j, j < R.m_size → R.colSum j = σ) :
    (thomasIP L (R.inlineMultiply c)).length = L.m_size ∧
    (∑ i in Finset.range L.m_size, rd (thomasIP L (R.inlineMultiply c)) i)
      = ∑ i in Finset.range L.m_size, rd c i := by
  have hmul : R.inlineMultiply c = R.op_mul c := by
    obtain ⟨hl1, hr1⟩ := inlineMultiply_rd R c (by omega) (by omega)
    apply ext_rd
    · rw [hl1, TDMatrix.op_mul_length]
    · intro j hj
      rw [hl1] at hj
      exact hr1 j hj
  have hbl : (R.inlineMultiply c).length = L.m_size := by
    rw [hmul, TDMatrix.op_mul_length, hRN]
  have hp : ∀ i, i < L.m_size → thomasP L i ≠ 0 := by
    intro i hi
    have := thomasP_gt_of_colDominant L hcol i hi
    exact abs_pos.mp (lt_of_le_of_lt (abs_nonneg _) this)
  have hsolve := thomasIP_op_mul L (R.inlineMultiply c) hN hL hbl hp
  refine ⟨thomasIP_length L _ (by omega) hbl, ?_⟩
  have e1 := sum_op_mul L (thomasIP L (R.inlineMultiply c)) hN hL.2.1
  rw [hsolve, hmul] at e1
  have e2 := sum_op_mul R c (by omega) hR.2.1
  rw [hRN] at e2
  rw [e2] at e1
  have e3 : ∀ j ∈ Finset.range L.m_size,
      ((if j = 0 then 0 else rd R.m_upper (j - 1)) + rd R.m_diag j + rd R.m_lower j) * rd c j
        = σ * rd c j := by
    intro j hj
    rw [Finset.mem_range] at hj
    have := hsR j (by omega)
    unfold TDMatrix.colSum at this
    rw [this]
  have e4 : ∀ j ∈ Finset.range L.m_size,
      ((if j = 0 then 0 else rd L.m_upper (j - 1)) + rd L.m_diag j + rd L.m_lower j)
        * rd (thomasIP L (R.op_mul c)) j = σ * rd (thomasIP L (R.op_mul c)) j := by
    intro j hj
    rw [Finset.mem_range] at hj
    have := hsL j hj
    unfold TDMatrix.colSum at this
    rw [this]
  rw [Finset.sum_congr rfl e3, Finset.sum_congr rfl e4, ← Finset.mul_sum, ← Finset.mul_sum] at e1
  rw [hmul]
  exact (mul_left_cancel₀ hσ e1).symm

theorem rd_map_mul (v : List ℚ) (x : ℚ) (j : ℕ) : rd (v.map (fun d => d * x)) j = rd v j * x := by
  unfold rd
  simp only [List.getD_eq_getElem?_getD, List.getElem?_map]
  cases v[j]? <;> simp

/-- The loop `Correct the matrix and populate lhs matrix`: rows `0 .. n-2` of
the left-hand matrix become `2 + diag`, `-lower`, `-upper` of the scaled
pre-matrix, and the diagonal of the right-hand matrix becomes `2 - diag`. -/
theorem crankRows_spec (n : ℕ) (R0 L0 : TDMatrix) (hR : R0.WF) (hL : L0.WF)
    (hRn : R0.m_size = n) (hLn : L0.m_size = n) :
    (MatrixBuilder.crankRows n (R0, L0)).1.m_size = n ∧
    (MatrixBuilder.crankRows n (R0, L0)).2.m_size = n ∧
    (MatrixBuilder.crankRows n (R0, L0)).1.WF ∧ (MatrixBuilder.crankRows n (R0, L0)).2.WF ∧
    (MatrixBuilder.crankRows n (R0, L0)).2.m_prepared = L0.m_prepared ∧
    (MatrixBuilder.crankRows n (R0, L0)).1.m_lower = R0.m_lower ∧
    (MatrixBuilder.crankRows n (R0, L0)).1.m_upper = R0.m_upper ∧
    (∀ j, rd (MatrixBuilder.crankRows n (R0, L0)).1.m_diag j
      = if j < n - 1 then 2 - rd R0.m_diag j else rd R0.m_diag j) ∧
    (∀ j, rd (MatrixBuilder.crankRows n (R0, L0)).2.m_diag j
      = if j < n - 1 then 2 + rd R0.m_diag j else rd L0.m_diag j) ∧
    (∀ j, rd (MatrixBuilder.crankRows n (R0, L0)).2.m_lower j
      = if j < n - 1 then -rd R0.m_lower j else rd L0.m_lower j) ∧
    (∀ j, rd (MatrixBuilder.crankRows n (R0, L0)).2.m_upper j
      = if j < n - 1 then -rd R0.m_upper j else rd L0.m_upper j) := by
  unfold MatrixBuilder.crankRows
  apply forUp_inv (fun k (m : TDMatrix × TDMatrix) =>
    m.1.m_size = n ∧ m.2.m_size = n ∧ m.1.WF ∧ m.2.WF ∧ m.2.m_prepared = L0.m_prepared ∧
    m.1.m_lower = R0.m_lower ∧ m.1.m_upper = R0.m_upper ∧
    (∀ j, rd m.1.m_diag j = if j < k then 2 - rd R0.m_diag j else rd R0.m_diag j) ∧
    (∀ j, rd m.2.m_diag j = if j < k then 2 + rd R0.m_diag j else rd L0.m_diag j) ∧
    (∀ j, rd m.2.m_lower j = if j < k then -rd R0.m_lower j else rd L0.m_lower j) ∧
    (∀ j, rd m.2.m_upper j = if j < k then -rd R0.m_upper j else rd L0.m_upper j))
    0 (n - 1) (Nat.zero_le _)
  · refine ⟨hRn, hLn, hR, hL, rfl, rfl, rfl, ?_, ?_, ?_, ?_⟩ <;>
    · intro j
      rw [if_neg (by omega)]
  · rintro i ⟨r, l⟩ _ hi ⟨h1, h2, h3, h4, h5, h6, h7, h8, h9, h10, h11⟩
    simp only at h1 h2 h3 h4 h5 h6 h7 h8 h9 h10 h11
    obtain ⟨r1, r2, r3⟩ := h3
    obtain ⟨l1, l2, l3⟩ := h4
    have hri : rd r.m_diag i = rd R0.m_diag i := by rw [h8 i, if_neg (by omega)]
    simp only [TDMatrix.setDiag, TDMatrix.setLower, TDMatrix.setUpper, TDMatrix.diag,
      TDMatrix.lower, TDMatrix.upper]
    refine ⟨h1, h2, ⟨by simp [r1], r2, r3⟩, ⟨by simp [l1], by simp [l2], by simp [l3]⟩, h5, h6,
      h7, ?_, ?_, ?_, ?_⟩
    · intro j
      rw [rd_set, hri, h8 j]
      by_cases hij : i = j
      · subst hij
        rw [if_pos ⟨rfl, by omega⟩, if_pos (by omega)]
      · rw [if_neg (by omega)]
        by_cases hc : j < i
        · rw [if_pos hc, if_pos (by omega)]
        · rw [if_neg hc, if_neg (by omega)]
    · intro j
      rw [rd_set, hri, h9 j]
      by_cases hij : i = j
      · subst hij
        rw [if_pos ⟨rfl, by omega⟩, if_pos (by omega)]
      · rw [if_neg (by omega)]
        by_cases hc : j < i
        · rw [if_pos hc, if_pos (by omega)]
        · rw [if_neg hc, if_neg (by omega)]
    · intro j
      rw [rd_set, h6, h10 j]
      by_cases hij : i = j
      · subst hij
        rw [if_pos ⟨rfl, by omega⟩, if_pos (by omega)]
      · rw [if_neg (by omega)]
        by_cases hc : j < i
        · rw [if_pos hc, if_pos (by omega)]
        · rw [if_neg hc, if_neg (by omega)]
    · intro j
      rw [rd_set, h7, h11 j]
      by_cases hij : i = j
      · subst hij
        rw [if_pos ⟨rfl, by omega⟩, if_pos (by omega)]
      · rw [if_neg (by omega)]
        by_cases hc : j < i
        · rw [if_pos hc, if_pos (by omega)]
        · rw [if_neg hc, if_neg (by omega)]

theorem multiplyBy_WF (A : TDMatrix) (x : ℚ) (h : A.WF) : (A.multiplyBy x).WF := by
  obtain ⟨h1, h2, h3⟩ := h
  exact ⟨by simp [TDMatrix.multiplyBy, h1], by simp [TDMatrix.multiplyBy, h2],
    by simp [TDMatrix.multiplyBy, h3]⟩

theorem new_WF (n : ℕ) : (TDMatrix.new n).WF := by
  simp [TDMatrix.WF, TDMatrix.new]

theorem setDiag_WF (A : TDMatrix) (i : ℕ) (x : ℚ) (h : A.WF) : (A.setDiag i x).WF := by
  obtain ⟨h1, h2, h3⟩ := h
  exact ⟨by simp [TDMatrix.setDiag, h1], h2, h3⟩

theorem setUpper_WF (A : TDMatrix) (i : ℕ) (x : ℚ) (h : A.WF) : (A.setUpper i x).WF := by
  obtain ⟨h1, h2, h3⟩ := h
  exact ⟨h1, h2, by simp [TDMatrix.setUpper, h3]⟩

theorem setLower_WF (A : TDMatrix) (i : ℕ) (x : ℚ) (h : A.WF) : (A.setLower i x).WF := by
  obtain ⟨h1, h2, h3⟩ := h
  exact ⟨h1, by simp [TDMatrix.setLower, h2], h3⟩

/-- The matrices `build_M_DS_1_4` / `build_M_DS_1_5` leave behind for a
perfect sink and a finite-dose vehicle, in terms of the pre-matrix and
`dt = 1 / timesteps`. -/
theorem finishCrank_spec (mb : MatrixBuilder) (n : ℕ) (pre : TDMatrix)
    (comps : List Compartment) (k : Sink) (hn : 2 ≤ n) (hP : pre.WF) (hPn : pre.m_size = n)
    (hk : k.m_type = SinkType.Perfect_Sink) (hfin : MatrixBuilder.vehicleFinite comps = true) :
    1 ≤ (MatrixBuilder.finishCrank mb n pre comps (some k)).1.m_timesteps ∧
    (MatrixBuilder.finishCrank mb n pre comps (some k)).1.m_matrix_rhs.m_size = n ∧
    (MatrixBuilder.finishCrank mb n pre comps (some k)).1.m_matrix_lhs.m_size = n ∧
    (MatrixBuilder.finishCrank mb n pre comps (some k)).1.m_matrix_rhs.WF ∧
    (MatrixBuilder.finishCrank mb n pre comps (some k)).1.m_matrix_lhs.WF ∧
    (MatrixBuilder.finishCrank mb n pre comps (some k)).1.m_matrix_lhs.m_prepared = false ∧
    (∀ j, j < n → rd (MatrixBuilder.finishCrank mb n pre comps (some k)).1.m_matrix_rhs.m_diag j
      = if j = n - 1 then 2 else 2 - rd pre.m_diag j
          * (1 / ((MatrixBuilder.finishCrank mb n pre comps (some k)).1.m_timesteps : ℚ))) ∧
    (∀ j, rd (MatrixBuilder.finishCrank mb n pre comps (some k)).1.m_matrix_rhs.m_lower j
      = rd pre.m_lower j
          * (1 / ((MatrixBuilder.finishCrank mb n pre comps (some k)).1.m_timesteps : ℚ))) ∧
    (∀ j, rd (MatrixBuilder.finishCrank mb n pre comps (some k)).1.m_matrix_rhs.m_upper j
      = if j = n - 2 then 0 else rd pre.m_upper j
          * (1 / ((MatrixBuilder.finishCrank mb n pre comps (some k)).1.m_timesteps : ℚ))) ∧
    (∀ j, j < n → rd (MatrixBuilder.finishCrank mb n pre comps (some k)).1.m_matrix_lhs.m_diag j
      = if j = n - 1 then 2 else 2 + rd pre.m_diag j
          * (1 / ((MatrixBuilder.finishCrank mb n pre comps (some k)).1.m_timesteps : ℚ))) ∧
    (∀ j, j < n - 1 →
      rd (MatrixBuilder.finishCrank mb n pre comps (some k)).1.m_matrix_lhs.m_lower j
      = -(rd pre.m_lower j
          * (1 / ((MatrixBuilder.finishCrank mb n pre comps (some k)).1.m_timesteps : ℚ)))) ∧
    (∀ j, j < n - 1 →
      rd (MatrixBuilder.finishCrank mb n pre comps (some k)).1.m_matrix_lhs.m_upper j
      = if j = n - 2 then 0 else -(rd pre.m_upper j
          * (1 / ((MatrixBuilder.finishCrank mb n pre comps (some k)).1.m_timesteps : ℚ)))) := by
  have eR : (MatrixBuilder.finishCrank mb n pre comps (some k)).1.m_matrix_rhs
      = ((MatrixBuilder.crankRows n
          (pre.multiplyBy (1 / (((max 1 ⌈pre.absMax / mb.m_max_module⌉ : ℤ)) : ℚ)),
            TDMatrix.new n)).1.setUpper (n - 2) 0).setDiag (n - 1) 2 := by
    unfold MatrixBuilder.finishCrank
    simp only [MatrixBuilder.sinkRows, hk, MatrixBuilder.infiniteDoseRows, hfin, Bool.not_true,
      Bool.false_eq_true, if_false, reduceCtorEq]
  have eL : (MatrixBuilder.finishCrank mb n pre comps (some k)).1.m_matrix_lhs
      = ((MatrixBuilder.crankRows n
          (pre.multiplyBy (1 / (((max 1 ⌈pre.absMax / mb.m_max_module⌉ : ℤ)) : ℚ)),
            TDMatrix.new n)).2.setUpper (n - 2) 0).setDiag (n - 1) 2 := by
    unfold MatrixBuilder.finishCrank
    simp only [MatrixBuilder.sinkRows, hk, MatrixBuilder.infiniteDoseRows, hfin, Bool.not_true,
      Bool.false_eq_true, if_false, reduceCtorEq]
  have eT : (MatrixBuilder.finishCrank mb n pre comps (some k)).1.m_timesteps
      = max 1 ⌈pre.absMax / mb.m_max_module⌉ := rfl
  obtain ⟨c1, c2, c3, c4, c5, c6, c7, c8, c9, c10, c11⟩ := crankRows_spec n
    (pre.multiplyBy (1 / (((max 1 ⌈pre.absMax / mb.m_max_module⌉ : ℤ)) : ℚ))) (TDMatrix.new n)
    (multiplyBy_WF _ _ hP) (new_WF n) hPn rfl
  have r1 := c3.1
  have r3 := c3.2.2
  have l1 := c4.1
  have l3 := c4.2.2
  rw [eR, eL, eT]
  refine ⟨le_max_left _ _, c1, c2, setDiag_WF _ _ _ (setUpper_WF _ _ _ c3),
    setDiag_WF _ _ _ (setUpper_WF _ _ _ c4), c5, ?_, ?_, ?_, ?_, ?_, ?_⟩
  · intro j hj
    simp only [TDMatrix.setDiag, TDMatrix.setUpper]
    rw [rd_set, c8 j]
    by_cases hjl : n - 1 = j
    · rw [if_pos ⟨hjl, by rw [r1, c1]; omega⟩, if_pos hjl.symm]
    · rw [if_neg (by omega), if_pos (by omega), if_neg (by omega)]
      simp only [TDMatrix.multiplyBy, rd_map_mul]
  · intro j
    simp only [TDMatrix.setDiag, TDMatrix.setUpper]
    rw [c6]
    simp only [TDMatrix.multiplyBy, rd_map_mul]
  · intro j
    simp only [TDMatrix.setDiag, TDMatrix.setUpper]
    rw [rd_set, c7]
    by_cases hjl : n - 2 = j
    · rw [if_pos ⟨hjl, by rw [(multiplyBy_WF _ _ hP).2.2]; show n - 2 < pre.m_size - 1; omega⟩,
        if_pos hjl.symm]
    · rw [if_neg (by omega), if_neg (by omega)]
      simp only [TDMatrix.multiplyBy, rd_map_mul]
  · intro j hj
    simp only [TDMatrix.setDiag, TDMatrix.setUpper]
    rw [rd_set, c9 j]
    by_cases hjl : n - 1 = j
    · rw [if_pos ⟨hjl, by rw [l1, c2]; omega⟩, if_pos hjl.symm]
    · rw [if_neg (by omega), if_pos (by omega), if_neg (by omega)]
      simp only [TDMatrix.multiplyBy, rd_map_mul]
  · intro j hj
    simp only [TDMatrix.setDiag, TDMatrix.setUpper]
    rw [c10 j, if_pos hj]
    simp only [TDMatrix.multiplyBy, rd_map_mul]
  · intro j hj
    simp only [TDMatrix.setDiag, TDMatrix.setUpper]
    rw [rd_set, c11 j]
    by_cases hjl : n - 2 = j
    · rw [if_pos ⟨hjl, by rw [l3, c2]; omega⟩, if_pos hjl.symm]
    · rw [if_neg (by omega), if_pos hj, if_neg (by omega)]
      simp only [TDMatrix.multiplyBy, rd_map_mul]

/-- With a perfect sink and a finite-dose vehicle, a conservative pre-matrix
gives matrices whose columns all sum to 2, the left-hand one strictly
dominant by columns. -/
theorem finishCrank_conservative (mb : MatrixBuilder) (n : ℕ) (pre : TDMatrix)
    (comps : List Compartment) (k : Sink) (hn : 2 ≤ n) (hP : pre.PreConservative)
    (hPn : pre.m_size = n) (hk : k.m_type = SinkType.Perfect_Sink)
    (hfin : MatrixBuilder.vehicleFinite comps = true) :
    (∀ j, j < n →
      (MatrixBuilder.finishCrank mb n pre comps (some k)).1.m_matrix_rhs.colSum j = 2) ∧
    (∀ j, j < n →
      (MatrixBuilder.finishCrank mb n pre comps (some k)).1.m_matrix_lhs.colSum j = 2) ∧
    (MatrixBuilder.finishCrank mb n pre comps (some k)).1.m_matrix_lhs.ColDominant := by
  obtain ⟨hts, s1, s2, w1, w2, _, d1, d2, d3, d4, d5, d6⟩ :=
    finishCrank_spec mb n pre comps k hn hP.1 hPn hk hfin
  obtain ⟨hwf, hbal⟩ := hP
  rw [hPn] at hbal
  have hdt : 0 < (1 : ℚ) / ((MatrixBuilder.finishCrank mb n pre comps (some k)).1.m_timesteps : ℚ) := by
    apply div_pos one_pos
    exact_mod_cast lt_of_lt_of_le one_pos hts
  generalize (1 : ℚ) / ((MatrixBuilder.finishCrank mb n pre comps (some k)).1.m_timesteps : ℚ)
    = dt at hdt d1 d2 d3 d4 d5 d6
  generalize (MatrixBuilder.finishCrank mb n pre comps (some k)).1.m_matrix_rhs = R
    at s1 w1 d1 d2 d3
  generalize (MatrixBuilder.finishCrank mb n pre comps (some k)).1.m_matrix_lhs = L
    at s2 w2 d4 d5 d6
  have hpl : rd pre.m_lower (n - 1) = 0 := rd_of_length_le _ _ (by rw [hwf.2.1, hPn])
  have hLl : rd L.m_lower (n - 1) = 0 := rd_of_length_le _ _ (by rw [w2.2.1, s2])
  refine ⟨fun j hj => ?_, fun j hj => ?_, fun j hj => ?_⟩
  · unfold TDMatrix.colSum
    by_cases hl : j = n - 1
    · subst hl
      rw [if_neg (by omega), d1 _ hj, if_pos rfl, d2, d3, hpl]
      have e : n - 1 - 1 = n - 2 := by omega
      rw [e, if_pos rfl]
      ring
    · obtain ⟨_, _, hb⟩ := hbal j (by omega)
      rw [d1 j hj, if_neg hl, d2, hb]
      by_cases h0 : j = 0
      · rw [if_pos h0, if_pos h0]
        ring
      · rw [if_neg h0, if_neg h0, d3, if_neg (by omega)]
        ring
  · unfold TDMatrix.colSum
    by_cases hl : j = n - 1
    · subst hl
      rw [if_neg (by omega), d4 _ hj, if_pos rfl, hLl, d6 _ (by omega)]
      have e : n - 1 - 1 = n - 2 := by omega
      rw [e, if_pos rfl]
      ring
    · obtain ⟨_, _, hb⟩ := hbal j (by omega)
      rw [d4 j hj, if_neg hl, d5 j (by omega), hb]
      by_cases h0 : j = 0
      · rw [if_pos h0, if_pos h0]
        ring
      · rw [if_neg h0, if_neg h0, d6 _ (by omega), if_neg (by omega)]
        ring
  · rw [s2] at hj
    by_cases hl : j = n - 1
    · subst hl
      rw [if_neg (by omega), d4 _ hj, if_pos rfl, hLl, d6 _ (by omega)]
      have e : n - 1 - 1 = n - 2 := by omega
      rw [e, if_pos rfl]
      norm_num
    · obtain ⟨_, hlo, hb⟩ := hbal j (by omega)
      rw [d4 j hj, if_neg hl, d5 j (by omega), hb, abs_neg,
        abs_of_nonneg (mul_nonneg hlo hdt.le)]
      by_cases h0 : j = 0
      · rw [if_pos h0, if_pos h0, zero_add, zero_add,
          abs_of_pos (by have := mul_nonneg hlo hdt.le; linarith)]
        linarith
      · obtain ⟨hup, _, _⟩ := hbal (j - 1) (by omega)
        rw [if_neg h0, if_neg h0, d6 _ (by omega), if_neg (by omega), abs_neg,
          abs_of_nonneg (mul_nonneg hup hdt.le),
          abs_of_pos (by
            have := mul_nonneg hlo hdt.le
            have := mul_nonneg hup hdt.le
            nlinarith)]
        nlinarith

/-- The pre-matrix of `build_M_DS_1_5` with its coefficients named. -/
theorem preMatrix_1_5_eq (N : ℕ) (ss D K A : List ℚ) :
    MatrixBuilder.preMatrix_1_5 N ss D K A
      = ((forUp 1 (N - 1) (fun i (rhs : TDMatrix) =>
          ((rhs.setDiag i (lower15 ss D K A i * (rd K (i - 1) * rd A (i - 1)) / (rd K i * rd A i)
              + upper15 ss D K A i)).setUpper i
            (upper15 ss D K A i * (rd K i * rd A i) / (rd K (i + 1) * rd A (i + 1)))).setLower
            (i - 1) (lower15 ss D K A i))
          (((TDMatrix.new N).setDiag 0 (edge15 ss D K A 0 1)).setUpper 0
            (edge15 ss D K A 0 1 * (rd K 0 * rd A 0) / (rd K 1 * rd A 1)))).setDiag (N - 1)
          (edge15 ss D K A (N - 2) (N - 1) * (rd K (N - 2) * rd A (N - 2))
            / (rd K (N - 1) * rd A (N - 1)))).setLower (N - 2)
          (edge15 ss D K A (N - 2) (N - 1)) := rfl

/-- A loop that stores index-dependent values in row `i` of the three bands
(`diag[i]`, `upper[i]`, `lower[i-1]`). -/
theorem bandLoop_spec (n : ℕ) (fd fu fl : ℕ → ℚ) (m0 : TDMatrix) (h0 : m0.WF) :
    (forUp 1 n (fun i (m : TDMatrix) =>
        ((m.setDiag i (fd i)).setUpper i (fu i)).setLower (i - 1) (fl i)) m0).WF ∧
    (forUp 1 n (fun i (m : TDMatrix) =>
        ((m.setDiag i (fd i)).setUpper i (fu i)).setLower (i - 1) (fl i)) m0).m_size
      = m0.m_size ∧
    (∀ j, rd (forUp 1 n (fun i (m : TDMatrix) =>
        ((m.setDiag i (fd i)).setUpper i (fu i)).setLower (i - 1) (fl i)) m0).m_diag j
      = if 1 ≤ j ∧ j < n ∧ j < m0.m_diag.length then fd j else rd m0.m_diag j) ∧
    (∀ j, rd (forUp 1 n (fun i (m : TDMatrix) =>
        ((m.setDiag i (fd i)).setUpper i (fu i)).setLower (i - 1) (fl i)) m0).m_upper j
      = if 1 ≤ j ∧ j < n ∧ j < m0.m_upper.length then fu j else rd m0.m_upper j) ∧
    (∀ j, rd (forUp 1 n (fun i (m : TDMatrix) =>
        ((m.setDiag i (fd i)).setUpper i (fu i)).setLower (i - 1) (fl i)) m0).m_lower j
      = if j + 1 < n ∧ j < m0.m_lower.length then fl (j + 1) else rd m0.m_lower j) := by
  have e : forUp 1 n (fun i (m : TDMatrix) =>
        ((m.setDiag i (fd i)).setUpper i (fu i)).setLower (i - 1) (fl i)) m0
      = { m0 with
          m_diag := forUp 1 n (fun i r => r.set i (fd i)) m0.m_diag
          m_upper := forUp 1 n (fun i r => r.set i (fu i)) m0.m_upper
          m_lower := forUp 1 n (fun i r => r.set (i - 1) (fl i)) m0.m_lower } := by
    rcases Nat.lt_or_ge n 1 with hlt | h
    · rw [forUp_of_le 1 n (by omega), forUp_of_le 1 n (by omega), forUp_of_le 1 n (by omega),
        forUp_of_le 1 n (by omega)]
    apply forUp_inv (fun k (m : TDMatrix) => m = { m0 with
          m_diag := forUp 1 k (fun i r => r.set i (fd i)) m0.m_diag
          m_upper := forUp 1 k (fun i r => r.set i (fu i)) m0.m_upper
          m_lower := forUp 1 k (fun i r => r.set (i - 1) (fl i)) m0.m_lower }) 1 n h
    · rw [forUp_self, forUp_self, forUp_self]
    · intro i m h1 _ hm
      rw [forUp_succ 1 i h1, forUp_succ 1 i h1, forUp_succ 1 i h1, hm]
      rfl
  rw [e]
  obtain ⟨d1, d2⟩ := forUp_set_const fd 1 n m0.m_diag
  obtain ⟨u1, u2⟩ := forUp_set_const fu 1 n m0.m_upper
  obtain ⟨l1, l2⟩ := forUp_set_pred fl n m0.m_lower
  exact ⟨⟨by rw [d1]; exact h0.1, by rw [l1]; exact h0.2.1, by rw [u1]; exact h0.2.2⟩, rfl,
    d2, u2, l2⟩

/-- The bands of the pre-matrix of `build_M_DS_1_5` for `N >= 2` cells. -/
theorem preMatrix_1_5_bands (N : ℕ) (ss D K A : List ℚ) (hN : 2 ≤ N) :
    (MatrixBuilder.preMatrix_1_5 N ss D K A).WF ∧
    (MatrixBuilder.preMatrix_1_5 N ss D K A).m_size = N ∧
    (∀ j, j < N - 1 → rd (MatrixBuilder.preMatrix_1_5 N ss D K A).m_diag j
      = if j = 0 then edge15 ss D K A 0 1
        else lower15 ss D K A j * (rd K (j - 1) * rd A (j - 1)) / (rd K j * rd A j)
          + upper15 ss D K A j) ∧
    (∀ j, j < N - 1 → rd (MatrixBuilder.preMatrix_1_5 N ss D K A).m_upper j
      = if j = 0 then edge15 ss D K A 0 1 * (rd K 0 * rd A 0) / (rd K 1 * rd A 1)
        else upper15 ss D K A j * (rd K j * rd A j) / (rd K (j + 1) * rd A (j + 1))) ∧
    (∀ j, j < N - 1 → rd (MatrixBuilder.preMatrix_1_5 N ss D K A).m_lower j
      = if j = N - 2 then edge15 ss D K A (N - 2) (N - 1) else lower15 ss D K A (j + 1)) := by
  rw [preMatrix_1_5_eq]
  have hm0 : (((TDMatrix.new N).setDiag 0 (edge15 ss D K A 0 1)).setUpper 0
      (edge15 ss D K A 0 1 * (rd K 0 * rd A 0) / (rd K 1 * rd A 1))).WF :=
    setUpper_WF _ _ _ (setDiag_WF _ _ _ (new_WF N))
  have m0d : ∀ j, rd (((TDMatrix.new N).setDiag 0 (edge15 ss D K A 0 1)).setUpper 0
      (edge15 ss D K A 0 1 * (rd K 0 * rd A 0) / (rd K 1 * rd A 1))).m_diag j
      = if j = 0 then edge15 ss D K A 0 1 else 0 := by
    intro j
    show rd ((List.replicate N (0 : ℚ)).set 0 _) j = _
    rw [rd_set, rd_replicate_zero, List.length_replicate]
    by_cases h0 : j = 0
    · rw [if_pos ⟨h0.symm, by omega⟩, if_pos h0]
    · rw [if_neg (by omega), if_neg h0]
  have m0u : ∀ j, rd (((TDMatrix.new N).setDiag 0 (edge15 ss D K A 0 1)).setUpper 0
      (edge15 ss D K A 0 1 * (rd K 0 * rd A 0) / (rd K 1 * rd A 1))).m_upper j
      = if j = 0 then edge15 ss D K A 0 1 * (rd K 0 * rd A 0) / (rd K 1 * rd A 1) else 0 := by
    intro j
    show rd ((List.replicate (N - 1) (0 : ℚ)).set 0 _) j = _
    rw [rd_set, rd_replicate_zero, List.length_replicate]
    by_cases h0 : j = 0
    · rw [if_pos ⟨h0.symm, by omega⟩, if_pos h0]
    · rw [if_neg (by omega), if_neg h0]
  have hm0n : (((TDMatrix.new N).setDiag 0 (edge15 ss D K A 0 1)).setUpper 0
      (edge15 ss D K A 0 1 * (rd K 0 * rd A 0) / (rd K 1 * rd A 1))).m_size = N := rfl
  obtain ⟨w, sz, bd, bu, bl⟩ := bandLoop_spec (N - 1)
    (fun i => lower15 ss D K A i * (rd K (i - 1) * rd A (i - 1)) / (rd K i * rd A i)
      + upper15 ss D K A i)
    (fun i => upper15 ss D K A i * (rd K i * rd A i) / (rd K (i + 1) * rd A (i + 1)))
    (fun i => lower15 ss D K A i) _ hm0
  obtain ⟨hdl, hll, hul⟩ := hm0
  rw [hm0n] at hdl hll hul sz
  simp only [m0d, m0u, hdl, hll, hul] at bd bu bl
  generalize forUp 1 (N - 1) (fun i (rhs : TDMatrix) =>
          ((rhs.setDiag i (lower15 ss D K A i * (rd K (i - 1) * rd A (i - 1)) / (rd K i * rd A i)
              + upper15 ss D K A i)).setUpper i
            (upper15 ss D K A i * (rd K i * rd A i) / (rd K (i + 1) * rd A (i + 1)))).setLower
            (i - 1) (lower15 ss D K A i))
          (((TDMatrix.new N).setDiag 0 (edge15 ss D K A 0 1)).setUpper 0
            (edge15 ss D K A 0 1 * (rd K 0 * rd A 0) / (rd K 1 * rd A 1))) = M at w sz bd bu bl
  refine ⟨setLower_WF _ _ _ (setDiag_WF _ _ _ w), sz, fun j hj => ?_, fun j hj => ?_,
    fun j hj => ?_⟩
  · show rd (M.m_diag.set (N - 1) _) j = _
    rw [rd_set_ne _ _ _ _ (by omega), bd j]
    by_cases h0 : j = 0
    · rw [if_neg (by omega), if_pos h0, if_pos h0]
    · rw [if_pos ⟨by omega, hj, by omega⟩, if_neg h0]
  · show rd M.m_upper j = _
    rw [bu j]
    by_cases h0 : j = 0
    · rw [if_neg (by omega), if_pos h0, if_pos h0]
    · rw [if_pos ⟨by omega, hj, by omega⟩, if_neg h0]
  · show rd (M.m_lower.set (N - 2) _) j = _
    rw [rd_set]
    by_cases hl : N - 2 = j
    · rw [if_pos ⟨hl, by rw [w.2.1, sz]; omega⟩, if_pos hl.symm]
    · rw [if_neg (by omega), if_neg (by omega), bl j, if_pos ⟨by omega, by omega⟩]

theorem interior_eq_edge (X h : ℚ) (hh : h ≠ 0) :
    X * 2 * h / (h * h * (h + h)) = X / (h * h) := by
  have h2 : h + h ≠ 0 := by
    intro e
    apply hh
    linarith
  rw [div_eq_div_iff (mul_ne_zero (mul_ne_zero hh hh) h2) (mul_ne_zero hh hh)]
  ring

/-- On an equidistant mesh the interior `lower_f` of row `i` is the one-sided
coefficient of the interface between the cells `i-1` and `i`. -/
theorem lower15_eq_edge (ss D K A : List ℚ) (N : ℕ) (l : ℚ) (hl : 0 < l)
    (hss : ∀ i, i < N → rd ss i = l) (i : ℕ) (h1 : 1 ≤ i) (h2 : i + 1 < N) :
    lower15 ss D K A i = edge15 ss D K A (i - 1) i := by
  unfold lower15 edge15
  rw [hss (i - 1) (by omega), hss i (by omega), hss (i + 1) h2]
  exact interior_eq_edge _ _ (by positivity)

/-- On an equidistant mesh the interior `upper_f` of row `i` is the one-sided
coefficient of the interface between the cells `i` and `i+1`. -/
theorem upper15_eq_edge (ss D K A : List ℚ) (N : ℕ) (l : ℚ) (hl : 0 < l)
    (hss : ∀ i, i < N → rd ss i = l) (i : ℕ) (h1 : 1 ≤ i) (h2 : i + 1 < N) :
    upper15 ss D K A i = edge15 ss D K A i (i + 1) := by
  unfold upper15 edge15
  rw [hss (i - 1) (by omega), hss i (by omega), hss (i + 1) h2]
  exact interior_eq_edge _ _ (by positivity)

theorem edge15_nonneg (ss D K A : List ℚ) (N : ℕ) (l : ℚ) (hl : 0 < l)
    (hss : ∀ i, i < N → rd ss i = l) (hD : ∀ i, i < N → 0 < rd D i)
    (hK : ∀ i, i < N → 0 < rd K i) (hA : ∀ i, i < N → 0 < rd A i) (i j : ℕ) (hi : i < N)
    (hj : j < N) : 0 ≤ edge15 ss D K A i j := by
  unfold edge15
  rw [hss i hi, hss j hj]
  have := hD i hi
  have := hD j hj
  have := hK i hi
  have := hK j hj
  have := hA i hi
  have := hA j hj
  positivity

/-- On an equidistant mesh with positive `D`, `K` and `A` in every cell the
pre-matrix of `build_M_DS_1_5` is conservative. -/
theorem preMatrix_1_5_conservative (N : ℕ) (ss D K A : List ℚ) (hN : 2 ≤ N) (l : ℚ)
    (hl : 0 < l) (hss : ∀ i, i < N → rd ss i = l) (hD : ∀ i, i < N → 0 < rd D i)
    (hK : ∀ i, i < N → 0 < rd K i) (hA : ∀ i, i < N → 0 < rd A i) :
    (MatrixBuilder.preMatrix_1_5 N ss D K A).PreConservative ∧
    (MatrixBuilder.preMatrix_1_5 N ss D K A).m_size = N := by
  obtain ⟨w, sz, bd, bu, bl⟩ := preMatrix_1_5_bands N ss D K A hN
  refine ⟨⟨w, ?_⟩, sz⟩
  rw [sz]
  have hE := edge15_nonneg ss D K A N l hl hss hD hK hA
  have hLo := lower15_eq_edge ss D K A N l hl hss
  have hUp := upper15_eq_edge ss D K A N l hl hss
  have hka : ∀ i, i < N → 0 < rd K i * rd A i := fun i hi => mul_pos (hK i hi) (hA i hi)
  have hpu : ∀ j, j < N - 1 → rd (MatrixBuilder.preMatrix_1_5 N ss D K A).m_upper j
      = edge15 ss D K A j (j + 1) * (rd K j * rd A j) / (rd K (j + 1) * rd A (j + 1)) := by
    intro j hj
    rw [bu j hj]
    by_cases h0 : j = 0
    · rw [if_pos h0, h0]
    · rw [if_neg h0, hUp j (by omega) (by omega)]
  have hpl : ∀ j, j < N - 1 → rd (MatrixBuilder.preMatrix_1_5 N ss D K A).m_lower j
      = edge15 ss D K A j (j + 1) := by
    intro j hj
    rw [bl j hj]
    by_cases h0 : j = N - 2
    · have e : N - 1 = j + 1 := by omega
      rw [if_pos h0, e, ← h0]
    · rw [if_neg h0, hLo (j + 1) (by omega) (by omega), Nat.add_sub_cancel]
  intro j hj
  refine ⟨?_, ?_, ?_⟩
  · rw [hpu j hj]
    have := hE j (j + 1) (by omega) (by omega)
    have := hka j (by omega)
    have := hka (j + 1) (by omega)
    positivity
  · rw [hpl j hj]
    exact hE j (j + 1) (by omega) (by omega)
  · rw [bd j hj, hpl j hj]
    by_cases h0 : j = 0
    · rw [if_pos h0, if_pos h0, h0, zero_add]
    · have e : j - 1 + 1 = j := by omega
      rw [if_neg h0, if_neg h0, hpu (j - 1) (by omega), e, hLo j (by omega) (by omega),
        hUp j (by omega) (by omega)]

theorem vehicleFinite_assignRanges (s start : ℤ) (comps : List Compartment) :
    MatrixBuilder.vehicleFinite (assignRanges s start comps)
      = MatrixBuilder.vehicleFinite comps := by
  cases comps <;> rfl

theorem rd_replicate (n : ℕ) (x : ℚ) (j : ℕ) (hj : j < n) : rd (List.replicate n x) j = x := by
  unfold rd
  rw [List.getD_eq_getElem _ _ (by simpa using hj)]
  simp

/-- The matrices built by `build_M_DS_1_5` on an equidistant mesh with a
perfect sink, a finite-dose vehicle and positive `D`, `K`, `A`: both have
all column sums 2 and the left-hand one is strictly dominant by columns. -/
theorem build_1_5_conservative (mb : MatrixBuilder) (g : Geometry) (comps : List Compartment)
    (s : ℤ) (k : Sink) (hne : comps ≠ []) (hs : 1 ≤ s)
    (hc : ∀ x ∈ comps, 1 ≤ x.m_size ∧ 0 < x.m_D ∧ 0 < x.m_K ∧ 0 < x.m_A)
    (hfin : MatrixBuilder.vehicleFinite comps = true) (hk : k.m_type = SinkType.Perfect_Sink)
    (geo : CreateResult) (hgeo : geo = g.createEqui comps s (some k))
    (built : MatrixBuilder)
    (hbuilt : built = (mb.build_M_DS_1_5 geo.compartments geo.geometry geo.sink).1) :
    2 ≤ geo.geometry.size ∧
    (∀ i, i < geo.geometry.size → rd geo.geometry.m_space_steps i = 1 / (s : ℚ)) ∧
    1 ≤ built.m_timesteps ∧
    built.m_matrix_rhs.m_size = geo.geometry.size ∧
    built.m_matrix_lhs.m_size = geo.geometry.size ∧
    built.m_matrix_rhs.WF ∧ built.m_matrix_lhs.WF ∧ built.m_matrix_lhs.m_prepared = false ∧
    (∀ j, j < geo.geometry.size → built.m_matrix_rhs.colSum j = 2) ∧
    (∀ j, j < geo.geometry.size → built.m_matrix_lhs.colSum j = 2) ∧
    built.m_matrix_lhs.ColDominant := by
  obtain ⟨_, h2, h3, _, _, h6, h7⟩ := createEqui_spec g comps s (some k) hne
    (fun x hx => (hc x hx).1) hs
  rw [← hgeo] at h2 h3 h6 h7
  simp only [Option.isSome_some, if_true, Option.map_some'] at h2 h7
  have hsum := sum_sizes_pos comps hne (fun x hx => (hc x hx).1)
  have hH : 1 ≤ (comps.map (fun c => c.m_size)).sum * s := by nlinarith
  have hN : 2 ≤ geo.geometry.size := by omega
  have hl : (0 : ℚ) < 1 / (s : ℚ) := by
    apply div_pos one_pos
    exact_mod_cast lt_of_lt_of_le one_pos hs
  have hss : ∀ i, i < geo.geometry.size → rd geo.geometry.m_space_steps i = 1 / (s : ℚ) := by
    intro i hi
    rw [h3]
    exact rd_replicate _ _ _ hi
  have hD := createParamVector_pos (fun comp => comp.m_D) s hs (fun _ _ _ => rfl) comps hne
    (fun x hx => ⟨(hc x hx).1, (hc x hx).2.1⟩) k geo.geometry.size h2
  have hK := createParamVector_pos (fun comp => comp.m_K) s hs (fun _ _ _ => rfl) comps hne
    (fun x hx => ⟨(hc x hx).1, (hc x hx).2.2.1⟩) k geo.geometry.size h2
  have hA := createParamVector_pos (fun comp => comp.m_A) s hs (fun _ _ _ => rfl) comps hne
    (fun x hx => ⟨(hc x hx).1, (hc x hx).2.2.2⟩) k geo.geometry.size h2
  rw [← h6, ← h7] at hD hK hA
  obtain ⟨hpc, hpn⟩ := preMatrix_1_5_conservative geo.geometry.size geo.geometry.m_space_steps
    _ _ _ hN (1 / (s : ℚ)) hl hss hD hK hA
  have hfin' : MatrixBuilder.vehicleFinite geo.compartments = true := by
    rw [h6, vehicleFinite_assignRanges]
    exact hfin
  have hk' : (k.setGeometryIdx ((comps.map (fun c => c.m_size)).sum * s)
      ((comps.map (fun c => c.m_size)).sum * s)).m_type = SinkType.Perfect_Sink := hk
  have e : built = (MatrixBuilder.finishCrank mb geo.geometry.size
      (MatrixBuilder.preMatrix_1_5 geo.geometry.size geo.geometry.m_space_steps
        (MatrixBuilder.createParamVector geo.geometry.size geo.compartments
          (fun comp => comp.m_D) geo.sink)
        (MatrixBuilder.createParamVector geo.geometry.size geo.compartments
          (fun comp => comp.m_K) geo.sink)
        (MatrixBuilder.createParamVector geo.geometry.size geo.compartments
          (fun comp => comp.m_A) geo.sink)) geo.compartments geo.sink).1 := hbuilt
  rw [h7] at e
  obtain ⟨t1, t2, t3, t4, t5, t6, _⟩ := finishCrank_spec mb geo.geometry.size _ geo.compartments
    _ hN hpc.1 hpn hk' hfin'
  obtain ⟨q1, q2, q3⟩ := finishCrank_conservative mb geo.geometry.size _ geo.compartments
    _ hN hpc hpn hk' hfin'
  rw [← h7] at t1 t2 t3 t4 t5 t6 q1 q2 q3 e
  rw [← e] at t1 t2 t3 t4 t5 t6 q1 q2 q3
  exact ⟨hN, hss, t1, t2, t3, t4, t5, t6, q1, q2, q3⟩

/-- One sub-step from a fresh or a cached left-hand matrix: the next state
holds the cached matrix and the vector of `thomasIP`. -/
theorem subStep_eq (R L : TDMatrix) (hL : L.WF) (hprep : L.m_prepared = false)
    (st : TDMatrix × List ℚ) (hst : st.1 = L ∨ st.1 = thomasPrepare L) :
    subStep R st = (thomasPrepare L, thomasIP L (R.inlineMultiply st.2)) := by
  unfold subStep
  simp only
  rcases hst with h | h
  · rw [h, thomasReUseIP_fresh L _ hL hprep]
  · rw [h, thomasReUseIP_prepared L _ hL]

/-- The state invariant of the sub-step loop: fresh or cached left-hand
matrix, vector of the mesh length, unchanged sum. -/
theorem subStep_inv (R L : TDMatrix) (S : ℚ) (hN : 2 ≤ L.m_size) (hRN : R.m_size = L.m_size)
    (hL : L.WF) (hR : R.WF) (hprep : L.m_prepared = false) (hcol : L.ColDominant)
    (hsL : ∀ j, j < L.m_size → L.colSum j = 2) (hsR : ∀ j, j < R.m_size → R.colSum j = 2)
    (st : TDMatrix × List ℚ)
    (hst : (st.1 = L ∨ st.1 = thomasPrepare L) ∧ st.2.length = L.m_size ∧
      (∑ i in Finset.range L.m_size, rd st.2 i) = S) :
    ((subStep R st).1 = L ∨ (subStep R st).1 = thomasPrepare L) ∧
      (subStep R st).2.length = L.m_size ∧
      (∑ i in Finset.range L.m_size, rd (subStep R st).2 i) = S := by
  obtain ⟨h1, h2, h3⟩ := hst
  rw [subStep_eq R L hL hprep st h1]
  obtain ⟨g1, g2⟩ := substep_sum R L st.2 2 (by norm_num) hN hRN hL hR h2 hcol hsL hsR
  exact ⟨Or.inr rfl, g1, by rw [g2, h3]⟩

theorem innerLoop_inv (R L : TDMatrix) (S : ℚ) (hN : 2 ≤ L.m_size) (hRN : R.m_size = L.m_size)
    (hL : L.WF) (hR : R.WF) (hprep : L.m_prepared = false) (hcol : L.ColDominant)
    (hsL : ∀ j, j < L.m_size → L.colSum j = 2) (hsR : ∀ j, j < R.m_size → R.colSum j = 2)
    (n_ts : ℤ) (st : TDMatrix × List ℚ)
    (hst : (st.1 = L ∨ st.1 = thomasPrepare L) ∧ st.2.length = L.m_size ∧
      (∑ i in Finset.range L.m_size, rd st.2 i) = S) :
    ((innerLoop n_ts R st).1 = L ∨ (innerLoop n_ts R st).1 = thomasPrepare L) ∧
      (innerLoop n_ts R st).2.length = L.m_size ∧
      (∑ i in Finset.range L.m_size, rd (innerLoop n_ts R st).2 i) = S := by
  unfold innerLoop
  exact forUp_inv (fun _ (x : TDMatrix × List ℚ) =>
    (x.1 = L ∨ x.1 = thomasPrepare L) ∧ x.2.length = L.m_size ∧
      (∑ i in Finset.range L.m_size, rd x.2 i) = S) 1 (n_ts.toNat + 1) (by omega) _ st hst
    (fun _ x _ _ hx => subStep_inv R L S hN hRN hL hR hprep hcol hsL hsR x hx)

theorem sum_mul_steps (N : ℕ) (ss v : List ℚ) (l : ℚ) (hss : ∀ i, i < N → rd ss i = l) :
    (∑ i in Finset.range N, rd v i * rd ss i) = (∑ i in Finset.range N, rd v i) * l := by
  rw [Finset.sum_mul]
  apply Finset.sum_congr rfl
  intro i hi
  rw [hss i (Finset.mem_range.mp hi)]

/-- C8. Mass is conserved under `DSkin_1_5` with a perfect sink: for every
equidistant geometry (`Geometry::create` taking its equidistant branch:
method `EQUI_DIST`, or `ss_per_um = 1`, or a single compartment; thicknesses
`>= 1`, `ss_per_um >= 1`), `PerfectSink`, finite-dose vehicle and
compartments with `D > 0`, positive areas and `K > 0` (`K = 1` in
particular), with the matrices built by `build_M_DS_1_5`, and for every
concentration vector `c` on the mesh, one inner sub-step (`inlineMultiply`
with the right-hand matrix, then `thomasReUseIP` with the left-hand matrix)
keeps the sum over all cells, the sink cell included, of `c_i * dx_i`; and so
does every number `m` of simulated minutes of `timesteps()` sub-steps each,
run on the cached left-hand matrix, so that the total is the same at every
logged minute. -/
theorem mass_conserved_DSkin_1_5 (mb : MatrixBuilder) (g : Geometry)
    (method : DiscMethod) (comps : List Compartment) (s : ℤ) (k : Sink) (t : Transition)
    (c : List ℚ)
    (hm : method = DiscMethod.EQUI_DIST ∨ s = 1 ∨ comps.length = 1)
    (hne : comps ≠ []) (hs : 1 ≤ s)
    (hc : ∀ x ∈ comps, 1 ≤ x.m_size ∧ 0 < x.m_D ∧ 0 < x.m_K ∧ 0 < x.m_A)
    (hfin : MatrixBuilder.vehicleFinite comps = true) (hk : k.m_type = SinkType.Perfect_Sink)
    (geo : CreateResult) (hgeo : geo = g.create method comps s (some k) t)
    (built : MatrixBuilder)
    (hbuilt : built = (mb.build_M_DS_1_5 geo.compartments geo.geometry geo.sink).1)
    (hcl : c.length = geo.geometry.size) :
    (∑ i in Finset.range geo.geometry.size,
        rd (subStep built.m_matrix_rhs (built.m_matrix_lhs, c)).2 i
          * rd geo.geometry.m_space_steps i)
      = (∑ i in Finset.range geo.geometry.size, rd c i * rd geo.geometry.m_space_steps i) ∧
    ∀ m : ℕ,
      (∑ i in Finset.range geo.geometry.size,
        rd ((innerLoop built.timesteps built.m_matrix_rhs)^[m] (built.m_matrix_lhs, c)).2 i
          * rd geo.geometry.m_space_steps i)
      = ∑ i in Finset.range geo.geometry.size, rd c i * rd geo.geometry.m_space_steps i := by
  have hgeo' : geo = { g with
      m_disc_method := method
      m_space_steps := []
      m_min_space_step := 1
      m_max_space_step := 1 }.createEqui comps s (some k) := by
    rw [hgeo]
    unfold Geometry.create
    exact if_pos hm
  obtain ⟨hN, hss, _, n1, n2, w1, w2, hp, q1, q2, q3⟩ := build_1_5_conservative mb _ comps s k
    hne hs hc hfin hk geo hgeo' built hbuilt
  rw [← n2] at hN hcl q2
  rw [← n1] at q1
  have n1 := n1.trans n2.symm
  have hstep := subStep_inv built.m_matrix_rhs built.m_matrix_lhs
    (∑ i in Finset.range built.m_matrix_lhs.m_size, rd c i) hN n1 w2 w1 hp q3 q2 q1
  have hloop := innerLoop_inv built.m_matrix_rhs built.m_matrix_lhs
    (∑ i in Finset.range built.m_matrix_lhs.m_size, rd c i) hN n1 w2 w1 hp q3 q2 q1
    built.timesteps
  rw [← n2] at hss ⊢
  constructor
  · rw [sum_mul_steps _ _ _ _ hss, sum_mul_steps _ _ _ _ hss,
      (hstep (built.m_matrix_lhs, c) ⟨Or.inl rfl, hcl, rfl⟩).2.2]
  · intro m
    have hiter : ∀ m : ℕ,
        (((innerLoop built.timesteps built.m_matrix_rhs)^[m] (built.m_matrix_lhs, c)).1
            = built.m_matrix_lhs ∨
          ((innerLoop built.timesteps built.m_matrix_rhs)^[m] (built.m_matrix_lhs, c)).1
            = thomasPrepare built.m_matrix_lhs) ∧
        ((innerLoop built.timesteps built.m_matrix_rhs)^[m] (built.m_matrix_lhs, c)).2.length
          = built.m_matrix_lhs.m_size ∧
        (∑ i in Finset.range built.m_matrix_lhs.m_size,
          rd ((innerLoop built.timesteps built.m_matrix_rhs)^[m] (built.m_matrix_lhs, c)).2 i)
          = ∑ i in Finset.range built.m_matrix_lhs.m_size, rd c i := by
      intro m
      induction m with
      | zero => exact ⟨Or.inl rfl, hcl, rfl⟩
      | succ m ih =>
        rw [Function.iterate_succ_apply']
        exact hloop _ ih
    rw [sum_mul_steps _ _ _ _ hss, sum_mul_steps _ _ _ _ hss, (hiter m).2.2]

/-- C8, witness: scenario S1 (vehicle and layer of thickness 10, `D = 1`,
`K = 1`, perfect sink, resolution 1): one sub-step keeps the total 10. -/
theorem mass_conserved_DSkin_1_5_witness :
    (∑ i in Finset.range s1Geo.geometry.size, rd s1Conc i * rd s1Geo.geometry.m_space_steps i)
      = 10 ∧
    (∑ i in Finset.range s1Geo.geometry.size,
        rd (subStep s1Built.m_matrix_rhs (s1Built.m_matrix_lhs, s1Conc)).2 i
          * rd s1Geo.geometry.m_space_steps i)
      = ∑ i in Finset.range s1Geo.geometry.size, rd s1Conc i * rd s1Geo.geometry.m_space_steps i :=
  ⟨by decide!, (mass_conserved_DSkin_1_5 (MatrixBuilder.new Method.DSkin_1_5) Geometry.new
    DiscMethod.EQUI_DIST scenarioS1 1 perfectSink noTransition s1Conc (Or.inl rfl) (by decide)
    (by decide) (by decide!) rfl rfl
    s1Geo rfl s1Built rfl (by decide!)).1⟩

/-- C9. The sub-step count after `buildMatrix`: `build_M_DS_1_4` and
`build_M_DS_1_5` leave `timesteps() >= 1` on every input (they take the
maximum with 1), but `build_M_DS_1_3` stores `ceil(absMax / max_module)`
unguarded: on the validated input `zeroDComps` (every `D = 0`, `K = 1`,
area 1, space steps 1, `max_module = 50`, finite dose) the pre-matrix is
zero and `timesteps()` is 0. -/
theorem timesteps_ge_one_except_DSkin_1_3 :
    (∀ (mb : MatrixBuilder) (comps : List Compartment) (geo : Geometry) (sink : Option Sink),
      1 ≤ (mb.build_M_DS_1_4 comps geo sink).1.timesteps) ∧
    (∀ (mb : MatrixBuilder) (comps : List Compartment) (geo : Geometry) (sink : Option Sink),
      1 ≤ (mb.build_M_DS_1_5 comps geo sink).1.timesteps) ∧
    (∀ (mb : MatrixBuilder) (comps : List Compartment) (geo : Geometry) (sink : Option Sink)
      (r : MatrixBuilder × Bool), mb.build_M_DS_1_3 comps geo sink = some r →
      r.1.timesteps = ⌈(MatrixBuilder.preMatrix_1_3 geo.size geo.m_space_steps
        (MatrixBuilder.createParamVector geo.size comps (fun c => c.m_D) sink)
        (MatrixBuilder.createParamVector geo.size comps (fun c => c.m_K) sink)
        (MatrixBuilder.createParamVector geo.size comps (fun c => c.m_A) sink)).absMax
          / mb.m_max_module⌉) ∧
    ((MatrixBuilder.new Method.DSkin_1_3).buildMatrix zeroDGeo.compartments zeroDGeo.geometry
      zeroDGeo.sink).map (fun r => r.1.timesteps) = some 0 := by
  refine ⟨fun mb comps geo sink => ?_, fun mb comps geo sink => ?_,
    fun mb comps geo sink r hr => ?_, by decide!⟩
  · exact le_max_left _ _
  · exact le_max_left _ _
  · unfold MatrixBuilder.build_M_DS_1_3 at hr
    simp only at hr
    split at hr
    · exact absurd hr (by simp)
    · rw [Option.some.injEq] at hr
      rw [← hr]
      rfl

/-- The range of the `k`-th compartment after the equidistant loop started at
cell `start`: it begins after the cells of the compartments before it. -/
theorem assignRanges_get (s : ℤ) (comps : List Compartment) (start : ℤ) (k : ℕ)
    (c : Compartment) (h : (assignRanges s start comps)[k]? = some c) :
    ∃ c0, comps[k]? = some c0 ∧
      c = c0.setGeometryIdx (start + ((comps.take k).map (fun x => x.m_size)).sum * s)
        (start + ((comps.take k).map (fun x => x.m_size)).sum * s + (c0.m_size * s - 1)) := by
  induction comps generalizing start k with
  | nil => simp [assignRanges] at h
  | cons x xs ih =>
    cases k with
    | zero =>
      simp only [assignRanges, List.getElem?_cons_zero, Option.some.injEq] at h
      refine ⟨x, by simp, ?_⟩
      simp [← h]
    | succ k =>
      simp only [assignRanges, List.getElem?_cons_succ] at h
      obtain ⟨c0, h0, hc⟩ := ih _ k h
      refine ⟨c0, by simpa using h0, ?_⟩
      rw [hc]
      simp only [List.take_succ_cons, List.map_cons, List.sum_cons]
      congr 1 <;> ring

theorem assignRanges_length (s : ℤ) (comps : List Compartment) (start : ℤ) :
    (assignRanges s start comps).length = comps.length := by
  induction comps generalizing start with
  | nil => rfl
  | cons x xs ih => simp [assignRanges, ih]

/-- The last compartment ends one cell before `start + (sum of h_k) * s`. -/
theorem assignRanges_last (s : ℤ) (comps : List Compartment) (start : ℤ) (c : Compartment)
    (h : (assignRanges s start comps).getLast? = some c) :
    c.m_geo_to + 1 = start + (comps.map (fun x => x.m_size)).sum * s := by
  induction comps generalizing start with
  | nil => simp [assignRanges] at h
  | cons x xs ih =>
    cases xs with
    | nil =>
      simp only [assignRanges, List.getLast?_singleton, Option.some.injEq] at h
      rw [← h]
      simp [Compartment.setGeometryIdx]
      ring
    | cons y ys =>
      have h2 : (assignRanges s (start + (x.m_size * s - 1) + 1) (y :: ys)).getLast? = some c := by
        rw [← h]
        simp [assignRanges, List.getLast?_cons_cons]
      rw [ih _ h2]
      simp only [List.map_cons, List.sum_cons]
      ring

/-- C11. Equidistant cell ranges partition the mesh: after `Geometry::create`
in the equidistant branch (method `EQUI_DIST`, or `ss_per_um = 1`, or a
single compartment) with thicknesses `h_k >= 1` and `s >= 1` subdivisions,
the compartments are the given ones with only their ranges set, compartment 0
has `geo_from = 0`, every compartment `k` has
`geo_to = geo_from + h_k*s - 1`, every next compartment has `geo_from` equal
to the previous `geo_to + 1`, and a given sink has
`geo_from = geo_to = size() - 1`, the cell directly after the last
compartment. -/
theorem equidistant_ranges_partition (g : Geometry) (method : DiscMethod)
    (comps : List Compartment) (s : ℤ) (sink : Option Sink) (t : Transition)
    (hne : comps ≠ []) (hh : ∀ c ∈ comps, 1 ≤ c.m_size) (hs : 1 ≤ s)
    (hm : method = DiscMethod.EQUI_DIST ∨ s = 1 ∨ comps.length = 1)
    (r : CreateResult) (hr : r = g.create method comps s sink t) :
    r.compartments.length = comps.length ∧
    (∀ (k : ℕ) (c : Compartment), r.compartments[k]? = some c → ∃ c0 : Compartment,
      comps[k]? = some c0 ∧
      c = c0.setGeometryIdx c.m_geo_from c.m_geo_to ∧
      c.m_geo_to = c.m_geo_from + c0.m_size * s - 1) ∧
    (∀ c : Compartment, r.compartments[0]? = some c → c.m_geo_from = 0) ∧
    (∀ (k : ℕ) (c c' : Compartment), r.compartments[k]? = some c →
      r.compartments[k + 1]? = some c' →
      c'.m_geo_from = c.m_geo_to + 1) ∧
    (∀ k0 : Sink, sink = some k0 → ∃ k1 : Sink, r.sink = some k1 ∧
      k1 = k0.setGeometryIdx k1.m_geo_from k1.m_geo_to ∧
      k1.m_geo_from = (r.geometry.size : ℤ) - 1 ∧ k1.m_geo_to = (r.geometry.size : ℤ) - 1 ∧
      ∀ c : Compartment, r.compartments.getLast? = some c →
        k1.m_geo_from = c.m_geo_to + 1) := by
  have hr' : r = { g with
      m_disc_method := method
      m_space_steps := []
      m_min_space_step := 1
      m_max_space_step := 1 }.createEqui comps s sink := by
    rw [hr]
    unfold Geometry.create
    exact if_pos hm
  obtain ⟨_, hsize, _, _, _, hcomps, hsink⟩ := createEqui_spec
    { g with
      m_disc_method := method
      m_space_steps := []
      m_min_space_step := 1
      m_max_space_step := 1 } comps s sink hne hh hs
  rw [← hr'] at hsize hcomps hsink
  rw [hcomps]
  refine ⟨assignRanges_length s comps 0, ?_, ?_, ?_, ?_⟩
  · intro k c hk
    obtain ⟨c0, h0, hc⟩ := assignRanges_get s comps 0 k c hk
    refine ⟨c0, h0, ?_, ?_⟩
    · rw [hc]
      rfl
    · rw [hc]
      simp only [Compartment.setGeometryIdx]
      ring
  · intro c hk
    obtain ⟨c0, _, hc⟩ := assignRanges_get s comps 0 0 c hk
    rw [hc]
    simp [Compartment.setGeometryIdx]
  · intro k c c' hk hk'
    obtain ⟨c0, h0, hc⟩ := assignRanges_get s comps 0 k c hk
    obtain ⟨c1, _, hc'⟩ := assignRanges_get s comps 0 (k + 1) c' hk'
    rw [hc, hc']
    simp only [Compartment.setGeometryIdx, List.take_succ, h0, Option.toList, List.map_append,
      List.sum_append, List.map_cons, List.map_nil, List.sum_cons, List.sum_nil]
    ring
  · intro k0 hk0
    subst hk0
    simp only [Option.isSome_some, if_true] at hsize
    refine ⟨_, hsink, rfl, ?_, ?_, ?_⟩
    · simp only [Sink.setGeometryIdx]
      omega
    · simp only [Sink.setGeometryIdx]
      omega
    · intro c hc
      have := assignRanges_last s comps 0 c hc
      simp only [Sink.setGeometryIdx]
      omega

/-- C11, witness: the vehicle and the layer of scenario S1 with one
subdivision and a sink: ranges 0..9 and 10..19. -/
theorem equidistant_ranges_partition_witness :
    (s1Geo.compartments.map (fun c => (c.m_geo_from, c.m_geo_to)) = [(0, 9), (10, 19)]) ∧
    (∀ (k : ℕ) (c c' : Compartment), s1Geo.compartments[k]? = some c →
      s1Geo.compartments[k + 1]? = some c' →
      c'.m_geo_from = c.m_geo_to + 1) :=
  ⟨by decide!, (equidistant_ranges_partition Geometry.new DiscMethod.EQUI_DIST scenarioS1 1
    (some perfectSink) noTransition (by decide) (by decide) (by decide) (Or.inl rfl)
    s1Geo rfl).2.2.2.1⟩

theorem crankRows_diag_length (n : ℕ) (m : TDMatrix × TDMatrix) :
    (MatrixBuilder.crankRows n m).1.m_diag.length = m.1.m_diag.length ∧
    (MatrixBuilder.crankRows n m).2.m_diag.length = m.2.m_diag.length := by
  unfold MatrixBuilder.crankRows
  apply forUp_inv (fun _ (s : TDMatrix × TDMatrix) =>
    s.1.m_diag.length = m.1.m_diag.length ∧ s.2.m_diag.length = m.2.m_diag.length) 0 (n - 1)
    (Nat.zero_le _)
  · exact ⟨rfl, rfl⟩
  · rintro i s _ _ ⟨h1, h2⟩
    simp [TDMatrix.setDiag, TDMatrix.setLower, TDMatrix.setUpper, h1, h2]

/-- The last diagonal entries `finishCrank` leaves when a sink is given. -/
theorem finishCrank_sink_diag (mb : MatrixBuilder) (n : ℕ) (pre : TDMatrix)
    (comps : List Compartment) (k : Sink) (hn : 2 ≤ n) (hP : pre.m_diag.length = n) :
    (MatrixBuilder.finishCrank mb n pre comps (some k)).1.m_matrix_rhs.diag (n - 1)
      = (if k.m_type = SinkType.PK_Compartment then
          2 - 1 / ((MatrixBuilder.finishCrank mb n pre comps (some k)).1.timesteps : ℚ) * k.kEl
        else 2) ∧
    (MatrixBuilder.finishCrank mb n pre comps (some k)).1.m_matrix_lhs.diag (n - 1)
      = (if k.m_type = SinkType.PK_Compartment then
          2 + 1 / ((MatrixBuilder.finishCrank mb n pre comps (some k)).1.timesteps : ℚ) * k.kEl
        else 2) := by
  have l1 : (MatrixBuilder.crankRows n
      (pre.multiplyBy (1 / (((max 1 ⌈pre.absMax / mb.m_max_module⌉ : ℤ)) : ℚ)),
        TDMatrix.new n)).1.m_diag.length = n := by
    rw [(crankRows_diag_length n _).1]
    simp [TDMatrix.multiplyBy, hP]
  have l2 : (MatrixBuilder.crankRows n
      (pre.multiplyBy (1 / (((max 1 ⌈pre.absMax / mb.m_max_module⌉ : ℤ)) : ℚ)),
        TDMatrix.new n)).2.m_diag.length = n := by
    rw [(crankRows_diag_length n _).2]
    simp [TDMatrix.new]
  unfold MatrixBuilder.finishCrank MatrixBuilder.timesteps TDMatrix.diag
  simp only [MatrixBuilder.sinkRows, MatrixBuilder.infiniteDoseRows]
  generalize MatrixBuilder.crankRows n
      (pre.multiplyBy (1 / (((max 1 ⌈pre.absMax / mb.m_max_module⌉ : ℤ)) : ℚ)),
        TDMatrix.new n) = R at l1 l2 ⊢
  have e1 : ∀ (v : List ℚ) (x : ℚ), v.length = n → rd (v.set (n - 1) x) (n - 1) = x :=
    fun v x hv => rd_set_eq v (n - 1) x (by omega)
  have e2 : ∀ (v : List ℚ) (x : ℚ), rd (v.set 0 x) (n - 1) = rd v (n - 1) :=
    fun v x => rd_set_ne v 0 (n - 1) x (by omega)
  by_cases hk : k.m_type = SinkType.PK_Compartment <;>
    by_cases hf : MatrixBuilder.vehicleFinite comps = true <;>
    simp only [hk, hf, if_true, if_false, Bool.not_true, Bool.not_false, Bool.false_eq_true,
      TDMatrix.setDiag, TDMatrix.setUpper, Bool.not_eq_true] <;>
    constructor <;>
    first
      | exact e1 _ _ (by simp [l1, l2])
      | exact (e2 _ _).trans (e1 _ _ (by simp [l1, l2]))

/-- A loop whose body keeps the band lengths and the size keeps them. -/
theorem forUp_WF (lo hi : ℕ) (body : ℕ → TDMatrix → TDMatrix) (m0 : TDMatrix)
    (h : ∀ i m, m.WF → (body i m).WF ∧ (body i m).m_size = m.m_size) (h0 : m0.WF) :
    (forUp lo hi body m0).WF ∧ (forUp lo hi body m0).m_size = m0.m_size := by
  rcases Nat.lt_or_ge hi lo with hlt | hle
  · rw [forUp_of_le lo hi (by omega)]
    exact ⟨h0, rfl⟩
  · apply forUp_inv (fun _ (m : TDMatrix) => m.WF ∧ m.m_size = m0.m_size) lo hi hle
    · exact ⟨h0, rfl⟩
    · rintro i m _ _ ⟨h1, h2⟩
      exact ⟨(h i m h1).1, (h i m h1).2.trans h2⟩

theorem preMatrix_1_4_WF (N : ℕ) (ss D K A : List ℚ) :
    (MatrixBuilder.preMatrix_1_4 N ss D K A).WF ∧
    (MatrixBuilder.preMatrix_1_4 N ss D K A).m_size = N := by
  unfold MatrixBuilder.preMatrix_1_4
  simp only []
  obtain ⟨w, s⟩ := forUp_WF 1 (N - 1) _ _
    (fun i m hm => ⟨setLower_WF _ _ _ (setUpper_WF _ _ _ (setDiag_WF _ _ _ hm)), rfl⟩)
    (setUpper_WF _ 0 _ (setDiag_WF _ 0 _ (new_WF N)))
  exact ⟨setLower_WF _ _ _ (setDiag_WF _ _ _ w), s⟩

theorem preMatrix_1_5_WF (N : ℕ) (ss D K A : List ℚ) :
    (MatrixBuilder.preMatrix_1_5 N ss D K A).WF ∧
    (MatrixBuilder.preMatrix_1_5 N ss D K A).m_size = N := by
  unfold MatrixBuilder.preMatrix_1_5
  simp only []
  obtain ⟨w, s⟩ := forUp_WF 1 (N - 1) _ _
    (fun i m hm => ⟨setLower_WF _ _ _ (setUpper_WF _ _ _ (setDiag_WF _ _ _ hm)), rfl⟩)
    (setUpper_WF _ 0 _ (setDiag_WF _ 0 _ (new_WF N)))
  exact ⟨setLower_WF _ _ _ (setDiag_WF _ _ _ w), s⟩

/-- The sink block keeps the band lengths, the sizes and the `prepared` flag. -/
theorem sinkRows_WF (n : ℕ) (dt : ℚ) (sink : Option Sink) (m : TDMatrix × TDMatrix)
    (h1 : m.1.WF) (h2 : m.2.WF) :
    (MatrixBuilder.sinkRows n dt sink m).1.WF ∧ (MatrixBuilder.sinkRows n dt sink m).2.WF ∧
    (MatrixBuilder.sinkRows n dt sink m).1.m_size = m.1.m_size ∧
    (MatrixBuilder.sinkRows n dt sink m).2.m_size = m.2.m_size ∧
    (MatrixBuilder.sinkRows n dt sink m).2.m_prepared = m.2.m_prepared := by
  unfold MatrixBuilder.sinkRows
  cases sink with
  | none => exact ⟨h1, h2, rfl, rfl, rfl⟩
  | some s =>
    simp only []
    split
    · exact ⟨setDiag_WF _ _ _ (setDiag_WF _ _ _ h1), setDiag_WF _ _ _ (setDiag_WF _ _ _ h2),
        rfl, rfl, rfl⟩
    · exact ⟨setDiag_WF _ _ _ h1, setDiag_WF _ _ _ h2, rfl, rfl, rfl⟩

/-- The matrices `finishCrank` leaves for an infinite-dose vehicle: row 0 of
both holds `diag = 2`, `upper = 0`. -/
theorem finishCrank_infinite (mb : MatrixBuilder) (n : ℕ) (pre : TDMatrix)
    (comps : List Compartment) (sink : Option Sink) (hn : 2 ≤ n) (hP : pre.WF)
    (hPn : pre.m_size = n) (hinf : MatrixBuilder.vehicleFinite comps = false) :
    (MatrixBuilder.finishCrank mb n pre comps sink).1.m_matrix_rhs.WF ∧
    (MatrixBuilder.finishCrank mb n pre comps sink).1.m_matrix_lhs.WF ∧
    (MatrixBuilder.finishCrank mb n pre comps sink).1.m_matrix_rhs.m_size = n ∧
    (MatrixBuilder.finishCrank mb n pre comps sink).1.m_matrix_lhs.m_size = n ∧
    (MatrixBuilder.finishCrank mb n pre comps sink).1.m_matrix_lhs.m_prepared = false ∧
    (MatrixBuilder.finishCrank mb n pre comps sink).1.m_matrix_rhs.diag 0 = 2 ∧
    (MatrixBuilder.finishCrank mb n pre comps sink).1.m_matrix_rhs.upper 0 = 0 ∧
    (MatrixBuilder.finishCrank mb n pre comps sink).1.m_matrix_lhs.diag 0 = 2 ∧
    (MatrixBuilder.finishCrank mb n pre comps sink).1.m_matrix_lhs.upper 0 = 0 := by
  obtain ⟨c1, c2, c3, c4, c5, _⟩ := crankRows_spec n
    (pre.multiplyBy (1 / (((max 1 ⌈pre.absMax / mb.m_max_module⌉ : ℤ)) : ℚ))) (TDMatrix.new n)
    (multiplyBy_WF _ _ hP) (new_WF n) hPn rfl
  generalize hR : MatrixBuilder.crankRows n
    (pre.multiplyBy (1 / (((max 1 ⌈pre.absMax / mb.m_max_module⌉ : ℤ)) : ℚ)), TDMatrix.new n)
    = R at c1 c2 c3 c4 c5
  obtain ⟨z1, z2, z3, z4, z5⟩ := sinkRows_WF n
    (1 / (((max 1 ⌈pre.absMax / mb.m_max_module⌉ : ℤ)) : ℚ)) sink
    (R.1.setUpper (n - 2) 0, R.2.setUpper (n - 2) 0)
    (setUpper_WF _ _ _ c3) (setUpper_WF _ _ _ c4)
  generalize hZ : MatrixBuilder.sinkRows n
    (1 / (((max 1 ⌈pre.absMax / mb.m_max_module⌉ : ℤ)) : ℚ)) sink
    (R.1.setUpper (n - 2) 0, R.2.setUpper (n - 2) 0) = Z at z1 z2 z3 z4 z5
  have e : MatrixBuilder.finishCrank mb n pre comps sink
      = ({ mb with
            m_matrix_rhs := (Z.1.setDiag 0 2).setUpper 0 0
            m_matrix_lhs := (Z.2.setDiag 0 2).setUpper 0 0
            m_timesteps := max 1 ⌈pre.absMax / mb.m_max_module⌉ }, true) := by
    unfold MatrixBuilder.finishCrank
    simp only [hR, hZ, MatrixBuilder.infiniteDoseRows, hinf, Bool.not_false, if_true]
  rw [e]
  have d1 : Z.1.m_diag.length = n := by rw [z1.1, z3]; exact c1
  have d2 : Z.2.m_diag.length = n := by rw [z2.1, z4]; exact c2
  have u1 : Z.1.m_upper.length = n - 1 := by rw [z1.2.2, z3]; exact congrArg (· - 1) c1
  have u2 : Z.2.m_upper.length = n - 1 := by rw [z2.2.2, z4]; exact congrArg (· - 1) c2
  refine ⟨setUpper_WF _ _ _ (setDiag_WF _ _ _ z1), setUpper_WF _ _ _ (setDiag_WF _ _ _ z2),
    z3.trans c1, z4.trans c2, z5.trans (c5.trans rfl), ?_, ?_, ?_, ?_⟩
  · exact rd_set_eq Z.1.m_diag 0 2 (by omega)
  · exact rd_set_eq Z.1.m_upper 0 0 (by omega)
  · exact rd_set_eq Z.2.m_diag 0 2 (by omega)
  · exact rd_set_eq Z.2.m_upper 0 0 (by omega)

/-- With `upper(0) = 0` the first cell of the Thomas solution is
`b[0] / diag(0)`. -/
theorem thomasIP_first (A : TDMatrix) (b : List ℚ) (hN : 2 ≤ A.m_size) (hA : A.WF)
    (hb : b.length = A.m_size) (hu : A.upper 0 = 0) :
    rd (thomasIP A b) 0 = rd b 0 / A.diag 0 := by
  obtain ⟨_, hcs⟩ := thomasCStar_spec A hN hA
  obtain ⟨hfl, hf⟩ := thomas_forward A b (thomasCStar A) hN hb hcs
  obtain ⟨_, _, hrec⟩ := thomas_backward A.m_size (thomasCStar A) _ (by omega) hfl
  unfold thomasIP
  simp only
  rw [hrec 0 (by omega), hf 0 (by omega), hcs 0 (by omega)]
  have : thomasC A 0 = 0 := by
    show A.upper 0 / A.diag 0 = 0
    rw [hu, zero_div]
  rw [this, zero_mul, sub_zero]
  rfl

/-- One sub-step with matrices whose row 0 holds `diag = 2`, `upper = 0`
keeps the first cell, from a fresh or a cached left-hand matrix. -/
theorem subStep_first (R L : TDMatrix) (hN : 2 ≤ L.m_size) (hRN : R.m_size = L.m_size)
    (hL : L.WF) (hprep : L.m_prepared = false)
    (hRd : R.diag 0 = 2) (hRu : R.upper 0 = 0) (hLd : L.diag 0 = 2) (hLu : L.upper 0 = 0)
    (st : TDMatrix × List ℚ)
    (hst : (st.1 = L ∨ st.1 = thomasPrepare L) ∧ st.2.length = L.m_size) :
    ((subStep R st).1 = L ∨ (subStep R st).1 = thomasPrepare L) ∧
      (subStep R st).2.length = L.m_size ∧ rd (subStep R st).2 0 = rd st.2 0 := by
  obtain ⟨h1, h2⟩ := hst
  rw [subStep_eq R L hL hprep st h1]
  obtain ⟨il, ir⟩ := inlineMultiply_rd R st.2 (by omega) (by omega)
  refine ⟨Or.inr rfl, thomasIP_length L _ (by omega) (by omega), ?_⟩
  show rd (thomasIP L (R.inlineMultiply st.2)) 0 = rd st.2 0
  rw [thomasIP_first L _ hN hL (by omega) hLu, ir 0 (by omega),
    TDMatrix.op_mul_rd R st.2 (by omega) 0 (by omega), if_pos rfl, hLd]
  have e1 : rd R.m_diag 0 = 2 := hRd
  have e2 : rd R.m_upper 0 = 0 := hRu
  rw [e1, e2]
  ring

/-- C16. Infinite dose holds the top cell: under `DSkin_1_4` and `DSkin_1_5`
with a vehicle marked `finite_dose = false` (mesh of at least 2 cells, any
sink or none), `buildMatrix` leaves `diag(0) = 2` and `upper(0) = 0` in both
RHS and LHS, and therefore for every concentration vector `c` on the mesh one
inner sub-step (`inlineMultiply` with RHS, then `thomasReUseIP` with LHS)
returns `c'` with `c'[0] = c[0]`; so does every number of sub-steps run on
the cached matrix. -/
theorem infinite_dose_holds_top_cell (mb : MatrixBuilder) (comps : List Compartment)
    (geo : Geometry) (sink : Option Sink)
    (hm : mb.m_method = Method.DSkin_1_4 ∨ mb.m_method = Method.DSkin_1_5)
    (hn : 2 ≤ geo.size) (hinf : MatrixBuilder.vehicleFinite comps = false) :
    ∃ r, mb.buildMatrix comps geo sink = some r ∧
      r.1.m_matrix_rhs.diag 0 = 2 ∧ r.1.m_matrix_rhs.upper 0 = 0 ∧
      r.1.m_matrix_lhs.diag 0 = 2 ∧ r.1.m_matrix_lhs.upper 0 = 0 ∧
      ∀ c : List ℚ, c.length = geo.size →
        rd (subStep r.1.m_matrix_rhs (r.1.m_matrix_lhs, c)).2 0 = rd c 0 ∧
        ∀ m : ℕ, rd ((subStep r.1.m_matrix_rhs)^[m] (r.1.m_matrix_lhs, c)).2 0 = rd c 0 := by
  have main : ∀ pre : TDMatrix, pre.WF → pre.m_size = geo.size →
      (MatrixBuilder.finishCrank mb geo.size pre comps sink).1.m_matrix_rhs.diag 0 = 2 ∧
      (MatrixBuilder.finishCrank mb geo.size pre comps sink).1.m_matrix_rhs.upper 0 = 0 ∧
      (MatrixBuilder.finishCrank mb geo.size pre comps sink).1.m_matrix_lhs.diag 0 = 2 ∧
      (MatrixBuilder.finishCrank mb geo.size pre comps sink).1.m_matrix_lhs.upper 0 = 0 ∧
      ∀ c : List ℚ, c.length = geo.size →
        rd (subStep (MatrixBuilder.finishCrank mb geo.size pre comps sink).1.m_matrix_rhs
          ((MatrixBuilder.finishCrank mb geo.size pre comps sink).1.m_matrix_lhs, c)).2 0
          = rd c 0 ∧
        ∀ m : ℕ,
          rd ((subStep (MatrixBuilder.finishCrank mb geo.size pre comps sink).1.m_matrix_rhs)^[m]
            ((MatrixBuilder.finishCrank mb geo.size pre comps sink).1.m_matrix_lhs, c)).2 0
            = rd c 0 := by
    intro pre hP hPn
    obtain ⟨_, wL, sR, sL, pL, dR, uR, dL, uL⟩ :=
      finishCrank_infinite mb geo.size pre comps sink hn hP hPn hinf
    generalize (MatrixBuilder.finishCrank mb geo.size pre comps sink).1.m_matrix_rhs = R
      at sR dR uR ⊢
    generalize (MatrixBuilder.finishCrank mb geo.size pre comps sink).1.m_matrix_lhs = L
      at wL sL pL dL uL ⊢
    refine ⟨dR, uR, dL, uL, fun c hc => ?_⟩
    have step := subStep_first R L (by omega) (by omega) wL pL dR uR dL uL
    refine ⟨(step (L, c) ⟨Or.inl rfl, hc.trans sL.symm⟩).2.2, fun m => ?_⟩
    have hiter : ∀ m : ℕ,
        (((subStep R)^[m] (L, c)).1 = L ∨ ((subStep R)^[m] (L, c)).1 = thomasPrepare L) ∧
        ((subStep R)^[m] (L, c)).2.length = L.m_size ∧
        rd ((subStep R)^[m] (L, c)).2 0 = rd c 0 := by
      intro m
      induction m with
      | zero => exact ⟨Or.inl rfl, hc.trans sL.symm, rfl⟩
      | succ m ih =>
        rw [Function.iterate_succ_apply']
        obtain ⟨a1, a2, a3⟩ := step _ ⟨ih.1, ih.2.1⟩
        exact ⟨a1, a2, a3.trans ih.2.2⟩
    exact (hiter m).2.2
  unfold MatrixBuilder.buildMatrix
  rcases hm with h | h
  · rw [h]
    exact ⟨_, rfl, main _ (preMatrix_1_4_WF _ _ _ _ _).1 (preMatrix_1_4_WF _ _ _ _ _).2⟩
  · rw [h]
    exact ⟨_, rfl, main _ (preMatrix_1_5_WF _ _ _ _ _).1 (preMatrix_1_5_WF _ _ _ _ _).2⟩

/-- C16, witness: scenario S1 with an infinite-dose vehicle under `DSkin_1_4`. -/
theorem infinite_dose_holds_top_cell_witness :
    ∃ r, (MatrixBuilder.new Method.DSkin_1_4).buildMatrix infiniteS1Geo.compartments
        infiniteS1Geo.geometry infiniteS1Geo.sink = some r ∧
      r.1.m_matrix_rhs.diag 0 = 2 ∧ r.1.m_matrix_rhs.upper 0 = 0 ∧
      r.1.m_matrix_lhs.diag 0 = 2 ∧ r.1.m_matrix_lhs.upper 0 = 0 ∧
      ∀ c : List ℚ, c.length = infiniteS1Geo.geometry.size →
        rd (subStep r.1.m_matrix_rhs (r.1.m_matrix_lhs, c)).2 0 = rd c 0 ∧
        ∀ m : ℕ, rd ((subStep r.1.m_matrix_rhs)^[m] (r.1.m_matrix_lhs, c)).2 0 = rd c 0 :=
  infinite_dose_holds_top_cell (MatrixBuilder.new Method.DSkin_1_4) infiniteS1Geo.compartments
    infiniteS1Geo.geometry infiniteS1Geo.sink (Or.inl rfl) (by decide!) (by decide!)

theorem systemParameter_isValid_spec (p : SystemParameter) (e : String) :
    ((p.isValid e).1 = true ↔ p.InRange) ∧ ((p.isValid e).1 = true → (p.isValid e).2 = e) ∧
    ((p.isValid e).1 = false → (p.isValid e).2 ∈ ["Resulution is <= 0.", "Max module is <= 0.",
      "Simulation time is <= 0.", "mb_eta is <= 0 or > 1.0."]) := by
  unfold SystemParameter.isValid SystemParameter.InRange
  split_ifs with h1 h2 h3 h4
  · simp
    intro _
    omega
  · simp
    intro _ _ h
    linarith
  · simp
    intro _ h
    omega
  · simp
    intro _ _ _ h
    rcases h4 with h4 | h4 <;> linarith
  · simp
    push_neg at h4
    exact ⟨by omega, by omega, by linarith, h4.1, h4.2⟩

theorem logParameter_isValid_spec (p : LogParameter) (e : String) :
    ((p.isValid e).1 = true ↔ p.InRange) ∧ ((p.isValid e).1 = true → (p.isValid e).2 = e) ∧
    ((p.isValid e).1 = false → (p.isValid e).2 ∈ ["Mass log interval <=0",
      "CDP log interval <=0", "Mass file postfix is empty.", "CDP file postfix is empty.",
      "File tag is empty."]) := by
  unfold LogParameter.isValid LogParameter.InRange
  split_ifs with h1 h2 h3 h4 h5
  · simp
    intro _
    omega
  · simp
    intro _ h
    omega
  · simp [h3]
  · simp [h4]
  · simp [h5]
  · simp
    exact ⟨by omega, by omega, h5, h3, h4⟩

theorem pkParameter_isValid_spec (p : PKParameter) (e : String) :
    ((p.isValid e).1 = true ↔ p.InRange) ∧ ((p.isValid e).1 = true → (p.isValid e).2 = e) ∧
    ((p.isValid e).1 = false → (p.isValid e).2 ∈ ["t_half <= 0."]) := by
  unfold PKParameter.isValid PKParameter.InRange
  split_ifs with h1 h2
  · simp [h1]
    linarith
  · simp [h1]
    linarith
  · simp [h1]

theorem sinkParameter_isValid_spec (p : SinkParameter) (e : String) :
    ((p.isValid e).1 = true ↔ p.InRange) ∧ ((p.isValid e).1 = true → (p.isValid e).2 = e) ∧
    ((p.isValid e).1 = false → (p.isValid e).2 ∈ ["Sink name is empty.", "Vd <= 0.0",
      "Sink C_init < 0.0"]) := by
  unfold SinkParameter.isValid SinkParameter.InRange
  split_ifs with h1 h2 h3
  · simp [h1]
  · simp
    intro _ h
    linarith
  · simp
    intro _ _
    linarith
  · simp
    exact ⟨h1, by linarith, by linarith⟩

theorem vehicleParameter_isValid_spec (p : VehicleParameter) (e : String) :
    ((p.isValid e).1 = true ↔ p.InRange) ∧ ((p.isValid e).1 = true → (p.isValid e).2 = e) ∧
    ((p.isValid e).1 = false → (p.isValid e).2 ∈ ["Vehicle name is empty.",
      "Vehicle C_init < 0.0.", "Vehicle App Area <= 0.0.", "Vehicle D < 0.0.",
      "Vehicle height < 2.", "Vehicle remove at < 0.", "Vehicle replace after < 0."]) := by
  unfold VehicleParameter.isValid VehicleParameter.InRange
  split_ifs with h1 h2 h3 h4 h5 h6 h7
  · simp [h1]
  · simp
    intro _ h
    linarith
  · simp
    intro _ _ h
    linarith
  · simp
    intro _ _ _ h
    linarith
  · simp
    intro _ _ _ _ h
    omega
  · simp
    intro _ _ _ _ _ h
    omega
  · simp
    intro _ _ _ _ _ _
    omega
  · simp
    exact ⟨h1, by linarith, by linarith, by linarith, by omega, by omega, by omega⟩

theorem layerParameter_isValid_spec (p : LayerParameter) (e : String) :
    ((p.isValid e).1 = true ↔ p.InRange) ∧ ((p.isValid e).1 = true → (p.isValid e).2 = e) ∧
    ((p.isValid e).1 = false → (p.isValid e).2 ∈ ["Layer name is empty.", "Layer C_init < 0.0.",
      "Layer D < 0.0.", "Layer K <= 0.0.", "Layer cross section not in ]0,1].",
      "Layer height < 2."]) := by
  unfold LayerParameter.isValid LayerParameter.InRange
  split_ifs with h1 h2 h3 h4 h5 h6
  · simp [h1]
  · simp
    intro _ h
    linarith
  · simp
    intro _ _ h
    linarith
  · simp
    intro _ _ _ h
    linarith
  · simp
    intro _ _ _ _ h h'
    rcases h5 with h5 | h5 <;> linarith
  · simp
    intro _ _ _ _ _ _
    omega
  · simp
    push_neg at h5
    exact ⟨h1, by linarith, by linarith, by linarith, h5.1, h5.2, by omega⟩

/-- The layer loop of `Parameter::isValid`, entered with `ok = true`: it
succeeds exactly when every layer is in range, then leaves the error string
alone, and otherwise returns the message of the first layer out of range. -/
theorem layersValid_spec (ls : List LayerParameter) (e : String) :
    ((Parameter.layersValid ls true e).1 = true ↔ ∀ l ∈ ls, l.InRange) ∧
    ((Parameter.layersValid ls true e).1 = true → (Parameter.layersValid ls true e).2 = e) ∧
    (∀ (pre : List LayerParameter) (l : LayerParameter) (post : List LayerParameter),
      ls = pre ++ l :: post → (∀ x ∈ pre, x.InRange) → ¬ l.InRange →
      Parameter.layersValid ls true e = (false, (l.isValid e).2)) := by
  induction ls with
  | nil =>
    refine ⟨by simp [Parameter.layersValid], fun _ => rfl, fun pre l post h => ?_⟩
    simp at h
  | cons a as ih =>
    obtain ⟨a1, a2, _⟩ := layerParameter_isValid_spec a e
    by_cases ha : a.InRange
    · have hv : (a.isValid e).1 = true := a1.mpr ha
      have he : (a.isValid e).2 = e := a2 hv
      have hstep : Parameter.layersValid (a :: as) true e = Parameter.layersValid as true e := by
        simp only [Parameter.layersValid, hv, he, Bool.not_true, Bool.false_eq_true, if_false]
      rw [hstep]
      refine ⟨?_, ih.2.1, fun pre l post h hpre hl => ?_⟩
      · rw [ih.1]
        simp [ha]
      · cases pre with
        | nil =>
          simp only [List.nil_append, List.cons.injEq] at h
          exact absurd (h.1 ▸ ha) hl
        | cons b bs =>
          simp only [List.cons_append, List.cons.injEq] at h
          exact ih.2.2 bs l post h.2 (fun x hx => hpre x (List.mem_cons_of_mem _ hx)) hl
    · have hv : (a.isValid e).1 = false := by
        cases h : (a.isValid e).1
        · rfl
        · exact absurd (a1.mp h) ha
      have hstep : Parameter.layersValid (a :: as) true e = (false, (a.isValid e).2) := by
        simp only [Parameter.layersValid, hv, Bool.not_false, if_true]
      rw [hstep]
      refine ⟨?_, fun h => by simp at h, fun pre l post h hpre hl => ?_⟩
      · simp [ha]
      · cases pre with
        | nil =>
          simp only [List.nil_append, List.cons.injEq] at h
          rw [h.1]
        | cons b bs =>
          simp only [List.cons_append, List.cons.injEq] at h
          exact absurd (hpre b (List.mem_cons_self _ _)) (h.1 ▸ ha)

/-- `Parameter::isValid` group by group: the first group out of range decides
the result; with the five parameter groups in range the layer loop and the
removal check decide. -/
theorem parameter_isValid_groups (p : Parameter) (e : String) :
    (¬ p.m_system_parameter.InRange →
      p.isValid e = (false, (p.m_system_parameter.isValid e).2)) ∧
    (p.m_system_parameter.InRange → ¬ p.m_log_parameter.InRange →
      p.isValid e = (false, (p.m_log_parameter.isValid e).2)) ∧
    (p.m_system_parameter.InRange → p.m_log_parameter.InRange → ¬ p.m_pk_parameter.InRange →
      p.isValid e = (false, (p.m_pk_parameter.isValid e).2)) ∧
    (p.m_system_parameter.InRange → p.m_log_parameter.InRange → p.m_pk_parameter.InRange →
      ¬ p.m_sink_parameter.InRange →
      p.isValid e = (false, (p.m_sink_parameter.isValid e).2)) ∧
    (p.m_system_parameter.InRange → p.m_log_parameter.InRange → p.m_pk_parameter.InRange →
      p.m_sink_parameter.InRange → ¬ p.m_vehicle_parameter.InRange →
      p.isValid e = (false, (p.m_vehicle_parameter.isValid e).2)) ∧
    (p.m_system_parameter.InRange → p.m_log_parameter.InRange → p.m_pk_parameter.InRange →
      p.m_sink_parameter.InRange → p.m_vehicle_parameter.InRange →
      p.isValid e =
        if (Parameter.layersValid p.m_layer_parameter true e).1 = false then
          (false, (Parameter.layersValid p.m_layer_parameter true e).2)
        else if 0 < p.m_vehicle_parameter.m_remove_at ∧ p.m_layer_parameter = [] then
          (false, "Cannot remove the vehicle if no layer is defined.")
        else (true, e)) := by
  have t : ∀ (r : Bool × String) (P : Prop), (r.1 = true ↔ P) → (r.1 = true → r.2 = e) →
      (P → r = (true, e)) ∧ (¬ P → r.1 = false) := by
    intro r P h1 h2
    refine ⟨fun hP => Prod.ext (h1.mpr hP) (h2 (h1.mpr hP)), fun hP => ?_⟩
    cases h : r.1
    · rfl
    · exact absurd (h1.mp h) hP
  obtain ⟨a1, a2⟩ := t _ _ (systemParameter_isValid_spec p.m_system_parameter e).1
    (systemParameter_isValid_spec p.m_system_parameter e).2.1
  obtain ⟨b1, b2⟩ := t _ _ (logParameter_isValid_spec p.m_log_parameter e).1
    (logParameter_isValid_spec p.m_log_parameter e).2.1
  obtain ⟨c1, c2⟩ := t _ _ (pkParameter_isValid_spec p.m_pk_parameter e).1
    (pkParameter_isValid_spec p.m_pk_parameter e).2.1
  obtain ⟨d1, d2⟩ := t _ _ (sinkParameter_isValid_spec p.m_sink_parameter e).1
    (sinkParameter_isValid_spec p.m_sink_parameter e).2.1
  obtain ⟨f1, f2⟩ := t _ _ (vehicleParameter_isValid_spec p.m_vehicle_parameter e).1
    (vehicleParameter_isValid_spec p.m_vehicle_parameter e).2.1
  refine ⟨fun h => ?_, fun hs h => ?_, fun hs hl h => ?_, fun hs hl hp h => ?_,
    fun hs hl hp hk h => ?_, fun hs hl hp hk hv => ?_⟩
  · unfold Parameter.isValid
    simp only [a2 h, Bool.not_false, if_true]
  · unfold Parameter.isValid
    simp only [a1 hs, b2 h, Bool.not_false, Bool.not_true, Bool.false_eq_true, if_true, if_false]
  · unfold Parameter.isValid
    simp only [a1 hs, b1 hl, c2 h, Bool.not_false, Bool.not_true, Bool.false_eq_true, if_true,
      if_false]
  · unfold Parameter.isValid
    simp only [a1 hs, b1 hl, c1 hp, d2 h, Bool.not_false, Bool.not_true, Bool.false_eq_true,
      if_true, if_false]
  · unfold Parameter.isValid
    simp only [a1 hs, b1 hl, c1 hp, d1 hk, f2 h, Bool.not_false, Bool.not_true,
      Bool.false_eq_true, if_true, if_false]
  · unfold Parameter.isValid
    simp only [a1 hs, b1 hl, c1 hp, d1 hk, f1 hv, Bool.not_true, Bool.false_eq_true, if_false]
    obtain ⟨_, l2, _⟩ := layersValid_spec p.m_layer_parameter e
    cases hr : (Parameter.layersValid p.m_layer_parameter true e).1
    · simp only [Bool.not_false, if_true]
    · simp only [Bool.not_true, Bool.false_eq_true, if_false, l2 hr, VehicleParameter.remove,
        Parameter.layerCount, Bool.and_eq_true, decide_eq_true_eq]
      have e1 : ((p.m_layer_parameter.length : ℤ) < 1) ↔ p.m_layer_parameter = [] := by
        rw [← List.length_eq_zero]
        omega
      simp only [e1, gt_iff_lt]
      simp

/-- C19. Parameter validation: `Parameter::isValid` returns true if and only
if every parameter is in its range (`Parameter.InRange`: resolution `>= 1`,
sim_time `>= 1`, max_module `> 0`, `0 < mb_eta <= 1`, both log intervals
`>= 1`, file tag and both postfixes non-empty, `t_half > 0` when PK is
enabled, sink name non-empty with `Vd > 0` and `c_init >= 0`, the vehicle and
every layer in their ranges, removal requested only with at least one layer),
and then leaves the error string alone; whenever it returns false the error
string is a message of the first violated group, the groups taken in the
order system, log, PK, sink, vehicle, layers in their order, removal. -/
theorem parameter_isValid_iff_in_range (p : Parameter) (e : String) :
    ((p.isValid e).1 = true ↔ p.InRange) ∧
    ((p.isValid e).1 = true → (p.isValid e).2 = e) ∧
    (¬ p.m_system_parameter.InRange →
      (p.isValid e).2 ∈ ["Resulution is <= 0.", "Max module is <= 0.",
        "Simulation time is <= 0.", "mb_eta is <= 0 or > 1.0."]) ∧
    (p.m_system_parameter.InRange → ¬ p.m_log_parameter.InRange →
      (p.isValid e).2 ∈ ["Mass log interval <=0", "CDP log interval <=0",
        "Mass file postfix is empty.", "CDP file postfix is empty.", "File tag is empty."]) ∧
    (p.m_system_parameter.InRange → p.m_log_parameter.InRange → ¬ p.m_pk_parameter.InRange →
      (p.isValid e).2 = "t_half <= 0.") ∧
    (p.m_system_parameter.InRange → p.m_log_parameter.InRange → p.m_pk_parameter.InRange →
      ¬ p.m_sink_parameter.InRange →
      (p.isValid e).2 ∈ ["Sink name is empty.", "Vd <= 0.0", "Sink C_init < 0.0"]) ∧
    (p.m_system_parameter.InRange → p.m_log_parameter.InRange → p.m_pk_parameter.InRange →
      p.m_sink_parameter.InRange → ¬ p.m_vehicle_parameter.InRange →
      (p.isValid e).2 ∈ ["Vehicle name is empty.", "Vehicle C_init < 0.0.",
        "Vehicle App Area <= 0.0.", "Vehicle D < 0.0.", "Vehicle height < 2.",
        "Vehicle remove at < 0.", "Vehicle replace after < 0."]) ∧
    (p.m_system_parameter.InRange → p.m_log_parameter.InRange → p.m_pk_parameter.InRange →
      p.m_sink_parameter.InRange → p.m_vehicle_parameter.InRange →
      ∀ (pre : List LayerParameter) (l : LayerParameter) (post : List LayerParameter),
        p.m_layer_parameter = pre ++ l :: post → (∀ x ∈ pre, x.InRange) → ¬ l.InRange →
        (p.isValid e).2 = (l.isValid e).2 ∧
        (p.isValid e).2 ∈ ["Layer name is empty.", "Layer C_init < 0.0.", "Layer D < 0.0.",
          "Layer K <= 0.0.", "Layer cross section not in ]0,1].", "Layer height < 2."]) ∧
    (p.m_system_parameter.InRange → p.m_log_parameter.InRange → p.m_pk_parameter.InRange →
      p.m_sink_parameter.InRange → p.m_vehicle_parameter.InRange →
      (∀ l ∈ p.m_layer_parameter, l.InRange) →
      ¬ (0 < p.m_vehicle_parameter.m_remove_at → 1 ≤ p.m_layer_parameter.length) →
      (p.isValid e).2 = "Cannot remove the vehicle if no layer is defined.") := by
  obtain ⟨g1, g2, g3, g4, g5, g6⟩ := parameter_isValid_groups p e
  obtain ⟨l1, l2, l3⟩ := layersValid_spec p.m_layer_parameter e
  have neg : ∀ (r : Bool × String) (P : Prop), (r.1 = true ↔ P) → ¬ P → r.1 = false := by
    intro r P h hP
    cases hr : r.1
    · rfl
    · exact absurd (h.mp hr) hP
  have rem : (0 < p.m_vehicle_parameter.m_remove_at ∧ p.m_layer_parameter = []) ↔
      ¬ (0 < p.m_vehicle_parameter.m_remove_at → 1 ≤ p.m_layer_parameter.length) := by
    rw [← List.length_eq_zero]
    constructor
    · rintro ⟨h1, h2⟩ h
      have := h h1
      omega
    · intro h
      push_neg at h
      exact ⟨h.1, by omega⟩
  refine ⟨?_, ?_, fun h => ?_, fun hs h => ?_, fun hs hl h => ?_, fun hs hl hp h => ?_,
    fun hs hl hp hk h => ?_, fun hs hl hp hk hv pre l post hsplit hpre hbad => ?_,
    fun hs hl hp hk hv hall hrem => ?_⟩
  · unfold Parameter.InRange
    by_cases hs : p.m_system_parameter.InRange
    swap
    · rw [g1 hs]
      simp [hs]
    by_cases hl : p.m_log_parameter.InRange
    swap
    · rw [g2 hs hl]
      simp [hl]
    by_cases hp : p.m_pk_parameter.InRange
    swap
    · rw [g3 hs hl hp]
      simp [hp]
    by_cases hk : p.m_sink_parameter.InRange
    swap
    · rw [g4 hs hl hp hk]
      simp [hk]
    by_cases hv : p.m_vehicle_parameter.InRange
    swap
    · rw [g5 hs hl hp hk hv]
      simp [hv]
    rw [g6 hs hl hp hk hv]
    by_cases hall : ∀ l ∈ p.m_layer_parameter, l.InRange
    · rw [if_neg (by rw [l1.mpr hall]; decide)]
      by_cases hr : 0 < p.m_vehicle_parameter.m_remove_at ∧ p.m_layer_parameter = []
      · rw [if_pos hr]
        have := rem.mp hr
        simp [this]
      · rw [if_neg hr]
        have hh : 0 < p.m_vehicle_parameter.m_remove_at → 1 ≤ p.m_layer_parameter.length :=
          not_not.mp (fun h => hr (rem.mpr h))
        exact ⟨fun _ => ⟨hs, hl, hp, hk, hv, hall, hh⟩, fun _ => rfl⟩
    · rw [if_pos (neg _ _ l1 hall)]
      simp [hall]
  · intro h
    by_cases hs : p.m_system_parameter.InRange
    swap
    · rw [g1 hs] at h
      simp at h
    by_cases hl : p.m_log_parameter.InRange
    swap
    · rw [g2 hs hl] at h
      simp at h
    by_cases hp : p.m_pk_parameter.InRange
    swap
    · rw [g3 hs hl hp] at h
      simp at h
    by_cases hk : p.m_sink_parameter.InRange
    swap
    · rw [g4 hs hl hp hk] at h
      simp at h
    by_cases hv : p.m_vehicle_parameter.InRange
    swap
    · rw [g5 hs hl hp hk hv] at h
      simp at h
    rw [g6 hs hl hp hk hv] at h ⊢
    split_ifs at h ⊢ with h1 h2
    all_goals rfl
  · rw [g1 h]
    exact (systemParameter_isValid_spec _ e).2.2 (neg _ _ (systemParameter_isValid_spec _ e).1 h)
  · rw [g2 hs h]
    exact (logParameter_isValid_spec _ e).2.2 (neg _ _ (logParameter_isValid_spec _ e).1 h)
  · rw [g3 hs hl h]
    have := (pkParameter_isValid_spec _ e).2.2 (neg _ _ (pkParameter_isValid_spec _ e).1 h)
    simpa using this
  · rw [g4 hs hl hp h]
    exact (sinkParameter_isValid_spec _ e).2.2 (neg _ _ (sinkParameter_isValid_spec _ e).1 h)
  · rw [g5 hs hl hp hk h]
    exact (vehicleParameter_isValid_spec _ e).2.2
      (neg _ _ (vehicleParameter_isValid_spec _ e).1 h)
  · rw [g6 hs hl hp hk hv, l3 pre l post hsplit hpre hbad, if_pos rfl]
    exact ⟨rfl, (layerParameter_isValid_spec l e).2.2
      (neg _ _ (layerParameter_isValid_spec l e).1 hbad)⟩
  · rw [g6 hs hl hp hk hv, if_neg (by rw [l1.mpr hall]; decide), if_pos (rem.mpr hrem)]

/-- The exit code of `main` in every case. It is 0 when there is no
argument, for `--version`, and for `--template` when the file is written; it
is 1 when parsing fails or the template file cannot be written. After a
parsed configuration or command line the `int` exit code computed by
`runFromCmdLineArgs` (0 on success, 1 on failure) is returned as `bool`, so
`main` returns 1 when the simulation returns `Executed` or `Stopped` and all
logs are written, and 0 when the run fails or a log cannot be written. -/
theorem main_exit_code (nargs : ℤ) (status : Status) (fileOk : Bool) (result : Result)
    (logsOk : Bool) :
    main nargs status fileOk result logsOk =
      if nargs < 2 then 0
      else match status with
        | Status.Error => 1
        | Status.Version_Info => 0
        | Status.Write_CFG_Template => if fileOk then 0 else 1
        | _ =>
          if (result = Result.Executed ∨ result = Result.Stopped) ∧ logsOk = true then 1 else 0 := by
  unfold main Session.runFromCmdLineArgs intToBool
  by_cases h : nargs < 2
  · simp [h]
  · cases status <;> cases result <;> cases logsOk <;> cases fileOk <;> simp [h]

/-- C20, at the failing input: one argument naming a configuration file that
parses, a run that is executed and logs that are all written give exit code 1;
the same with a failed run gives exit code 0. -/
theorem main_exit_code_after_run :
    main 2 Status.Parsed_CFG_File true Result.Executed true = 1 ∧
    main 2 Status.Parsed_CFG_File true Result.Stopped true = 1 ∧
    main 2 Status.Parsed_CFG_File true Result.Failed true = 0 ∧
    main 2 Status.Parsed_CFG_File true Result.Executed false = 0 ∧
    main 2 Status.Error true Result.Executed true = 1 := by
  decide

/-- A loop whose body keeps the `prepared` flag keeps it. -/
theorem forUp_prepared (lo hi : ℕ) (body : ℕ → TDMatrix → TDMatrix) (m0 : TDMatrix)
    (h : ∀ i m, (body i m).m_prepared = m.m_prepared) :
    (forUp lo hi body m0).m_prepared = m0.m_prepared := by
  rcases Nat.lt_or_ge hi lo with hlt | hle
  · rw [forUp_of_le lo hi (by omega)]
  · apply forUp_inv (fun _ (m : TDMatrix) => m.m_prepared = m0.m_prepared) lo hi hle
    · rfl
    · intro i m _ _ hm
      rw [h i m, hm]

theorem crankRows_prepared (n : ℕ) (m : TDMatrix × TDMatrix) :
    (MatrixBuilder.crankRows n m).2.m_prepared = m.2.m_prepared := by
  unfold MatrixBuilder.crankRows
  apply forUp_inv (fun _ (s : TDMatrix × TDMatrix) => s.2.m_prepared = m.2.m_prepared) 0 (n - 1)
    (Nat.zero_le _)
  · rfl
  · intro i s _ _ hs
    exact hs

theorem finishCrank_prepared (mb : MatrixBuilder) (n : ℕ) (pre : TDMatrix)
    (comps : List Compartment) (sink : Option Sink) :
    (MatrixBuilder.finishCrank mb n pre comps sink).1.m_matrix_lhs.m_prepared = false := by
  have h := crankRows_prepared n
    (pre.multiplyBy (1 / (((max 1 ⌈pre.absMax / mb.m_max_module⌉ : ℤ)) : ℚ)), TDMatrix.new n)
  unfold MatrixBuilder.finishCrank
  simp only []
  generalize MatrixBuilder.crankRows n _ = R at h ⊢
  have h' : R.2.m_prepared = false := h
  unfold MatrixBuilder.infiniteDoseRows MatrixBuilder.sinkRows
  cases sink with
  | none =>
    simp only []
    split <;> exact h'
  | some s =>
    simp only []
    split <;> split <;> exact h'

theorem fromRhs_prepared (X : TDMatrix) :
    (MatrixBuilder.fromRhs X).m_prepared = X.m_prepared := by
  unfold MatrixBuilder.fromRhs
  simp only []
  refine forUp_prepared _ _ _ _ ?_
  intro i m
  rfl

theorem preMatrix_1_3_prepared (N : ℕ) (ss D K A : List ℚ) :
    (MatrixBuilder.preMatrix_1_3 N ss D K A).m_prepared = false := by
  unfold MatrixBuilder.preMatrix_1_3
  simp only []
  refine forUp_prepared _ _ _ _ ?_
  intro i m
  rfl

theorem build_1_3_prepared (mb : MatrixBuilder) (comps : List Compartment) (geo : Geometry)
    (sink : Option Sink) (r : MatrixBuilder × Bool)
    (h : mb.build_M_DS_1_3 comps geo sink = some r) : r.1.m_matrix_lhs.m_prepared = false := by
  unfold MatrixBuilder.build_M_DS_1_3 at h
  simp only [] at h
  split at h
  · exact absurd h (by simp)
  · rw [Option.some.injEq] at h
    rw [← h]
    show (MatrixBuilder.fromRhs _).m_prepared = false
    rw [fromRhs_prepared]
    have hloop : ∀ (X : TDMatrix) (n : ℕ), X.m_prepared = false →
        (forUp 0 n (fun i (rhs : TDMatrix) =>
          ((rhs.setDiag i (1 - rhs.diag i / 2)).setLower i
            ((rhs.setDiag i (1 - rhs.diag i / 2)).lower i / 2)).setUpper i
            (((rhs.setDiag i (1 - rhs.diag i / 2)).setLower i
              ((rhs.setDiag i (1 - rhs.diag i / 2)).lower i / 2)).upper i / 2)) X).m_prepared
          = false := by
      intro X n hX
      refine Eq.trans (forUp_prepared 0 n _ X ?_) hX
      intro i m
      rfl
    have base := hloop ((MatrixBuilder.preMatrix_1_3 geo.size geo.m_space_steps
        (MatrixBuilder.createParamVector geo.size comps (fun comp => comp.m_D) sink)
        (MatrixBuilder.createParamVector geo.size comps (fun comp => comp.m_K) sink)
        (MatrixBuilder.createParamVector geo.size comps (fun comp => comp.m_A) sink)).multiplyBy
      (1 / ((⌈(MatrixBuilder.preMatrix_1_3 geo.size geo.m_space_steps
        (MatrixBuilder.createParamVector geo.size comps (fun comp => comp.m_D) sink)
        (MatrixBuilder.createParamVector geo.size comps (fun comp => comp.m_K) sink)
        (MatrixBuilder.createParamVector geo.size comps (fun comp => comp.m_A) sink)).absMax
          / mb.m_max_module⌉ : ℤ) : ℚ))) (geo.size - 1) (preMatrix_1_3_prepared _ _ _ _ _)
    cases sink with
    | none => exact base
    | some s =>
      simp only []
      split <;> exact base

/-- `buildMatrix` succeeds unless the method is `DSkin_1_3` with an
infinite-dose first compartment, and the left-hand matrix it leaves is not
prepared. -/
theorem buildMatrix_spec (mb : MatrixBuilder) (comps : List Compartment) (geo : Geometry)
    (sink : Option Sink) :
    ((mb.m_method ≠ Method.DSkin_1_3 ∨ MatrixBuilder.vehicleFinite comps = true) →
      ∃ r, mb.buildMatrix comps geo sink = some r) ∧
    ∀ r, mb.buildMatrix comps geo sink = some r →
      r.1.m_matrix_lhs.m_prepared = false ∧ r.1.m_method = mb.m_method ∧
      r.1.m_max_module = mb.m_max_module := by
  unfold MatrixBuilder.buildMatrix
  cases hm : mb.m_method with
  | DSkin_1_3 =>
    simp only []
    constructor
    · rintro (h | h)
      · exact absurd rfl h
      · unfold MatrixBuilder.build_M_DS_1_3
        simp [h]
    · intro r hr
      refine ⟨build_1_3_prepared mb comps geo sink r hr, ?_⟩
      unfold MatrixBuilder.build_M_DS_1_3 at hr
      simp only [] at hr
      split at hr
      · exact absurd hr (by simp)
      · rw [Option.some.injEq] at hr
        rw [← hr]
        exact ⟨hm, rfl⟩
  | DSkin_1_4 =>
    simp only []
    refine ⟨fun _ => ⟨_, rfl⟩, fun r hr => ?_⟩
    rw [Option.some.injEq] at hr
    rw [← hr]
    exact ⟨finishCrank_prepared _ _ _ _ _, hm, rfl⟩
  | DSkin_1_5 =>
    simp only []
    refine ⟨fun _ => ⟨_, rfl⟩, fun r hr => ?_⟩
    rw [Option.some.injEq] at hr
    rw [← hr]
    exact ⟨finishCrank_prepared _ _ _ _ _, hm, rfl⟩

theorem vehicleFinite_map_setGeometryIdx (comps : List Compartment) (f g : Compartment → ℤ) :
    MatrixBuilder.vehicleFinite (comps.map (fun c => c.setGeometryIdx (f c) (g c)))
      = MatrixBuilder.vehicleFinite comps := by
  cases comps <;> rfl

theorem smallSystem_built : System.new smallParam noTransition = some smallSystem := by
  unfold smallSystem
  cases h : System.new smallParam noTransition with
  | some s => rfl
  | none =>
    exfalso
    have : (System.new smallParam noTransition).isSome = true := by decide!
    rw [h] at this
    exact absurd this (by decide)

theorem loopStep_none (f : ℤ → Bool) (t : ℕ) : System.loopStep f t none = none := rfl

theorem loopStep_stopped (f : ℤ → Bool) (t : ℕ) (rs : System.RunState) :
    System.loopStep f t (some (true, rs)) = some (true, rs) := rfl

theorem loopStep_run (f : ℤ → Bool) (t : ℕ) (rs : System.RunState) (h : f t = false) :
    System.loopStep f t (some (false, rs)) = (System.minute t rs).map (fun rs => (false, rs)) := by
  unfold System.loopStep
  simp [h]

theorem loopStep_stop (f : ℤ → Bool) (t : ℕ) (rs : System.RunState) (h : f t = true) :
    System.loopStep f t (some (false, rs)) = some (true, rs) := by
  unfold System.loopStep
  simp [h]

theorem minutes_zero (sys : System) : System.minutes sys 0 = some (System.runInit sys) := by
  unfold System.minutes
  rw [forUp_self]

theorem minutes_succ (sys : System) (t : ℕ) :
    System.minutes sys (t + 1) = (System.minutes sys t).bind (System.minute ((t + 1 : ℕ) : ℤ)) := by
  unfold System.minutes
  rw [forUp_succ 1 (t + 1) (by omega)]

/-- While no stop is requested the main loop is the sequence of complete
minutes. -/
theorem runLoop_unstopped (sys : System) (f : ℤ → Bool) (t : ℕ)
    (h : ∀ i : ℕ, 1 ≤ i → i ≤ t → f i = false) :
    System.runLoop sys f t = (System.minutes sys t).map (fun rs => (false, rs)) := by
  induction t with
  | zero =>
    rw [minutes_zero]
    unfold System.runLoop
    rw [forUp_self]
    rfl
  | succ t ih =>
    have e : System.runLoop sys f (t + 1)
        = System.loopStep f (t + 1) (System.runLoop sys f t) := by
      unfold System.runLoop
      rw [forUp_succ 1 (t + 1) (by omega)]
    rw [e, ih (fun i h1 h2 => h i h1 (by omega)), minutes_succ]
    cases hm : System.minutes sys t with
    | none => rfl
    | some rs =>
      simp only [Option.map_some', Option.some_bind]
      rw [loopStep_run f (t + 1) rs (h (t + 1) (by omega) (le_refl _))]

/-- Once a stop is requested at minute `t0`, the first such minute, the loop
keeps the state reached after `t0 - 1` complete minutes. -/
theorem runLoop_stopped (sys : System) (f : ℤ → Bool) (t0 T : ℕ) (h0 : 1 ≤ t0) (hT : t0 ≤ T)
    (hstop : f t0 = true) (hbefore : ∀ i : ℕ, 1 ≤ i → i < t0 → f i = false) :
    System.runLoop sys f T = (System.minutes sys (t0 - 1)).map (fun rs => (true, rs)) := by
  have step : ∀ t, System.runLoop sys f (t + 1)
      = System.loopStep f (t + 1) (System.runLoop sys f t) := by
    intro t
    unfold System.runLoop
    rw [forUp_succ 1 (t + 1) (by omega)]
  have hat : System.runLoop sys f t0 = (System.minutes sys (t0 - 1)).map (fun rs => (true, rs)) := by
    obtain ⟨k, rfl⟩ : ∃ k, t0 = k + 1 := ⟨t0 - 1, by omega⟩
    rw [step, runLoop_unstopped sys f k (fun i h1 h2 => hbefore i h1 (by omega))]
    simp only [Nat.add_sub_cancel]
    cases System.minutes sys k with
    | none => rfl
    | some rs =>
      simp only [Option.map_some']
      exact loopStep_stop f (k + 1) rs hstop
  obtain ⟨d, rfl⟩ : ∃ d, T = t0 + d := ⟨T - t0, by omega⟩
  induction d with
  | zero => exact hat
  | succ d ih =>
    rw [show t0 + (d + 1) = (t0 + d) + 1 from rfl, step, ih (by omega)]
    cases System.minutes sys (t0 - 1) with
    | none => rfl
    | some rs => rfl

theorem toInt_intCast (z : ℤ) : toInt (z : ℚ) = z := by
  unfold toInt
  split
  · exact Int.floor_intCast z
  · exact Int.ceil_intCast z

theorem log2D_info (l : CompartmentLog2D) (t : ℤ) (geo : Geometry) (conc : List ℚ) (sc : ℚ)
    (sink : Sink) (comps : List Compartment) :
    (l.log (t : ℚ) geo conc sc sink comps).info = infoLog (fun t => (t : ℚ)) t l.info := by
  unfold CompartmentLog2D.log infoLog CompartmentLog2D.info
  simp only [toInt_intCast]
  split
  · rfl
  · split
    · simp [CompartmentLog2D.logPoint]
    · split <;> simp [CompartmentLog2D.logPoint]

theorem log3D_info (l : CompartmentLog3D) (t : ℤ) (conc : List ℚ) (sc : ℚ)
    (comps : List Compartment) :
    (l.log (t : ℚ) conc sc comps).info = infoLog (fun t => t) t l.info := by
  unfold CompartmentLog3D.log infoLog CompartmentLog3D.info
  simp only [toInt_intCast]
  split
  · rfl
  · simp [CompartmentLog3D.logPoint, toInt_intCast]

theorem infoAfter_succ {α : Type} (e : ℤ → α) (k : ℕ) (i : List α × ℕ × Bool × ℤ) :
    infoAfter e (k + 1) i = infoLog e ((k + 1 : ℕ) : ℤ) (infoAfter e k i) := by
  unfold infoAfter
  rw [List.range_succ, List.foldl_append]
  rfl

theorem infoAfter_zero {α : Type} (e : ℤ → α) (i : List α × ℕ × Bool × ℤ) :
    infoAfter e 0 i = infoLog e 0 i := rfl

theorem map_modify_of_proj {α β : Type} (proj : α → β) (f : α → α)
    (h : ∀ l, proj (f l) = proj l) (L : List α) (i : ℕ) :
    (L.modify f i).map proj = L.map proj := by
  induction L generalizing i with
  | nil => simp
  | cons a as ih =>
    cases i with
    | zero => simp [h]
    | succ i => simp [ih]

theorem reg2_info (L : List CompartmentLog2D) (o : Option ℕ) (i : ℕ) :
    (L.modify (fun l => l.registerCompartment o) i).map CompartmentLog2D.info
      = L.map CompartmentLog2D.info :=
  map_modify_of_proj CompartmentLog2D.info (fun l => l.registerCompartment o) (fun _ => rfl) L i

theorem reg3_info (L : List CompartmentLog3D) (o : Option ℕ) (i : ℕ) :
    (L.modify (fun l => l.registerCompartment o) i).map CompartmentLog3D.info
      = L.map CompartmentLog3D.info :=
  map_modify_of_proj CompartmentLog3D.info (fun l => l.registerCompartment o) (fun _ => rfl) L i

/-- `removeTopCompartment` succeeds on a system with a compartment whose next
compartment is finite dose when the method is `DSkin_1_3`; it keeps the
settings, the method and the sampling records of all loggers. -/
theorem removeTopCompartment_some (sys : System) (hne : sys.m_compartments ≠ [])
    (hok : sys.m_matrix_builder.m_method ≠ Method.DSkin_1_3 ∨
      MatrixBuilder.vehicleFinite sys.m_compartments.tail = true) :
    ∃ s', sys.removeTopCompartment = some s' ∧
      s'.m_replace_after = sys.m_replace_after ∧ s'.m_remove_at = sys.m_remove_at ∧
      s'.m_scale = sys.m_scale ∧
      s'.m_matrix_builder.m_method = sys.m_matrix_builder.m_method ∧
      s'.m_sink_logger = sys.m_sink_logger ∧
      s'.m_compartment_logger.map CompartmentLog2D.info
        = sys.m_compartment_logger.map CompartmentLog2D.info ∧
      s'.m_cdp_logger.map CompartmentLog3D.info
        = sys.m_cdp_logger.map CompartmentLog3D.info := by
  cases hc : sys.m_compartments with
  | nil => exact absurd hc hne
  | cons v rest =>
    rw [hc] at hok
    simp only [List.tail_cons] at hok
    obtain ⟨r, hr⟩ := (buildMatrix_spec sys.m_matrix_builder
      (rest.map (fun c => c.setGeometryIdx (c.m_geo_from - (v.m_geo_to + 1))
        (c.m_geo_to - (v.m_geo_to + 1))))
      (sys.m_geometry.remove v.m_geo_from (v.m_geo_to + 1))
      (some (sys.m_sink.setGeometryIdx (sys.m_sink.m_geo_from - (v.m_geo_to + 1))
        (sys.m_sink.m_geo_to - (v.m_geo_to + 1))))).1
      (by rw [vehicleFinite_map_setGeometryIdx]; exact hok)
    have hloop := forUp_inv (fun _ (st : List CompartmentLog2D × List CompartmentLog3D) =>
        st.1.map CompartmentLog2D.info = sys.m_compartment_logger.map CompartmentLog2D.info ∧
        st.2.map CompartmentLog3D.info = sys.m_cdp_logger.map CompartmentLog3D.info)
      1 (max 1 sys.m_compartment_logger.length) (le_max_left _ _)
      (fun i (st : List CompartmentLog2D × List CompartmentLog3D) =>
          (st.1.modify (fun l => l.registerCompartment (some (i - 1))) i,
            st.2.modify (fun l => l.registerCompartment (some (i - 1))) i))
      (sys.m_compartment_logger.modify (fun l => l.registerCompartment none) 0,
          sys.m_cdp_logger.modify (fun l => l.registerCompartment none) 0)
      ⟨reg2_info _ _ _, reg3_info _ _ _⟩
      (fun i st _ _ h => ⟨(reg2_info _ _ _).trans h.1, (reg3_info _ _ _).trans h.2⟩)
    have hloop' : (forUp 1 sys.m_compartment_logger.length
        (fun i (st : List CompartmentLog2D × List CompartmentLog3D) =>
          (st.1.modify (fun l => l.registerCompartment (some (i - 1))) i,
            st.2.modify (fun l => l.registerCompartment (some (i - 1))) i))
        (sys.m_compartment_logger.modify (fun l => l.registerCompartment none) 0,
          sys.m_cdp_logger.modify (fun l => l.registerCompartment none) 0)).1.map
          CompartmentLog2D.info = sys.m_compartment_logger.map CompartmentLog2D.info ∧
        (forUp 1 sys.m_compartment_logger.length
        (fun i (st : List CompartmentLog2D × List CompartmentLog3D) =>
          (st.1.modify (fun l => l.registerCompartment (some (i - 1))) i,
            st.2.modify (fun l => l.registerCompartment (some (i - 1))) i))
        (sys.m_compartment_logger.modify (fun l => l.registerCompartment none) 0,
          sys.m_cdp_logger.modify (fun l => l.registerCompartment none) 0)).2.map
          CompartmentLog3D.info = sys.m_cdp_logger.map CompartmentLog3D.info := by
      rcases Nat.lt_or_ge sys.m_compartment_logger.length 1 with h | h
      · rw [forUp_of_le 1 _ (by omega)]
        exact ⟨reg2_info _ _ _, reg3_info _ _ _⟩
      · rw [max_eq_right h] at hloop
        exact hloop
    have e : sys.removeTopCompartment = some { sys with
        m_compartments := rest.map (fun c => c.setGeometryIdx (c.m_geo_from - (v.m_geo_to + 1))
          (c.m_geo_to - (v.m_geo_to + 1)))
        m_compartment_logger := (forUp 1 sys.m_compartment_logger.length
          (fun i (st : List CompartmentLog2D × List CompartmentLog3D) =>
            (st.1.modify (fun l => l.registerCompartment (some (i - 1))) i,
              st.2.modify (fun l => l.registerCompartment (some (i - 1))) i))
          (sys.m_compartment_logger.modify (fun l => l.registerCompartment none) 0,
            sys.m_cdp_logger.modify (fun l => l.registerCompartment none) 0)).1
        m_cdp_logger := (forUp 1 sys.m_compartment_logger.length
          (fun i (st : List CompartmentLog2D × List CompartmentLog3D) =>
            (st.1.modify (fun l => l.registerCompartment (some (i - 1))) i,
              st.2.modify (fun l => l.registerCompartment (some (i - 1))) i))
          (sys.m_compartment_logger.modify (fun l => l.registerCompartment none) 0,
            sys.m_cdp_logger.modify (fun l => l.registerCompartment none) 0)).2
        m_geometry := sys.m_geometry.remove v.m_geo_from (v.m_geo_to + 1)
        m_concentrations := sys.m_concentrations.drop (v.m_geo_to + 1).toNat
        m_sink := sys.m_sink.setGeometryIdx (sys.m_sink.m_geo_from - (v.m_geo_to + 1))
          (sys.m_sink.m_geo_to - (v.m_geo_to + 1))
        m_matrix_builder := r.1 } := by
      unfold System.removeTopCompartment
      rw [hc]
      simp only [hr]
    refine ⟨_, e, rfl, rfl, rfl, ?_, rfl, hloop'.1, hloop'.2⟩
    exact ((buildMatrix_spec _ _ _ _).2 r hr).2.1

/-- The replacement branch changes the concentrations only. -/
theorem replaceStep_frame (t : ℤ) (st : System.RunState) :
    ∃ c, System.replaceStep t st = { st with sys := { st.sys with m_concentrations := c } } := by
  unfold System.replaceStep
  split
  · split
    · exact ⟨_, rfl⟩
    · exact ⟨_, rfl⟩
  · exact ⟨_, rfl⟩

/-- The effect of `log(t)` on the sampling records of the loggers. -/
theorem log_info (sys : System) (t : ℤ) :
    (sys.log (t : ℚ)).m_sink_logger.info = infoLog (fun t => (t : ℚ)) t sys.m_sink_logger.info ∧
    (sys.log (t : ℚ)).m_compartment_logger.map CompartmentLog2D.info
      = (sys.m_compartment_logger.map CompartmentLog2D.info).map (infoLog (fun t => (t : ℚ)) t) ∧
    (sys.log (t : ℚ)).m_cdp_logger.map CompartmentLog3D.info
      = (sys.m_cdp_logger.map CompartmentLog3D.info).map (infoLog (fun t => t) t) := by
  refine ⟨log2D_info _ _ _ _ _ _ _, ?_, ?_⟩
  · show (sys.m_compartment_logger.map _).map _ = _
    rw [List.map_map, List.map_map]
    apply List.map_congr_left
    intro l _
    exact log2D_info _ _ _ _ _ _ _
  · show (sys.m_cdp_logger.map _).map _ = _
    rw [List.map_map, List.map_map]
    apply List.map_congr_left
    intro l _
    exact log3D_info _ _ _ _ _

theorem removeStep_yes (t : ℤ) (st : System.RunState) (s' : System)
    (hmr : st.must_remove = true) (ht : t = st.sys.m_remove_at)
    (h : st.sys.removeTopCompartment = some s') :
    System.removeStep t st = some { st with
      vehicle_removed := true
      sys := s'
      rhs_matrix := s'.m_matrix_builder.m_matrix_rhs
      lhs_matrix := s'.m_matrix_builder.m_matrix_lhs
      n_ts := s'.m_matrix_builder.timesteps } := by
  unfold System.removeStep
  simp only [hmr, ht, decide_True, Bool.and_self, if_true, h]

theorem removeStep_no (t : ℤ) (st : System.RunState)
    (h : st.must_remove = false ∨ t ≠ st.sys.m_remove_at) :
    System.removeStep t st = some st := by
  unfold System.removeStep
  rcases h with h | h
  · simp [h]
  · simp [h]

/-- The sub-steps and the replacement branch change the local left-hand
matrix and the concentrations only. -/
theorem replace_subSteps_frame (t : ℤ) (rs : System.RunState) :
    (System.replaceStep t (System.subSteps rs)).must_replace = rs.must_replace ∧
    (System.replaceStep t (System.subSteps rs)).must_remove = rs.must_remove ∧
    (System.replaceStep t (System.subSteps rs)).vehicle_removed = rs.vehicle_removed ∧
    (System.replaceStep t (System.subSteps rs)).sys.m_compartments = rs.sys.m_compartments ∧
    (System.replaceStep t (System.subSteps rs)).sys.m_replace_after = rs.sys.m_replace_after ∧
    (System.replaceStep t (System.subSteps rs)).sys.m_remove_at = rs.sys.m_remove_at ∧
    (System.replaceStep t (System.subSteps rs)).sys.m_scale = rs.sys.m_scale ∧
    (System.replaceStep t (System.subSteps rs)).sys.m_matrix_builder = rs.sys.m_matrix_builder ∧
    (System.replaceStep t (System.subSteps rs)).sys.m_sink_logger = rs.sys.m_sink_logger ∧
    (System.replaceStep t (System.subSteps rs)).sys.m_compartment_logger
      = rs.sys.m_compartment_logger ∧
    (System.replaceStep t (System.subSteps rs)).sys.m_cdp_logger = rs.sys.m_cdp_logger := by
  obtain ⟨c, hc⟩ := replaceStep_frame t (System.subSteps rs)
  rw [hc]
  exact ⟨rfl, rfl, rfl, rfl, rfl, rfl, rfl, rfl, rfl, rfl, rfl⟩

/-- One complete minute keeps the invariant of the main loop. -/
theorem minute_inv (sys : System) (hne : sys.m_compartments ≠ [])
    (hok : sys.m_matrix_builder.m_method ≠ Method.DSkin_1_3 ∨
      MatrixBuilder.vehicleFinite sys.m_compartments.tail = true)
    (k : ℕ) (rs : System.RunState) (h : RunInv sys k rs) :
    ∃ rs', System.minute ((k + 1 : ℕ) : ℤ) rs = some rs' ∧ RunInv sys (k + 1) rs' := by
  obtain ⟨i1, i2, i3, i4, i5, i6, i7, i8, i9, i10, i11⟩ := h
  obtain ⟨f1, f2, f3, f4, f5, f6, f7, f8, f9, f10, f11⟩ :=
    replace_subSteps_frame ((k + 1 : ℕ) : ℤ) rs
  have key : ∃ st3, System.removeStep ((k + 1 : ℕ) : ℤ)
        (System.replaceStep ((k + 1 : ℕ) : ℤ) (System.subSteps rs)) = some st3 ∧
      st3.must_replace = rs.must_replace ∧ st3.must_remove = rs.must_remove ∧
      st3.sys.m_replace_after = sys.m_replace_after ∧
      st3.sys.m_remove_at = sys.m_remove_at ∧
      st3.sys.m_scale = sys.m_scale ∧
      st3.sys.m_matrix_builder.m_method = sys.m_matrix_builder.m_method ∧
      (st3.vehicle_removed = true ↔ (1 ≤ sys.m_remove_at ∧ sys.m_remove_at ≤ ((k + 1 : ℕ) : ℤ))) ∧
      (st3.vehicle_removed = false → st3.sys.m_compartments = sys.m_compartments) ∧
      st3.sys.m_sink_logger.info = rs.sys.m_sink_logger.info ∧
      st3.sys.m_compartment_logger.map CompartmentLog2D.info
        = rs.sys.m_compartment_logger.map CompartmentLog2D.info ∧
      st3.sys.m_cdp_logger.map CompartmentLog3D.info
        = rs.sys.m_cdp_logger.map CompartmentLog3D.info := by
    generalize System.replaceStep ((k + 1 : ℕ) : ℤ) (System.subSteps rs) = st2
      at f1 f2 f3 f4 f5 f6 f7 f8 f9 f10 f11 ⊢
    by_cases hrm : sys.m_remove_at = ((k + 1 : ℕ) : ℤ)
    · have hmr : st2.must_remove = true := by
        rw [f2, i2]
        simp only [ne_eq, decide_eq_true_eq]
        omega
      have hvr : rs.vehicle_removed = false := by
        cases hv : rs.vehicle_removed
        · rfl
        · have := (i7.mp hv).2
          omega
      obtain ⟨s', g1, g2, g3, g4, g5, g6, g7, g8⟩ := removeTopCompartment_some st2.sys
        (by rw [f4, i8 hvr]; exact hne)
        (by rw [f4, f8, i8 hvr, i6]; exact hok)
      rw [removeStep_yes _ st2 s' hmr (hrm.symm.trans (i4.symm.trans f6.symm)) g1]
      refine ⟨_, rfl, f1, f2, g2.trans (f5.trans i3), g3.trans (f6.trans i4),
        g4.trans (f7.trans i5), g5.trans ((congrArg MatrixBuilder.m_method f8).trans i6),
        ?_, ?_, ?_, ?_, ?_⟩
      · simp only [true_iff]
        omega
      · intro hfalse
        simp at hfalse
      · show s'.m_sink_logger.info = _
        rw [g6, f9]
      · show s'.m_compartment_logger.map _ = _
        rw [g7, f10]
      · show s'.m_cdp_logger.map _ = _
        rw [g8, f11]
    · rw [removeStep_no _ st2 (Or.inr (fun hh => hrm (i4.symm.trans (f6.symm.trans hh.symm))))]
      refine ⟨_, rfl, f1, f2, f5.trans i3, f6.trans i4, f7.trans i5,
        (congrArg MatrixBuilder.m_method f8).trans i6, ?_, ?_, by rw [f9], by rw [f10],
        by rw [f11]⟩
      · rw [f3, i7]
        constructor
        · rintro ⟨a, b⟩
          exact ⟨a, by omega⟩
        · rintro ⟨a, b⟩
          refine ⟨a, ?_⟩
          push_cast at b hrm ⊢
          omega
      · intro hv
        rw [f4]
        exact i8 (f3.symm.trans hv)
  obtain ⟨st3, e3, j1, j2, j3, j4, j5, j6, j7, j8, j9, j10, j11⟩ := key
  obtain ⟨l1, l2, l3⟩ := log_info st3.sys ((k + 1 : ℕ) : ℤ)
  refine ⟨System.logStep ((k + 1 : ℕ) : ℤ) st3, ?_, j1.trans i1, j2.trans i2, j3, j4, j5, j6, j7,
    j8, ?_, ?_, ?_⟩
  · unfold System.minute
    rw [e3]
    rfl
  · show (st3.sys.log _).m_sink_logger.info = _
    rw [l1, j9, i9, infoAfter_succ]
  · show (st3.sys.log _).m_compartment_logger.map _ = _
    rw [l2, j10, i10, List.map_map]
    apply List.map_congr_left
    intro l _
    simp only [Function.comp, infoAfter_succ]
  · show (st3.sys.log _).m_cdp_logger.map _ = _
    rw [l3, j11, i11, List.map_map]
    apply List.map_congr_left
    intro l _
    simp only [Function.comp, infoAfter_succ]

theorem runInit_inv (sys : System) : RunInv sys 0 (System.runInit sys) := by
  obtain ⟨l1, l2, l3⟩ := log_info sys 0
  simp only [Int.cast_zero] at l1 l2 l3
  refine ⟨rfl, rfl, rfl, rfl, rfl, rfl, ?_, fun _ => rfl, ?_, ?_, ?_⟩
  · show false = true ↔ _
    constructor
    · intro h
      exact absurd h (by decide)
    · rintro ⟨a, b⟩
      simp only [Nat.cast_zero] at b
      omega
  · show (sys.log 0).m_sink_logger.info = _
    rw [l1]
    rfl
  · show (sys.log 0).m_compartment_logger.map _ = _
    rw [l2, List.map_map]
    rfl
  · show (sys.log 0).m_cdp_logger.map _ = _
    rw [l3, List.map_map]
    rfl

/-- A run on a system with a compartment (finite dose after the first one
under `DSkin_1_3`) does not abort: every number of complete minutes is
reached, with the invariant of the main loop. -/
theorem minutes_inv (sys : System) (hne : sys.m_compartments ≠ [])
    (hok : sys.m_matrix_builder.m_method ≠ Method.DSkin_1_3 ∨
      MatrixBuilder.vehicleFinite sys.m_compartments.tail = true) (k : ℕ) :
    ∃ rs, System.minutes sys k = some rs ∧ RunInv sys k rs := by
  induction k with
  | zero => exact ⟨_, minutes_zero sys, runInit_inv sys⟩
  | succ k ih =>
    obtain ⟨rs, h1, h2⟩ := ih
    obtain ⟨rs', g1, g2⟩ := minute_inv sys hne hok k rs h2
    refine ⟨rs', ?_, g2⟩
    rw [minutes_succ, h1]
    exact g1

theorem infoAfter_off {α : Type} (e : ℤ → α) (k : ℕ) (xs : List α) (n : ℕ) (K : ℤ) :
    infoAfter e k (xs, n, false, K) = (xs, n, false, K) := by
  induction k with
  | zero => simp [infoAfter_zero, infoLog]
  | succ k ih => simp [infoAfter_succ, ih, infoLog]

/-- The samples of a logger with auto-logging on and interval `d >= 1` after
the minutes `0 .. k`: one at each multiple of `d`, `k / d + 1` in all. -/
theorem infoAfter_on {α : Type} (e : ℤ → α) (k : ℕ) (xs : List α) (n : ℕ) (d : ℕ) (hd : 1 ≤ d) :
    infoAfter e k (xs, n, true, (d : ℤ))
      = (xs ++ (List.range (k / d + 1)).map (fun (i : ℕ) => e ((i : ℤ) * (d : ℤ))), n + (k / d + 1),
          true, (d : ℤ)) := by
  induction k with
  | zero =>
    rw [infoAfter_zero]
    simp [infoLog, List.range_succ]
  | succ k ih =>
    rw [infoAfter_succ, ih, Nat.succ_div]
    have hmod : (((k + 1 : ℕ) : ℤ).tmod (d : ℤ) = 0) ↔ d ∣ k + 1 := by
      rw [Int.tmod_eq_emod (by positivity) (by positivity)]
      constructor
      · intro h
        exact Int.natCast_dvd_natCast.mp (Int.dvd_of_emod_eq_zero h)
      · intro h
        exact Int.emod_eq_zero_of_dvd (Int.natCast_dvd_natCast.mpr h)
    by_cases hdv : d ∣ k + 1
    · have hm := hmod.mpr hdv
      simp only [infoLog, hm, ne_eq, not_true_eq_false, or_false, Bool.true_eq_false, if_false,
        if_pos hdv]
      have hk : ((k + 1 : ℕ) : ℤ) = ((k / d + 1 : ℕ) : ℤ) * (d : ℤ) := by
        have h1 : (k + 1) / d = k / d + 1 := by
          rw [Nat.succ_div, if_pos hdv]
        have h2 := Nat.div_mul_cancel hdv
        rw [h1] at h2
        exact_mod_cast h2.symm
      rw [List.range_succ (n := k / d + 1), List.map_append, List.append_assoc]
      simp only [List.map_cons, List.map_nil, hk]
      refine Prod.ext rfl (Prod.ext ?_ rfl)
      simp only
      omega
    · have hm : ¬ ((k + 1 : ℕ) : ℤ).tmod (d : ℤ) = 0 := fun h => hdv (hmod.mp h)
      simp only [infoLog, ne_eq, hm, not_false_eq_true, or_true, if_true, if_neg hdv, add_zero]

/-- A run in which no stop is requested: the status is decided by
`tearDownRun` and the system is the one after all `m_sim_time` minutes. -/
theorem run_unstopped (sys : System) (f : ℤ → Bool) (td : Bool)
    (h : ∀ i : ℕ, 1 ≤ i → i ≤ sys.m_sim_time.toNat → f i = false) :
    sys.run true f td = (System.minutes sys sys.m_sim_time.toNat).map
      (fun rs => (if td then Result.Executed else Result.Failed, rs.sys)) := by
  unfold System.run
  simp only [Bool.not_true, Bool.false_eq_true, if_false]
  rw [runLoop_unstopped sys f _ h]
  cases System.minutes sys sys.m_sim_time.toNat with
  | none => rfl
  | some rs => cases td <;> rfl

/-- A run in which a stop is requested, first at minute `t0`: the status is
`Stopped` and the system is the one after `t0 - 1` complete minutes. -/
theorem run_stopped (sys : System) (f : ℤ → Bool) (td : Bool) (t0 : ℕ) (h0 : 1 ≤ t0)
    (hT : t0 ≤ sys.m_sim_time.toNat) (hstop : f t0 = true)
    (hbefore : ∀ i : ℕ, 1 ≤ i → i < t0 → f i = false) :
    sys.run true f td = (System.minutes sys (t0 - 1)).map (fun rs => (Result.Stopped, rs.sys)) := by
  unfold System.run
  simp only [Bool.not_true, Bool.false_eq_true, if_false]
  rw [runLoop_stopped sys f t0 _ h0 hT hstop hbefore]
  cases System.minutes sys (t0 - 1) with
  | none => rfl
  | some rs => rfl

/-- Reading one logger's sampling record off the records of the list. -/
theorem info_getElem {α β γ : Type} (p : α → γ) (q : β → γ) (L : List α) (M : List β)
    (h : L.map p = M.map q) (j : ℕ) (m : β) (hm : M[j]? = some m) :
    ∃ l, L[j]? = some l ∧ p l = q m := by
  have := congrArg (fun X => X[j]?) h
  simp only [List.getElem?_map, hm, Option.map_some'] at this
  cases hl : L[j]? with
  | none => simp [hl] at this
  | some l =>
    rw [hl] at this
    simp only [Option.map_some', Option.some.injEq] at this
    exact ⟨l, rfl, this⟩

/-- C13. Number of samples: for every run of `T = m_sim_time` minutes (the
count also holds for `T = 0`, where only `log(0)` is called) that is not
stopped (`initRun` succeeds; the system has a compartment and,
under `DSkin_1_3`, a finite-dose second compartment, so that a removal does
not abort), `run()` returns, and every logger (the sink logger, a mass
logger, a profile logger) with auto-logging on and log interval `k >= 1`
has afterwards exactly `1 + floor(T / k)` samples more than before (it is
empty before the run), taken at the times `0, k, 2k, ...` in increasing
order, whatever `replace_after` and `remove_at` are. -/
theorem logger_sample_count (sys : System) (f : ℤ → Bool) (td : Bool)
    (hne : sys.m_compartments ≠ [])
    (hok : sys.m_matrix_builder.m_method ≠ Method.DSkin_1_3 ∨
      MatrixBuilder.vehicleFinite sys.m_compartments.tail = true)
    (hnostop : ∀ i : ℕ, 1 ≤ i → i ≤ sys.m_sim_time.toNat → f i = false) :
    ∃ s', sys.run true f td = some (if td then Result.Executed else Result.Failed, s') ∧
      (∀ (j : ℕ) (l : CompartmentLog2D), sys.m_compartment_logger[j]? = some l →
        l.m_auto_log_enabled = true → 1 ≤ l.m_log_interval →
        ∃ l', s'.m_compartment_logger[j]? = some l' ∧
          l'.m_x = l.m_x ++ (List.range (sys.m_sim_time.toNat / l.m_log_interval.toNat + 1)).map
            (fun (i : ℕ) => (((i : ℤ) * l.m_log_interval : ℤ) : ℚ)) ∧
          l'.m_x.length = l.m_x.length + (1 + sys.m_sim_time.toNat / l.m_log_interval.toNat) ∧
          l'.m_y.length = l.m_y.length + (1 + sys.m_sim_time.toNat / l.m_log_interval.toNat)) ∧
      (sys.m_sink_logger.m_auto_log_enabled = true → 1 ≤ sys.m_sink_logger.m_log_interval →
        s'.m_sink_logger.m_x = sys.m_sink_logger.m_x ++
          (List.range (sys.m_sim_time.toNat / sys.m_sink_logger.m_log_interval.toNat + 1)).map
            (fun (i : ℕ) => (((i : ℤ) * sys.m_sink_logger.m_log_interval : ℤ) : ℚ)) ∧
        s'.m_sink_logger.m_x.length = sys.m_sink_logger.m_x.length
          + (1 + sys.m_sim_time.toNat / sys.m_sink_logger.m_log_interval.toNat) ∧
        s'.m_sink_logger.m_y.length = sys.m_sink_logger.m_y.length
          + (1 + sys.m_sim_time.toNat / sys.m_sink_logger.m_log_interval.toNat)) ∧
      (∀ (j : ℕ) (l : CompartmentLog3D), sys.m_cdp_logger[j]? = some l →
        l.m_auto_log_enabled = true → 1 ≤ l.m_log_interval →
        ∃ l', s'.m_cdp_logger[j]? = some l' ∧
          l'.m_times = l.m_times ++
            (List.range (sys.m_sim_time.toNat / l.m_log_interval.toNat + 1)).map
              (fun (i : ℕ) => (i : ℤ) * l.m_log_interval) ∧
          l'.m_times.length = l.m_times.length
            + (1 + sys.m_sim_time.toNat / l.m_log_interval.toNat) ∧
          l'.m_data.length = l.m_data.length
            + (1 + sys.m_sim_time.toNat / l.m_log_interval.toNat)) := by
  obtain ⟨rs, h1, h2⟩ := minutes_inv sys hne hok sys.m_sim_time.toNat
  obtain ⟨_, _, _, _, _, _, _, _, i9, i10, i11⟩ := h2
  refine ⟨rs.sys, ?_, ?_, ?_, ?_⟩
  · rw [run_unstopped sys f td hnostop, h1]
    rfl
  · intro j l hl hauto hK
    obtain ⟨l', g1, g2⟩ := info_getElem _ _ _ _ i10 j l hl
    refine ⟨l', g1, ?_⟩
    have hK' : l.m_log_interval = ((l.m_log_interval.toNat : ℕ) : ℤ) :=
      (Int.toNat_of_nonneg (by omega)).symm
    have e : l.info = (l.m_x, l.m_y.length, true, ((l.m_log_interval.toNat : ℕ) : ℤ)) := by
      unfold CompartmentLog2D.info
      rw [hauto, ← hK']
    rw [e, infoAfter_on _ _ _ _ _ (by omega)] at g2
    unfold CompartmentLog2D.info at g2
    simp only [Prod.mk.injEq] at g2
    obtain ⟨a, b, _, _⟩ := g2
    rw [← hK'] at a
    refine ⟨a, ?_, by omega⟩
    rw [a]
    simp
    omega
  · intro hauto hK
    have hK' : sys.m_sink_logger.m_log_interval
        = ((sys.m_sink_logger.m_log_interval.toNat : ℕ) : ℤ) :=
      (Int.toNat_of_nonneg (by omega)).symm
    have e : sys.m_sink_logger.info = (sys.m_sink_logger.m_x, sys.m_sink_logger.m_y.length, true,
        ((sys.m_sink_logger.m_log_interval.toNat : ℕ) : ℤ)) := by
      unfold CompartmentLog2D.info
      rw [hauto, ← hK']
    rw [e, infoAfter_on _ _ _ _ _ (by omega)] at i9
    unfold CompartmentLog2D.info at i9
    simp only [Prod.mk.injEq] at i9
    obtain ⟨a, b, _, _⟩ := i9
    rw [← hK'] at a
    refine ⟨a, ?_, by omega⟩
    rw [a]
    simp
    omega
  · intro j l hl hauto hK
    obtain ⟨l', g1, g2⟩ := info_getElem _ _ _ _ i11 j l hl
    refine ⟨l', g1, ?_⟩
    have hK' : l.m_log_interval = ((l.m_log_interval.toNat : ℕ) : ℤ) :=
      (Int.toNat_of_nonneg (by omega)).symm
    have e : l.info = (l.m_times, l.m_data.length, true, ((l.m_log_interval.toNat : ℕ) : ℤ)) := by
      unfold CompartmentLog3D.info
      rw [hauto, ← hK']
    rw [e, infoAfter_on _ _ _ _ _ (by omega)] at g2
    unfold CompartmentLog3D.info at g2
    simp only [Prod.mk.injEq] at g2
    obtain ⟨a, b, _, _⟩ := g2
    rw [← hK'] at a
    refine ⟨a, ?_, by omega⟩
    rw [a]
    simp
    omega

/-- C13, witness: the system built from `smallParam` (6 minutes, vehicle
removed at minute 2 and replaced every 3 minutes, all intervals 1). -/
theorem logger_sample_count_witness :
    ∃ s', smallSystem.run true (fun _ => false) true = some (Result.Executed, s') ∧
      (smallSystem.m_sink_logger.m_auto_log_enabled = true →
        1 ≤ smallSystem.m_sink_logger.m_log_interval →
        s'.m_sink_logger.m_x = smallSystem.m_sink_logger.m_x ++
          (List.range (smallSystem.m_sim_time.toNat
              / smallSystem.m_sink_logger.m_log_interval.toNat + 1)).map
            (fun (i : ℕ) => (((i : ℤ) * smallSystem.m_sink_logger.m_log_interval : ℤ) : ℚ)) ∧
        s'.m_sink_logger.m_x.length = smallSystem.m_sink_logger.m_x.length
          + (1 + smallSystem.m_sim_time.toNat / smallSystem.m_sink_logger.m_log_interval.toNat) ∧
        s'.m_sink_logger.m_y.length = smallSystem.m_sink_logger.m_y.length
          + (1 + smallSystem.m_sim_time.toNat
              / smallSystem.m_sink_logger.m_log_interval.toNat)) := by
  obtain ⟨s', h1, _, h3, _⟩ := logger_sample_count smallSystem (fun _ => false) true
    (by decide!) (Or.inl (by decide!)) (fun _ _ _ => rfl)
  exact ⟨s', h1, h3⟩

/-- C17. Run status. On a system with a compartment (and, under `DSkin_1_3`,
a finite-dose second compartment, so that a removal does not abort) `run()`
returns a status `r` and leaves a system `s'` such that, with
`T = m_sim_time`: `r` is `Failed` exactly when `initRun()` is false, or no
stop is requested in minutes `1..T` and `tearDownRun()` is false; `r` is
`Stopped` exactly when `initRun()` is true and `testForStop(t)` is true for
some `t` in `1..T`; `r` is `Executed` exactly in the remaining case. When
`initRun()` fails nothing is changed; without a stop the system is the one
after `T` complete minutes; with a first stop at `t0` the system is the one
after `t0 - 1` complete minutes (nothing of minute `t0` is performed) and the
loggers hold the samples of the minutes `0 .. t0 - 1` only. -/
theorem run_status (sys : System) (ir : Bool) (f : ℤ → Bool) (td : Bool)
    (hne : sys.m_compartments ≠ [])
    (hok : sys.m_matrix_builder.m_method ≠ Method.DSkin_1_3 ∨
      MatrixBuilder.vehicleFinite sys.m_compartments.tail = true) :
    ∃ r s', sys.run ir f td = some (r, s') ∧
      (r = Result.Failed ↔ (ir = false ∨
        ((∀ i : ℕ, 1 ≤ i → i ≤ sys.m_sim_time.toNat → f i = false) ∧ td = false))) ∧
      (r = Result.Stopped ↔ (ir = true ∧
        ∃ t : ℕ, 1 ≤ t ∧ t ≤ sys.m_sim_time.toNat ∧ f t = true)) ∧
      (r = Result.Executed ↔ (ir = true ∧
        (∀ i : ℕ, 1 ≤ i → i ≤ sys.m_sim_time.toNat → f i = false) ∧ td = true)) ∧
      (ir = false → s' = sys) ∧
      (ir = true → (∀ i : ℕ, 1 ≤ i → i ≤ sys.m_sim_time.toNat → f i = false) →
        ∃ rs, System.minutes sys sys.m_sim_time.toNat = some rs ∧ s' = rs.sys) ∧
      (ir = true → ∀ t0 : ℕ, 1 ≤ t0 → t0 ≤ sys.m_sim_time.toNat → f t0 = true →
        (∀ i : ℕ, 1 ≤ i → i < t0 → f i = false) →
        ∃ rs, System.minutes sys (t0 - 1) = some rs ∧ s' = rs.sys ∧
          s'.m_sink_logger.info
            = infoAfter (fun t => (t : ℚ)) (t0 - 1) sys.m_sink_logger.info ∧
          s'.m_compartment_logger.map CompartmentLog2D.info
            = sys.m_compartment_logger.map
                (fun l => infoAfter (fun t => (t : ℚ)) (t0 - 1) l.info) ∧
          s'.m_cdp_logger.map CompartmentLog3D.info
            = sys.m_cdp_logger.map (fun l => infoAfter (fun t => t) (t0 - 1) l.info)) := by
  cases ir with
  | false =>
    refine ⟨Result.Failed, sys, rfl, ?_, ?_, ?_, ?_, ?_, ?_⟩
    · simp
    · simp
    · simp
    · intro _; rfl
    · intro h; cases h
    · intro h; cases h
  | true =>
    by_cases hs : ∃ t : ℕ, 1 ≤ t ∧ t ≤ sys.m_sim_time.toNat ∧ f t = true
    · -- a stop is requested: take the first minute at which it is
      classical
      have hmin : ∀ m : ℕ, m < Nat.find hs →
          ¬ (1 ≤ m ∧ m ≤ sys.m_sim_time.toNat ∧ f m = true) := fun m hm => Nat.find_min hs hm
      obtain ⟨h1, h2, h3⟩ := Nat.find_spec hs
      generalize Nat.find hs = t0 at hmin h1 h2 h3
      have hbefore : ∀ i : ℕ, 1 ≤ i → i < t0 → f i = false := by
        intro i hi1 hi2
        have := hmin i hi2
        cases hfi : f i with
        | false => rfl
        | true => exact absurd ⟨hi1, by omega, hfi⟩ this
      obtain ⟨rs, g1, g2⟩ := minutes_inv sys hne hok (t0 - 1)
      obtain ⟨_, _, _, _, _, _, _, _, i9, i10, i11⟩ := g2
      have hrun : sys.run true f td = some (Result.Stopped, rs.sys) := by
        rw [run_stopped sys f td t0 h1 h2 h3 hbefore, g1]
        rfl
      refine ⟨Result.Stopped, rs.sys, hrun, ?_, ?_, ?_, ?_, ?_, ?_⟩
      · constructor
        · intro h; cases h
        · rintro (h | ⟨h, _⟩)
          · cases h
          · have := h t0 h1 h2
            rw [h3] at this
            cases this
      · constructor
        · intro _; exact ⟨rfl, hs⟩
        · intro _; rfl
      · constructor
        · intro h; cases h
        · rintro ⟨_, h, _⟩
          have := h t0 h1 h2
          rw [h3] at this
          cases this
      · intro h; cases h
      · intro _ h
        have := h t0 h1 h2
        rw [h3] at this
        cases this
      · intro _ t1 ht1 ht1T hf1 hb1
        have e : t1 = t0 := by
          rcases Nat.lt_trichotomy t1 t0 with h | h | h
          · have := hbefore t1 ht1 h
            rw [hf1] at this
            cases this
          · exact h
          · have := hb1 t0 h1 h
            rw [h3] at this
            cases this
        subst e
        exact ⟨rs, g1, rfl, i9, i10, i11⟩
    · have hno : ∀ i : ℕ, 1 ≤ i → i ≤ sys.m_sim_time.toNat → f i = false := by
        intro i hi1 hi2
        cases hfi : f i with
        | false => rfl
        | true => exact absurd ⟨i, hi1, hi2, hfi⟩ hs
      obtain ⟨rs, g1, _⟩ := minutes_inv sys hne hok sys.m_sim_time.toNat
      have hrun : sys.run true f td
          = some (if td then Result.Executed else Result.Failed, rs.sys) := by
        rw [run_unstopped sys f td hno, g1]
        rfl
      refine ⟨_, rs.sys, hrun, ?_, ?_, ?_, ?_, ?_, ?_⟩
      · cases td
        · simp
          exact hno
        · simp
      · cases td <;> simp [hs]
      · cases td
        · simp
        · simp
          exact hno
      · intro h; cases h
      · intro _ _; exact ⟨rs, g1, rfl⟩
      · intro _ t0 h1 h2 h3 _
        exact absurd ⟨t0, h1, h2, h3⟩ hs

/-- C17, witness: the system built from `smallParam` (6 minutes) with a stop
requested from minute 4 on returns `Stopped`. -/
theorem run_status_witness :
    ∃ r s', smallSystem.run true (fun t => decide (4 ≤ t)) true = some (r, s') ∧
      (r = Result.Stopped ↔ (true = true ∧
        ∃ t : ℕ, 1 ≤ t ∧ t ≤ smallSystem.m_sim_time.toNat ∧
          (fun t => decide (4 ≤ t)) (t : ℤ) = true)) := by
  obtain ⟨r, s', h1, _, h3, _⟩ := run_status smallSystem true (fun t => decide (4 ≤ t)) true
    (by decide!) (Or.inl (by decide!))
  exact ⟨r, s', h1, h3⟩

/-- A function that commutes with every pass of a loop commutes with the loop. -/
theorem forUp_comm {σ τ : Type} (g : σ → τ) (lo hi : ℕ) (b1 : ℕ → σ → σ) (b2 : ℕ → τ → τ)
    (h : ∀ i s, g (b1 i s) = b2 i (g s)) (st : σ) :
    g (forUp lo hi b1 st) = forUp lo hi b2 (g st) := by
  unfold forUp
  generalize List.range' lo (hi - lo) = L
  induction L generalizing st with
  | nil => rfl
  | cons a as ih =>
    simp only [List.foldl_cons]
    rw [ih, h]

theorem forUpZ_comm {σ τ : Type} (g : σ → τ) (lo hi : ℤ) (b1 : ℤ → σ → σ) (b2 : ℤ → τ → τ)
    (h : ∀ i s, g (b1 i s) = b2 i (g s)) (st : σ) :
    g (forUpZ lo hi b1 st) = forUpZ lo hi b2 (g st) := by
  unfold forUpZ
  refine forUp_comm g _ _ _ _ ?_ st
  intro i s
  exact h _ s

theorem wrZ_map (f : ℚ → ℚ) (v : List ℚ) (i : ℤ) (x : ℚ) :
    (wrZ v i x).map f = wrZ (v.map f) i (f x) := by
  unfold wrZ
  split
  · simp [List.map_set]
  · rfl

/-- The auto-log call of a mass logger under a scale factor `c` times larger
stores `c` times the value. -/
theorem log2D_rescale (c : ℚ) (l : CompartmentLog2D) (x : ℚ) (g : Geometry) (conc : List ℚ)
    (s : ℚ) (sink : Sink) (comps : List Compartment) :
    (l.rescale c).log x g conc (c * s) sink comps = (l.log x g conc s sink comps).rescale c := by
  unfold CompartmentLog2D.log
  by_cases h1 : l.m_auto_log_enabled = false ∨ (toInt x).tmod l.m_log_interval ≠ 0
  · rw [if_pos h1, if_pos (show (l.rescale c).m_auto_log_enabled = false
      ∨ (toInt x).tmod (l.rescale c).m_log_interval ≠ 0 from h1)]
  · rw [if_neg h1, if_neg (show ¬ ((l.rescale c).m_auto_log_enabled = false
      ∨ (toInt x).tmod (l.rescale c).m_log_interval ≠ 0) from h1)]
    show (if l.m_registered_sink = true then _ else _) = _
    by_cases h2 : l.m_registered_sink = true
    · rw [if_pos h2, if_pos h2]
      have e : ∀ a b A Vd : ℚ, a * b * A * (c * s) / Vd = c * (a * b * A * s / Vd) := by
        intro a b A Vd
        ring
      simp only [CompartmentLog2D.logPoint, CompartmentLog2D.rescale, List.map_append,
        List.map_cons, List.map_nil, e]
    · rw [if_neg h2, if_neg h2]
      show (match l.m_registered_compartment.bind (fun i => comps[i]?) with
        | some comp => _
        | none => _) = _
      cases l.m_registered_compartment.bind (fun i => comps[i]?) with
      | none =>
        simp only [CompartmentLog2D.logPoint, CompartmentLog2D.rescale, List.map_append,
          List.map_cons, List.map_nil, mul_zero]
      | some comp =>
        have e : ∀ m A : ℚ, m * (c * s) * A = c * (m * s * A) := by
          intro m A
          ring
        simp only [CompartmentLog2D.logPoint, CompartmentLog2D.rescale, List.map_append,
          List.map_cons, List.map_nil, e]

/-- The auto-log call of a profile logger under a scale factor `c` times
larger stores `c` times the values. -/
theorem log3D_rescale (c : ℚ) (l : CompartmentLog3D) (time : ℚ) (conc : List ℚ)
    (s : ℚ) (comps : List Compartment) :
    (l.rescale c).log time conc (c * s) comps = (l.log time conc s comps).rescale c := by
  unfold CompartmentLog3D.log
  by_cases h1 : l.m_auto_log_enabled = false ∨ (toInt time).tmod l.m_log_interval ≠ 0
  · rw [if_pos h1, if_pos (show (l.rescale c).m_auto_log_enabled = false
      ∨ (toInt time).tmod (l.rescale c).m_log_interval ≠ 0 from h1)]
  · rw [if_neg h1, if_neg (show ¬ ((l.rescale c).m_auto_log_enabled = false
      ∨ (toInt time).tmod (l.rescale c).m_log_interval ≠ 0) from h1)]
    have hrep : ∀ n : ℕ, (List.replicate n (0 : ℚ)).map (fun y => c * y) = List.replicate n 0 := by
      intro n
      simp
    have key : ∀ comp : Compartment,
        (forUpZ comp.m_geo_from (comp.m_geo_to + 1) (fun i (st : List ℚ × ℤ) =>
          (wrZ st.1 st.2 (rdZ conc i * (c * s)), st.2 + 1))
            (List.replicate l.m_step_sizes.length 0, 0)).1
        = ((forUpZ comp.m_geo_from (comp.m_geo_to + 1) (fun i (st : List ℚ × ℤ) =>
          (wrZ st.1 st.2 (rdZ conc i * s), st.2 + 1))
            (List.replicate l.m_step_sizes.length 0, 0)).1).map (fun y => c * y) := by
      intro comp
      have := forUpZ_comm (fun (st : List ℚ × ℤ) => (st.1.map (fun y => c * y), st.2))
        comp.m_geo_from (comp.m_geo_to + 1)
        (fun i (st : List ℚ × ℤ) => (wrZ st.1 st.2 (rdZ conc i * s), st.2 + 1))
        (fun i (st : List ℚ × ℤ) => (wrZ st.1 st.2 (rdZ conc i * (c * s)), st.2 + 1))
        (by
          intro i st
          simp only [wrZ_map]
          congr 2
          ring)
        (List.replicate l.m_step_sizes.length 0, 0)
      simp only [hrep] at this
      rw [← this]
    show CompartmentLog3D.logPoint (l.rescale c) time
        (match l.m_registered_compartment.bind (fun i => comps[i]?) with
          | some comp => _
          | none => _) = _
    cases l.m_registered_compartment.bind (fun i => comps[i]?) with
    | none =>
      simp only [CompartmentLog3D.logPoint, CompartmentLog3D.rescale, List.map_append,
        List.map_cons, List.map_nil, hrep]
    | some comp =>
      simp only [CompartmentLog3D.logPoint, CompartmentLog3D.rescale, List.map_append,
        List.map_cons, List.map_nil, key]

/-- The method `log(time)` on the rescaled system. -/
theorem log_rescale (c : ℚ) (p : Parameter) (sys : System) (time : ℚ) :
    (sys.rescale c p).log time = (sys.log time).rescale c p := by
  unfold System.log System.rescale
  simp only [List.map_map, mul_assoc, log2D_rescale, log3D_rescale]
  congr 1
  · apply List.map_congr_left
    intro l _
    exact log2D_rescale _ _ _ _ _ _ _ _
  · apply List.map_congr_left
    intro l _
    show (l.rescale c).log time sys.m_concentrations (c * (sys.m_scale * 1000000000000))
      sys.m_compartments = _
    exact log3D_rescale _ _ _ _ _ _

theorem modify_map_comm {α : Type} (r f : α → α) (h : ∀ l, r (f l) = f (r l)) (L : List α)
    (i : ℕ) : (L.modify f i).map r = (L.map r).modify f i := by
  induction L generalizing i with
  | nil => simp
  | cons a as ih =>
    cases i with
    | zero => simp [h]
    | succ i => simp [ih]

/-- The method `removeTopCompartment()` on the rescaled system. -/
theorem removeTopCompartment_rescale (c : ℚ) (p : Parameter) (sys : System) :
    (sys.rescale c p).removeTopCompartment
      = sys.removeTopCompartment.map (System.rescale c p) := by
  unfold System.removeTopCompartment
  show (match sys.m_compartments with
    | [] => none
    | top_comp :: rest => _) = _
  cases sys.m_compartments with
  | nil => rfl
  | cons top_comp rest =>
    simp only [System.rescale]
    generalize sys.m_matrix_builder.buildMatrix
      (rest.map (fun comp => comp.setGeometryIdx (comp.m_geo_from - (top_comp.m_geo_to + 1))
        (comp.m_geo_to - (top_comp.m_geo_to + 1))))
      (sys.m_geometry.remove top_comp.m_geo_from (top_comp.m_geo_to + 1))
      (some (sys.m_sink.setGeometryIdx (sys.m_sink.m_geo_from - (top_comp.m_geo_to + 1))
        (sys.m_sink.m_geo_to - (top_comp.m_geo_to + 1)))) = B
    cases B with
    | none => rfl
    | some built =>
      have key := forUp_comm
        (fun (st : List CompartmentLog2D × List CompartmentLog3D) =>
          (st.1.map (CompartmentLog2D.rescale c), st.2.map (CompartmentLog3D.rescale c)))
        1 sys.m_compartment_logger.length
        (fun i (st : List CompartmentLog2D × List CompartmentLog3D) =>
          (st.1.modify (fun l => l.registerCompartment (some (i - 1))) i,
            st.2.modify (fun l => l.registerCompartment (some (i - 1))) i))
        (fun i (st : List CompartmentLog2D × List CompartmentLog3D) =>
          (st.1.modify (fun l => l.registerCompartment (some (i - 1))) i,
            st.2.modify (fun l => l.registerCompartment (some (i - 1))) i))
        (by
          intro i st
          simp only []
          rw [modify_map_comm (CompartmentLog2D.rescale c)
              (fun l => l.registerCompartment (some (i - 1))) (fun _ => rfl),
            modify_map_comm (CompartmentLog3D.rescale c)
              (fun l => l.registerCompartment (some (i - 1))) (fun _ => rfl)])
        (sys.m_compartment_logger.modify (fun l => l.registerCompartment none) 0,
          sys.m_cdp_logger.modify (fun l => l.registerCompartment none) 0)
      simp only [] at key
      rw [modify_map_comm (CompartmentLog2D.rescale c)
          (fun l => l.registerCompartment none) (fun _ => rfl),
        modify_map_comm (CompartmentLog3D.rescale c)
          (fun l => l.registerCompartment none) (fun _ => rfl)] at key
      simp only [Option.map_some', List.length_map]
      rw [← key]
      rfl

theorem subSteps_rescale (c : ℚ) (p : Parameter) (st : System.RunState) :
    System.subSteps (st.rescale c p) = (System.subSteps st).rescale c p := rfl

theorem replaceStep_rescale (c : ℚ) (p : Parameter) (t : ℤ) (st : System.RunState) :
    System.replaceStep t (st.rescale c p) = (System.replaceStep t st).rescale c p := by
  obtain ⟨sys, n, r, l, vr, mr, mrm⟩ := st
  obtain ⟨comps, conc, sink, geo, mb, l2, ls, l3, par, stime, ra, rat, sc⟩ := sys
  simp only [System.replaceStep, System.RunState.rescale, System.rescale]
  split
  · cases comps with
    | nil => rfl
    | cons a as => rfl
  · rfl

theorem removeStep_rescale (c : ℚ) (p : Parameter) (t : ℤ) (st : System.RunState) :
    System.removeStep t (st.rescale c p)
      = (System.removeStep t st).map (System.RunState.rescale c p) := by
  obtain ⟨sys, n, r, l, vr, mr, mrm⟩ := st
  have e := removeTopCompartment_rescale c p sys
  simp only [System.removeStep, System.RunState.rescale] at e ⊢
  rw [e]
  by_cases h : (mrm && decide (t = sys.m_remove_at)) = true
  · rw [if_pos h, if_pos (show (mrm && decide (t = (System.rescale c p sys).m_remove_at)) = true
      from h)]
    cases sys.removeTopCompartment with
    | none => rfl
    | some s => rfl
  · rw [if_neg h, if_neg (show ¬ (mrm && decide (t = (System.rescale c p sys).m_remove_at)) = true
      from h)]
    rfl

theorem logStep_rescale (c : ℚ) (p : Parameter) (t : ℤ) (st : System.RunState) :
    System.logStep t (st.rescale c p) = (System.logStep t st).rescale c p := by
  unfold System.logStep System.RunState.rescale
  simp only [log_rescale]

/-- One minute of `run` on the rescaled state. -/
theorem minute_rescale (c : ℚ) (p : Parameter) (t : ℤ) (st : System.RunState) :
    System.minute t (st.rescale c p) = (System.minute t st).map (System.RunState.rescale c p) := by
  unfold System.minute
  rw [subSteps_rescale, replaceStep_rescale, removeStep_rescale]
  cases System.removeStep t (System.replaceStep t (System.subSteps st)) with
  | none => rfl
  | some s =>
    simp only [Option.map_some']
    rw [logStep_rescale]

theorem runInit_rescale (c : ℚ) (p : Parameter) (sys : System) :
    System.runInit (sys.rescale c p) = (System.runInit sys).rescale c p := by
  unfold System.runInit System.RunState.rescale
  simp only [log_rescale]
  rfl

/-- The state after `k` complete minutes of `run` on the rescaled system. -/
theorem minutes_rescale (c : ℚ) (p : Parameter) (sys : System) (k : ℕ) :
    System.minutes (sys.rescale c p) k
      = (System.minutes sys k).map (System.RunState.rescale c p) := by
  induction k with
  | zero =>
    rw [minutes_zero, minutes_zero, runInit_rescale]
    rfl
  | succ k ih =>
    rw [minutes_succ, minutes_succ, ih]
    cases System.minutes sys k with
    | none => rfl
    | some rs =>
      simp only [Option.map_some', Option.some_bind]
      rw [minute_rescale]

theorem rescale2D_of_empty (c : ℚ) (l : CompartmentLog2D) (h : l.m_y = []) : l.rescale c = l := by
  obtain ⟨x, y, a3, a4, a5, a6, a7, a8, a9, a10, a11, a12⟩ := l
  simp only at h
  subst h
  rfl

theorem rescale3D_of_empty (c : ℚ) (l : CompartmentLog3D) (h : l.m_data = []) :
    l.rescale c = l := by
  obtain ⟨a1, a2, a3, a4, a5, d, a7, a8, a9, a10, a11⟩ := l
  simp only at h
  subst h
  rfl

/-- The mass loggers the constructor sets up hold no sample. -/
theorem massLoggers_empty (p : Parameter) (comps : List Compartment)
    (st : ℕ × List CompartmentLog2D) (h : ∀ l ∈ st.2, l.m_y = []) :
    ∀ l ∈ (comps.foldl (System.massLoggerStep p) st).2, l.m_y = [] := by
  induction comps generalizing st with
  | nil => exact h
  | cons a as ih =>
    rw [List.foldl_cons]
    apply ih
    intro l hl
    unfold System.massLoggerStep at hl
    simp only [List.mem_append, List.mem_singleton] at hl
    rcases hl with hl | hl
    · exact h l hl
    · rw [hl]
      rfl

/-- The profile loggers the constructor sets up hold no snapshot. -/
theorem cdpLoggers_empty (p : Parameter) (m : Method) (ss : List ℚ) (comps : List Compartment)
    (st : ℕ × List CompartmentLog3D) (h : ∀ l ∈ st.2, l.m_data = []) :
    ∀ l ∈ (comps.foldl (System.cdpLoggerStep p m ss) st).2, l.m_data = [] := by
  induction comps generalizing st with
  | nil => exact h
  | cons a as ih =>
    rw [List.foldl_cons]
    apply ih
    intro l hl
    unfold System.cdpLoggerStep at hl
    simp only [List.mem_append, List.mem_singleton] at hl
    rcases hl with hl | hl
    · exact h l hl
    · rw [hl]
      cases m <;> rfl

theorem map_rescale2D_of_empty (c : ℚ) (L : List CompartmentLog2D) (h : ∀ l ∈ L, l.m_y = []) :
    L.map (CompartmentLog2D.rescale c) = L := by
  induction L with
  | nil => rfl
  | cons a as ih =>
    rw [List.map_cons, rescale2D_of_empty c a (h a (List.mem_cons_self _ _)),
      ih (fun l hl => h l (List.mem_cons_of_mem _ hl))]

theorem map_rescale3D_of_empty (c : ℚ) (L : List CompartmentLog3D)
    (h : ∀ l ∈ L, l.m_data = []) : L.map (CompartmentLog3D.rescale c) = L := by
  induction L with
  | nil => rfl
  | cons a as ih =>
    rw [List.map_cons, rescale3D_of_empty c a (h a (List.mem_cons_self _ _)),
      ih (fun l hl => h l (List.mem_cons_of_mem _ hl))]

theorem massLoggerStep_setScaling (p : Parameter) (s : Scaling) :
    System.massLoggerStep { p with m_log_parameter := p.m_log_parameter.setScaling s }
      = System.massLoggerStep p := by
  obtain ⟨a1, ⟨b1, b2, b3, b4, b5, b6, b7, b8, b9, b10⟩, a3, a4, a5, a6⟩ := p
  rfl

theorem cdpLoggerStep_setScaling (p : Parameter) (s : Scaling) :
    System.cdpLoggerStep { p with m_log_parameter := p.m_log_parameter.setScaling s }
      = System.cdpLoggerStep p := by
  obtain ⟨a1, ⟨b1, b2, b3, b4, b5, b6, b7, b8, b9, b10⟩, a3, a4, a5, a6⟩ := p
  rfl

/-- The constructor under `ug` builds the system built under `mg`, rescaled
by 1000 (its loggers are still empty). -/
theorem new_rescale (pM : Parameter) (t : Transition)
    (hM : pM.m_log_parameter.m_scaling = Scaling.MG) :
    System.new { pM with m_log_parameter := pM.m_log_parameter.setScaling Scaling.UG } t
      = (System.new pM t).map (System.rescale 1000
          { pM with m_log_parameter := pM.m_log_parameter.setScaling Scaling.UG }) := by
  have e1 := massLoggerStep_setScaling pM Scaling.UG
  have e2 := cdpLoggerStep_setScaling pM Scaling.UG
  obtain ⟨a1, ⟨b1, b2, b3, b4, b5, b6, b7, b8, b9, b10⟩, a3, a4, a5, a6⟩ := pM
  simp only at hM
  subst hM
  unfold System.new
  simp only [LogParameter.setScaling] at e1 e2 ⊢
  simp only [e1, e2]
  split
  · rename_i heq
    simp only [heq, Option.map_none']
  · rename_i built heq
    simp only [heq, Option.map_some', System.rescale, Option.some.injEq, System.mk.injEq,
      true_and]
    clear heq e1 e2
    refine ⟨(map_rescale2D_of_empty _ _ (massLoggers_empty _ _ _ ?_)).symm, rfl,
      (map_rescale3D_of_empty _ _ (cdpLoggers_empty _ _ _ _ _ ?_)).symm, ?_⟩
    · intro l hl
      cases hl
    · intro l hl
      cases hl
    · rw [if_neg (show ¬ (Scaling.MG = Scaling.UG) by decide),
        if_neg (show ¬ (Scaling.MG = Scaling.NG) by decide), if_pos trivial, mul_one]

theorem loopStep_rescale (c : ℚ) (p : Parameter) (f : ℤ → Bool) (t : ℕ)
    (st : Option (Bool × System.RunState)) :
    System.loopStep f t (st.map (fun s => (s.1, s.2.rescale c p)))
      = (System.loopStep f t st).map (fun s => (s.1, s.2.rescale c p)) := by
  cases st with
  | none => rfl
  | some s =>
    obtain ⟨b, rs⟩ := s
    cases b with
    | true => rfl
    | false =>
      simp only [Option.map_some', System.loopStep]
      split
      · rfl
      · rw [minute_rescale]
        cases System.minute t rs with
        | none => rfl
        | some r => rfl

/-- The method `run()` on the rescaled system: the same status, and the
rescaled system afterwards. -/
theorem run_rescale (c : ℚ) (p : Parameter) (sys : System) (ir : Bool) (f : ℤ → Bool)
    (td : Bool) :
    (sys.rescale c p).run ir f td
      = (sys.run ir f td).map (fun r => (r.1, r.2.rescale c p)) := by
  have loop : System.runLoop (sys.rescale c p) f sys.m_sim_time.toNat
      = (System.runLoop sys f sys.m_sim_time.toNat).map (fun s => (s.1, s.2.rescale c p)) := by
    unfold System.runLoop
    rw [runInit_rescale]
    exact (forUp_comm (fun (st : Option (Bool × System.RunState)) =>
      st.map (fun s => (s.1, s.2.rescale c p))) 1 (sys.m_sim_time.toNat + 1)
      (System.loopStep f) (System.loopStep f)
      (fun i st => (loopStep_rescale c p f i st).symm) (some (false, System.runInit sys))).symm
  unfold System.run
  cases ir with
  | false => rfl
  | true =>
    show (match System.runLoop (sys.rescale c p) f sys.m_sim_time.toNat with
      | none => none
      | some (true, rs) => some (Result.Stopped, rs.sys)
      | some (false, rs) =>
        if (!td) = true then some (Result.Failed, rs.sys) else some (Result.Executed, rs.sys)) = _
    rw [loop]
    simp only [Bool.not_true, Bool.false_eq_true, if_false]
    cases System.runLoop sys f sys.m_sim_time.toNat with
    | none => rfl
    | some s =>
      obtain ⟨b, rs⟩ := s
      cases b with
      | true => rfl
      | false =>
        cases td with
        | true => rfl
        | false => rfl

/-- C14. Logged masses are linear in the unit scale. Let `pM` be a parameter
set with scaling `mg` on which the constructor builds a system `sM`, and `pU`
the same parameter set with scaling `ug`. Then the constructor builds a
system `sU` on `pU`; `run()` returns the same status on both; and after every
number `k` of complete minutes of the run the two concentration vectors are
identical, the sink logger and every mass logger hold samples at the same
times under both scalings, and every mass value under `ug` is exactly 1000
times the value under `mg` (the profile loggers likewise). The hypotheses on
the compartments say that the run does not abort in the removal. -/
theorem logged_masses_linear_in_scale (pM : Parameter) (t : Transition)
    (hM : pM.m_log_parameter.m_scaling = Scaling.MG) (sM : System)
    (hsM : System.new pM t = some sM) (hne : sM.m_compartments ≠ [])
    (hok : sM.m_matrix_builder.m_method ≠ Method.DSkin_1_3 ∨
      MatrixBuilder.vehicleFinite sM.m_compartments.tail = true) (k : ℕ) :
    ∃ sU rsM rsU,
      System.new { pM with m_log_parameter := pM.m_log_parameter.setScaling Scaling.UG } t
        = some sU ∧
      sU.m_scale = 1000 * sM.m_scale ∧
      (∀ (ir : Bool) (f : ℤ → Bool) (td : Bool),
        (sU.run ir f td).map (fun r => r.1) = (sM.run ir f td).map (fun r => r.1)) ∧
      System.minutes sM k = some rsM ∧ System.minutes sU k = some rsU ∧
      rsU.sys.m_concentrations = rsM.sys.m_concentrations ∧
      rsU.sys.m_sink_logger.m_x = rsM.sys.m_sink_logger.m_x ∧
      rsU.sys.m_sink_logger.m_y = rsM.sys.m_sink_logger.m_y.map (fun y => 1000 * y) ∧
      rsU.sys.m_compartment_logger.length = rsM.sys.m_compartment_logger.length ∧
      (∀ (j : ℕ) (lM : CompartmentLog2D), rsM.sys.m_compartment_logger[j]? = some lM →
        ∃ lU, rsU.sys.m_compartment_logger[j]? = some lU ∧ lU.m_x = lM.m_x ∧
          lU.m_y = lM.m_y.map (fun y => 1000 * y)) ∧
      (∀ (j : ℕ) (lM : CompartmentLog3D), rsM.sys.m_cdp_logger[j]? = some lM →
        ∃ lU, rsU.sys.m_cdp_logger[j]? = some lU ∧ lU.m_times = lM.m_times ∧
          lU.m_data = lM.m_data.map (fun d => d.map (fun y => 1000 * y))) := by
  obtain ⟨rsM, g1, _⟩ := minutes_inv sM hne hok k
  have hnew := new_rescale pM t hM
  rw [hsM] at hnew
  have hmin := minutes_rescale 1000
    { pM with m_log_parameter := pM.m_log_parameter.setScaling Scaling.UG } sM k
  rw [g1] at hmin
  refine ⟨_, rsM, _, hnew, rfl, ?_, g1, hmin, rfl, rfl, rfl, ?_, ?_, ?_⟩
  · intro ir f td
    rw [run_rescale, Option.map_map]
    rfl
  · exact List.length_map _ _
  · intro j lM hj
    refine ⟨lM.rescale 1000, ?_, rfl, rfl⟩
    show (rsM.sys.m_compartment_logger.map (CompartmentLog2D.rescale 1000))[j]? = _
    rw [List.getElem?_map, hj]
    rfl
  · intro j lM hj
    refine ⟨lM.rescale 1000, ?_, rfl, rfl⟩
    show (rsM.sys.m_cdp_logger.map (CompartmentLog3D.rescale 1000))[j]? = _
    rw [List.getElem?_map, hj]
    rfl

/-- C14, witness: `smallParam` (scaling `mg`) and the system built from it,
after the 6 minutes of its run. -/
theorem logged_masses_linear_in_scale_witness :
    ∃ sU rsM rsU,
      System.new { smallParam with
        m_log_parameter := smallParam.m_log_parameter.setScaling Scaling.UG } noTransition
        = some sU ∧
      System.minutes smallSystem 6 = some rsM ∧ System.minutes sU 6 = some rsU ∧
      rsU.sys.m_concentrations = rsM.sys.m_concentrations ∧
      rsU.sys.m_sink_logger.m_x = rsM.sys.m_sink_logger.m_x ∧
      rsU.sys.m_sink_logger.m_y = rsM.sys.m_sink_logger.m_y.map (fun y => 1000 * y) := by
  obtain ⟨sU, rsM, rsU, h1, _, _, h4, h5, h6, h7, h8, _⟩ :=
    logged_masses_linear_in_scale smallParam noTransition (by decide) smallSystem
      (by
        unfold smallSystem
        cases h : System.new smallParam noTransition with
        | some s => rfl
        | none =>
          exfalso
          have : (System.new smallParam noTransition).isSome = true := by decide!
          rw [h] at this
          exact absurd this (by decide))
      (by decide!) (Or.inl (by decide!)) 6
  exact ⟨sU, rsM, rsU, h1, h4, h5, h6, h7, h8⟩

/-- The loop of `absMax()` after `k` rows: the running maximum is nonnegative,
bounds the absolute entries of the rows below `k`, and is 0 or one of them. -/
theorem absMax_loop (A : TDMatrix) (k : ℕ) :
    let m := forUp 0 k (fun i (max_el : ℚ) =>
      max (max (max |max_el| |rd A.m_diag i|) |rd A.m_lower i|) |rd A.m_upper i|) 0
    0 ≤ m ∧
    (∀ i, i < k → |rd A.m_diag i| ≤ m ∧ |rd A.m_lower i| ≤ m ∧ |rd A.m_upper i| ≤ m) ∧
    (m = 0 ∨ ∃ i, i < k ∧ (m = |rd A.m_diag i| ∨ m = |rd A.m_lower i| ∨ m = |rd A.m_upper i|)) := by
  refine forUp_inv (fun k (m : ℚ) => 0 ≤ m ∧
    (∀ i, i < k → |rd A.m_diag i| ≤ m ∧ |rd A.m_lower i| ≤ m ∧ |rd A.m_upper i| ≤ m) ∧
    (m = 0 ∨ ∃ i, i < k ∧
      (m = |rd A.m_diag i| ∨ m = |rd A.m_lower i| ∨ m = |rd A.m_upper i|)))
    0 k (Nat.zero_le _) _ 0 ⟨le_rfl, fun i hi => absurd hi (Nat.not_lt_zero _), Or.inl rfl⟩ ?_
  rintro i m - - ⟨h0, hb, ha⟩
  have em : |m| = m := abs_of_nonneg h0
  simp only [em]
  refine ⟨?_, ?_, ?_⟩
  · exact le_trans h0 (le_trans (le_max_left _ _) (le_trans (le_max_left _ _) (le_max_left _ _)))
  · intro j hj
    rcases Nat.lt_succ_iff_lt_or_eq.mp hj with hj | hj
    · obtain ⟨b1, b2, b3⟩ := hb j hj
      have hm : m ≤ max (max (max m |rd A.m_diag i|) |rd A.m_lower i|) |rd A.m_upper i| :=
        le_trans (le_max_left _ _) (le_trans (le_max_left _ _) (le_max_left _ _))
      exact ⟨le_trans b1 hm, le_trans b2 hm, le_trans b3 hm⟩
    · subst hj
      exact ⟨le_trans (le_max_right _ _) (le_trans (le_max_left _ _) (le_max_left _ _)),
        le_trans (le_max_right _ _) (le_max_left _ _), le_max_right _ _⟩
  · right
    rcases max_choice (max (max m |rd A.m_diag i|) |rd A.m_lower i|) |rd A.m_upper i| with e | e
    · rw [e]
      rcases max_choice (max m |rd A.m_diag i|) |rd A.m_lower i| with e2 | e2
      · rw [e2]
        rcases max_choice m |rd A.m_diag i| with e3 | e3
        · rw [e3]
          rcases ha with ha | ⟨j, hj, ha⟩
          · refine ⟨i, Nat.lt_succ_self _, Or.inl ?_⟩
            have : |rd A.m_diag i| ≤ m := by rw [← e3]; exact le_max_right _ _
            rw [ha] at this ⊢
            exact le_antisymm (abs_nonneg _) this
          · exact ⟨j, Nat.lt_succ_of_lt hj, ha⟩
        · rw [e3]
          exact ⟨i, Nat.lt_succ_self _, Or.inl rfl⟩
      · rw [e2]
        exact ⟨i, Nat.lt_succ_self _, Or.inr (Or.inl rfl)⟩
    · rw [e]
      exact ⟨i, Nat.lt_succ_self _, Or.inr (Or.inr rfl)⟩

/-- What `absMax()` returns for a matrix of size at least 1, by indices. -/
theorem absMax_spec (A : TDMatrix) (hN : 1 ≤ A.m_size) :
    (∀ i, i < A.m_size → |rd A.m_diag i| ≤ A.absMax) ∧
    (∀ i, i < A.m_size - 1 → |rd A.m_lower i| ≤ A.absMax ∧ |rd A.m_upper i| ≤ A.absMax) ∧
    ((∃ i, i < A.m_size ∧ A.absMax = |rd A.m_diag i|) ∨
      ∃ i, i < A.m_size - 1 ∧ (A.absMax = |rd A.m_lower i| ∨ A.absMax = |rd A.m_upper i|)) := by
  obtain ⟨h0, hb, ha⟩ := absMax_loop A (A.m_size - 1)
  have e : A.absMax = max (forUp 0 (A.m_size - 1) (fun i (max_el : ℚ) =>
      max (max (max |max_el| |rd A.m_diag i|) |rd A.m_lower i|) |rd A.m_upper i|) 0)
      |rd A.m_diag (A.m_size - 1)| := by
    unfold TDMatrix.absMax
    simp only
    rw [if_neg (by omega)]
  generalize forUp 0 (A.m_size - 1) (fun i (max_el : ℚ) =>
      max (max (max |max_el| |rd A.m_diag i|) |rd A.m_lower i|) |rd A.m_upper i|) 0 = m
    at h0 hb ha e
  rw [e]
  refine ⟨?_, ?_, ?_⟩
  · intro i hi
    by_cases hl : i < A.m_size - 1
    · exact le_trans (hb i hl).1 (le_max_left _ _)
    · have : i = A.m_size - 1 := by omega
      rw [this]
      exact le_max_right _ _
  · intro i hi
    exact ⟨le_trans (hb i hi).2.1 (le_max_left _ _), le_trans (hb i hi).2.2 (le_max_left _ _)⟩
  · rcases max_choice m |rd A.m_diag (A.m_size - 1)| with e2 | e2
    · rw [e2]
      rcases ha with ha | ⟨j, hj, ha⟩
      · left
        refine ⟨A.m_size - 1, by omega, ?_⟩
        have : |rd A.m_diag (A.m_size - 1)| ≤ m := by rw [← e2]; exact le_max_right _ _
        rw [ha] at this ⊢
        exact le_antisymm (abs_nonneg _) this
      · rcases ha with ha | ha
        · exact Or.inl ⟨j, by omega, ha⟩
        · exact Or.inr ⟨j, hj, ha⟩
    · rw [e2]
      exact Or.inl ⟨A.m_size - 1, by omega, rfl⟩

theorem mem_iff_rd (v : List ℚ) (x : ℚ) : x ∈ v ↔ ∃ i, i < v.length ∧ rd v i = x := by
  rw [List.mem_iff_getElem]
  constructor
  · rintro ⟨i, hi, h⟩
    refine ⟨i, hi, ?_⟩
    unfold rd
    rw [List.getD_eq_getElem _ _ hi, h]
  · rintro ⟨i, hi, h⟩
    refine ⟨i, hi, ?_⟩
    unfold rd at h
    rw [List.getD_eq_getElem _ _ hi] at h
    exact h

/-- C25. `absMax()` is the largest absolute band entry: for a matrix with the
band lengths its constructor gives it (`N`, `N - 1`, `N - 1`), `absMax()` is
0 when the size is 0, it is never negative, and for `N >= 1` it bounds `|x|`
for every entry `x` of the three bands and equals `|x|` for one of them; so
`absMax() = 0` only if every band entry is 0. -/
theorem absMax_is_largest_abs_entry (A : TDMatrix) (hwf : A.WF) :
    (A.m_size = 0 → A.absMax = 0) ∧ 0 ≤ A.absMax ∧
    (1 ≤ A.m_size →
      (∀ x ∈ A.m_diag ++ A.m_lower ++ A.m_upper, |x| ≤ A.absMax) ∧
      (∃ x ∈ A.m_diag ++ A.m_lower ++ A.m_upper, A.absMax = |x|) ∧
      (A.absMax = 0 → ∀ x ∈ A.m_diag ++ A.m_lower ++ A.m_upper, x = 0)) := by
  obtain ⟨w1, w2, w3⟩ := hwf
  have zero : A.m_size = 0 → A.absMax = 0 := by
    intro h
    unfold TDMatrix.absMax
    simp only
    rw [if_pos (by omega)]
  have main : 1 ≤ A.m_size →
      (∀ x ∈ A.m_diag ++ A.m_lower ++ A.m_upper, |x| ≤ A.absMax) ∧
      (∃ x ∈ A.m_diag ++ A.m_lower ++ A.m_upper, A.absMax = |x|) := by
    intro hN
    obtain ⟨b1, b2, b3⟩ := absMax_spec A hN
    constructor
    · intro x hx
      simp only [List.mem_append] at hx
      rcases hx with (hx | hx) | hx
      · obtain ⟨i, hi, rfl⟩ := (mem_iff_rd _ _).mp hx
        exact b1 i (by omega)
      · obtain ⟨i, hi, rfl⟩ := (mem_iff_rd _ _).mp hx
        exact (b2 i (by omega)).1
      · obtain ⟨i, hi, rfl⟩ := (mem_iff_rd _ _).mp hx
        exact (b2 i (by omega)).2
    · rcases b3 with ⟨i, hi, h⟩ | ⟨i, hi, h | h⟩
      · exact ⟨rd A.m_diag i, by
          simp only [List.mem_append]
          exact Or.inl (Or.inl ((mem_iff_rd _ _).mpr ⟨i, by omega, rfl⟩)), h⟩
      · exact ⟨rd A.m_lower i, by
          simp only [List.mem_append]
          exact Or.inl (Or.inr ((mem_iff_rd _ _).mpr ⟨i, by omega, rfl⟩)), h⟩
      · exact ⟨rd A.m_upper i, by
          simp only [List.mem_append]
          exact Or.inr ((mem_iff_rd _ _).mpr ⟨i, by omega, rfl⟩), h⟩
  refine ⟨zero, ?_, ?_⟩
  · rcases Nat.eq_zero_or_pos A.m_size with h | h
    · rw [zero h]
    · obtain ⟨x, _, hx⟩ := (main h).2
      rw [hx]
      exact abs_nonneg _
  · intro hN
    refine ⟨(main hN).1, (main hN).2, ?_⟩
    intro h0 x hx
    have := (main hN).1 x hx
    rw [h0] at this
    exact abs_eq_zero.mp (le_antisymm this (abs_nonneg _))

/-- C25, witness: the test matrix diag {1,2,3}, lower {4,5}, upper {6,7},
whose `absMax()` is 7. -/
theorem absMax_is_largest_abs_entry_witness :
    testMatrix3.absMax = 7 ∧
    (1 ≤ testMatrix3.m_size →
      (∀ x ∈ testMatrix3.m_diag ++ testMatrix3.m_lower ++ testMatrix3.m_upper,
        |x| ≤ testMatrix3.absMax) ∧
      (∃ x ∈ testMatrix3.m_diag ++ testMatrix3.m_lower ++ testMatrix3.m_upper,
        testMatrix3.absMax = |x|) ∧
      (testMatrix3.absMax = 0 →
        ∀ x ∈ testMatrix3.m_diag ++ testMatrix3.m_lower ++ testMatrix3.m_upper, x = 0)) :=
  ⟨by decide!, (absMax_is_largest_abs_entry testMatrix3 (by decide)).2.2⟩


/-- The loop of `max()` after `k` rows: the running maximum is at least 0 and
at least every entry of the rows below `k`, and is 0 or one of them. -/
theorem max_loop (A : TDMatrix) (k : ℕ) :
    let m := forUp 0 k (fun i (max_el : ℚ) =>
      max (max (max max_el (rd A.m_diag i)) (rd A.m_lower i)) (rd A.m_upper i)) 0
    0 ≤ m ∧
    (∀ i, i < k → rd A.m_diag i ≤ m ∧ rd A.m_lower i ≤ m ∧ rd A.m_upper i ≤ m) ∧
    (m = 0 ∨ ∃ i, i < k ∧ (m = rd A.m_diag i ∨ m = rd A.m_lower i ∨ m = rd A.m_upper i)) := by
  refine forUp_inv (fun k (m : ℚ) => 0 ≤ m ∧
    (∀ i, i < k → rd A.m_diag i ≤ m ∧ rd A.m_lower i ≤ m ∧ rd A.m_upper i ≤ m) ∧
    (m = 0 ∨ ∃ i, i < k ∧
      (m = rd A.m_diag i ∨ m = rd A.m_lower i ∨ m = rd A.m_upper i)))
    0 k (Nat.zero_le _) _ 0 ⟨le_rfl, fun i hi => absurd hi (Nat.not_lt_zero _), Or.inl rfl⟩ ?_
  rintro i m - - ⟨h0, hb, ha⟩
  have hm : m ≤ max (max (max m (rd A.m_diag i)) (rd A.m_lower i)) (rd A.m_upper i) :=
    le_trans (le_max_left _ _) (le_trans (le_max_left _ _) (le_max_left _ _))
  refine ⟨le_trans h0 hm, ?_, ?_⟩
  · intro j hj
    rcases Nat.lt_succ_iff_lt_or_eq.mp hj with hj | hj
    · obtain ⟨b1, b2, b3⟩ := hb j hj
      exact ⟨le_trans b1 hm, le_trans b2 hm, le_trans b3 hm⟩
    · subst hj
      exact ⟨le_trans (le_max_right _ _) (le_trans (le_max_left _ _) (le_max_left _ _)),
        le_trans (le_max_right _ _) (le_max_left _ _), le_max_right _ _⟩
  · rcases max_choice (max (max m (rd A.m_diag i)) (rd A.m_lower i)) (rd A.m_upper i) with e | e
    · rw [e]
      rcases max_choice (max m (rd A.m_diag i)) (rd A.m_lower i) with e2 | e2
      · rw [e2]
        rcases max_choice m (rd A.m_diag i) with e3 | e3
        · rw [e3]
          rcases ha with ha | ⟨j, hj, ha⟩
          · exact Or.inl ha
          · exact Or.inr ⟨j, Nat.lt_succ_of_lt hj, ha⟩
        · rw [e3]
          exact Or.inr ⟨i, Nat.lt_succ_self _, Or.inl rfl⟩
      · rw [e2]
        exact Or.inr ⟨i, Nat.lt_succ_self _, Or.inr (Or.inl rfl)⟩
    · rw [e]
      exact Or.inr ⟨i, Nat.lt_succ_self _, Or.inr (Or.inr rfl)⟩

/-- What `max()` returns for a matrix of size at least 1: the largest of 0
and the band entries. -/
theorem max_spec (A : TDMatrix) (hwf : A.WF) (hN : 1 ≤ A.m_size) :
    0 ≤ A.max ∧ (∀ x ∈ A.m_diag ++ A.m_lower ++ A.m_upper, x ≤ A.max) ∧
    (A.max = 0 ∨ ∃ x ∈ A.m_diag ++ A.m_lower ++ A.m_upper, A.max = x) := by
  obtain ⟨w1, w2, w3⟩ := hwf
  obtain ⟨h0, hb, ha⟩ := max_loop A (A.m_size - 1)
  have e : A.max = max (forUp 0 (A.m_size - 1) (fun i (max_el : ℚ) =>
      max (max (max max_el (rd A.m_diag i)) (rd A.m_lower i)) (rd A.m_upper i)) 0)
      (rd A.m_diag (A.m_size - 1)) := by
    unfold TDMatrix.max
    simp only
    rw [if_neg (by omega)]
  generalize forUp 0 (A.m_size - 1) (fun i (max_el : ℚ) =>
      max (max (max max_el (rd A.m_diag i)) (rd A.m_lower i)) (rd A.m_upper i)) 0 = m
    at h0 hb ha e
  rw [e]
  refine ⟨le_trans h0 (le_max_left _ _), ?_, ?_⟩
  · intro x hx
    simp only [List.mem_append] at hx
    rcases hx with (hx | hx) | hx
    · obtain ⟨i, hi, rfl⟩ := (mem_iff_rd _ _).mp hx
      by_cases hl : i < A.m_size - 1
      · exact le_trans (hb i hl).1 (le_max_left _ _)
      · have : i = A.m_size - 1 := by omega
        rw [this]
        exact le_max_right _ _
    · obtain ⟨i, hi, rfl⟩ := (mem_iff_rd _ _).mp hx
      exact le_trans (hb i (by omega)).2.1 (le_max_left _ _)
    · obtain ⟨i, hi, rfl⟩ := (mem_iff_rd _ _).mp hx
      exact le_trans (hb i (by omega)).2.2 (le_max_left _ _)
  · rcases max_choice m (rd A.m_diag (A.m_size - 1)) with e2 | e2
    · rw [e2]
      rcases ha with ha | ⟨j, hj, ha⟩
      · exact Or.inl ha
      · right
        rcases ha with ha | ha | ha
        · exact ⟨rd A.m_diag j, by
            simp only [List.mem_append]
            exact Or.inl (Or.inl ((mem_iff_rd _ _).mpr ⟨j, by omega, rfl⟩)), ha⟩
        · exact ⟨rd A.m_lower j, by
            simp only [List.mem_append]
            exact Or.inl (Or.inr ((mem_iff_rd _ _).mpr ⟨j, by omega, rfl⟩)), ha⟩
        · exact ⟨rd A.m_upper j, by
            simp only [List.mem_append]
            exact Or.inr ((mem_iff_rd _ _).mpr ⟨j, by omega, rfl⟩), ha⟩
    · rw [e2]
      exact Or.inr ⟨rd A.m_diag (A.m_size - 1), by
        simp only [List.mem_append]
        exact Or.inl (Or.inl ((mem_iff_rd _ _).mpr ⟨A.m_size - 1, by omega, rfl⟩)), rfl⟩

/-- C26. `max()` on the test matrix diag {1,2,3}, lower {4,5}, upper {6,7}
gives 7, after `lower(0) = 19` it gives 19 and after `lower(1) = 125` it
gives 125, as the test case requires; but `max()` starts its running maximum
at 0.0, so on the matrix of size 1 with the single entry `diag(0) = -1` it
returns 0, which is no entry of the matrix, while the largest entry is -1. -/
theorem max_not_largest_entry_when_negative :
    testMatrix3.max = 7 ∧
    (testMatrix3.setLower 0 19).max = 19 ∧
    ((testMatrix3.setLower 0 19).setLower 1 125).max = 125 ∧
    ((TDMatrix.new 1).setDiag 0 (-1)).WF ∧
    ((TDMatrix.new 1).setDiag 0 (-1)).m_diag = [-1] ∧
    ((TDMatrix.new 1).setDiag 0 (-1)).m_lower = [] ∧
    ((TDMatrix.new 1).setDiag 0 (-1)).m_upper = [] ∧
    ((TDMatrix.new 1).setDiag 0 (-1)).max = 0 := by
  refine ⟨by decide!, by decide!, by decide!, by decide!, by decide!, by decide!, by decide!,
    by decide!⟩


/-- C27. The assertions of `operator()(i, j)` hold exactly for the pairs
inside the matrix, `0 <= i < N` and `0 <= j < N`: the third assertion,
`j <= i + 1 || j >= i - 1`, is true for all integers, so no pair is rejected
for lying outside the band. An accepted pair refers to `diag[i]` when
`i = j`, to `upper[i]` when `i < j` and to `lower[i-1]` otherwise. On the
test matrix diag {1,2,3}, lower {4,5}, upper {6,7} the pair `(0, 2)` with
`|i - j| = 2` passes and refers to `upper[0] = 6`, and `(2, 0)` passes and
refers to `lower[1] = 5`. -/
theorem op_call_band_check_accepts_all :
    (∀ (A : TDMatrix) (i j : ℤ), A.op_call_asserts i j = true ↔
      (0 ≤ i ∧ i < (A.m_size : ℤ) ∧ 0 ≤ j ∧ j < (A.m_size : ℤ))) ∧
    (∀ (A : TDMatrix) (i j : ℤ), A.op_call_asserts i j = true →
      A.op_call_checked i j = some (if i = j then rdZ A.m_diag i
        else if i < j then rdZ A.m_upper i else rdZ A.m_lower (i - 1))) ∧
    testMatrix3.op_call_asserts 0 2 = true ∧
    testMatrix3.op_call_checked 0 2 = some 6 ∧
    testMatrix3.op_call_checked 2 0 = some 5 := by
  refine ⟨?_, ?_, by decide, by decide!, by decide!⟩
  · intro A i j
    unfold TDMatrix.op_call_asserts
    simp only [Bool.and_eq_true, decide_eq_true_eq]
    constructor
    · rintro ⟨⟨⟨h1, h2⟩, h3, h4⟩, _⟩
      exact ⟨h3, h1, h4, h2⟩
    · rintro ⟨h1, h2, h3, h4⟩
      refine ⟨⟨⟨h2, h4⟩, h1, h3⟩, ?_⟩
      omega
  · intro A i j h
    unfold TDMatrix.op_call_checked
    rw [if_pos h]


theorem rd_append_left (v w : List ℚ) (i : ℕ) (h : i < v.length) : rd (v ++ w) i = rd v i := by
  unfold rd
  rw [List.getD_eq_getElem?_getD, List.getD_eq_getElem?_getD, List.getElem?_append_left h]

theorem rd_append_length (v : List ℚ) (a : ℚ) : rd (v ++ [a]) v.length = a := by
  unfold rd
  rw [List.getD_eq_getElem?_getD]
  simp

/-- The loop of `space()` with the offsets `(pre_inc, pos_inc)` of the policy
`p`: the final `x_pos`, the number of positions and each position. -/
theorem space_loop (p : CPosition) (steps : List ℚ) :
    let inc : ℚ → ℚ × ℚ := fun val =>
      if p = CPosition.Center then (val / 2, val / 2)
      else if p = CPosition.Left then (0, val)
      else (val, 0)
    let r := steps.foldl (fun (st : List ℚ × ℚ) val =>
      (st.1 ++ [st.2 + (inc val).1], st.2 + (inc val).1 + (inc val).2)) (([] : List ℚ), (0 : ℚ))
    r.2 = steps.sum ∧ r.1.length = steps.length ∧
    ∀ i, i < steps.length → rd r.1 i = (steps.take i).sum + (inc (rd steps i)).1 := by
  intro inc
  have hinc : ∀ v, (inc v).1 + (inc v).2 = v := by
    intro v
    show (if p = CPosition.Center then (v / 2, v / 2)
      else if p = CPosition.Left then (0, v) else (v, 0)).1
      + (if p = CPosition.Center then (v / 2, v / 2)
      else if p = CPosition.Left then (0, v) else (v, 0)).2 = v
    split
    · simp only
      ring
    · split
      · simp only
        ring
      · simp only
        ring
  induction steps using List.reverseRecOn with
  | nil =>
    refine ⟨rfl, rfl, ?_⟩
    intro i hi
    exact absurd hi (Nat.not_lt_zero _)
  | append_singleton xs a ih =>
    obtain ⟨h1, h2, h3⟩ := ih
    simp only [List.foldl_append, List.foldl_cons, List.foldl_nil] at h1 h2 h3 ⊢
    generalize xs.foldl (fun (st : List ℚ × ℚ) val =>
      (st.1 ++ [st.2 + (inc val).1], st.2 + (inc val).1 + (inc val).2))
      (([] : List ℚ), (0 : ℚ)) = r at h1 h2 h3 ⊢
    refine ⟨?_, ?_, ?_⟩
    · rw [h1, List.sum_append, List.sum_singleton, add_assoc, hinc]
    · simp [h2]
    · intro i hi
      simp only [List.length_append, List.length_singleton] at hi
      rcases Nat.lt_succ_iff_lt_or_eq.mp hi with hlt | heq
      · rw [rd_append_left _ _ _ (by omega), h3 i hlt, rd_append_left _ _ _ hlt,
          List.take_append_of_le_length (by omega)]
      · subst heq
        rw [← h2, rd_append_length, h2, rd_append_length, h1, List.take_left']
        rfl


/-- C23. Cell positions of a profile logger: for every list of step sizes
`s_0 .. s_(m-1)`, `space()` returns `m` positions, and the position `x_i` is
`s_0 + ... + s_(i-1)` under the policy `Left`, that sum plus `s_i / 2` under
`Center`, and `s_0 + ... + s_i` under `Right`; so the `Center` position is
the average of the `Left` and the `Right` one for every `i`. -/
theorem space_positions (l : CompartmentLog3D) :
    l.space.length = l.m_step_sizes.length ∧
    (∀ i, i < l.m_step_sizes.length →
      rd l.space i =
        match l.m_concentration_position with
        | CPosition.Left => (l.m_step_sizes.take i).sum
        | CPosition.Center => (l.m_step_sizes.take i).sum + rd l.m_step_sizes i / 2
        | CPosition.Right => (l.m_step_sizes.take (i + 1)).sum) ∧
    (∀ i, i < l.m_step_sizes.length →
      rd ({ l with m_concentration_position := CPosition.Center }).space i
        = (rd ({ l with m_concentration_position := CPosition.Left }).space i
          + rd ({ l with m_concentration_position := CPosition.Right }).space i) / 2) := by
  have key : ∀ (l : CompartmentLog3D), l.space.length = l.m_step_sizes.length ∧
      ∀ i, i < l.m_step_sizes.length →
        rd l.space i =
          match l.m_concentration_position with
          | CPosition.Left => (l.m_step_sizes.take i).sum
          | CPosition.Center => (l.m_step_sizes.take i).sum + rd l.m_step_sizes i / 2
          | CPosition.Right => (l.m_step_sizes.take (i + 1)).sum := by
    intro l
    obtain ⟨_, h2, h3⟩ := space_loop l.m_concentration_position l.m_step_sizes
    refine ⟨h2, ?_⟩
    intro i hi
    have h := h3 i hi
    have e : l.space = (l.m_step_sizes.foldl (fun (st : List ℚ × ℚ) val =>
        (st.1 ++ [st.2 + ((fun (val : ℚ) =>
          if l.m_concentration_position = CPosition.Center then (val / 2, val / 2)
          else if l.m_concentration_position = CPosition.Left then (0, val)
          else (val, 0)) val).1],
          st.2 + ((fun (val : ℚ) =>
          if l.m_concentration_position = CPosition.Center then (val / 2, val / 2)
          else if l.m_concentration_position = CPosition.Left then (0, val)
          else (val, 0)) val).1 + ((fun (val : ℚ) =>
          if l.m_concentration_position = CPosition.Center then (val / 2, val / 2)
          else if l.m_concentration_position = CPosition.Left then (0, val)
          else (val, 0)) val).2)) (([] : List ℚ), (0 : ℚ))).1 := rfl
    rw [e, h]
    have hsum : (l.m_step_sizes.take (i + 1)).sum
        = (l.m_step_sizes.take i).sum + rd l.m_step_sizes i := by
      rw [List.take_succ, List.sum_append]
      congr 1
      unfold rd
      rw [List.getD_eq_getElem?_getD, List.getElem?_eq_getElem hi]
      simp
    cases hp : l.m_concentration_position with
    | Left => simp
    | Center => simp
    | Right => simp [hsum]
  refine ⟨(key l).1, (key l).2, ?_⟩
  intro i hi
  have hL := (key { l with m_concentration_position := CPosition.Left }).2 i hi
  have hC := (key { l with m_concentration_position := CPosition.Center }).2 i hi
  have hR := (key { l with m_concentration_position := CPosition.Right }).2 i hi
  simp only at hL hC hR
  rw [hL, hC, hR, List.take_succ, List.sum_append]
  have : (l.m_step_sizes[i]?.toList).sum = rd l.m_step_sizes i := by
    unfold rd
    rw [List.getD_eq_getElem?_getD, List.getElem?_eq_getElem hi]
    simp
  rw [this]
  ring


theorem forUp_add_sum (f : ℕ → ℚ) (n : ℕ) (a : ℚ) :
    forUp 0 n (fun k (acc : ℚ) => acc + f k) a = a + ∑ k in Finset.range n, f k := by
  induction n with
  | zero => simp [forUp_self]
  | succ n ih =>
    rw [forUp_succ 0 n (Nat.zero_le _), ih, Finset.sum_range_succ]
    ring

theorem toInt_of_nonneg (t : ℚ) (h : 0 ≤ t) : toInt t = ⌊t⌋ := by
  unfold toInt
  rw [if_pos h]

theorem tmod_eq_zero_iff_emod (a b : ℤ) : a.tmod b = 0 ↔ a % b = 0 :=
  Int.dvd_iff_tmod_eq_zero.symm.trans Int.dvd_iff_emod_eq_zero

/-- C22 (amended). Sampling of a mass logger: for every logger state, time
`t`, geometry, concentration vector and scale, with `trunc(t)` the time
converted to `int` (truncation toward zero, which is `floor(t)` for
`t >= 0`): `log(t, geometry, concentrations, scale)` leaves the logger
unchanged when auto-logging is off or `trunc(t) mod interval != 0`, and
otherwise appends exactly one pair `(t, m)`, where `m` is
`c[idx] * dx[idx] * A_eff * scale / Vd` for a registered sink at cell `idx`,
`(sum over i from geo_from to geo_to of c[i] * dx[i]) * A_eff * scale` for a
registered compartment and 0 when nothing is registered; `A_eff` is the
logger's application area under `DSkin_1_5` and the registered object's own
area otherwise. -/
theorem log2D_sampling (l : CompartmentLog2D) (t : ℚ) (g : Geometry) (c : List ℚ) (scale : ℚ)
    (sink : Sink) (comps : List Compartment) :
    ((l.m_auto_log_enabled = false ∨ toInt t % l.m_log_interval ≠ 0) →
      l.log t g c scale sink comps = l) ∧
    (l.m_auto_log_enabled = true → toInt t % l.m_log_interval = 0 →
      (l.m_registered_sink = true →
        l.log t g c scale sink comps = l.logPoint t
          (rdZ c sink.m_geo_from * rdZ g.m_space_steps sink.m_geo_from
            * (if l.m_mb_method = Method.DSkin_1_5 then l.m_app_area else sink.m_A)
            * scale / sink.m_Vd)) ∧
      (∀ comp : Compartment, l.m_registered_sink = false →
        l.m_registered_compartment.bind (fun i => comps[i]?) = some comp →
        l.log t g c scale sink comps = l.logPoint t
          ((∑ k in Finset.range (comp.m_geo_to + 1 - comp.m_geo_from).toNat,
              rdZ c (comp.m_geo_from + (k : ℤ)) * rdZ g.m_space_steps (comp.m_geo_from + (k : ℤ)))
            * (if l.m_mb_method = Method.DSkin_1_5 then l.m_app_area else comp.m_A) * scale)) ∧
      (l.m_registered_sink = false →
        l.m_registered_compartment.bind (fun i => comps[i]?) = none →
        l.log t g c scale sink comps = l.logPoint t 0)) ∧
    (∀ m : ℚ, (l.logPoint t m).m_x = l.m_x ++ [t] ∧ (l.logPoint t m).m_y = l.m_y ++ [m]) ∧
    (0 ≤ t → toInt t = ⌊t⌋) := by
  refine ⟨?_, ?_, fun m => ⟨rfl, rfl⟩, toInt_of_nonneg t⟩
  · intro h
    unfold CompartmentLog2D.log
    rw [if_pos]
    rcases h with h | h
    · exact Or.inl h
    · exact Or.inr (fun h2 => h ((tmod_eq_zero_iff_emod _ _).mp h2))
  · intro ha hm
    have hcond : ¬ (l.m_auto_log_enabled = false ∨ (toInt t).tmod l.m_log_interval ≠ 0) := by
      rintro (h | h)
      · rw [ha] at h
        cases h
      · exact h ((tmod_eq_zero_iff_emod _ _).mpr hm)
    refine ⟨?_, ?_, ?_⟩
    · intro hs
      unfold CompartmentLog2D.log
      rw [if_neg hcond, if_pos hs]
    · intro comp hs hc
      unfold CompartmentLog2D.log
      rw [if_neg hcond, if_neg (by rw [hs]; decide)]
      simp only [hc]
      congr 1
      have e : forUpZ comp.m_geo_from (comp.m_geo_to + 1)
          (fun i (mass : ℚ) => mass + rdZ c i * rdZ g.m_space_steps i) 0
          = ∑ k in Finset.range (comp.m_geo_to + 1 - comp.m_geo_from).toNat,
              rdZ c (comp.m_geo_from + (k : ℤ)) * rdZ g.m_space_steps (comp.m_geo_from + (k : ℤ)) := by
        unfold forUpZ
        rw [forUp_add_sum (fun k => rdZ c (comp.m_geo_from + (k : ℤ))
          * rdZ g.m_space_steps (comp.m_geo_from + (k : ℤ)))]
        ring
      rw [← e]
      ring
    · intro hs hc
      unfold CompartmentLog2D.log
      rw [if_neg hcond, if_neg (by rw [hs]; decide)]
      simp only [hc]

/-- C22, the claim with `floor(t)` fails for a negative time: the logger with
interval 2 (auto-logging on, nothing registered) at `t = -1/2` has
`floor(t) mod 2 = 1`, but `static_cast<int>(t)` is 0 and a sample is
appended. -/
theorem log2D_sampling_floor_counterexample :
    ((CompartmentLog2D.new Method.DSkin_1_5 1).setLogInterval 2).m_auto_log_enabled = true ∧
    ⌊(-1 / 2 : ℚ)⌋ % ((CompartmentLog2D.new Method.DSkin_1_5 1).setLogInterval 2).m_log_interval
      ≠ 0 ∧
    ((CompartmentLog2D.new Method.DSkin_1_5 1).setLogInterval 2).log (-1 / 2) Geometry.new [] 1
      perfectSink []
      ≠ (CompartmentLog2D.new Method.DSkin_1_5 1).setLogInterval 2 ∧
    (((CompartmentLog2D.new Method.DSkin_1_5 1).setLogInterval 2).log (-1 / 2) Geometry.new [] 1
      perfectSink []).m_x = [-1 / 2] := by
  refine ⟨rfl, by decide!, by decide!, by decide!⟩

/-- C22, witness: a sink logger under `DSkin_1_5` at time 0 on the mesh of
scenario S1. -/
theorem log2D_sampling_witness :
    ((CompartmentLog2D.new Method.DSkin_1_5 1).registerSink true).log 0 s1Geo.geometry s1Conc 1
        perfectSink []
      = ((CompartmentLog2D.new Method.DSkin_1_5 1).registerSink true).logPoint 0
          (rdZ s1Conc perfectSink.m_geo_from
            * rdZ s1Geo.geometry.m_space_steps perfectSink.m_geo_from
            * (if ((CompartmentLog2D.new Method.DSkin_1_5 1).registerSink true).m_mb_method
                = Method.DSkin_1_5
              then ((CompartmentLog2D.new Method.DSkin_1_5 1).registerSink true).m_app_area
              else perfectSink.m_A)
            * 1 / perfectSink.m_Vd) :=
  ((log2D_sampling ((CompartmentLog2D.new Method.DSkin_1_5 1).registerSink true) 0
    s1Geo.geometry s1Conc 1 perfectSink []).2.1 rfl (by decide!)).1 rfl


theorem strToInt_none (stoi : String → Option ℤ) (v : String) (b : Bool)
    (h : stoi v = none) : (CmdLineParser.strToInt stoi v (some b)).2.getD b = false := by
  unfold CmdLineParser.strToInt
  simp [h]

theorem strToDouble_none (stod : String → Option ℚ) (v : String) (b : Bool)
    (h : stod v = none) : (CmdLineParser.strToDouble stod v (some b)).2.getD b = false := by
  unfold CmdLineParser.strToDouble
  simp [h]

theorem ite_error (c : Prop) [Decidable c] (x y : Status × CmdLineParser)
    (hx : x.1 = Status.Error) (hy : y.1 = Status.Error) :
    (if c then x else y).1 = Status.Error := by
  split
  · exact hx
  · exact hy

theorem parseSizes_error (cp : CmdLineParser) (stod : String → Option ℚ)
    (stoi : String → Option ℤ) (p : List String) (ok : Bool) (a b : LayerParameter)
    (h : ∃ k, 9 ≤ k ∧ k < 14 ∧ stoi (p.getD k "") = none) :
    (cp.parseSizes stod stoi p ok a b).1 = Status.Error := by
  obtain ⟨k, h1, h2, h3⟩ := h
  unfold CmdLineParser.parseSizes
  simp only []
  have hk : k = 9 ∨ k = 10 ∨ k = 11 ∨ k = 12 ∨ k = 13 := by omega
  rcases hk with rfl | rfl | rfl | rfl | rfl
  all_goals
    simp only [strToInt_none stoi _ _ h3, Bool.not_false, if_true]
    repeat' (first | rfl | apply ite_error)

theorem parseAreas_error (cp : CmdLineParser) (stod : String → Option ℚ)
    (stoi : String → Option ℤ) (p : List String) (ok : Bool) (a b : LayerParameter)
    (h : (∃ k, 6 ≤ k ∧ k < 9 ∧ stod (p.getD k "") = none) ∨
      ∃ k, 9 ≤ k ∧ k < 14 ∧ stoi (p.getD k "") = none) :
    (cp.parseAreas stod stoi p ok a b).1 = Status.Error := by
  unfold CmdLineParser.parseAreas
  simp only []
  rcases h with ⟨k, h1, h2, h3⟩ | h
  · have hk : k = 6 ∨ k = 7 ∨ k = 8 := by omega
    rcases hk with rfl | rfl | rfl
    all_goals
      simp only [strToDouble_none stod _ _ h3, Bool.not_false, if_true]
      repeat' (first | rfl | apply ite_error)
  · repeat' (first | rfl | exact parseSizes_error _ stod stoi p _ _ _ h | apply ite_error)

theorem parseCoefficients_error (cp : CmdLineParser) (stod : String → Option ℚ)
    (stoi : String → Option ℤ) (p : List String) (ok : Bool) (a b : LayerParameter)
    (h : (∃ k, k < 9 ∧ stod (p.getD k "") = none) ∨
      ∃ k, 9 ≤ k ∧ k < 14 ∧ stoi (p.getD k "") = none) :
    (cp.parseCoefficients stod stoi p ok a b).1 = Status.Error := by
  unfold CmdLineParser.parseCoefficients
  simp only []
  have later : ∀ (cp : CmdLineParser) (ok : Bool) (a b : LayerParameter),
      ((∃ k, 6 ≤ k ∧ k < 9 ∧ stod (p.getD k "") = none) ∨
        ∃ k, 9 ≤ k ∧ k < 14 ∧ stoi (p.getD k "") = none) →
      (cp.parseAreas stod stoi p ok a b).1 = Status.Error :=
    fun cp ok a b h => parseAreas_error cp stod stoi p ok a b h
  rcases h with ⟨k, h2, h3⟩ | h
  · by_cases hk6 : 6 ≤ k
    · repeat' (first | rfl | exact later _ _ _ _ (Or.inl ⟨k, hk6, h2, h3⟩) | apply ite_error)
    · have hk : k = 0 ∨ k = 1 ∨ k = 2 ∨ k = 3 ∨ k = 4 ∨ k = 5 := by omega
      rcases hk with rfl | rfl | rfl | rfl | rfl | rfl
      all_goals
        simp only [strToDouble_none stod _ _ h3, Bool.not_false, if_true]
        repeat' (first | rfl | apply ite_error)
  · repeat' (first | rfl | exact later _ _ _ _ (Or.inr h) | apply ite_error)

/-- C21. For every positional argument list of an accepted length, a token
that is not a number at one of the 14 leading numeric places makes `parse`
return `Status::Error`: these conversions pass `&ok`. The conversions of the
optional arguments do not pass `&ok` and test the stale flag: on the 20
arguments `1 1 1 1 1 1 1 1 1 10 10 10 60 1 mg EQUIDIST DSkin_1_5 yes abc tag`,
where `abc` stands at the place of `remove_at`, `parse` returns
`Parsed_CMD_Line` with `remove_at = 0`. -/
theorem parse_accepts_nonnumeric_remove_at :
    (∀ (cp : CmdLineParser) (stod : String → Option ℚ) (stoi : String → Option ℤ)
      (parseFromFile : String → Except String Parameter) (p : List String),
      (p.length = 19 ∨ p.length = 20 ∨ p.length = 21 ∨ p.length = 23) →
      ((∃ k, k < 9 ∧ stod (p.getD k "") = none) ∨
        ∃ k, 9 ≤ k ∧ k < 14 ∧ stoi (p.getD k "") = none) →
      (cp.parse stod stoi parseFromFile p).1 = Status.Error) ∧
    badRemoveAtArgs.length = 20 ∧
    decimalToken (badRemoveAtArgs.getD 18 "") = none ∧
    (({ m_last_error := "", m_parameter := Parameter.new } : CmdLineParser).parse
      (fun s => (decimalToken s).map (fun n => (n : ℚ)))
      (fun s => (decimalToken s).map (fun n => (n : ℤ)))
      (fun _ => Except.error "no file") badRemoveAtArgs).1 = Status.Parsed_CMD_Line ∧
    (({ m_last_error := "", m_parameter := Parameter.new } : CmdLineParser).parse
      (fun s => (decimalToken s).map (fun n => (n : ℚ)))
      (fun s => (decimalToken s).map (fun n => (n : ℤ)))
      (fun _ => Except.error "no file")
      badRemoveAtArgs).2.m_parameter.m_vehicle_parameter.m_remove_at = 0 := by
  refine ⟨?_, rfl, by decide!, by decide!, by decide!⟩
  intro cp stod stoi pf p hlen h
  have e1 : ¬ p.length = 1 := by clear h; omega
  have e2 : ¬ p.length < 19 := by clear h; omega
  have e3 : ¬ (p.length ≠ 19 ∧ p.length ≠ 20 ∧ p.length ≠ 21 ∧ p.length ≠ 23) := by
    clear h; omega
  unfold CmdLineParser.parse
  simp only []
  rw [if_neg e1, if_neg e2, if_neg e3]
  exact parseCoefficients_error _ stod stoi p _ _ _ h


/-- The rows after the Crank-Nicolson loop of `finishCrank`, for matrices
`X`, `Y` that differ from the loop result `R` in the last diagonal entry and
in `upper(n - 2) = 0` only, with or without the infinite-dose block. -/
theorem crank_tail (n : ℕ) (hn : 2 ≤ n) (R : TDMatrix × TDMatrix) (P : TDMatrix) (T : ℚ)
    (pd : ℚ) (sink : Option Sink)
    (a2 : R.1.m_lower.length = n - 1) (a3 : R.1.m_upper.length = n - 1)
    (b2 : R.2.m_lower.length = n - 1) (b3 : R.2.m_upper.length = n - 1)
    (c6 : R.1.m_lower = P.m_lower) (c7 : R.1.m_upper = P.m_upper)
    (c8 : ∀ j, rd R.1.m_diag j = if j < n - 1 then 2 - rd P.m_diag j else rd P.m_diag j)
    (c9 : ∀ j, rd R.2.m_diag j = if j < n - 1 then 2 + rd P.m_diag j else 0)
    (c10 : ∀ j, j < n - 1 → rd R.2.m_lower j = -rd P.m_lower j)
    (c11 : ∀ j, j < n - 1 → rd R.2.m_upper j = -rd P.m_upper j)
    (hmul : rd P.m_diag (n - 1) = pd * T)
    (X Y : TDMatrix) (sX : X.m_size = n) (sY : Y.m_size = n)
    (dX : X.m_diag.length = n) (dY : Y.m_diag.length = n)
    (lX : X.m_lower = R.1.m_lower) (lY : Y.m_lower = R.2.m_lower)
    (uX : X.m_upper = R.1.m_upper.set (n - 2) 0) (uY : Y.m_upper = R.2.m_upper.set (n - 2) 0)
    (gX : ∀ j, j < n - 1 → rd X.m_diag j = rd R.1.m_diag j)
    (gY : ∀ j, j < n - 1 → rd Y.m_diag j = rd R.2.m_diag j)
    (hs : sink.isSome = true → rd Y.m_diag (n - 1) + rd X.m_diag (n - 1) = 4)
    (hn0 : sink = none → rd Y.m_diag (n - 1) = rd R.2.m_diag (n - 1)
      ∧ rd X.m_diag (n - 1) = rd R.1.m_diag (n - 1))
    (X2 Y2 : TDMatrix)
    (hXY : (X2 = X ∧ Y2 = Y) ∨
      (X2 = (X.setDiag 0 2).setUpper 0 0 ∧ Y2 = (Y.setDiag 0 2).setUpper 0 0)) :
    X2.WF ∧ Y2.WF ∧ X2.m_size = n ∧ Y2.m_size = n ∧
    (∀ j, j < n - 1 → rd Y2.m_lower j = -rd X2.m_lower j) ∧
    (∀ j, j < n - 1 → rd Y2.m_upper j = -rd X2.m_upper j) ∧
    rd X2.m_upper (n - 2) = 0 ∧ rd Y2.m_upper (n - 2) = 0 ∧
    (∀ j, j < n - 1 → rd Y2.m_diag j + rd X2.m_diag j = 4) ∧
    (sink.isSome = true → rd Y2.m_diag (n - 1) + rd X2.m_diag (n - 1) = 4) ∧
    (sink = none → rd Y2.m_diag (n - 1) = 0 ∧ rd X2.m_diag (n - 1) = pd * T) := by
  have wX : X.WF := ⟨dX.trans sX.symm, by rw [lX, sX]; exact a2,
    by rw [uX, sX, List.length_set]; exact a3⟩
  have wY : Y.WF := ⟨dY.trans sY.symm, by rw [lY, sY]; exact b2,
    by rw [uY, sY, List.length_set]; exact b3⟩
  have low : ∀ j, j < n - 1 → rd Y.m_lower j = -rd X.m_lower j := by
    intro j hj
    rw [lX, lY, c10 j hj, c6]
  have upp : ∀ j, j < n - 1 → rd Y.m_upper j = -rd X.m_upper j := by
    intro j hj
    rw [uX, uY, rd_set, rd_set, a3, b3]
    by_cases hj2 : n - 2 = j
    · rw [if_pos ⟨hj2, by omega⟩, if_pos ⟨hj2, by omega⟩, neg_zero]
    · rw [if_neg (fun h => hj2 h.1), if_neg (fun h => hj2 h.1), c11 j hj, c7]
  have ux : rd X.m_upper (n - 2) = 0 := by
    rw [uX]
    exact rd_set_eq _ _ _ (by omega)
  have uy : rd Y.m_upper (n - 2) = 0 := by
    rw [uY]
    exact rd_set_eq _ _ _ (by omega)
  have dg : ∀ j, j < n - 1 → rd Y.m_diag j + rd X.m_diag j = 4 := by
    intro j hj
    rw [gX j hj, gY j hj, c8 j, c9 j, if_pos hj, if_pos hj]
    ring
  have last : sink = none → rd Y.m_diag (n - 1) = 0 ∧ rd X.m_diag (n - 1) = pd * T := by
    intro h
    obtain ⟨h1, h2⟩ := hn0 h
    rw [h1, h2, c8, c9, if_neg (by omega), if_neg (by omega), hmul]
    exact ⟨rfl, rfl⟩
  rcases hXY with ⟨rfl, rfl⟩ | ⟨rfl, rfl⟩
  · exact ⟨wX, wY, sX, sY, low, upp, ux, uy, dg, hs, last⟩
  · refine ⟨setUpper_WF _ _ _ (setDiag_WF _ _ _ wX), setUpper_WF _ _ _ (setDiag_WF _ _ _ wY),
      sX, sY, low, ?_, ?_, ?_, ?_, ?_, ?_⟩
    · intro j hj
      show rd (Y.m_upper.set 0 0) j = -rd (X.m_upper.set 0 0) j
      rw [rd_set, rd_set]
      by_cases hj0 : 0 = j
      · rw [if_pos ⟨hj0, by rw [wY.2.2]; omega⟩, if_pos ⟨hj0, by rw [wX.2.2]; omega⟩, neg_zero]
      · rw [if_neg (fun h => hj0 h.1), if_neg (fun h => hj0 h.1)]
        exact upp j hj
    · show rd (X.m_upper.set 0 0) (n - 2) = 0
      rw [rd_set]
      split
      · rfl
      · exact ux
    · show rd (Y.m_upper.set 0 0) (n - 2) = 0
      rw [rd_set]
      split
      · rfl
      · exact uy
    · intro j hj
      show rd (Y.m_diag.set 0 2) j + rd (X.m_diag.set 0 2) j = 4
      rw [rd_set, rd_set]
      by_cases hj0 : 0 = j
      · rw [if_pos ⟨hj0, by omega⟩, if_pos ⟨hj0, by omega⟩]
        norm_num
      · rw [if_neg (fun h => hj0 h.1), if_neg (fun h => hj0 h.1)]
        exact dg j hj
    · intro h
      show rd (Y.m_diag.set 0 2) (n - 1) + rd (X.m_diag.set 0 2) (n - 1) = 4
      rw [rd_set_ne _ _ _ _ (by omega), rd_set_ne _ _ _ _ (by omega)]
      exact hs h
    · intro h
      show rd (Y.m_diag.set 0 2) (n - 1) = 0 ∧ rd (X.m_diag.set 0 2) (n - 1) = _
      rw [rd_set_ne _ _ _ _ (by omega), rd_set_ne _ _ _ _ (by omega)]
      exact last h

/-- The matrices `finishCrank` (the tail of `build_M_DS_1_4` and
`build_M_DS_1_5`) leaves, for every sink or none and a finite or infinite
dose: band lengths, the Crank-Nicolson mirror of all rows but the last, the
zero in `upper(n - 2)`, and the last diagonal entries. -/
theorem finishCrank_mirror (mb : MatrixBuilder) (n : ℕ) (pre : TDMatrix)
    (comps : List Compartment) (sink : Option Sink) (hn : 2 ≤ n) (hP : pre.WF)
    (hPn : pre.m_size = n) :
    ∃ X2 Y2 : TDMatrix,
      MatrixBuilder.finishCrank mb n pre comps sink
        = ({ mb with
            m_matrix_rhs := X2
            m_matrix_lhs := Y2
            m_timesteps := max 1 ⌈pre.absMax / mb.m_max_module⌉ }, true) ∧
      X2.WF ∧ Y2.WF ∧ X2.m_size = n ∧ Y2.m_size = n ∧
      (∀ j, j < n - 1 → rd Y2.m_lower j = -rd X2.m_lower j) ∧
      (∀ j, j < n - 1 → rd Y2.m_upper j = -rd X2.m_upper j) ∧
      rd X2.m_upper (n - 2) = 0 ∧ rd Y2.m_upper (n - 2) = 0 ∧
      (∀ j, j < n - 1 → rd Y2.m_diag j + rd X2.m_diag j = 4) ∧
      (sink.isSome = true → rd Y2.m_diag (n - 1) + rd X2.m_diag (n - 1) = 4) ∧
      (sink = none → rd Y2.m_diag (n - 1) = 0 ∧
        rd X2.m_diag (n - 1) = rd pre.m_diag (n - 1)
          * (1 / (((max 1 ⌈pre.absMax / mb.m_max_module⌉ : ℤ)) : ℚ))) := by
  obtain ⟨c1, c2, c3, c4, _, c6, c7, c8, c9, c10, c11⟩ := crankRows_spec n
    (pre.multiplyBy (1 / (((max 1 ⌈pre.absMax / mb.m_max_module⌉ : ℤ)) : ℚ))) (TDMatrix.new n)
    (multiplyBy_WF _ _ hP) (new_WF n) hPn rfl
  have hnew : ∀ j, rd (TDMatrix.new n).m_diag j = 0 := by
    intro j
    exact rd_replicate_zero n j
  have hmul : rd (pre.multiplyBy (1 / (((max 1 ⌈pre.absMax / mb.m_max_module⌉ : ℤ)) : ℚ))).m_diag
      (n - 1) = rd pre.m_diag (n - 1)
        * (1 / (((max 1 ⌈pre.absMax / mb.m_max_module⌉ : ℤ)) : ℚ)) := by
    show rd (pre.m_diag.map _) (n - 1) = _
    exact rd_map_mul _ _ _
  generalize hR : MatrixBuilder.crankRows n
    (pre.multiplyBy (1 / (((max 1 ⌈pre.absMax / mb.m_max_module⌉ : ℤ)) : ℚ)), TDMatrix.new n)
    = R at c1 c2 c3 c4 c6 c7 c8 c9 c10 c11
  generalize pre.multiplyBy (1 / (((max 1 ⌈pre.absMax / mb.m_max_module⌉ : ℤ)) : ℚ)) = P
    at c6 c7 c8 c9 c10 c11 hmul
  obtain ⟨a1, a2, a3⟩ := c3
  obtain ⟨b1, b2, b3⟩ := c4
  rw [c1] at a1 a2 a3
  rw [c2] at b1 b2 b3
  have c9' : ∀ j, rd R.2.m_diag j = if j < n - 1 then 2 + rd P.m_diag j else 0 := by
    intro j
    rw [c9 j, hnew]
  have c10' : ∀ j, j < n - 1 → rd R.2.m_lower j = -rd P.m_lower j := by
    intro j hj
    rw [c10 j, if_pos hj]
  have c11' : ∀ j, j < n - 1 → rd R.2.m_upper j = -rd P.m_upper j := by
    intro j hj
    rw [c11 j, if_pos hj]
  have fin := crank_tail n hn R P (1 / (((max 1 ⌈pre.absMax / mb.m_max_module⌉ : ℤ)) : ℚ))
    (rd pre.m_diag (n - 1)) sink a2 a3 b2 b3 c6 c7 c8 c9' c10' c11' hmul
  have e : MatrixBuilder.finishCrank mb n pre comps sink
      = ({ mb with
          m_matrix_rhs := (MatrixBuilder.infiniteDoseRows comps (MatrixBuilder.sinkRows n
            (1 / (((max 1 ⌈pre.absMax / mb.m_max_module⌉ : ℤ)) : ℚ)) sink
            (R.1.setUpper (n - 2) 0, R.2.setUpper (n - 2) 0))).1
          m_matrix_lhs := (MatrixBuilder.infiniteDoseRows comps (MatrixBuilder.sinkRows n
            (1 / (((max 1 ⌈pre.absMax / mb.m_max_module⌉ : ℤ)) : ℚ)) sink
            (R.1.setUpper (n - 2) 0, R.2.setUpper (n - 2) 0))).2
          m_timesteps := max 1 ⌈pre.absMax / mb.m_max_module⌉ }, true) := by
    unfold MatrixBuilder.finishCrank
    simp only [hR]
  have sel : ∀ (Z : TDMatrix × TDMatrix),
      ((MatrixBuilder.infiniteDoseRows comps Z).1 = Z.1 ∧
        (MatrixBuilder.infiniteDoseRows comps Z).2 = Z.2) ∨
      ((MatrixBuilder.infiniteDoseRows comps Z).1 = (Z.1.setDiag 0 2).setUpper 0 0 ∧
        (MatrixBuilder.infiniteDoseRows comps Z).2 = (Z.2.setDiag 0 2).setUpper 0 0) := by
    intro Z
    unfold MatrixBuilder.infiniteDoseRows
    split
    · exact Or.inr ⟨rfl, rfl⟩
    · exact Or.inl ⟨rfl, rfl⟩
  refine ⟨_, _, e, ?_⟩
  cases sink with
  | none =>
    exact fin (R.1.setUpper (n - 2) 0) (R.2.setUpper (n - 2) 0) c1 c2 a1 b1 rfl rfl rfl rfl
      (fun _ _ => rfl) (fun _ _ => rfl) (fun h => by cases h) (fun _ => ⟨rfl, rfl⟩) _ _ (sel _)
  | some k =>
    by_cases hk : k.m_type = SinkType.PK_Compartment
    · have ez : MatrixBuilder.sinkRows n
          (1 / (((max 1 ⌈pre.absMax / mb.m_max_module⌉ : ℤ)) : ℚ)) (some k)
          (R.1.setUpper (n - 2) 0, R.2.setUpper (n - 2) 0)
          = (((R.1.setUpper (n - 2) 0).setDiag (n - 1) 2).setDiag (n - 1)
              (2 - 1 / (((max 1 ⌈pre.absMax / mb.m_max_module⌉ : ℤ)) : ℚ) * k.kEl),
            ((R.2.setUpper (n - 2) 0).setDiag (n - 1) 2).setDiag (n - 1)
              (2 + 1 / (((max 1 ⌈pre.absMax / mb.m_max_module⌉ : ℤ)) : ℚ) * k.kEl)) := by
        unfold MatrixBuilder.sinkRows
        simp only [hk, if_true]
      rw [ez]
      refine fin (((R.1.setUpper (n - 2) 0).setDiag (n - 1) 2).setDiag (n - 1)
          (2 - 1 / (((max 1 ⌈pre.absMax / mb.m_max_module⌉ : ℤ)) : ℚ) * k.kEl))
        (((R.2.setUpper (n - 2) 0).setDiag (n - 1) 2).setDiag (n - 1)
          (2 + 1 / (((max 1 ⌈pre.absMax / mb.m_max_module⌉ : ℤ)) : ℚ) * k.kEl))
        c1 c2 (by simp only [TDMatrix.setDiag, TDMatrix.setUpper, List.length_set, a1])
        (by simp only [TDMatrix.setDiag, TDMatrix.setUpper, List.length_set, b1])
        rfl rfl rfl rfl ?_ ?_ ?_
        (fun h => by cases h) _ _ (sel _)
      · intro j hj
        show rd ((R.1.m_diag.set (n - 1) 2).set (n - 1) _) j = _
        rw [rd_set_ne _ _ _ _ (by omega), rd_set_ne _ _ _ _ (by omega)]
      · intro j hj
        show rd ((R.2.m_diag.set (n - 1) 2).set (n - 1) _) j = _
        rw [rd_set_ne _ _ _ _ (by omega), rd_set_ne _ _ _ _ (by omega)]
      · intro _
        show rd ((R.2.m_diag.set (n - 1) 2).set (n - 1) _) (n - 1)
          + rd ((R.1.m_diag.set (n - 1) 2).set (n - 1) _) (n - 1) = 4
        rw [rd_set_eq _ _ _ (by rw [List.length_set]; omega),
          rd_set_eq _ _ _ (by rw [List.length_set]; omega)]
        ring
    · have ez : MatrixBuilder.sinkRows n
          (1 / (((max 1 ⌈pre.absMax / mb.m_max_module⌉ : ℤ)) : ℚ)) (some k)
          (R.1.setUpper (n - 2) 0, R.2.setUpper (n - 2) 0)
          = ((R.1.setUpper (n - 2) 0).setDiag (n - 1) 2,
            (R.2.setUpper (n - 2) 0).setDiag (n - 1) 2) := by
        unfold MatrixBuilder.sinkRows
        simp only [hk, if_false]
      rw [ez]
      refine fin ((R.1.setUpper (n - 2) 0).setDiag (n - 1) 2)
        ((R.2.setUpper (n - 2) 0).setDiag (n - 1) 2)
        c1 c2 (by simp only [TDMatrix.setDiag, TDMatrix.setUpper, List.length_set, a1])
        (by simp only [TDMatrix.setDiag, TDMatrix.setUpper, List.length_set, b1])
        rfl rfl rfl rfl ?_ ?_ ?_
        (fun h => by cases h) _ _ (sel _)
      · intro j hj
        show rd (R.1.m_diag.set (n - 1) 2) j = _
        rw [rd_set_ne _ _ _ _ (by omega)]
      · intro j hj
        show rd (R.2.m_diag.set (n - 1) 2) j = _
        rw [rd_set_ne _ _ _ _ (by omega)]
      · intro _
        show rd (R.2.m_diag.set (n - 1) 2) (n - 1) + rd (R.1.m_diag.set (n - 1) 2) (n - 1) = 4
        rw [rd_set_eq _ _ _ (by omega), rd_set_eq _ _ _ (by omega)]
        norm_num


/-- The helper `fromRhs(rhs)` on a matrix with the constructor's band
lengths: the mirror `2 - diag`, `-upper`, `-lower`. -/
theorem fromRhs_spec (X : TDMatrix) (hX : X.WF) :
    (MatrixBuilder.fromRhs X).WF ∧ (MatrixBuilder.fromRhs X).m_size = X.m_size ∧
    (∀ j, j < X.m_size → rd (MatrixBuilder.fromRhs X).m_diag j = 2 - rd X.m_diag j) ∧
    (∀ j, j < X.m_size - 1 → rd (MatrixBuilder.fromRhs X).m_upper j = -rd X.m_upper j) ∧
    (∀ j, j < X.m_size - 1 → rd (MatrixBuilder.fromRhs X).m_lower j = -rd X.m_lower j) := by
  obtain ⟨w1, w2, w3⟩ := hX
  have loop := forUp_inv (fun k (m : TDMatrix) => m.m_size = X.m_size ∧
      m.m_diag.length = X.m_size ∧ m.m_lower.length = X.m_size - 1 ∧
      m.m_upper.length = X.m_size - 1 ∧
      (∀ j, rd m.m_diag j = if j < k then 2 - rd X.m_diag j else rd X.m_diag j) ∧
      (∀ j, rd m.m_upper j = if j < k then -rd X.m_upper j else rd X.m_upper j) ∧
      (∀ j, rd m.m_lower j = if j < k then -rd X.m_lower j else rd X.m_lower j))
    0 (X.m_size - 1) (Nat.zero_le _)
    (fun i (res : TDMatrix) =>
      ((res.setDiag i (2 - res.diag i)).setUpper i
        (-(res.setDiag i (2 - res.diag i)).upper i)).setLower i
        (-((res.setDiag i (2 - res.diag i)).setUpper i
          (-(res.setDiag i (2 - res.diag i)).upper i)).lower i)) X
    ⟨rfl, w1, w2, w3, fun j => by rw [if_neg (by omega)], fun j => by rw [if_neg (by omega)],
      fun j => by rw [if_neg (by omega)]⟩
    (by
      rintro i m - hi ⟨s, d, l, u, hd, hu, hl⟩
      refine ⟨s, by simp [TDMatrix.setDiag, TDMatrix.setUpper, TDMatrix.setLower, d],
        by simp [TDMatrix.setDiag, TDMatrix.setUpper, TDMatrix.setLower, l],
        by simp [TDMatrix.setDiag, TDMatrix.setUpper, TDMatrix.setLower, u], ?_, ?_, ?_⟩
      · intro j
        show rd (m.m_diag.set i (2 - rd m.m_diag i)) j = _
        rw [rd_set, hd j, hd i, if_neg (Nat.lt_irrefl i), d]
        by_cases hij : i = j
        · subst hij
          rw [if_pos ⟨rfl, by omega⟩, if_pos (by omega)]
        · rw [if_neg (fun h => hij h.1)]
          by_cases hj : j < i
          · rw [if_pos hj, if_pos (by omega)]
          · rw [if_neg hj, if_neg (by omega)]
      · intro j
        show rd (m.m_upper.set i (-rd m.m_upper i)) j = _
        rw [rd_set, hu j, hu i, if_neg (Nat.lt_irrefl i), u]
        by_cases hij : i = j
        · subst hij
          rw [if_pos ⟨rfl, by omega⟩, if_pos (by omega)]
        · rw [if_neg (fun h => hij h.1)]
          by_cases hj : j < i
          · rw [if_pos hj, if_pos (by omega)]
          · rw [if_neg hj, if_neg (by omega)]
      · intro j
        show rd (m.m_lower.set i (-rd m.m_lower i)) j = _
        rw [rd_set, hl j, hl i, if_neg (Nat.lt_irrefl i), l]
        by_cases hij : i = j
        · subst hij
          rw [if_pos ⟨rfl, by omega⟩, if_pos (by omega)]
        · rw [if_neg (fun h => hij h.1)]
          by_cases hj : j < i
          · rw [if_pos hj, if_pos (by omega)]
          · rw [if_neg hj, if_neg (by omega)])
  obtain ⟨s, d, l, u, hd, hu, hl⟩ := loop
  have e : MatrixBuilder.fromRhs X = (forUp 0 (X.m_size - 1) (fun i (res : TDMatrix) =>
      ((res.setDiag i (2 - res.diag i)).setUpper i
        (-(res.setDiag i (2 - res.diag i)).upper i)).setLower i
        (-((res.setDiag i (2 - res.diag i)).setUpper i
          (-(res.setDiag i (2 - res.diag i)).upper i)).lower i)) X).setDiag (X.m_size - 1)
      (2 - (forUp 0 (X.m_size - 1) (fun i (res : TDMatrix) =>
      ((res.setDiag i (2 - res.diag i)).setUpper i
        (-(res.setDiag i (2 - res.diag i)).upper i)).setLower i
        (-((res.setDiag i (2 - res.diag i)).setUpper i
          (-(res.setDiag i (2 - res.diag i)).upper i)).lower i)) X).diag (X.m_size - 1)) := rfl
  rw [e]
  generalize forUp 0 (X.m_size - 1) (fun i (res : TDMatrix) =>
      ((res.setDiag i (2 - res.diag i)).setUpper i
        (-(res.setDiag i (2 - res.diag i)).upper i)).setLower i
        (-((res.setDiag i (2 - res.diag i)).setUpper i
          (-(res.setDiag i (2 - res.diag i)).upper i)).lower i)) X = F at s d l u hd hu hl
  refine ⟨⟨by simp [TDMatrix.setDiag, d, s], by simp [TDMatrix.setDiag, l, s],
    by simp [TDMatrix.setDiag, u, s]⟩, s, ?_, ?_, ?_⟩
  · intro j hj
    show rd (F.m_diag.set (X.m_size - 1) (2 - rd F.m_diag (X.m_size - 1))) j = _
    rw [rd_set, hd j, hd (X.m_size - 1), if_neg (Nat.lt_irrefl _), d]
    by_cases hij : X.m_size - 1 = j
    · rw [if_pos ⟨hij, by omega⟩, hij]
    · rw [if_neg (fun h => hij h.1), if_pos (by omega)]
  · intro j hj
    show rd F.m_upper j = _
    rw [hu j, if_pos hj]
  · intro j hj
    show rd F.m_lower j = _
    rw [hl j, if_pos hj]

theorem preMatrix_1_3_WF (N : ℕ) (ss D K A : List ℚ) :
    (MatrixBuilder.preMatrix_1_3 N ss D K A).WF ∧
    (MatrixBuilder.preMatrix_1_3 N ss D K A).m_size = N := by
  unfold MatrixBuilder.preMatrix_1_3
  simp only []
  obtain ⟨w, s⟩ := forUp_WF 1 (N - 1) _ _
    (fun i m hm => ⟨setLower_WF _ _ _ (setUpper_WF _ _ _ (setDiag_WF _ _ _ hm)), rfl⟩)
    (setUpper_WF _ 0 _ (setDiag_WF _ 0 _ (new_WF N)))
  exact ⟨setLower_WF _ _ _ w, s⟩

/-- The shape of a result of `build_M_DS_1_3`: the right-hand matrix has the
constructor's band lengths and `upper(N - 2) = 0`, and the left-hand matrix
is `fromRhs` of it. -/
theorem build_1_3_form (mb : MatrixBuilder) (comps : List Compartment) (geo : Geometry)
    (sink : Option Sink) (hn : 2 ≤ geo.size) (r : MatrixBuilder × Bool)
    (h : mb.build_M_DS_1_3 comps geo sink = some r) :
    r.1.m_matrix_rhs.WF ∧ r.1.m_matrix_rhs.m_size = geo.size ∧
      rd r.1.m_matrix_rhs.m_upper (geo.size - 2) = 0 ∧
      r.1.m_matrix_lhs = MatrixBuilder.fromRhs r.1.m_matrix_rhs := by
  obtain ⟨pw, ps⟩ := preMatrix_1_3_WF geo.size geo.m_space_steps
    (MatrixBuilder.createParamVector geo.size comps (fun comp => comp.m_D) sink)
    (MatrixBuilder.createParamVector geo.size comps (fun comp => comp.m_K) sink)
    (MatrixBuilder.createParamVector geo.size comps (fun comp => comp.m_A) sink)
  obtain ⟨xw, xs⟩ := forUp_WF 0 (geo.size - 1) (fun i (rhs : TDMatrix) =>
      ((rhs.setDiag i (1 - rhs.diag i / 2)).setLower i
        ((rhs.setDiag i (1 - rhs.diag i / 2)).lower i / 2)).setUpper i
        (((rhs.setDiag i (1 - rhs.diag i / 2)).setLower i
          ((rhs.setDiag i (1 - rhs.diag i / 2)).lower i / 2)).upper i / 2))
    ((MatrixBuilder.preMatrix_1_3 geo.size geo.m_space_steps
      (MatrixBuilder.createParamVector geo.size comps (fun comp => comp.m_D) sink)
      (MatrixBuilder.createParamVector geo.size comps (fun comp => comp.m_K) sink)
      (MatrixBuilder.createParamVector geo.size comps (fun comp => comp.m_A) sink)).multiplyBy
      (1 / ((⌈(MatrixBuilder.preMatrix_1_3 geo.size geo.m_space_steps
      (MatrixBuilder.createParamVector geo.size comps (fun comp => comp.m_D) sink)
      (MatrixBuilder.createParamVector geo.size comps (fun comp => comp.m_K) sink)
      (MatrixBuilder.createParamVector geo.size comps (fun comp => comp.m_A) sink)).absMax
        / mb.m_max_module⌉ : ℤ) : ℚ)))
    (fun i m hm => ⟨setUpper_WF _ _ _ (setLower_WF _ _ _ (setDiag_WF _ _ _ hm)), rfl⟩)
    (multiplyBy_WF _ _ pw)
  replace xs := xs.trans ps
  unfold MatrixBuilder.build_M_DS_1_3 at h
  by_cases hf : MatrixBuilder.vehicleFinite comps = true
  · simp only [hf, Bool.not_true, Bool.false_eq_true, if_false, Option.some.injEq] at h
    subst h
    simp only []
    generalize forUp 0 (geo.size - 1) _ _ = X at xw xs ⊢
    have hu : rd (X.m_upper.set (geo.size - 2) 0) (geo.size - 2) = 0 :=
      rd_set_eq _ _ _ (by rw [xw.2.2, xs]; omega)
    cases sink with
    | none => exact ⟨setUpper_WF _ _ _ xw, xs, hu, trivial⟩
    | some s =>
      simp only []
      by_cases hk : s.m_type = SinkType.PK_Compartment
      · simp only [hk, if_true]
        exact ⟨setDiag_WF _ _ _ (setDiag_WF _ _ _ (setUpper_WF _ _ _ xw)), xs, hu, trivial⟩
      · simp only [hk, if_false]
        exact ⟨setDiag_WF _ _ _ (setUpper_WF _ _ _ xw), xs, hu, trivial⟩
  · simp only [hf, Bool.not_false, if_true] at h
    simp at h

/-- C28. The sink never feeds back into the last layer: for each of the three
methods and every input with `N >= 2` cells, with or without a sink and for
both sink kinds, every result of `buildMatrix` has the entry `upper(N - 2)`
equal to 0 in both the right-hand and the left-hand matrix, the upper bands
having `N - 1` entries (so that the index `N - 2` is one of them).
`buildMatrix` returns a result for `DSkin_1_4` and `DSkin_1_5` on every
input, and for `DSkin_1_3` when the vehicle is finite-dose (otherwise it
stops at its `assert(false)`). -/
theorem sink_never_feeds_back (mb : MatrixBuilder) (comps : List Compartment)
    (geo : Geometry) (sink : Option Sink) (hn : 2 ≤ geo.size) :
    ((mb.m_method ≠ Method.DSkin_1_3 ∨ MatrixBuilder.vehicleFinite comps = true) →
      ∃ r, mb.buildMatrix comps geo sink = some r) ∧
    ∀ r, mb.buildMatrix comps geo sink = some r →
      r.1.m_matrix_rhs.m_upper.length = geo.size - 1 ∧
      r.1.m_matrix_lhs.m_upper.length = geo.size - 1 ∧
      r.1.m_matrix_rhs.upper (geo.size - 2) = 0 ∧
      r.1.m_matrix_lhs.upper (geo.size - 2) = 0 := by
  unfold MatrixBuilder.buildMatrix
  cases hm : mb.m_method with
  | DSkin_1_3 =>
    simp only []
    constructor
    · rintro (h | h)
      · exact absurd rfl h
      · unfold MatrixBuilder.build_M_DS_1_3
        simp only [h, Bool.not_true, Bool.false_eq_true, if_false]
        exact ⟨_, rfl⟩
    · intro r hr
      obtain ⟨w, s, u, hl⟩ := build_1_3_form mb comps geo sink hn r hr
      obtain ⟨fw, fs, _, fu, _⟩ := fromRhs_spec r.1.m_matrix_rhs w
      rw [hl]
      refine ⟨by rw [w.2.2, s], by rw [fw.2.2, fs, s], u, ?_⟩
      show rd (MatrixBuilder.fromRhs r.1.m_matrix_rhs).m_upper (geo.size - 2) = 0
      rw [fu _ (by rw [s]; omega), u, neg_zero]
  | DSkin_1_4 =>
    simp only []
    refine ⟨fun _ => ⟨_, rfl⟩, fun r hr => ?_⟩
    rw [Option.some.injEq] at hr
    subst hr
    obtain ⟨pw, ps⟩ := preMatrix_1_4_WF geo.size geo.m_space_steps
      (MatrixBuilder.createParamVector geo.size comps (fun comp => comp.m_D) sink)
      (MatrixBuilder.createParamVector geo.size comps (fun comp => comp.m_K) sink)
      (MatrixBuilder.createParamVector geo.size comps (fun comp => comp.m_A) sink)
    obtain ⟨X2, Y2, e, xw, yw, xs, ys, _, _, xu, yu, _⟩ :=
      finishCrank_mirror mb geo.size _ comps sink hn pw ps
    unfold MatrixBuilder.build_M_DS_1_4
    simp only []
    rw [e]
    exact ⟨by rw [xw.2.2, xs], by rw [yw.2.2, ys], xu, yu⟩
  | DSkin_1_5 =>
    simp only []
    refine ⟨fun _ => ⟨_, rfl⟩, fun r hr => ?_⟩
    rw [Option.some.injEq] at hr
    subst hr
    obtain ⟨pw, ps⟩ := preMatrix_1_5_WF geo.size geo.m_space_steps
      (MatrixBuilder.createParamVector geo.size comps (fun comp => comp.m_D) sink)
      (MatrixBuilder.createParamVector geo.size comps (fun comp => comp.m_K) sink)
      (MatrixBuilder.createParamVector geo.size comps (fun comp => comp.m_A) sink)
    obtain ⟨X2, Y2, e, xw, yw, xs, ys, _, _, xu, yu, _⟩ :=
      finishCrank_mirror mb geo.size _ comps sink hn pw ps
    unfold MatrixBuilder.build_M_DS_1_5
    simp only []
    rw [e]
    exact ⟨by rw [xw.2.2, xs], by rw [yw.2.2, ys], xu, yu⟩

/-- C28, witness: scenario S1 (21 cells, perfect sink) under `DSkin_1_3`. -/
theorem sink_never_feeds_back_witness :
    2 ≤ s1Geo.geometry.size ∧
    ∃ r, (MatrixBuilder.new Method.DSkin_1_3).buildMatrix s1Geo.compartments s1Geo.geometry
        s1Geo.sink = some r ∧
      r.1.m_matrix_rhs.upper (s1Geo.geometry.size - 2) = 0 ∧
      r.1.m_matrix_lhs.upper (s1Geo.geometry.size - 2) = 0 := by
  have h := sink_never_feeds_back (MatrixBuilder.new Method.DSkin_1_3) s1Geo.compartments
    s1Geo.geometry s1Geo.sink (by decide!)
  obtain ⟨r, hr⟩ := h.1 (Or.inr (by decide!))
  exact ⟨by decide!, r, hr, (h.2 r hr).2.2⟩

/-- The range loop of `createParamVector` for any bounds: the cells `j` of the
vector with `a <= j < hi` hold `val`, the others are unchanged. -/
theorem paramRange_rd (a hi : ℤ) (val : ℚ) (r : List ℚ) :
    (forUpZ a hi (fun i result => wrZ result i val) r).length = r.length ∧
    ∀ j : ℕ, rd (forUpZ a hi (fun i result => wrZ result i val) r) j
      = if a ≤ (j : ℤ) ∧ (j : ℤ) < hi ∧ j < r.length then val else rd r j := by
  have key : ∀ n : ℕ, (forUp 0 n (fun k s => wrZ s (a + (k : ℤ)) val) r).length = r.length ∧
      ∀ j : ℕ, rd (forUp 0 n (fun k s => wrZ s (a + (k : ℤ)) val) r) j
        = if a ≤ (j : ℤ) ∧ (j : ℤ) < a + (n : ℤ) ∧ j < r.length then val else rd r j := by
    intro n
    induction n with
    | zero =>
      rw [forUp_self]
      refine ⟨rfl, fun j => ?_⟩
      rw [if_neg (by push_cast; omega)]
    | succ n ih =>
      rw [forUp_succ 0 n (Nat.zero_le _)]
      obtain ⟨l, v⟩ := ih
      refine ⟨by rw [wrZ_length, l], fun j => ?_⟩
      generalize forUp 0 n (fun k s => wrZ s (a + (k : ℤ)) val) r = X at l v ⊢
      unfold wrZ
      by_cases h0 : 0 ≤ a + (n : ℤ)
      · rw [if_pos h0, rd_set, v j, l]
        push_cast
        split_ifs <;> first | rfl | (exfalso; omega)
      · rw [if_neg h0, v j]
        push_cast
        split_ifs <;> first | rfl | (exfalso; omega)
  unfold forUpZ
  obtain ⟨l, v⟩ := key (hi - a).toNat
  refine ⟨l, fun j => ?_⟩
  rw [v j]
  split_ifs <;> first | rfl | (exfalso; omega)

/-- The vectors `createParamVector` builds for different parameters share
their layout: every cell holds the parameter of one and the same compartment
of the list, or 0 in all of them. -/
theorem createParamVector_label (size : ℕ) (comps : List Compartment) (sink : Option Sink) :
    ∃ lab : ℕ → Option Compartment, (∀ j c, lab j = some c → c ∈ comps) ∧
      ∀ (f : Compartment → ℚ) (j : ℕ),
        rd (MatrixBuilder.createParamVector size comps f sink) j = (lab j).elim 0 f := by
  have fold : ∀ (cs : List Compartment) (R : (Compartment → ℚ) → List ℚ)
      (lab : ℕ → Option Compartment),
      (∀ c ∈ cs, c ∈ comps) → (∀ f, (R f).length = size) →
      (∀ f j, rd (R f) j = (lab j).elim 0 f) → (∀ j c, lab j = some c → c ∈ comps) →
      ∃ lab2 : ℕ → Option Compartment, (∀ j c, lab2 j = some c → c ∈ comps) ∧
        ∀ f : Compartment → ℚ,
          (cs.foldl (fun result comp =>
            forUpZ comp.m_geo_from (comp.m_geo_to + 1) (fun i result => wrZ result i (f comp))
              result) (R f)).length = size ∧
          ∀ j, rd (cs.foldl (fun result comp =>
            forUpZ comp.m_geo_from (comp.m_geo_to + 1) (fun i result => wrZ result i (f comp))
              result) (R f)) j = (lab2 j).elim 0 f := by
    intro cs
    induction cs with
    | nil =>
      intro R lab _ hR hv hl
      exact ⟨lab, hl, fun f => ⟨hR f, hv f⟩⟩
    | cons c cs ih =>
      intro R lab hc hR hv hl
      simp only [List.foldl_cons]
      refine ih
        (fun f => forUpZ c.m_geo_from (c.m_geo_to + 1) (fun i result => wrZ result i (f c)) (R f))
        (fun j => if c.m_geo_from ≤ (j : ℤ) ∧ (j : ℤ) < c.m_geo_to + 1 ∧ j < size then some c
          else lab j)
        (fun x hx => hc x (List.mem_cons_of_mem _ hx)) ?_ ?_ ?_
      · intro f
        rw [(paramRange_rd _ _ _ _).1, hR]
      · intro f j
        rw [(paramRange_rd _ _ _ _).2, hR f]
        show _ = (if c.m_geo_from ≤ (j : ℤ) ∧ (j : ℤ) < c.m_geo_to + 1 ∧ j < size then some c
          else lab j).elim 0 f
        by_cases h : c.m_geo_from ≤ (j : ℤ) ∧ (j : ℤ) < c.m_geo_to + 1 ∧ j < size
        · rw [if_pos h, if_pos h]
          rfl
        · rw [if_neg h, if_neg h]
          exact hv f j
      · intro j x hx
        simp only [] at hx
        split_ifs at hx
        · rw [Option.some.injEq] at hx
          subst hx
          exact hc _ (List.mem_cons_self _ _)
        · exact hl j x hx
  obtain ⟨lab, hl, hv⟩ := fold comps (fun _ => List.replicate size 0) (fun _ => none)
    (fun c h => h) (fun _ => List.length_replicate _ _) (fun _ j => rd_replicate_zero size j)
    (fun j c h => by simp at h)
  unfold MatrixBuilder.createParamVector
  cases sink with
  | none => exact ⟨lab, hl, fun f j => (hv f).2 j⟩
  | some s =>
    simp only []
    refine ⟨fun j => if 0 ≤ s.m_geo_from ∧ s.m_geo_from.toNat = j ∧ j < size then
        (if 0 ≤ s.m_geo_from - 1 then lab (s.m_geo_from - 1).toNat else none) else lab j, ?_, ?_⟩
    · intro j c hc
      simp only [] at hc
      split_ifs at hc
      · exact hl _ c hc
      · exact hl j c hc
    · intro f j
      obtain ⟨l, v⟩ := hv f
      generalize List.foldl (fun result comp =>
        forUpZ comp.m_geo_from (comp.m_geo_to + 1) (fun i result => wrZ result i (f comp))
          result) (List.replicate size 0) comps = X at l v ⊢
      show rd (wrZ X s.m_geo_from (rdZ X (s.m_geo_from - 1))) j
        = (if 0 ≤ s.m_geo_from ∧ s.m_geo_from.toNat = j ∧ j < size then
            (if 0 ≤ s.m_geo_from - 1 then lab (s.m_geo_from - 1).toNat else none)
          else lab j).elim 0 f
      unfold wrZ rdZ
      by_cases h0 : 0 ≤ s.m_geo_from
      · rw [if_pos h0, rd_set, l, v j]
        by_cases h1 : s.m_geo_from.toNat = j ∧ s.m_geo_from.toNat < size
        · rw [if_pos h1, if_pos (show 0 ≤ s.m_geo_from ∧ s.m_geo_from.toNat = j ∧ j < size from
            ⟨h0, h1.1, by omega⟩)]
          by_cases h2 : 0 ≤ s.m_geo_from - 1
          · rw [if_pos h2, if_pos h2, v]
          · rw [if_neg h2, if_neg h2]
            rfl
        · rw [if_neg h1, if_neg (fun h => h1 ⟨h.2.1, by omega⟩)]
      · rw [if_neg h0, v j, if_neg (fun h => h0 h.1)]

theorem ratio_cancel (k k2 A : ℚ) (hA : A ≠ 0) : k * A / (k2 * A) = k / k2 :=
  mul_div_mul_right _ _ hA

theorem mul_ratio_cancel (x k k2 A : ℚ) (hA : A ≠ 0) : x * (k * A) / (k2 * A) = x * k / k2 := by
  rw [← mul_assoc, mul_div_mul_right _ _ hA]

theorem preMatrix_1_5_eq_1_4 (N : ℕ) (ss D K Av : List ℚ) (A : ℚ) (hA : A ≠ 0)
    (H : ∀ j, rd D j = 0 ∨ rd Av j = A) :
    MatrixBuilder.preMatrix_1_5 N ss D K Av = MatrixBuilder.preMatrix_1_4 N ss D K Av := by
  have two : ∀ x y : ℕ, rd D x = 0 ∨ rd D y = 0 ∨ (rd Av x = A ∧ rd Av y = A) := by
    intro x y
    rcases H x with h | h
    · exact Or.inl h
    · rcases H y with h2 | h2
      · exact Or.inr (Or.inl h2)
      · exact Or.inr (Or.inr ⟨h, h2⟩)
  unfold MatrixBuilder.preMatrix_1_5 MatrixBuilder.preMatrix_1_4
  simp only []
  congr 1
  · congr 1
    · congr 1
      · funext i rhs
        congr 1
        · congr 1
          · congr 1
            rcases H i with hc | hc
            · simp [hc]
            · rcases H (i - 1) with hl | hl <;> rcases H (i + 1) with hr | hr
              · simp [hl, hr]
              · simp only [hc, hr, ratio_cancel _ _ _ hA, mul_ratio_cancel _ _ _ _ hA,
                  div_self hA, min_self, mul_one]
                simp [hl]
              · simp only [hc, hl, ratio_cancel _ _ _ hA, mul_ratio_cancel _ _ _ _ hA,
                  div_self hA, min_self, mul_one]
                simp [hr]
              · simp only [hc, hl, hr, ratio_cancel _ _ _ hA, mul_ratio_cancel _ _ _ _ hA,
                  div_self hA, min_self, mul_one]
          · rcases two i (i + 1) with h | h | ⟨h1, h2⟩
            · simp [h]
            · simp [h]
            · simp only [h1, h2, ratio_cancel _ _ _ hA, mul_ratio_cancel _ _ _ _ hA,
                div_self hA, min_self, mul_one]
        · rcases two (i - 1) i with h | h | ⟨h1, h2⟩
          · simp [h]
          · simp [h]
          · simp only [h1, h2, ratio_cancel _ _ _ hA, mul_ratio_cancel _ _ _ _ hA,
              div_self hA, min_self, mul_one]
      · congr 1
        · congr 1
          rcases two 0 1 with h | h | ⟨h1, h2⟩
          · simp [h]
          · simp [h]
          · simp only [h1, h2, ratio_cancel _ _ _ hA, mul_ratio_cancel _ _ _ _ hA,
              div_self hA, min_self, mul_one]
        · rcases two 0 1 with h | h | ⟨h1, h2⟩
          · simp [h]
          · simp [h]
          · simp only [h1, h2, ratio_cancel _ _ _ hA, mul_ratio_cancel _ _ _ _ hA,
              div_self hA, min_self, mul_one]
    · rcases two (N - 2) (N - 1) with h | h | ⟨h1, h2⟩
      · simp [h]
      · simp [h]
      · simp only [h1, h2, ratio_cancel _ _ _ hA, mul_ratio_cancel _ _ _ _ hA,
          div_self hA, min_self, mul_one]
  · rcases two (N - 2) (N - 1) with h | h | ⟨h1, h2⟩
    · simp [h]
    · simp [h]
    · simp only [h1, h2, ratio_cancel _ _ _ hA, mul_ratio_cancel _ _ _ _ hA,
        div_self hA, min_self, mul_one]

/-- C30. `DSkin_1_5` coincides with `DSkin_1_4` when the areas are equal: for
every geometry, sink (or none) and list of compartments with `D > 0` and
`K > 0` in which all compartments have the same positive area `A`,
`buildMatrix` returns under both methods, and under `DSkin_1_5` it produces
the same right-hand matrix, the same left-hand matrix, the same
`timesteps()` and the same return value as under `DSkin_1_4` (in exact
arithmetic). The builder is any builder, set to the one or the other method
with `setMethod`. -/
theorem DSkin_1_5_eq_DSkin_1_4_of_equal_areas (mb : MatrixBuilder) (comps : List Compartment)
    (geo : Geometry) (sink : Option Sink) (A : ℚ) (hA : 0 < A)
    (hc : ∀ c ∈ comps, 0 < c.m_D ∧ 0 < c.m_K ∧ c.m_A = A) :
    ∃ r4 r5 : MatrixBuilder × Bool,
      (mb.setMethod Method.DSkin_1_4).buildMatrix comps geo sink = some r4 ∧
      (mb.setMethod Method.DSkin_1_5).buildMatrix comps geo sink = some r5 ∧
      r5.1.m_matrix_rhs = r4.1.m_matrix_rhs ∧ r5.1.m_matrix_lhs = r4.1.m_matrix_lhs ∧
      r5.1.timesteps = r4.1.timesteps ∧ r5.2 = r4.2 := by
  obtain ⟨lab, hl, hv⟩ := createParamVector_label geo.size comps sink
  have H : ∀ j, rd (MatrixBuilder.createParamVector geo.size comps (fun comp => comp.m_D) sink) j
      = 0 ∨ rd (MatrixBuilder.createParamVector geo.size comps (fun comp => comp.m_A) sink) j
      = A := by
    intro j
    rw [hv, hv]
    cases h : lab j with
    | none => exact Or.inl rfl
    | some c => exact Or.inr (hc c (hl j c h)).2.2
  have e := preMatrix_1_5_eq_1_4 geo.size geo.m_space_steps
    (MatrixBuilder.createParamVector geo.size comps (fun comp => comp.m_D) sink)
    (MatrixBuilder.createParamVector geo.size comps (fun comp => comp.m_K) sink)
    (MatrixBuilder.createParamVector geo.size comps (fun comp => comp.m_A) sink) A hA.ne' H
  refine ⟨_, _, rfl, rfl, ?_⟩
  unfold MatrixBuilder.build_M_DS_1_5 MatrixBuilder.build_M_DS_1_4
  simp only []
  rw [e]
  exact ⟨rfl, rfl, rfl, rfl⟩

/-- C30, witness: scenario S1 (all areas 1) with the default builder. -/
theorem DSkin_1_5_eq_DSkin_1_4_of_equal_areas_witness :
    (0 : ℚ) < 1 ∧ (∀ c ∈ s1Geo.compartments, 0 < c.m_D ∧ 0 < c.m_K ∧ c.m_A = 1) ∧
    ∃ r4 r5 : MatrixBuilder × Bool,
      ((MatrixBuilder.new Method.DSkin_1_3).setMethod Method.DSkin_1_4).buildMatrix
        s1Geo.compartments s1Geo.geometry s1Geo.sink = some r4 ∧
      ((MatrixBuilder.new Method.DSkin_1_3).setMethod Method.DSkin_1_5).buildMatrix
        s1Geo.compartments s1Geo.geometry s1Geo.sink = some r5 ∧
      r5.1.m_matrix_rhs = r4.1.m_matrix_rhs ∧ r5.1.m_matrix_lhs = r4.1.m_matrix_lhs ∧
      r5.1.timesteps = r4.1.timesteps ∧ r5.2 = r4.2 :=
  ⟨by norm_num, by decide!,
    DSkin_1_5_eq_DSkin_1_4_of_equal_areas (MatrixBuilder.new Method.DSkin_1_3)
      s1Geo.compartments s1Geo.geometry s1Geo.sink 1 (by norm_num) (by decide!)⟩

/-- C29. The Crank-Nicolson mirror of the edge-concentration methods
`DSkin_1_4` and `DSkin_1_5` (the builder set to either with `setMethod`), on
every input with `N >= 2` cells, finite or infinite dose: the off-diagonals
are mirrored, `lower_lhs(i) = -lower_rhs(i)` and
`upper_lhs(i) = -upper_rhs(i)` for `i <= N - 2`, and
`diag_lhs(i) + diag_rhs(i) = 4` in the rows `i <= N - 2`; with a sink (of
either kind) also in the last row `N - 1`. Without a sink (the default
argument of `buildMatrix`) the loop that mirrors the rows stops before row
`N - 1` and nothing else writes it: `diag_lhs(N - 1)` is the 0 of the
constructor. On the mesh of scenario S1 built without a sink (20 cells) both
methods give `diag_lhs(19) = 0` and `diag_rhs(19) = 1`, which do not add up
to 4. -/
theorem crank_mirror_misses_last_row_without_sink :
    (∀ (mb : MatrixBuilder) (method : Method) (comps : List Compartment) (geo : Geometry)
      (sink : Option Sink) (r : MatrixBuilder × Bool),
      method ≠ Method.DSkin_1_3 → 2 ≤ geo.size →
      (mb.setMethod method).buildMatrix comps geo sink = some r →
      (∀ i, i < geo.size - 1 →
        r.1.m_matrix_lhs.diag i + r.1.m_matrix_rhs.diag i = 4 ∧
        r.1.m_matrix_lhs.lower i = -r.1.m_matrix_rhs.lower i ∧
        r.1.m_matrix_lhs.upper i = -r.1.m_matrix_rhs.upper i) ∧
      (sink.isSome = true →
        r.1.m_matrix_lhs.diag (geo.size - 1) + r.1.m_matrix_rhs.diag (geo.size - 1) = 4) ∧
      (sink = none → r.1.m_matrix_lhs.diag (geo.size - 1) = 0)) ∧
    s1GeoNoSink.geometry.size = 20 ∧ s1GeoNoSink.sink = none ∧
    ((MatrixBuilder.new Method.DSkin_1_4).buildMatrix s1GeoNoSink.compartments
      s1GeoNoSink.geometry s1GeoNoSink.sink).map
        (fun r => (r.1.m_matrix_lhs.diag 19, r.1.m_matrix_rhs.diag 19)) = some (0, 1) ∧
    ((MatrixBuilder.new Method.DSkin_1_5).buildMatrix s1GeoNoSink.compartments
      s1GeoNoSink.geometry s1GeoNoSink.sink).map
        (fun r => (r.1.m_matrix_lhs.diag 19, r.1.m_matrix_rhs.diag 19)) = some (0, 1) := by
  refine ⟨?_, by decide!, by decide!, by decide!, by decide!⟩
  intro mb method comps geo sink r hm hn hr
  have main : ∀ pre : TDMatrix, pre.WF → pre.m_size = geo.size →
      r = MatrixBuilder.finishCrank (mb.setMethod method) geo.size pre comps sink →
      (∀ i, i < geo.size - 1 →
        r.1.m_matrix_lhs.diag i + r.1.m_matrix_rhs.diag i = 4 ∧
        r.1.m_matrix_lhs.lower i = -r.1.m_matrix_rhs.lower i ∧
        r.1.m_matrix_lhs.upper i = -r.1.m_matrix_rhs.upper i) ∧
      (sink.isSome = true →
        r.1.m_matrix_lhs.diag (geo.size - 1) + r.1.m_matrix_rhs.diag (geo.size - 1) = 4) ∧
      (sink = none → r.1.m_matrix_lhs.diag (geo.size - 1) = 0) := by
    intro pre pw ps e
    obtain ⟨X2, Y2, e2, _, _, _, _, ml, mu, _, _, md, ms, mn⟩ :=
      finishCrank_mirror (mb.setMethod method) geo.size pre comps sink hn pw ps
    rw [e2] at e
    subst e
    exact ⟨fun i hi => ⟨md i hi, ml i hi, mu i hi⟩, ms, fun h => (mn h).1⟩
  unfold MatrixBuilder.buildMatrix at hr
  cases method with
  | DSkin_1_3 => exact absurd rfl hm
  | DSkin_1_4 =>
    simp only [MatrixBuilder.setMethod, Option.some.injEq] at hr
    obtain ⟨pw, ps⟩ := preMatrix_1_4_WF geo.size geo.m_space_steps
      (MatrixBuilder.createParamVector geo.size comps (fun comp => comp.m_D) sink)
      (MatrixBuilder.createParamVector geo.size comps (fun comp => comp.m_K) sink)
      (MatrixBuilder.createParamVector geo.size comps (fun comp => comp.m_A) sink)
    exact main _ pw ps hr.symm
  | DSkin_1_5 =>
    simp only [MatrixBuilder.setMethod, Option.some.injEq] at hr
    obtain ⟨pw, ps⟩ := preMatrix_1_5_WF geo.size geo.m_space_steps
      (MatrixBuilder.createParamVector geo.size comps (fun comp => comp.m_D) sink)
      (MatrixBuilder.createParamVector geo.size comps (fun comp => comp.m_K) sink)
      (MatrixBuilder.createParamVector geo.size comps (fun comp => comp.m_A) sink)
    exact main _ pw ps hr.symm

/-- C24. Mass under `DSkin_1_3` (the default method) with a perfect sink, on
scenario S1: equidistant mesh of resolution 1 (21 cells of width 1, the sink
cell included), vehicle and layer of thickness 10 with `D = 1`, `K = 1`,
area 1, finite dose, `max_module = 50`, concentration 1 in the vehicle cells
and 0 below. `buildMatrix` returns with `timesteps() = 1`; the sum over all
cells of `c_i * dx_i` is 10 before the sub-step (`inlineMultiply` with the
right-hand matrix, then `thomasReUseIP` with the left-hand matrix) and
`1373791497967 / 137379191137` after it, which is less than 10: the sum the
loggers report is not kept. What the sub-step keeps on this input is the sum
with the top cell counted by half, `19 / 2` before and after. -/
theorem mass_not_conserved_DSkin_1_3 :
    (∀ x ∈ s1Geo.compartments, 0 < x.m_D ∧ x.m_K = 1 ∧ x.m_A = 1) ∧
    MatrixBuilder.vehicleFinite s1Geo.compartments = true ∧
    s1Geo.sink.map (fun k => k.m_type) = some SinkType.Perfect_Sink ∧
    s1Geo.geometry.m_space_steps = List.replicate 21 1 ∧
    (∑ i in Finset.range s1Geo.geometry.size, rd s1Conc i * rd s1Geo.geometry.m_space_steps i)
      = 10 ∧
    ((MatrixBuilder.new Method.DSkin_1_3).buildMatrix s1Geo.compartments s1Geo.geometry
      s1Geo.sink).map (fun r => (r.1.timesteps,
        ∑ i in Finset.range s1Geo.geometry.size,
          rd (subStep r.1.m_matrix_rhs (r.1.m_matrix_lhs, s1Conc)).2 i
            * rd s1Geo.geometry.m_space_steps i))
      = some (1, 1373791497967 / 137379191137) ∧
    (1373791497967 / 137379191137 : ℚ) < 10 ∧
    (∑ i in Finset.range s1Geo.geometry.size, rd s1Conc i * rd s1Geo.geometry.m_space_steps i)
      - rd s1Conc 0 * rd s1Geo.geometry.m_space_steps 0 / 2 = 19 / 2 ∧
    ((MatrixBuilder.new Method.DSkin_1_3).buildMatrix s1Geo.compartments s1Geo.geometry
      s1Geo.sink).map (fun r =>
        (∑ i in Finset.range s1Geo.geometry.size,
          rd (subStep r.1.m_matrix_rhs (r.1.m_matrix_lhs, s1Conc)).2 i
            * rd s1Geo.geometry.m_space_steps i)
        - rd (subStep r.1.m_matrix_rhs (r.1.m_matrix_lhs, s1Conc)).2 0
            * rd s1Geo.geometry.m_space_steps 0 / 2)
      = some (19 / 2) := by
  refine ⟨by decide!, by decide!, by decide!, by decide!, by decide!, by decide!, by norm_num,
    by decide!, by decide!⟩

/-- What every result of `buildMatrix` on a mesh of at least two cells looks
like: both matrices have the constructor's band lengths and the size of the
mesh, `upper(N - 2)` is 0 in both, and the left-hand matrix is not marked
prepared. -/
theorem buildMatrix_shape (mb : MatrixBuilder) (comps : List Compartment)
    (geo : Geometry) (sink : Option Sink) (hn : 2 ≤ geo.size) (r : MatrixBuilder × Bool)
    (hr : mb.buildMatrix comps geo sink = some r) :
    r.1.m_matrix_rhs.WF ∧ r.1.m_matrix_lhs.WF ∧
    r.1.m_matrix_rhs.m_size = geo.size ∧ r.1.m_matrix_lhs.m_size = geo.size ∧
    r.1.m_matrix_rhs.upper (geo.size - 2) = 0 ∧ r.1.m_matrix_lhs.upper (geo.size - 2) = 0 ∧
    r.1.m_matrix_lhs.m_prepared = false := by
  have hp := ((buildMatrix_spec mb comps geo sink).2 r hr).1
  have main : ∀ pre : TDMatrix, pre.WF → pre.m_size = geo.size →
      r = MatrixBuilder.finishCrank mb geo.size pre comps sink →
      r.1.m_matrix_rhs.WF ∧ r.1.m_matrix_lhs.WF ∧
      r.1.m_matrix_rhs.m_size = geo.size ∧ r.1.m_matrix_lhs.m_size = geo.size ∧
      r.1.m_matrix_rhs.upper (geo.size - 2) = 0 ∧ r.1.m_matrix_lhs.upper (geo.size - 2) = 0 := by
    intro pre pw ps e
    obtain ⟨X2, Y2, e2, xw, yw, xs, ys, _, _, xu, yu, _⟩ :=
      finishCrank_mirror mb geo.size pre comps sink hn pw ps
    rw [e2] at e
    subst e
    exact ⟨xw, yw, xs, ys, xu, yu⟩
  unfold MatrixBuilder.buildMatrix at hr
  cases hm : mb.m_method with
  | DSkin_1_3 =>
    rw [hm] at hr
    simp only [] at hr
    obtain ⟨w, s, u, hl⟩ := build_1_3_form mb comps geo sink hn r hr
    obtain ⟨fw, fs, _, fu, _⟩ := fromRhs_spec r.1.m_matrix_rhs w
    refine ⟨w, by rw [hl]; exact fw, s, by rw [hl, fs, s], u, ?_, hp⟩
    rw [hl]
    show rd (MatrixBuilder.fromRhs r.1.m_matrix_rhs).m_upper (geo.size - 2) = 0
    rw [fu _ (by rw [s]; omega), u, neg_zero]
  | DSkin_1_4 =>
    rw [hm] at hr
    simp only [Option.some.injEq] at hr
    obtain ⟨a1, a2, a3, a4, a5, a6⟩ := main _ (preMatrix_1_4_WF geo.size geo.m_space_steps
      (MatrixBuilder.createParamVector geo.size comps (fun comp => comp.m_D) sink)
      (MatrixBuilder.createParamVector geo.size comps (fun comp => comp.m_K) sink)
      (MatrixBuilder.createParamVector geo.size comps (fun comp => comp.m_A) sink)).1
      (preMatrix_1_4_WF _ _ _ _ _).2 hr.symm
    exact ⟨a1, a2, a3, a4, a5, a6, hp⟩
  | DSkin_1_5 =>
    rw [hm] at hr
    simp only [Option.some.injEq] at hr
    obtain ⟨a1, a2, a3, a4, a5, a6⟩ := main _ (preMatrix_1_5_WF geo.size geo.m_space_steps
      (MatrixBuilder.createParamVector geo.size comps (fun comp => comp.m_D) sink)
      (MatrixBuilder.createParamVector geo.size comps (fun comp => comp.m_K) sink)
      (MatrixBuilder.createParamVector geo.size comps (fun comp => comp.m_A) sink)).1
      (preMatrix_1_5_WF _ _ _ _ _).2 hr.symm
    exact ⟨a1, a2, a3, a4, a5, a6, hp⟩

/-- The result of `thomasIP` in terms of the recurrences: the last cell is the
forward-eliminated value, every other cell follows from its successor. -/
theorem thomasIP_rec (A : TDMatrix) (b : List ℚ) (hN : 2 ≤ A.m_size) (hA : A.WF)
    (hb : b.length = A.m_size) :
    rd (thomasIP A b) (A.m_size - 1) = thomasY A b (A.m_size - 1) ∧
    ∀ j, j < A.m_size - 1 →
      rd (thomasIP A b) j = thomasY A b j - thomasC A j * rd (thomasIP A b) (j + 1) := by
  obtain ⟨_, hcs⟩ := thomasCStar_spec A hN hA
  obtain ⟨hfl, hf⟩ := thomas_forward A b (thomasCStar A) hN hb hcs
  obtain ⟨_, hlast, hrec⟩ := thomas_backward A.m_size (thomasCStar A) _ (by omega) hfl
  unfold thomasIP
  simp only
  refine ⟨?_, fun j hj => ?_⟩
  · rw [hlast, hf _ (by omega)]
  · rw [hrec j hj, hf j (by omega), hcs j hj]

/-- The forward-eliminated value of row `k` depends on the right-hand side in
the rows up to `k` only. -/
theorem thomasY_congr (A : TDMatrix) (b d : List ℚ) (k : ℕ)
    (h : ∀ j, j ≤ k → rd b j = rd d j) : thomasY A b k = thomasY A d k := by
  induction k with
  | zero =>
    show rd b 0 / A.diag 0 = rd d 0 / A.diag 0
    rw [h 0 le_rfl]
  | succ k ih =>
    show (rd b (k + 1) - thomasY A b k * A.lower k) / thomasP A (k + 1)
      = (rd d (k + 1) - thomasY A d k * A.lower k) / thomasP A (k + 1)
    rw [h (k + 1) le_rfl, ih (fun j hj => h j (by omega))]

/-- With `upper(N - 2) = 0` the modified upper band ends in 0. -/
theorem thomasC_last (A : TDMatrix) (hu : A.upper (A.m_size - 2) = 0) :
    thomasC A (A.m_size - 2) = 0 := by
  obtain ⟨k, hk⟩ : ∃ k, A.m_size - 2 = k := ⟨_, rfl⟩
  rw [hk] at hu ⊢
  cases k with
  | zero =>
    show A.upper 0 / A.diag 0 = 0
    rw [hu, zero_div]
  | succ k =>
    show A.upper (k + 1) / (A.diag (k + 1) - thomasC A k * A.lower k) = 0
    rw [hu, zero_div]

/-- With `upper(N - 2) = 0` the cells above the last one of the solution of
`thomasIP` do not depend on the last entry of the right-hand side. -/
theorem thomasIP_sink_free (A : TDMatrix) (b d : List ℚ) (hN : 2 ≤ A.m_size) (hA : A.WF)
    (hb : b.length = A.m_size) (hd : d.length = A.m_size)
    (hu : A.upper (A.m_size - 2) = 0)
    (h : ∀ j, j < A.m_size - 1 → rd b j = rd d j) :
    ∀ j, j < A.m_size - 1 → rd (thomasIP A b) j = rd (thomasIP A d) j := by
  obtain ⟨_, rb⟩ := thomasIP_rec A b hN hA hb
  obtain ⟨_, rdd⟩ := thomasIP_rec A d hN hA hd
  have hc := thomasC_last A hu
  have key : ∀ e j, j + e = A.m_size - 2 → rd (thomasIP A b) j = rd (thomasIP A d) j := by
    intro e
    induction e with
    | zero =>
      intro j hj
      have hj2 : j = A.m_size - 2 := by omega
      rw [rb j (by omega), rdd j (by omega), hj2, hc, zero_mul, zero_mul,
        thomasY_congr A b d _ (fun i hi => h i (by omega))]
    | succ e ih =>
      intro j hj
      rw [rb j (by omega), rdd j (by omega), ih (j + 1) (by omega),
        thomasY_congr A b d _ (fun i hi => h i (by omega))]
  intro j hj
  exact key (A.m_size - 2 - j) j (by omega)

/-- With `upper(N - 2) = 0` the rows above the last one of the product
`A * v` do not depend on the last entry of `v`. -/
theorem op_mul_sink_free (A : TDMatrix) (c d : List ℚ) (hN : 2 ≤ A.m_size)
    (hu : A.upper (A.m_size - 2) = 0)
    (h : ∀ j, j < A.m_size - 1 → rd c j = rd d j) :
    ∀ j, j < A.m_size - 1 → rd (A.op_mul c) j = rd (A.op_mul d) j := by
  intro j hj
  have hu' : rd A.m_upper (A.m_size - 2) = 0 := hu
  rw [TDMatrix.op_mul_rd A c (by omega) j (by omega),
    TDMatrix.op_mul_rd A d (by omega) j (by omega)]
  by_cases h0 : j = 0
  · subst h0
    rw [if_pos rfl, if_pos rfl, h 0 hj]
    by_cases h2 : A.m_size = 2
    · have e : 0 = A.m_size - 2 := by omega
      rw [e, hu', mul_zero, mul_zero]
    · rw [h 1 (by omega)]
  · rw [if_neg h0, if_neg h0, if_neg (by omega), if_neg (by omega), h (j - 1) (by omega), h j hj]
    by_cases h2 : j = A.m_size - 2
    · rw [h2, hu', zero_mul, zero_mul]
    · rw [h (j + 1) (by omega)]

/-- One sub-step, from a fresh or a cached left-hand matrix, with matrices
whose `upper(N - 2)` is 0: the cells above the last one of the result do not
depend on the last cell of the vector. -/
theorem subStep_sink_free (R L : TDMatrix) (hN : 2 ≤ L.m_size) (hRN : R.m_size = L.m_size)
    (hL : L.WF) (hprep : L.m_prepared = false)
    (hRu : R.upper (R.m_size - 2) = 0) (hLu : L.upper (L.m_size - 2) = 0)
    (M : TDMatrix) (hM : M = L ∨ M = thomasPrepare L) (c d : List ℚ)
    (hc : c.length = L.m_size) (hd : d.length = L.m_size)
    (h : ∀ j, j < L.m_size - 1 → rd c j = rd d j) :
    ∀ j, j < L.m_size - 1 → rd (subStep R (M, c)).2 j = rd (subStep R (M, d)).2 j := by
  rw [subStep_eq R L hL hprep (M, c) hM, subStep_eq R L hL hprep (M, d) hM]
  obtain ⟨cl, cr⟩ := inlineMultiply_rd R c (by omega) (by omega)
  obtain ⟨dl, dr⟩ := inlineMultiply_rd R d (by omega) (by omega)
  have hm := op_mul_sink_free R c d (by omega) hRu (by rw [hRN]; exact h)
  refine thomasIP_sink_free L _ _ hN hL (by rw [cl, hRN]) (by rw [dl, hRN]) hLu ?_
  intro j hj
  rw [cr j (by omega), dr j (by omega)]
  exact hm j (by omega)

/-- C37. Compartment concentrations do not depend on the sink content: for
each of the three methods, every compartment list, sink argument and mesh of
`N >= 2` cells, and any two concentration vectors `c` and `d` of length `N`
that agree on every cell except the last cell `N - 1` (the sink cell), the
vectors one inner sub-step (`inlineMultiply` with RHS, then `thomasReUseIP`
with LHS) produces from `c` and from `d` agree on every cell `0 .. N - 2`,
with the left-hand matrix as built and with the cached one of the later
sub-steps. `buildMatrix` returns the matrices under `DSkin_1_4` and
`DSkin_1_5` always and under `DSkin_1_3` for a finite-dose vehicle. The
entry `upper(N - 2)` of the left-hand matrix is 0, so the last pivot enters
no cell above the sink and no hypothesis on the pivots is used. -/
theorem compartments_do_not_depend_on_sink (mb : MatrixBuilder) (comps : List Compartment)
    (geo : Geometry) (sink : Option Sink) (hn : 2 ≤ geo.size) :
    ((mb.m_method ≠ Method.DSkin_1_3 ∨ MatrixBuilder.vehicleFinite comps = true) →
      ∃ r, mb.buildMatrix comps geo sink = some r) ∧
    ∀ r, mb.buildMatrix comps geo sink = some r →
      ∀ c d : List ℚ, c.length = geo.size → d.length = geo.size →
        (∀ j, j < geo.size - 1 → rd c j = rd d j) →
        ∀ j, j < geo.size - 1 →
          rd (subStep r.1.m_matrix_rhs (r.1.m_matrix_lhs, c)).2 j
            = rd (subStep r.1.m_matrix_rhs (r.1.m_matrix_lhs, d)).2 j ∧
          rd (subStep r.1.m_matrix_rhs (thomasPrepare r.1.m_matrix_lhs, c)).2 j
            = rd (subStep r.1.m_matrix_rhs (thomasPrepare r.1.m_matrix_lhs, d)).2 j := by
  refine ⟨(buildMatrix_spec mb comps geo sink).1, fun r hr c d hc hd h j hj => ?_⟩
  obtain ⟨rw_, lw, rs, ls, ru, lu, lp⟩ := buildMatrix_shape mb comps geo sink hn r hr
  rw [← ls] at hc hd h hj
  have hR : r.1.m_matrix_rhs.upper (r.1.m_matrix_rhs.m_size - 2) = 0 := by rw [rs]; exact ru
  have hL : r.1.m_matrix_lhs.upper (r.1.m_matrix_lhs.m_size - 2) = 0 := by rw [ls]; exact lu
  exact ⟨subStep_sink_free _ _ (by omega) (rs.trans ls.symm) lw lp hR hL _ (Or.inl rfl) c d hc hd
      h j hj,
    subStep_sink_free _ _ (by omega) (rs.trans ls.symm) lw lp hR hL _ (Or.inr rfl) c d hc hd
      h j hj⟩

/-- C37, witness: scenario S1 under `DSkin_1_3`, the vehicle filled, with an
empty sink and with a sink holding 5: after one sub-step the 20 compartment
cells are the same. -/
theorem compartments_do_not_depend_on_sink_witness :
    2 ≤ s1Geo.geometry.size ∧
    ∃ r, (MatrixBuilder.new Method.DSkin_1_3).buildMatrix s1Geo.compartments s1Geo.geometry
        s1Geo.sink = some r ∧
      ∀ j, j < s1Geo.geometry.size - 1 →
        rd (subStep r.1.m_matrix_rhs (r.1.m_matrix_lhs, s1Conc)).2 j
          = rd (subStep r.1.m_matrix_rhs (r.1.m_matrix_lhs, s1Conc.set 20 5)).2 j := by
  have h := compartments_do_not_depend_on_sink (MatrixBuilder.new Method.DSkin_1_3)
    s1Geo.compartments s1Geo.geometry s1Geo.sink (by decide!)
  obtain ⟨r, hr⟩ := h.1 (Or.inr (by decide!))
  exact ⟨by decide!, r, hr, fun j hj =>
    (h.2 r hr s1Conc (s1Conc.set 20 5) (by decide!) (by decide!)
      (fun i hi => (rd_set_ne _ _ _ _ (by
        have e : s1Geo.geometry.size = 21 := by decide!
        omega)).symm) j hj).1⟩

/-- With `upper(N - 2) = 0` and a right-hand side that is 0 above its last
entry, `thomasIP` returns 0 above the last cell and the last entry divided by
`diag(N - 1)` in the last cell. -/
theorem thomasIP_zero_above (A : TDMatrix) (b : List ℚ) (hN : 2 ≤ A.m_size) (hA : A.WF)
    (hb : b.length = A.m_size) (hu : A.upper (A.m_size - 2) = 0)
    (h : ∀ j, j < A.m_size - 1 → rd b j = 0) :
    (∀ j, j < A.m_size - 1 → rd (thomasIP A b) j = 0) ∧
    rd (thomasIP A b) (A.m_size - 1) = rd b (A.m_size - 1) / A.diag (A.m_size - 1) := by
  obtain ⟨hlast, hrec⟩ := thomasIP_rec A b hN hA hb
  have hc := thomasC_last A hu
  have hy : ∀ j, j < A.m_size - 1 → thomasY A b j = 0 := by
    intro j
    induction j with
    | zero =>
      intro hj
      show rd b 0 / A.diag 0 = 0
      rw [h 0 hj, zero_div]
    | succ j ih =>
      intro hj
      show (rd b (j + 1) - thomasY A b j * A.lower j) / thomasP A (j + 1) = 0
      rw [h (j + 1) hj, ih (by omega), zero_mul, sub_zero, zero_div]
  have key : ∀ e j, j + e = A.m_size - 2 → rd (thomasIP A b) j = 0 := by
    intro e
    induction e with
    | zero =>
      intro j hj
      have hj2 : j = A.m_size - 2 := by omega
      rw [hrec j (by omega), hy j (by omega), hj2, hc, zero_mul, sub_zero]
    | succ e ih =>
      intro j hj
      rw [hrec j (by omega), hy j (by omega), ih (j + 1) (by omega), mul_zero, sub_zero]
  refine ⟨fun j hj => key (A.m_size - 2 - j) j (by omega), ?_⟩
  rw [hlast]
  obtain ⟨k, hk⟩ : ∃ k, A.m_size - 1 = k + 1 := ⟨A.m_size - 2, by omega⟩
  have hk2 : A.m_size - 2 = k := by omega
  rw [hk]
  show (rd b (k + 1) - thomasY A b k * A.lower k) / (A.diag (k + 1) - thomasC A k * A.lower k)
    = rd b (k + 1) / A.diag (k + 1)
  have hc2 : thomasC A k = 0 := hk2 ▸ hc
  rw [hy k (by omega), hc2]
  simp only [zero_mul, sub_zero]

/-- One sub-step, from a fresh or a cached left-hand matrix, with matrices
whose `upper(N - 2)` is 0, on a vector that is 0 above its last cell: the
result is 0 above the last cell, and the last cell is multiplied by
`diag_rhs(N - 1) / diag_lhs(N - 1)`. -/
theorem subStep_sink_only (R L : TDMatrix) (hN : 2 ≤ L.m_size) (hRN : R.m_size = L.m_size)
    (hL : L.WF) (hprep : L.m_prepared = false)
    (hRu : R.upper (R.m_size - 2) = 0) (hLu : L.upper (L.m_size - 2) = 0)
    (st : TDMatrix × List ℚ)
    (hst : (st.1 = L ∨ st.1 = thomasPrepare L) ∧ st.2.length = L.m_size ∧
      ∀ j, j < L.m_size - 1 → rd st.2 j = 0) :
    ((subStep R st).1 = L ∨ (subStep R st).1 = thomasPrepare L) ∧
    (subStep R st).2.length = L.m_size ∧
    (∀ j, j < L.m_size - 1 → rd (subStep R st).2 j = 0) ∧
    rd (subStep R st).2 (L.m_size - 1)
      = rd st.2 (L.m_size - 1) * (R.diag (L.m_size - 1) / L.diag (L.m_size - 1)) := by
  obtain ⟨h1, h2, h3⟩ := hst
  rw [subStep_eq R L hL hprep st h1]
  obtain ⟨il, ir⟩ := inlineMultiply_rd R st.2 (by omega) (by omega)
  have hu' : rd R.m_upper (L.m_size - 2) = 0 := by
    rw [← hRN]
    exact hRu
  have hb0 : ∀ j, j < L.m_size - 1 → rd (R.inlineMultiply st.2) j = 0 := by
    intro j hj
    rw [ir j (by omega), TDMatrix.op_mul_rd R st.2 (by omega) j (by omega)]
    by_cases h0 : j = 0
    · subst h0
      rw [if_pos rfl, h3 0 hj, zero_mul, zero_add]
      by_cases h2 : L.m_size = 2
      · have e : 0 = L.m_size - 2 := by omega
        rw [e, hu', mul_zero]
      · rw [h3 1 (by omega), zero_mul]
    · rw [if_neg h0, if_neg (by omega), h3 (j - 1) (by omega), h3 j hj, mul_zero, mul_zero,
        zero_add, zero_add]
      by_cases h2 : j = L.m_size - 2
      · rw [h2, hu', zero_mul]
      · rw [h3 (j + 1) (by omega), mul_zero]
  have hbl : rd (R.inlineMultiply st.2) (L.m_size - 1)
      = R.diag (L.m_size - 1) * rd st.2 (L.m_size - 1) := by
    rw [ir _ (by omega), TDMatrix.op_mul_rd R st.2 (by omega) _ (by omega), if_neg (by omega),
      if_pos (by omega), h3 _ (by omega), mul_zero, zero_add]
    rfl
  obtain ⟨z, l⟩ := thomasIP_zero_above L (R.inlineMultiply st.2) hN hL (by rw [il, hRN]) hLu hb0
  refine ⟨Or.inr rfl, thomasIP_length L _ (by omega) (by rw [il, hRN]), z, ?_⟩
  show rd (thomasIP L (R.inlineMultiply st.2)) (L.m_size - 1) = _
  rw [l, hbl]
  ring

/-- C31. First-order elimination step: under `DSkin_1_4` or `DSkin_1_5` with a
`PK_Compartment` sink, on a mesh of `N >= 2` cells, `buildMatrix` returns
matrices with which, for every concentration vector `c` of length `N` that is
0 on every cell above the sink cell `N - 1` (the compartment cells), one
inner sub-step returns a vector that is still 0 on those cells and whose sink
entry is the old sink entry times `(2 - dt*kEl) / (2 + dt*kEl)`, with
`dt = 1/timesteps()`; and after `m` sub-steps, run on the cached left-hand
matrix, the compartment cells are 0 and the sink value is its initial value
times `((2 - dt*kEl) / (2 + dt*kEl))^m`. This holds for every compartment
list, a finite-dose vehicle and `D > 0` included: with `upper(N - 2) = 0` the
cells above the sink are quotients of 0. -/
theorem pk_elimination_step (mb : MatrixBuilder) (comps : List Compartment) (geo : Geometry)
    (k : Sink) (hm : mb.m_method = Method.DSkin_1_4 ∨ mb.m_method = Method.DSkin_1_5)
    (hn : 2 ≤ geo.size) (hk : k.m_type = SinkType.PK_Compartment) :
    ∃ r, mb.buildMatrix comps geo (some k) = some r ∧
      ∀ c : List ℚ, c.length = geo.size → (∀ j, j < geo.size - 1 → rd c j = 0) →
        (∀ j, j < geo.size - 1 → rd (subStep r.1.m_matrix_rhs (r.1.m_matrix_lhs, c)).2 j = 0) ∧
        rd (subStep r.1.m_matrix_rhs (r.1.m_matrix_lhs, c)).2 (geo.size - 1)
          = rd c (geo.size - 1) * ((2 - 1 / (r.1.timesteps : ℚ) * k.kEl)
              / (2 + 1 / (r.1.timesteps : ℚ) * k.kEl)) ∧
        ∀ m : ℕ,
          (∀ j, j < geo.size - 1 →
            rd ((subStep r.1.m_matrix_rhs)^[m] (r.1.m_matrix_lhs, c)).2 j = 0) ∧
          rd ((subStep r.1.m_matrix_rhs)^[m] (r.1.m_matrix_lhs, c)).2 (geo.size - 1)
            = rd c (geo.size - 1) * ((2 - 1 / (r.1.timesteps : ℚ) * k.kEl)
                / (2 + 1 / (r.1.timesteps : ℚ) * k.kEl)) ^ m := by
  obtain ⟨r, hr⟩ := (buildMatrix_spec mb comps geo (some k)).1 (Or.inl (by
    rcases hm with h | h <;> rw [h] <;> decide))
  obtain ⟨rw_, lw, rs, ls, ru, lu, lp⟩ := buildMatrix_shape mb comps geo (some k) hn r hr
  have hd : r.1.m_matrix_rhs.diag (geo.size - 1) = 2 - 1 / (r.1.timesteps : ℚ) * k.kEl ∧
      r.1.m_matrix_lhs.diag (geo.size - 1) = 2 + 1 / (r.1.timesteps : ℚ) * k.kEl := by
    have hr2 := hr
    unfold MatrixBuilder.buildMatrix at hr2
    rcases hm with h | h
    · rw [h] at hr2
      simp only [Option.some.injEq] at hr2
      have := finishCrank_sink_diag mb geo.size (MatrixBuilder.preMatrix_1_4 geo.size
        geo.m_space_steps
        (MatrixBuilder.createParamVector geo.size comps (fun comp => comp.m_D) (some k))
        (MatrixBuilder.createParamVector geo.size comps (fun comp => comp.m_K) (some k))
        (MatrixBuilder.createParamVector geo.size comps (fun comp => comp.m_A) (some k)))
        comps k hn (by rw [(preMatrix_1_4_WF _ _ _ _ _).1.1, (preMatrix_1_4_WF _ _ _ _ _).2])
      rw [if_pos hk, if_pos hk] at this
      rw [← hr2]
      exact this
    · rw [h] at hr2
      simp only [Option.some.injEq] at hr2
      have := finishCrank_sink_diag mb geo.size (MatrixBuilder.preMatrix_1_5 geo.size
        geo.m_space_steps
        (MatrixBuilder.createParamVector geo.size comps (fun comp => comp.m_D) (some k))
        (MatrixBuilder.createParamVector geo.size comps (fun comp => comp.m_K) (some k))
        (MatrixBuilder.createParamVector geo.size comps (fun comp => comp.m_A) (some k)))
        comps k hn (by rw [(preMatrix_1_5_WF _ _ _ _ _).1.1, (preMatrix_1_5_WF _ _ _ _ _).2])
      rw [if_pos hk, if_pos hk] at this
      rw [← hr2]
      exact this
  refine ⟨r, hr, fun c hc h0 => ?_⟩
  rw [← hd.1, ← hd.2]
  rw [← ls] at hc h0 ⊢
  have hR : r.1.m_matrix_rhs.upper (r.1.m_matrix_rhs.m_size - 2) = 0 := by
    rw [rs]
    exact ru
  have hL : r.1.m_matrix_lhs.upper (r.1.m_matrix_lhs.m_size - 2) = 0 := by
    rw [ls]
    exact lu
  have step := subStep_sink_only r.1.m_matrix_rhs r.1.m_matrix_lhs (by omega)
    (rs.trans ls.symm) lw lp hR hL
  obtain ⟨_, _, s3, s4⟩ := step (r.1.m_matrix_lhs, c) ⟨Or.inl rfl, hc, h0⟩
  refine ⟨s3, s4, fun m => ?_⟩
  have hiter : ∀ m : ℕ,
      (((subStep r.1.m_matrix_rhs)^[m] (r.1.m_matrix_lhs, c)).1 = r.1.m_matrix_lhs ∨
        ((subStep r.1.m_matrix_rhs)^[m] (r.1.m_matrix_lhs, c)).1
          = thomasPrepare r.1.m_matrix_lhs) ∧
      ((subStep r.1.m_matrix_rhs)^[m] (r.1.m_matrix_lhs, c)).2.length
        = r.1.m_matrix_lhs.m_size ∧
      (∀ j, j < r.1.m_matrix_lhs.m_size - 1 →
        rd ((subStep r.1.m_matrix_rhs)^[m] (r.1.m_matrix_lhs, c)).2 j = 0) ∧
      rd ((subStep r.1.m_matrix_rhs)^[m] (r.1.m_matrix_lhs, c)).2 (r.1.m_matrix_lhs.m_size - 1)
        = rd c (r.1.m_matrix_lhs.m_size - 1)
          * (r.1.m_matrix_rhs.diag (r.1.m_matrix_lhs.m_size - 1)
            / r.1.m_matrix_lhs.diag (r.1.m_matrix_lhs.m_size - 1)) ^ m := by
    intro m
    induction m with
    | zero => exact ⟨Or.inl rfl, hc, h0, by rw [pow_zero, mul_one]; rfl⟩
    | succ m ih =>
      rw [Function.iterate_succ_apply']
      obtain ⟨a1, a2, a3, a4⟩ := step _ ⟨ih.1, ih.2.1, ih.2.2.1⟩
      refine ⟨a1, a2, a3, ?_⟩
      rw [a4, ih.2.2.2, pow_succ]
      ring
  exact ⟨(hiter m).2.2.1, (hiter m).2.2.2⟩

/-- C31, witness: scenario S1 with the pharmacokinetic sink `pkSink` under
`DSkin_1_5`, all compartments empty and the sink holding 1. -/
theorem pk_elimination_step_witness :
    2 ≤ pkS1Geo.geometry.size ∧ pkS1Geo.sink = some (pkSink.setGeometryIdx 20 20) ∧
    (pkSink.setGeometryIdx 20 20).m_type = SinkType.PK_Compartment ∧
    ∃ r, (MatrixBuilder.new Method.DSkin_1_5).buildMatrix pkS1Geo.compartments
        pkS1Geo.geometry (some (pkSink.setGeometryIdx 20 20)) = some r ∧
      (∀ j, j < pkS1Geo.geometry.size - 1 →
        rd (subStep r.1.m_matrix_rhs (r.1.m_matrix_lhs, List.replicate 20 0 ++ [1])).2 j = 0) ∧
      rd (subStep r.1.m_matrix_rhs (r.1.m_matrix_lhs, List.replicate 20 0 ++ [1])).2
          (pkS1Geo.geometry.size - 1)
        = rd (List.replicate 20 0 ++ [1]) (pkS1Geo.geometry.size - 1)
          * ((2 - 1 / (r.1.timesteps : ℚ) * (pkSink.setGeometryIdx 20 20).kEl)
              / (2 + 1 / (r.1.timesteps : ℚ) * (pkSink.setGeometryIdx 20 20).kEl)) := by
  obtain ⟨r, hr, h⟩ := pk_elimination_step (MatrixBuilder.new Method.DSkin_1_5)
    pkS1Geo.compartments pkS1Geo.geometry (pkSink.setGeometryIdx 20 20) (Or.inr rfl)
    (by decide!) rfl
  obtain ⟨h1, h2, _⟩ := h (List.replicate 20 0 ++ [1]) (by decide!) (by decide!)
  exact ⟨by decide!, by decide!, rfl, r, hr, h1, h2⟩

/-- A loop that appends accesses to a list keeps a property that holds for
the initial accesses and for those of every iteration. -/
theorem forUp_append_all {α : Type} (P : α → Prop) (lo hi : ℕ) (f : ℕ → List α)
    (init : List α) (h0 : ∀ a ∈ init, P a)
    (hf : ∀ i, lo ≤ i → i < hi → ∀ a ∈ f i, P a) :
    ∀ a ∈ forUp lo hi (fun i acc => acc ++ f i) init, P a := by
  rcases Nat.lt_or_ge hi lo with hlt | hle
  · rw [forUp_of_le lo hi (by omega)]
    exact h0
  · refine forUp_inv (fun _ (acc : List α) => ∀ a ∈ acc, P a) lo hi hle _ init h0 ?_
    intro i acc h1 h2 hacc a ha
    rcases List.mem_append.mp ha with h | h
    · exact hacc a h
    · exact hf i h1 h2 a h

theorem forDown_append_all {α : Type} (P : α → Prop) (hi lo : ℕ) (f : ℕ → List α)
    (init : List α) (h0 : ∀ a ∈ init, P a)
    (hf : ∀ i, lo ≤ i → i < hi → ∀ a ∈ f i, P a) :
    ∀ a ∈ forDown hi lo (fun i acc => acc ++ f i) init, P a := by
  unfold forDown
  have key : ∀ L : List ℕ, (∀ i ∈ L, lo ≤ i ∧ i < hi) →
      ∀ a ∈ L.foldr (fun i acc => acc ++ f i) init, P a := by
    intro L
    induction L with
    | nil => intro _; exact h0
    | cons x xs ih =>
      intro hL a ha
      rw [List.foldr_cons] at ha
      rcases List.mem_append.mp ha with h | h
      · exact ih (fun i hi => hL i (List.mem_cons_of_mem _ hi)) a h
      · exact hf x (hL x (List.mem_cons_self _ _)).1 (hL x (List.mem_cons_self _ _)).2 a h
  refine key _ ?_
  intro i hi
  rw [List.mem_range'_1] at hi
  omega

/-- The accesses of the Thomas solvers on a matrix of size `N >= 2` with the
constructor's band lengths and a right-hand side of length `N`. -/
theorem thomas_accesses_ok (A : TDMatrix) (b : List ℚ) (hA : A.WF) (hb : b.length = A.m_size)
    (hN : 2 ≤ A.m_size) :
    (∀ a ∈ thomasIP_accesses A.m_size, a.2 < SolverVec.len A b a.1) ∧
    ∀ p, ∀ a ∈ thomasReUseIP_accesses A.m_size p, a.2 < SolverVec.len A b a.1 := by
  obtain ⟨w1, w2, w3⟩ := hA
  have hc : ∀ a ∈ cStarAccesses A.m_size, a.2 < SolverVec.len A b a.1 := by
    unfold cStarAccesses
    refine forUp_append_all _ 1 (A.m_size - 1) _ _ ?_ ?_
    · intro a ha
      simp only [List.mem_cons, List.mem_singleton, List.not_mem_nil, or_false] at ha
      rcases ha with rfl | rfl | rfl
      all_goals (simp only [SolverVec.len]; omega)
    · intro i h1 h2 a ha
      simp only [List.mem_cons, List.mem_singleton, List.not_mem_nil, or_false] at ha
      rcases ha with rfl | rfl | rfl | rfl | rfl
      all_goals (simp only [SolverVec.len]; omega)
  have hk : ∀ a ∈ backAccesses A.m_size, a.2 < SolverVec.len A b a.1 := by
    unfold backAccesses
    refine forDown_append_all _ (A.m_size - 1) 0 _ _ ?_ ?_
    · intro a ha
      simp at ha
    · intro i h1 h2 a ha
      simp only [List.mem_cons, List.mem_singleton, List.not_mem_nil, or_false] at ha
      rcases ha with rfl | rfl | rfl | rfl
      all_goals (simp only [SolverVec.len]; omega)
  have hf : ∀ a ∈ forUp 1 A.m_size (fun i acc =>
      acc ++ [(SolverVec.rhs, i), (SolverVec.rhs, i), (SolverVec.rhs, i - 1),
        (SolverVec.lower, i - 1), (SolverVec.diag, i), (SolverVec.upper, i - 1),
        (SolverVec.lower, i - 1)])
      [(SolverVec.rhs, 0), (SolverVec.rhs, 0), (SolverVec.diag, 0)],
      a.2 < SolverVec.len A b a.1 := by
    refine forUp_append_all _ 1 A.m_size _ _ ?_ ?_
    · intro a ha
      simp only [List.mem_cons, List.mem_singleton, List.not_mem_nil, or_false] at ha
      rcases ha with rfl | rfl | rfl
      all_goals (simp only [SolverVec.len]; omega)
    · intro i h1 h2 a ha
      simp only [List.mem_cons, List.mem_singleton, List.not_mem_nil, or_false] at ha
      rcases ha with rfl | rfl | rfl | rfl | rfl | rfl | rfl
      all_goals (simp only [SolverVec.len]; omega)
  have hd : ∀ a ∈ forUp 1 A.m_size (fun i acc =>
      acc ++ [(SolverVec.diag, i), (SolverVec.diag, i), (SolverVec.upper, i - 1),
        (SolverVec.lower, i - 1)]) [],
      a.2 < SolverVec.len A b a.1 := by
    refine forUp_append_all _ 1 A.m_size _ _ ?_ ?_
    · intro a ha
      simp at ha
    · intro i h1 h2 a ha
      simp only [List.mem_cons, List.mem_singleton, List.not_mem_nil, or_false] at ha
      rcases ha with rfl | rfl | rfl | rfl
      all_goals (simp only [SolverVec.len]; omega)
  have hg : ∀ a ∈ forUp 1 A.m_size (fun i acc =>
      acc ++ [(SolverVec.rhs, i), (SolverVec.rhs, i), (SolverVec.rhs, i - 1),
        (SolverVec.lower, i - 1), (SolverVec.diag, i)])
      [(SolverVec.rhs, 0), (SolverVec.rhs, 0), (SolverVec.diag, 0)],
      a.2 < SolverVec.len A b a.1 := by
    refine forUp_append_all _ 1 A.m_size _ _ ?_ ?_
    · intro a ha
      simp only [List.mem_cons, List.mem_singleton, List.not_mem_nil, or_false] at ha
      rcases ha with rfl | rfl | rfl
      all_goals (simp only [SolverVec.len]; omega)
    · intro i h1 h2 a ha
      simp only [List.mem_cons, List.mem_singleton, List.not_mem_nil, or_false] at ha
      rcases ha with rfl | rfl | rfl | rfl | rfl
      all_goals (simp only [SolverVec.len]; omega)
  constructor
  · unfold thomasIP_accesses
    intro a ha
    rcases List.mem_append.mp ha with h | h
    · rcases List.mem_append.mp h with h | h
      · exact hc a h
      · exact hf a h
    · exact hk a h
  · intro p
    unfold thomasReUseIP_accesses
    intro a ha
    rcases List.mem_append.mp ha with h | h
    · rcases List.mem_append.mp h with h | h
      · cases p with
        | true => simp at h
        | false =>
          simp only [Bool.not_false, if_true] at h
          rcases List.mem_append.mp h with h | h
          · exact hc a h
          · exact hd a h
      · exact hg a h
    · exact hk a h

/-- C40. The accesses of the Thomas solvers and the asserted `size > 0`: for
every matrix of size `N >= 2` with the band lengths of the constructor
(`N`, `N - 1`, `N - 1`) and every right-hand side of length `N`, every read
and write of the upper band, the lower band, the diagonal and the right-hand
side by `thomasIP` and by `thomasReUseIP` (prepared or not) uses an index
inside the vector. For `N = 1`, which the assertion admits, the first
statement of `thomasIP`, and of `thomasReUseIP` on a matrix that is not
prepared, is `c_star[0] = c_star[0] / matrix.diag(0)`, and the upper band of
`TDMatrix(1)` is empty: index 0 is outside it. -/
theorem thomas_access_needs_size_two :
    (∀ (A : TDMatrix) (b : List ℚ), A.WF → b.length = A.m_size → 2 ≤ A.m_size →
      (∀ a ∈ thomasIP_accesses A.m_size, a.2 < SolverVec.len A b a.1) ∧
      ∀ p, ∀ a ∈ thomasReUseIP_accesses A.m_size p, a.2 < SolverVec.len A b a.1) ∧
    (TDMatrix.new 1).WF ∧ (TDMatrix.new 1).m_size = 1 ∧ (TDMatrix.new 1).m_prepared = false ∧
    (thomasIP_accesses (TDMatrix.new 1).m_size).head? = some (SolverVec.upper, 0) ∧
    (thomasReUseIP_accesses (TDMatrix.new 1).m_size (TDMatrix.new 1).m_prepared).head?
      = some (SolverVec.upper, 0) ∧
    SolverVec.len (TDMatrix.new 1) [0] SolverVec.upper = 0 ∧
    (∀ a ∈ thomasReUseIP_accesses 1 true, a.2 < SolverVec.len (TDMatrix.new 1) [0] a.1) := by
  refine ⟨fun A b hA hb hN => thomas_accesses_ok A b hA hb hN, new_WF 1, rfl, rfl, by decide,
    by decide, by decide, by decide⟩

/-- The sink cell after `createInitConcentrations` and the first sample of a
sink logger: with the sink cell inside the mesh, a non-zero space step, sink
area and `Vd`, the logged value is `c_init * 10^12 * scale * (A_eff / A)`,
where `A` is the area of the sink and `A_eff` the area the logger uses (the
application area under `DSkin_1_5`, the area of the sink otherwise). -/
theorem first_sink_sample (l : CompartmentLog2D) (geo : Geometry) (comps : List Compartment)
    (s : Sink) (scale : ℚ) (hreg : l.m_registered_sink = true)
    (hauto : l.m_auto_log_enabled = true)
    (h0 : 0 ≤ s.m_geo_from) (hidx : s.m_geo_from.toNat < geo.m_space_steps.length)
    (hss : rdZ geo.m_space_steps s.m_geo_from ≠ 0) (hA : s.m_A ≠ 0) (hVd : s.m_Vd ≠ 0) :
    l.log 0 geo (System.createInitConcentrations geo comps (some s)) scale s comps
      = l.logPoint 0 (s.m_c_init * 1000000000000 * scale
          * ((if l.m_mb_method = Method.DSkin_1_5 then l.m_app_area else s.m_A) / s.m_A)) := by
  have hlen : ∀ (cs : List Compartment) (r : List ℚ), (cs.foldl (fun conc comp =>
      forUpZ comp.m_geo_from (comp.m_geo_to + 1) (fun i conc => wrZ conc i comp.m_c_init) conc)
        r).length = r.length := by
    intro cs
    induction cs with
    | nil => intro r; rfl
    | cons c cs ih =>
      intro r
      simp only [List.foldl_cons]
      rw [ih, (paramRange_rd _ _ _ _).1]
  have hcell : rdZ (System.createInitConcentrations geo comps (some s)) s.m_geo_from
      = s.m_c_init * (s.m_Vd * 1000000000000) / (rdZ geo.m_space_steps s.m_geo_from * s.m_A) := by
    unfold System.createInitConcentrations
    simp only []
    have hl := hlen comps (List.replicate geo.m_space_steps.length 0)
    rw [rdZ_nonneg _ _ h0, wrZ_nonneg _ _ _ h0,
      rd_set_eq _ _ _ (by rw [hl, List.length_replicate]; exact hidx)]
  unfold CompartmentLog2D.log
  have hc : ¬ (l.m_auto_log_enabled = false ∨ (toInt 0).tmod l.m_log_interval ≠ 0) := by
    rw [hauto]
    have : toInt 0 = 0 := by decide!
    rw [this, Int.zero_tmod]
    simp
  rw [if_neg hc, if_pos hreg]
  simp only []
  rw [hcell]
  congr 1
  generalize (if l.m_mb_method = Method.DSkin_1_5 then l.m_app_area else s.m_A) = E
  field_simp
  ring

/-- C39. The first sink sample. For a sink logger with auto-logging on, a
sink cell inside the mesh and non-zero space step, sink area and `Vd`, the
sample recorded at `t = 0` from the vector of `createInitConcentrations` is
`c_init * 10^12 * scale` under `DSkin_1_3` and `DSkin_1_4` (the sink holds
`c_init` in mg/um^3, so this is the configured `c_init` in mg/ml times the
scale), independently of `Vd` and of the space step; under `DSkin_1_5` it is
that value times `app_area / A_sink`, because the logger then multiplies by
the application area while `createInitConcentrations` divides by the area of
the sink, which the constructor sets to the application area times the last
layer's cross-section. On the valid parameter set `crossParam` (one layer
with cross-section 1/2, sink `c_init = 1`, scale 1) the first sample is 1
under `DSkin_1_3` and `DSkin_1_4` and 2 under `DSkin_1_5`. -/
theorem first_sink_sample_depends_on_cross_section :
    (∀ (l : CompartmentLog2D) (geo : Geometry) (comps : List Compartment) (s : Sink)
      (scale : ℚ), l.m_registered_sink = true → l.m_auto_log_enabled = true →
      0 ≤ s.m_geo_from → s.m_geo_from.toNat < geo.m_space_steps.length →
      rdZ geo.m_space_steps s.m_geo_from ≠ 0 → s.m_A ≠ 0 → s.m_Vd ≠ 0 →
      (l.m_mb_method ≠ Method.DSkin_1_5 →
        l.log 0 geo (System.createInitConcentrations geo comps (some s)) scale s comps
          = l.logPoint 0 (s.m_c_init * 1000000000000 * scale)) ∧
      (l.m_mb_method = Method.DSkin_1_5 →
        l.log 0 geo (System.createInitConcentrations geo comps (some s)) scale s comps
          = l.logPoint 0 (s.m_c_init * 1000000000000 * scale * (l.m_app_area / s.m_A)))) ∧
    (∀ method, ((crossParam method).isValid "").1 = true) ∧
    (∀ method, (crossParam method).m_sink_parameter.m_c_init = 1 ∧
      (crossParam method).m_sink_parameter.m_log = true ∧
      (crossParam method).m_log_parameter.m_scaling = Scaling.MG) ∧
    (System.new (crossParam Method.DSkin_1_3) noTransition).map (fun sys =>
      ((System.runInit sys).sys.m_sink_logger.m_x, (System.runInit sys).sys.m_sink_logger.m_y))
      = some ([0], [1]) ∧
    (System.new (crossParam Method.DSkin_1_4) noTransition).map (fun sys =>
      ((System.runInit sys).sys.m_sink_logger.m_x, (System.runInit sys).sys.m_sink_logger.m_y))
      = some ([0], [1]) ∧
    (System.new (crossParam Method.DSkin_1_5) noTransition).map (fun sys =>
      ((System.runInit sys).sys.m_sink_logger.m_x, (System.runInit sys).sys.m_sink_logger.m_y))
      = some ([0], [2]) := by
  refine ⟨?_, ?_, ?_, by decide!, by decide!, by decide!⟩
  · intro l geo comps s scale hreg hauto h0 hidx hss hA hVd
    have h := first_sink_sample l geo comps s scale hreg hauto h0 hidx hss hA hVd
    constructor
    · intro hm
      rw [h, if_neg hm, div_self hA, mul_one]
    · intro hm
      rw [h, if_pos hm]
  · intro method
    cases method <;> decide!
  · intro method
    cases method <;> exact ⟨rfl, rfl, rfl⟩

/-- C36. Positional parsing and validation: `CmdLineParser::parse` checks the
three thicknesses of a positional argument list with `h < 1` and never calls
`Parameter::isValid`, which requires `h > 2`. On the 19 arguments
`1 1 1 1 1 1 1 1 1 1 10 10 60 1 mg EQUIDIST DSkin_1_5 yes tag` (vehicle
thickness 1) `parse` returns `Parsed_CMD_Line`, the resulting parameter set
fails `isValid` with `Vehicle height < 2.`, and the constructor of `System`
builds a system from it, which `Session::runFromCmdLineArgs` then runs. -/
theorem positional_parse_skips_validation :
    thinVehicleArgs.length = 19 ∧
    (({ m_last_error := "", m_parameter := Parameter.new } : CmdLineParser).parse
      (fun s => (decimalToken s).map (fun n => (n : ℚ)))
      (fun s => (decimalToken s).map (fun n => (n : ℤ)))
      (fun _ => Except.error "no file") thinVehicleArgs).1 = Status.Parsed_CMD_Line ∧
    (({ m_last_error := "", m_parameter := Parameter.new } : CmdLineParser).parse
      (fun s => (decimalToken s).map (fun n => (n : ℚ)))
      (fun s => (decimalToken s).map (fun n => (n : ℤ)))
      (fun _ => Except.error "no file")
      thinVehicleArgs).2.m_parameter.m_vehicle_parameter.m_height = 1 ∧
    (({ m_last_error := "", m_parameter := Parameter.new } : CmdLineParser).parse
      (fun s => (decimalToken s).map (fun n => (n : ℚ)))
      (fun s => (decimalToken s).map (fun n => (n : ℤ)))
      (fun _ => Except.error "no file") thinVehicleArgs).2.m_parameter.isValid ""
      = (false, "Vehicle height < 2.") ∧
    (System.new
      (({ m_last_error := "", m_parameter := Parameter.new } : CmdLineParser).parse
        (fun s => (decimalToken s).map (fun n => (n : ℚ)))
        (fun s => (decimalToken s).map (fun n => (n : ℤ)))
        (fun _ => Except.error "no file") thinVehicleArgs).2.m_parameter
      noTransition).isSome = true := by
  refine ⟨rfl, by decide!, by decide!, by decide!, by decide!⟩

/-- The harmonic-mean divisor of a cell pair with positive space steps and
partition values and diffusion coefficients that are not negative: it is 0
exactly when both diffusion coefficients are 0. -/
theorem harmDivisor_eq_zero (ss D : List ℚ) (Kv : ℕ → ℚ) (i : ℕ)
    (hs0 : 0 < rd ss i) (hs1 : 0 < rd ss (i + 1)) (hk0 : 0 < Kv i) (hk1 : 0 < Kv (i + 1))
    (hd0 : 0 ≤ rd D i) (hd1 : 0 ≤ rd D (i + 1)) :
    (MatrixBuilder.harmDivisor ss D Kv i = 0 ↔ rd D i = 0 ∧ rd D (i + 1) = 0) ∧
    (0 < rd D i → 0 < rd D (i + 1) → 0 < MatrixBuilder.harmDivisor ss D Kv i) := by
  unfold MatrixBuilder.harmDivisor
  have hq : 0 < Kv i / Kv (i + 1) * rd ss (i + 1) := by positivity
  generalize Kv i / Kv (i + 1) * rd ss (i + 1) = q at hq
  constructor
  · constructor
    · intro h
      have h1 : 0 ≤ rd ss i * rd D (i + 1) := by positivity
      have h2 : 0 ≤ q * rd D i := by positivity
      have e1 : rd ss i * rd D (i + 1) = 0 := by linarith
      have e2 : q * rd D i = 0 := by linarith
      rcases mul_eq_zero.mp e1 with h3 | h3
      · exact absurd h3 hs0.ne'
      · rcases mul_eq_zero.mp e2 with h4 | h4
        · exact absurd h4 hq.ne'
        · exact ⟨h4, h3⟩
    · rintro ⟨h1, h2⟩
      rw [h1, h2, mul_zero, mul_zero, add_zero]
  · intro h1 h2
    positivity

/-- With positive space steps, diffusion coefficients, partition coefficients
and areas in all cells and `max_module > 0`, no divisor of `build_M_DS_1_4`
or of `build_M_DS_1_5` is 0. -/
theorem divisors_ne_zero (mm : ℚ) (N : ℕ) (ss D K A : List ℚ) (hmm : 0 < mm) (hN : 2 ≤ N)
    (hs : ∀ j, j < N → 0 < rd ss j) (hD : ∀ j, j < N → 0 < rd D j)
    (hK : ∀ j, j < N → 0 < rd K j) (hA : ∀ j, j < N → 0 < rd A j) :
    (∀ d ∈ MatrixBuilder.divisors_1_4 mm N ss D K A, d ≠ 0) ∧
    (∀ d ∈ MatrixBuilder.divisors_1_5 mm N ss D K A, d ≠ 0) := by
  have harm4 : ∀ j, j + 1 < N → 0 < MatrixBuilder.harmDivisor ss D (rd K) j := fun j hj =>
    (harmDivisor_eq_zero ss D (rd K) j (hs _ (by omega)) (hs _ hj) (hK _ (by omega)) (hK _ hj)
      (hD _ (by omega)).le (hD _ hj).le).2 (hD _ (by omega)) (hD _ hj)
  have harm5 : ∀ j, j + 1 < N →
      0 < MatrixBuilder.harmDivisor ss D (fun i => rd K i * rd A i) j := fun j hj =>
    (harmDivisor_eq_zero ss D (fun i => rd K i * rd A i) j (hs _ (by omega)) (hs _ hj)
      (mul_pos (hK _ (by omega)) (hA _ (by omega))) (mul_pos (hK _ hj) (hA _ hj))
      (hD _ (by omega)).le (hD _ hj).le).2 (hD _ (by omega)) (hD _ hj)
  have hT : ∀ x : ℚ, (((max 1 ⌈x⌉ : ℤ)) : ℚ) ≠ 0 := by
    intro x
    have : (0 : ℤ) < max 1 ⌈x⌉ := lt_of_lt_of_le one_pos (le_max_left _ _)
    exact_mod_cast this.ne'
  have hh : ∀ j, j + 1 < N → 0 < (rd ss j + rd ss (j + 1)) / 2 := fun j hj => by
    have a := hs j (by omega)
    have b := hs (j + 1) hj
    positivity
  constructor
  · unfold MatrixBuilder.divisors_1_4
    simp only []
    intro d hd
    rcases List.mem_append.mp hd with h | h
    · rcases List.mem_append.mp h with h | h
      · rcases List.mem_append.mp h with h | h
        · simp only [List.mem_cons, List.mem_singleton, List.not_mem_nil, or_false] at h
          have h0 := hh 0 (by omega)
          rcases h with rfl | rfl | rfl | rfl | rfl | rfl | rfl
          · norm_num
          · exact (hK _ (by omega)).ne'
          · exact (harm4 0 (by omega)).ne'
          · positivity
          · exact (hK _ (by omega)).ne'
          · exact (hA _ (by omega)).ne'
          · exact (hA _ (by omega)).ne'
        · refine forUp_append_all (fun d => d ≠ 0) 1 (N - 1) _ [] (by simp) ?_ d h
          intro i h1 h2 x h
          simp only [List.mem_cons, List.mem_singleton, List.not_mem_nil, or_false] at h
          have h0 := hh (i - 1) (by omega)
          have h3 := hh i (by omega)
          rcases h with rfl | rfl | rfl | rfl | rfl | rfl | rfl | rfl | rfl | rfl | rfl | rfl | rfl
            | rfl
          · norm_num
          · norm_num
          · exact (hK _ (by omega)).ne'
          · exact (harm4 (i - 1) (by omega)).ne'
          · positivity
          · exact (hK _ (by omega)).ne'
          · exact (harm4 i (by omega)).ne'
          · positivity
          · exact (hA _ (by omega)).ne'
          · exact (hK _ (by omega)).ne'
          · exact (hA _ (by omega)).ne'
          · exact (hK _ (by omega)).ne'
          · exact (hA _ (by omega)).ne'
          · exact (hA _ (by omega)).ne'
      · simp only [List.mem_cons, List.mem_singleton, List.not_mem_nil, or_false] at h
        have h0 := hh (N - 2) (by omega)
        rcases h with rfl | rfl | rfl | rfl | rfl | rfl | rfl
        · norm_num
        · exact (hK _ (by omega)).ne'
        · exact (harm4 (N - 2) (by omega)).ne'
        · positivity
        · exact (hA _ (by omega)).ne'
        · exact (hK _ (by omega)).ne'
        · exact (hA _ (by omega)).ne'
    · simp only [List.mem_cons, List.mem_singleton, List.not_mem_nil, or_false] at h
      rcases h with rfl | rfl
      · exact hmm.ne'
      · exact hT _
  · unfold MatrixBuilder.divisors_1_5
    simp only []
    intro d hd
    rcases List.mem_append.mp hd with h | h
    · rcases List.mem_append.mp h with h | h
      · rcases List.mem_append.mp h with h | h
        · simp only [List.mem_cons, List.mem_singleton, List.not_mem_nil, or_false] at h
          have h0 := hh 0 (by omega)
          rcases h with rfl | rfl | rfl | rfl | rfl
          · norm_num
          · exact (mul_pos (hK _ (by omega)) (hA _ (by omega))).ne'
          · exact (harm5 0 (by omega)).ne'
          · positivity
          · exact (mul_pos (hK _ (by omega)) (hA _ (by omega))).ne'
        · refine forUp_append_all (fun d => d ≠ 0) 1 (N - 1) _ [] (by simp) ?_ d h
          intro i h1 h2 x h
          simp only [List.mem_cons, List.mem_singleton, List.not_mem_nil, or_false] at h
          have h0 := hh (i - 1) (by omega)
          have h3 := hh i (by omega)
          rcases h with rfl | rfl | rfl | rfl | rfl | rfl | rfl | rfl | rfl | rfl
          · norm_num
          · norm_num
          · exact (mul_pos (hK _ (by omega)) (hA _ (by omega))).ne'
          · exact (harm5 (i - 1) (by omega)).ne'
          · positivity
          · exact (mul_pos (hK _ (by omega)) (hA _ (by omega))).ne'
          · exact (harm5 i (by omega)).ne'
          · positivity
          · exact (mul_pos (hK _ (by omega)) (hA _ (by omega))).ne'
          · exact (mul_pos (hK _ (by omega)) (hA _ (by omega))).ne'
      · simp only [List.mem_cons, List.mem_singleton, List.not_mem_nil, or_false] at h
        have h0 := hh (N - 2) (by omega)
        rcases h with rfl | rfl | rfl | rfl | rfl
        · norm_num
        · exact (mul_pos (hK _ (by omega)) (hA _ (by omega))).ne'
        · exact (harm5 (N - 2) (by omega)).ne'
        · positivity
        · exact (mul_pos (hK _ (by omega)) (hA _ (by omega))).ne'
    · simp only [List.mem_cons, List.mem_singleton, List.not_mem_nil, or_false] at h
      rcases h with rfl | rfl
      · exact hmm.ne'
      · exact hT _

/-- C34. Divisions of the matrix assembly. With every space step, partition
coefficient and area positive, `max_module > 0`, at least two cells and every
diffusion coefficient positive, every division `build_M_DS_1_4` and
`build_M_DS_1_5` perform has a non-zero divisor. With diffusion coefficients
that are only required not to be negative, as the validation does
(`D < 0` is rejected, `D = 0` is accepted for the vehicle and for a layer),
the weighted harmonic-mean divisor `l_c*D_r + (K_c/K_r)*l_r*D_c` of a
neighbouring cell pair is 0 exactly when both cells have `D = 0`. On the
validated input `zeroDComps` (vehicle and layer with `D = 0`, `K = 1`, area 1,
space steps 1, `max_module = 50`) the divisor of the first cell pair is 0
under both methods. -/
theorem assembly_divides_by_zero_when_D_zero :
    (∀ (mm : ℚ) (N : ℕ) (ss D K A : List ℚ), 0 < mm → 2 ≤ N →
      (∀ j, j < N → 0 < rd ss j) → (∀ j, j < N → 0 < rd D j) →
      (∀ j, j < N → 0 < rd K j) → (∀ j, j < N → 0 < rd A j) →
      (∀ d ∈ MatrixBuilder.divisors_1_4 mm N ss D K A, d ≠ 0) ∧
      (∀ d ∈ MatrixBuilder.divisors_1_5 mm N ss D K A, d ≠ 0)) ∧
    (∀ (ss D K A : List ℚ) (i : ℕ), 0 < rd ss i → 0 < rd ss (i + 1) →
      0 < rd K i → 0 < rd K (i + 1) → 0 < rd A i → 0 < rd A (i + 1) →
      0 ≤ rd D i → 0 ≤ rd D (i + 1) →
      (MatrixBuilder.harmDivisor ss D (rd K) i = 0 ↔ rd D i = 0 ∧ rd D (i + 1) = 0) ∧
      (MatrixBuilder.harmDivisor ss D (fun j => rd K j * rd A j) i = 0
        ↔ rd D i = 0 ∧ rd D (i + 1) = 0)) ∧
    ({ LayerParameter.new with m_name := "layer", m_D := 0, m_height := 3 }.isValid "").1
      = true ∧
    ({ VehicleParameter.new with m_D := 0, m_height := 3 }.isValid "").1 = true ∧
    (∀ j, j < zeroDGeo.geometry.size →
      0 < rd zeroDGeo.geometry.m_space_steps j ∧
      0 ≤ rd (MatrixBuilder.createParamVector zeroDGeo.geometry.size zeroDGeo.compartments
        (fun comp => comp.m_D) zeroDGeo.sink) j ∧
      0 < rd (MatrixBuilder.createParamVector zeroDGeo.geometry.size zeroDGeo.compartments
        (fun comp => comp.m_K) zeroDGeo.sink) j ∧
      0 < rd (MatrixBuilder.createParamVector zeroDGeo.geometry.size zeroDGeo.compartments
        (fun comp => comp.m_A) zeroDGeo.sink) j) ∧
    MatrixBuilder.harmDivisor zeroDGeo.geometry.m_space_steps
      (MatrixBuilder.createParamVector zeroDGeo.geometry.size zeroDGeo.compartments
        (fun comp => comp.m_D) zeroDGeo.sink)
      (rd (MatrixBuilder.createParamVector zeroDGeo.geometry.size zeroDGeo.compartments
        (fun comp => comp.m_K) zeroDGeo.sink)) 0 = 0 ∧
    (0 : ℚ) ∈ MatrixBuilder.divisors_1_4 (MatrixBuilder.new Method.DSkin_1_4).m_max_module
      zeroDGeo.geometry.size zeroDGeo.geometry.m_space_steps
      (MatrixBuilder.createParamVector zeroDGeo.geometry.size zeroDGeo.compartments
        (fun comp => comp.m_D) zeroDGeo.sink)
      (MatrixBuilder.createParamVector zeroDGeo.geometry.size zeroDGeo.compartments
        (fun comp => comp.m_K) zeroDGeo.sink)
      (MatrixBuilder.createParamVector zeroDGeo.geometry.size zeroDGeo.compartments
        (fun comp => comp.m_A) zeroDGeo.sink) ∧
    (0 : ℚ) ∈ MatrixBuilder.divisors_1_5 (MatrixBuilder.new Method.DSkin_1_5).m_max_module
      zeroDGeo.geometry.size zeroDGeo.geometry.m_space_steps
      (MatrixBuilder.createParamVector zeroDGeo.geometry.size zeroDGeo.compartments
        (fun comp => comp.m_D) zeroDGeo.sink)
      (MatrixBuilder.createParamVector zeroDGeo.geometry.size zeroDGeo.compartments
        (fun comp => comp.m_K) zeroDGeo.sink)
      (MatrixBuilder.createParamVector zeroDGeo.geometry.size zeroDGeo.compartments
        (fun comp => comp.m_A) zeroDGeo.sink) := by
  refine ⟨fun mm N ss D K A hmm hN hs hD hK hA => divisors_ne_zero mm N ss D K A hmm hN hs hD hK hA,
    ?_, by decide!, by decide!, by decide!, by decide!, by decide!, by decide!⟩
  intro ss D K A i s0 s1 k0 k1 a0 a1 d0 d1
  exact ⟨(harmDivisor_eq_zero ss D (rd K) i s0 s1 k0 k1 d0 d1).1,
    (harmDivisor_eq_zero ss D (fun j => rd K j * rd A j) i s0 s1 (mul_pos k0 a0) (mul_pos k1 a1)
      d0 d1).1⟩

/-- C35. The start of the transition search. For every `log10` that is 0 at 1
and negative on `(0, 1)`, every user `eta` with `0 < eta < 1` and every
`ss_per_um >= 2` (boundary step `dx = 1/ss_per_um`), the initial number of
transition elements `n = ceil(log10(dx) / log10(eta))` divides by a non-zero
`log10(eta)` and is an integer `>= 1`. At `eta = 1`, which
`SystemParameter::isValid` admits (it rejects `eta <= 0` and `eta > 1`), the
divisor `log10(eta)` is 0 (and the quotient of the model, which is 0 there,
gives `n = 0`). -/
theorem transition_search_divides_by_zero_at_eta_one :
    (∀ (log10 : ℚ → ℚ), log10 1 = 0 → (∀ x, 0 < x → x < 1 → log10 x < 0) →
      ∀ (eta : ℚ) (ss_per_um : ℤ), 0 < eta → eta < 1 → 2 ≤ ss_per_um →
        log10 eta ≠ 0 ∧ 1 ≤ Geometry.initialTransEles log10 (1 / (ss_per_um : ℚ)) eta) ∧
    ({ SystemParameter.new with m_eta := 1 }.isValid "").1 = true ∧
    (∀ (log10 : ℚ → ℚ), log10 1 = 0 → ∀ ss_per_um : ℤ,
      log10 ({ SystemParameter.new with m_eta := 1 }).m_eta = 0 ∧
      Geometry.initialTransEles log10 (1 / (ss_per_um : ℚ))
        ({ SystemParameter.new with m_eta := 1 }).m_eta = 0) := by
  refine ⟨?_, by decide!, ?_⟩
  · intro log10 _ hneg eta s h0 h1 hs
    have hsq : (2 : ℚ) ≤ (s : ℚ) := by exact_mod_cast hs
    have hdx0 : (0 : ℚ) < 1 / (s : ℚ) := by positivity
    have hdx1 : 1 / (s : ℚ) < 1 := by
      rw [div_lt_one (by linarith)]
      linarith
    have a := hneg eta h0 h1
    have b := hneg _ hdx0 hdx1
    refine ⟨a.ne, ?_⟩
    unfold Geometry.initialTransEles
    have hpos : 0 < log10 (1 / (s : ℚ)) / log10 eta := div_pos_of_neg_of_neg b a
    have : (0 : ℤ) < ⌈log10 (1 / (s : ℚ)) / log10 eta⌉ := Int.ceil_pos.mpr hpos
    omega
  · intro log10 h1 s
    refine ⟨h1, ?_⟩
    show ⌈log10 (1 / (s : ℚ)) / log10 1⌉ = 0
    rw [h1, div_zero, Int.ceil_zero]

/-- The first loop of the transition vector: after `m` iterations the running
step is `x^m` and the vector holds `x, x^2, .., x^m`. -/
theorem transVec_loop (x : ℚ) (m : ℕ) :
    forUp 0 m (fun _ (st : ℚ × List ℚ) => (st.1 * x, st.2 ++ [st.1 * x])) ((1 : ℚ), ([] : List ℚ))
      = (x ^ m, (List.range m).map (fun j => x ^ (j + 1))) := by
  induction m with
  | zero => simp [forUp_self]
  | succ m ih =>
    rw [forUp_succ 0 m (Nat.zero_le _), ih]
    simp only [List.range_succ, List.map_append, List.map_cons, List.map_nil, pow_succ]

/-- The loop of `powerSeriesDoubleLastElement`: after `m` iterations the sum
is `x + .. + x^m` and `last_comp` is `x^m`. -/
theorem powerSeries_loop (x : ℚ) (m : ℕ) :
    forUp 0 m (fun _ (st : ℚ × ℚ) => (st.1 + st.2 * x, st.2 * x)) ((0 : ℚ), (1 : ℚ))
      = (((List.range m).map (fun j => x ^ (j + 1))).sum, x ^ m) := by
  induction m with
  | zero => simp [forUp_self]
  | succ m ih =>
    rw [forUp_succ 0 m (Nat.zero_le _), ih]
    simp only [List.range_succ, List.map_append, List.map_cons, List.map_nil, List.sum_append,
      List.sum_cons, List.sum_nil, add_zero, pow_succ]

/-- The mirror loop of the transition vector appends the reverse of the
vector it starts from. -/
theorem mirror_loop (H : List ℚ) :
    forDown H.length 0 (fun i (v : List ℚ) => v ++ [rd v i]) H = H ++ H.reverse := by
  have key := forDown_inv (fun i (v : List ℚ) => v = H ++ (H.drop i).reverse) H.length 0
    (Nat.zero_le _) (fun i (v : List ℚ) => v ++ [rd v i]) H (by simp) ?_
  · simpa using key
  · intro i s _ hi hs
    rw [hs]
    show H ++ (List.drop (i + 1) H).reverse ++ [rd (H ++ (List.drop (i + 1) H).reverse) i] = _
    rw [rd_append_left _ _ _ hi, List.append_assoc]
    congr 1
    rw [List.drop_eq_getElem_cons hi, List.reverse_cons]
    congr 2
    unfold rd
    rw [List.getD_eq_getElem _ _ hi]

/-- The transition vector for `n >= 1` elements per side: a first half of `n`
steps whose sum is `powerSeriesDoubleLastElement(n, x)`, followed by its
mirror image. -/
theorem transVec_spec (t : Transition) (hn : 1 ≤ t.n_trans_eles) :
    ∃ H : List ℚ, H.length = t.n_trans_eles.toNat ∧ transVec t = H ++ H.reverse ∧
      H.sum = Geometry.powerSeriesDoubleLastElement t.n_trans_eles t.calcuated_eta ∧
      ∀ y ∈ H, ∃ j : ℕ, y = t.calcuated_eta ^ j := by
  refine ⟨(List.range (t.n_trans_eles - 1).toNat).map (fun j => t.calcuated_eta ^ (j + 1))
    ++ [t.calcuated_eta ^ (t.n_trans_eles - 1).toNat], ?_, ?_, ?_, ?_⟩
  · simp only [List.length_append, List.length_map, List.length_range, List.length_singleton]
    omega
  · unfold transVec
    simp only []
    rw [transVec_loop]
    have e : t.n_trans_eles.toNat
        = ((List.range (t.n_trans_eles - 1).toNat).map (fun j => t.calcuated_eta ^ (j + 1))
          ++ [t.calcuated_eta ^ (t.n_trans_eles - 1).toNat]).length := by
      simp only [List.length_append, List.length_map, List.length_range, List.length_singleton]
      omega
    rw [e]
    exact mirror_loop _
  · unfold Geometry.powerSeriesDoubleLastElement forUpZ
    simp only []
    rw [powerSeries_loop]
    simp
  · intro y hy
    rcases List.mem_append.mp hy with h | h
    · obtain ⟨j, _, rfl⟩ := List.mem_map.mp h
      exact ⟨j + 1, rfl⟩
    · rw [List.mem_singleton] at h
      exact ⟨_, h⟩

/-- One iteration of the compartment loop of the refined branch, from a state
whose steps end with the pending second half of the preceding transition:
the cells of the compartment are its block, and the second half of the
following transition is pending afterwards. -/
theorem bkStep_spec (t : Transition) (tv : List ℚ) (c_size : ℤ) (hev : tv.length % 2 = 0)
    (k : ℕ) (c : Compartment) (P : List ℚ) (done : List Compartment) :
    bkStep t tv c_size
        { counter := P.length
          c_carry := if k = 0 then 0 else ((tv.length / 2 : ℕ) : ℤ)
          steps := P ++ (if k = 0 then [] else tv.drop (tv.length / 2))
          done := done } (k, c)
      = { counter := ((P ++ bkBlock t tv c_size k c).length : ℤ)
          c_carry := ((tv.length / 2 : ℕ) : ℤ)
          steps := P ++ bkBlock t tv c_size k c
            ++ (if (k : ℤ) < c_size - 1 then tv.drop (tv.length / 2) else [])
          done := done ++ [c.setGeometryIdx P.length
            ((P.length : ℤ) + ((bkBlock t tv c_size k c).length : ℤ) - 1)] } := by
  have hdiv : ((tv.length : ℤ) / 2) = ((tv.length / 2 : ℕ) : ℤ) := by omega
  have htd : tv.take (tv.length / 2) ++ tv.drop (tv.length / 2) = tv := List.take_append_drop _ _
  have hlt : (tv.take (tv.length / 2)).length = tv.length / 2 := by
    rw [List.length_take]
    omega
  have hld : (tv.drop (tv.length / 2)).length = tv.length / 2 := by
    rw [List.length_drop]
    omega
  unfold bkStep bkBlock
  simp only [hdiv]
  generalize (c.m_size - (if (k : ℤ) = 0 ∨ (k : ℤ) = c_size - 1 then t.n_trans_size
    else t.n_trans_size * 2)).toNat = sz
  by_cases h1 : (k : ℤ) < c_size - 1
  · rcases Nat.eq_zero_or_pos k with h0 | h0
    · subst h0
      simp only [h1, eq_self_iff_true, if_true, List.append_nil, List.nil_append,
        List.length_append, List.length_replicate, hlt, BKLoop.mk.injEq]
      refine ⟨by push_cast; omega, trivial, ?_, ?_⟩
      · simp only [List.append_assoc]
        rw [htd]
      · congr 3
        push_cast
        omega
    · have h0' : ¬ k = 0 := by omega
      simp only [h0', h1, if_true, if_false, List.length_append,
        List.length_replicate, hlt, hld, BKLoop.mk.injEq]
      refine ⟨by push_cast; omega, trivial, ?_, ?_⟩
      · simp only [List.append_assoc]
        rw [htd]
      · congr 3
        push_cast
        omega
  · rcases Nat.eq_zero_or_pos k with h0 | h0
    · subst h0
      simp only [h1, eq_self_iff_true, if_true, if_false, List.append_nil, List.nil_append,
        List.length_append, List.length_replicate, List.length_nil, BKLoop.mk.injEq]
      refine ⟨by push_cast; omega, trivial, trivial, ?_⟩
      congr 2
    · have h0' : ¬ k = 0 := by omega
      simp only [h0', h1, if_false, List.append_nil, List.length_append,
        List.length_replicate, hld, BKLoop.mk.injEq]
      refine ⟨by push_cast; omega, trivial, ?_, ?_⟩
      · simp only [List.append_assoc]
      · congr 3
        push_cast
        omega

/-- The compartment loop of the refined branch over the compartments from
position `k` on: the steps are the blocks of the compartments one after the
other, and the ranges are those of `bkRanges`. -/
theorem bkFold (t : Transition) (tv : List ℚ) (c_size : ℤ) (hev : tv.length % 2 = 0) :
    ∀ (cs : List Compartment) (k : ℕ) (P : List ℚ) (done : List Compartment),
      cs ≠ [] → (k : ℤ) + (cs.length : ℤ) = c_size →
      (cs.enumFrom k).foldl (bkStep t tv c_size)
          { counter := P.length
            c_carry := if k = 0 then 0 else ((tv.length / 2 : ℕ) : ℤ)
            steps := P ++ (if k = 0 then [] else tv.drop (tv.length / 2))
            done := done }
        = { counter := ((P ++ bkSteps t tv c_size k cs).length : ℤ)
            c_carry := ((tv.length / 2 : ℕ) : ℤ)
            steps := P ++ bkSteps t tv c_size k cs
            done := done ++ bkRanges t tv c_size k P.length cs } := by
  intro cs
  induction cs with
  | nil => intro k P done h; exact absurd rfl h
  | cons c rest ih =>
    intro k P done _ hlen
    rw [List.enumFrom_cons, List.foldl_cons, bkStep_spec t tv c_size hev]
    cases rest with
    | nil =>
      have h1 : ¬ (k : ℤ) < c_size - 1 := by
        simp only [List.length_singleton] at hlen
        omega
      simp only [h1, if_false, List.enumFrom_nil, List.foldl_nil, bkSteps, bkRanges,
        List.append_nil]
    | cons c2 rest2 =>
      have h1 : (k : ℤ) < c_size - 1 := by
        simp only [List.length_cons] at hlen
        push_cast at hlen
        omega
      have h := ih (k + 1) (P ++ bkBlock t tv c_size k c)
        (done ++ [c.setGeometryIdx P.length
          ((P.length : ℤ) + ((bkBlock t tv c_size k c).length : ℤ) - 1)])
        (List.cons_ne_nil _ _) (by
          simp only [List.length_cons] at hlen ⊢
          push_cast at hlen ⊢
          omega)
      simp only [Nat.succ_ne_zero, if_false] at h
      simp only [h1, if_true]
      rw [h]
      simp only [bkSteps, bkRanges, List.append_assoc, List.singleton_append, List.length_append,
        Nat.cast_add]

theorem bkRanges_length (t : Transition) (tv : List ℚ) (cz : ℤ) (cs : List Compartment) :
    ∀ (k : ℕ) (start : ℤ), (bkRanges t tv cz k start cs).length = cs.length := by
  induction cs with
  | nil => intro k start; rfl
  | cons c cs ih =>
    intro k start
    simp only [bkRanges, List.length_cons, ih]

/-- The blocks up to and including position `j` of a list of compartments. -/
theorem bkSteps_take_succ (t : Transition) (tv : List ℚ) (cz : ℤ) (cs : List Compartment) :
    ∀ (k j : ℕ) (c0 : Compartment), cs[j]? = some c0 →
      bkSteps t tv cz k (cs.take (j + 1))
        = bkSteps t tv cz k (cs.take j) ++ bkBlock t tv cz (k + j) c0 := by
  induction cs with
  | nil => intro k j c0 h; simp at h
  | cons c cs ih =>
    intro k j c0 h
    cases j with
    | zero =>
      simp only [List.getElem?_cons_zero, Option.some.injEq] at h
      subst h
      simp [bkSteps]
    | succ j =>
      simp only [List.getElem?_cons_succ] at h
      simp only [List.take_succ_cons, bkSteps, List.append_assoc]
      rw [ih (k + 1) j c0 h]
      have e : k + 1 + j = k + (j + 1) := by omega
      rw [e]

/-- The steps of a list of compartments, split at position `j`. -/
theorem bkSteps_split (t : Transition) (tv : List ℚ) (cz : ℤ) (cs : List Compartment) :
    ∀ (k j : ℕ) (c0 : Compartment), cs[j]? = some c0 →
      bkSteps t tv cz k cs
        = bkSteps t tv cz k (cs.take j) ++ bkBlock t tv cz (k + j) c0
          ++ bkSteps t tv cz (k + j + 1) (cs.drop (j + 1)) := by
  induction cs with
  | nil => intro k j c0 h; simp at h
  | cons c cs ih =>
    intro k j c0 h
    cases j with
    | zero =>
      simp only [List.getElem?_cons_zero, Option.some.injEq] at h
      subst h
      simp [bkSteps]
    | succ j =>
      simp only [List.getElem?_cons_succ] at h
      simp only [List.take_succ_cons, List.drop_succ_cons, bkSteps, List.append_assoc]
      rw [ih (k + 1) j c0 h]
      have e : k + 1 + j = k + (j + 1) := by omega
      rw [e]
      simp only [List.append_assoc]

/-- The range `bkRanges` gives the compartment at position `j`: it starts
after the blocks of the compartments before it and holds its own block. -/
theorem bkRanges_get (t : Transition) (tv : List ℚ) (cz : ℤ) (cs : List Compartment) :
    ∀ (k : ℕ) (start : ℤ) (j : ℕ) (c : Compartment),
      (bkRanges t tv cz k start cs)[j]? = some c →
      ∃ c0, cs[j]? = some c0 ∧
        c = c0.setGeometryIdx (start + ((bkSteps t tv cz k (cs.take j)).length : ℤ))
          (start + ((bkSteps t tv cz k (cs.take j)).length : ℤ)
            + ((bkBlock t tv cz (k + j) c0).length : ℤ) - 1) := by
  induction cs with
  | nil => intro k start j c h; simp [bkRanges] at h
  | cons x xs ih =>
    intro k start j c h
    cases j with
    | zero =>
      simp only [bkRanges, List.getElem?_cons_zero, Option.some.injEq] at h
      refine ⟨x, by simp, ?_⟩
      rw [← h]
      simp [bkSteps]
    | succ j =>
      simp only [bkRanges, List.getElem?_cons_succ] at h
      obtain ⟨c0, h0, hc⟩ := ih _ _ j c h
      refine ⟨c0, by simpa using h0, ?_⟩
      rw [hc]
      have e : k + 1 + j = k + (j + 1) := by omega
      simp only [List.take_succ_cons, bkSteps, List.length_append, Nat.cast_add, e]
      congr 1 <;> ring

/-- The refined branch on a non-empty list of compartments, started from an
empty vector of space steps: the space steps are the blocks of the
compartments followed by the cell of the sink, the ranges are those of
`bkRanges`, and the sink takes the cell after the last block. -/
theorem createBK_spec (g : Geometry) (comps : List Compartment) (sink : Option Sink)
    (t : Transition) (hg : g.m_space_steps = []) (hne : comps ≠ [])
    (hev : (transVec t).length % 2 = 0) :
    (g.createBK comps sink t).ok = true ∧
    (g.createBK comps sink t).geometry.m_space_steps
      = bkSteps t (transVec t) comps.length 0 comps ++ (if sink.isSome then [1] else []) ∧
    (g.createBK comps sink t).compartments = bkRanges t (transVec t) comps.length 0 0 comps ∧
    (g.createBK comps sink t).sink = sink.map (fun k =>
      k.setGeometryIdx ((bkSteps t (transVec t) comps.length 0 comps).length : ℤ)
        ((bkSteps t (transVec t) comps.length 0 comps).length : ℤ)) := by
  have h := bkFold t (transVec t) comps.length hev comps 0 [] [] hne (by simp)
  simp only [List.length_nil, Nat.cast_zero, if_true, List.nil_append, eq_self_iff_true] at h
  unfold Geometry.createBK
  simp only [List.enum, hg, h]
  refine ⟨trivial, ?_, trivial, trivial⟩
  split <;> simp

/-- The halves of a symmetric transition vector. -/
theorem halves_of_symmetric (H : List ℚ) :
    (H ++ H.reverse).length / 2 = H.length ∧
    (H ++ H.reverse).take ((H ++ H.reverse).length / 2) = H ∧
    (H ++ H.reverse).drop ((H ++ H.reverse).length / 2) = H.reverse := by
  have e : (H ++ H.reverse).length / 2 = H.length := by
    simp only [List.length_append, List.length_reverse]
    omega
  rw [e]
  exact ⟨rfl, List.take_left' rfl, List.drop_left' rfl⟩

/-- The number of cells of a block, for a symmetric transition vector with `n`
elements per half and a compartment at least as thick as its transitions. -/
theorem bkBlock_length (t : Transition) (H : List ℚ) (cz : ℤ) (i : ℕ) (c : Compartment)
    (hfit : (if (i : ℤ) = 0 ∨ (i : ℤ) = cz - 1 then t.n_trans_size else t.n_trans_size * 2)
      ≤ c.m_size) :
    ((bkBlock t (H ++ H.reverse) cz i c).length : ℤ)
      = (if i = 0 then 0 else (H.length : ℤ))
        + (c.m_size - (if (i : ℤ) = 0 ∨ (i : ℤ) = cz - 1 then t.n_trans_size
            else t.n_trans_size * 2))
        + (if (i : ℤ) < cz - 1 then (H.length : ℤ) else 0) := by
  obtain ⟨e1, e2, e3⟩ := halves_of_symmetric H
  unfold bkBlock
  rw [e2, e3]
  simp only [List.length_append, List.length_replicate, Nat.cast_add]
  rw [Int.toNat_of_nonneg (by omega)]
  congr 1
  · congr 1
    split <;> simp
  · split <;> simp

/-- The sum of the steps of a block. -/
theorem bkBlock_sum (t : Transition) (H : List ℚ) (cz : ℤ) (i : ℕ) (c : Compartment)
    (hfit : (if (i : ℤ) = 0 ∨ (i : ℤ) = cz - 1 then t.n_trans_size else t.n_trans_size * 2)
      ≤ c.m_size) :
    (bkBlock t (H ++ H.reverse) cz i c).sum
      = (if i = 0 then 0 else H.sum)
        + (((c.m_size - (if (i : ℤ) = 0 ∨ (i : ℤ) = cz - 1 then t.n_trans_size
            else t.n_trans_size * 2) : ℤ)) : ℚ)
        + (if (i : ℤ) < cz - 1 then H.sum else 0) := by
  obtain ⟨e1, e2, e3⟩ := halves_of_symmetric H
  unfold bkBlock
  rw [e2, e3]
  simp only [List.sum_append, List.sum_replicate, nsmul_eq_mul, mul_one]
  have e : (((c.m_size - (if (i : ℤ) = 0 ∨ (i : ℤ) = cz - 1 then t.n_trans_size
      else t.n_trans_size * 2)).toNat : ℕ) : ℚ)
      = (((c.m_size - (if (i : ℤ) = 0 ∨ (i : ℤ) = cz - 1 then t.n_trans_size
        else t.n_trans_size * 2) : ℤ)) : ℚ) := by
    have := Int.toNat_of_nonneg (show 0 ≤ c.m_size - (if (i : ℤ) = 0 ∨ (i : ℤ) = cz - 1
      then t.n_trans_size else t.n_trans_size * 2) by omega)
    exact_mod_cast this
  rw [e]
  congr 1
  · congr 1
    split
    · rfl
    · exact List.sum_reverse H
  · split <;> rfl

/-- The number of cells of the blocks of the compartments from a position
`k >= 1` on: every compartment but the last has a transition on both sides. -/
theorem bkSteps_length_tail (t : Transition) (H : List ℚ) (cz : ℤ) :
    ∀ (cs : List Compartment) (k : ℕ), cs ≠ [] → 1 ≤ k → (k : ℤ) + (cs.length : ℤ) = cz →
      (∀ (j : ℕ) (c0 : Compartment), cs[j]? = some c0 →
        (if ((k + j : ℕ) : ℤ) = 0 ∨ ((k + j : ℕ) : ℤ) = cz - 1 then t.n_trans_size
          else t.n_trans_size * 2) ≤ c0.m_size) →
      ((bkSteps t (H ++ H.reverse) cz k cs).length : ℤ)
        = (cs.map (fun c => c.m_size)).sum
          + ((H.length : ℤ) - t.n_trans_size) * (2 * (cs.length : ℤ) - 1) := by
  intro cs
  induction cs with
  | nil => intro k h; exact absurd rfl h
  | cons c rest ih =>
    intro k _ hk hlen hfit
    have hb := bkBlock_length t H cz k c (by simpa using hfit 0 c (by simp))
    have hk0 : ¬ k = 0 := by omega
    have hk0' : ¬ (k : ℤ) = 0 := by omega
    simp only [bkSteps, List.length_append, Nat.cast_add, hb]
    cases rest with
    | nil =>
      simp only [List.length_singleton] at hlen
      have h1 : ¬ (k : ℤ) < cz - 1 := by push_cast at hlen; omega
      have h2 : (k : ℤ) = cz - 1 := by push_cast at hlen; omega
      rw [if_neg hk0, if_pos (Or.inr h2), if_neg h1]
      simp only [bkSteps, List.length_nil, List.map_nil, List.sum_nil, Nat.cast_zero,
        List.length_singleton, Nat.cast_one, List.map_cons, List.sum_cons]
      ring
    | cons c2 rest2 =>
      simp only [List.length_cons] at hlen
      have h1 : (k : ℤ) < cz - 1 := by push_cast at hlen; omega
      have h2 : ¬ (k : ℤ) = cz - 1 := by omega
      have h := ih (k + 1) (List.cons_ne_nil _ _) (by omega)
        (by simp only [List.length_cons]; push_cast at hlen ⊢; omega)
        (fun j c0 hj => by
          have := hfit (j + 1) c0 (by simpa using hj)
          have e : k + 1 + j = k + (j + 1) := by omega
          rw [e]
          exact this)
      rw [h, if_neg hk0, if_neg (not_or.mpr ⟨hk0', h2⟩), if_pos h1]
      simp only [List.map_cons, List.sum_cons, List.length_cons]
      push_cast
      ring

/-- The number of cells of the blocks of at least two compartments: the sum of
the thicknesses, with the transition length replaced by the number of
transition elements on both sides of every boundary. -/
theorem bkSteps_length (t : Transition) (H : List ℚ) (comps : List Compartment)
    (hc : 2 ≤ comps.length)
    (hfit : ∀ (j : ℕ) (c0 : Compartment), comps[j]? = some c0 →
      (if (j : ℤ) = 0 ∨ (j : ℤ) = (comps.length : ℤ) - 1 then t.n_trans_size
        else t.n_trans_size * 2) ≤ c0.m_size) :
    ((bkSteps t (H ++ H.reverse) comps.length 0 comps).length : ℤ)
      = (comps.map (fun c => c.m_size)).sum
        + ((H.length : ℤ) - t.n_trans_size) * (2 * ((comps.length : ℤ) - 1)) := by
  cases comps with
  | nil => simp at hc
  | cons c rest =>
    have hne : rest ≠ [] := by
      intro h
      subst h
      simp at hc
    have hb := bkBlock_length t H ((c :: rest).length : ℤ) 0 c (by simpa using hfit 0 c (by simp))
    have h := bkSteps_length_tail t H ((c :: rest).length : ℤ) rest 1 hne (le_refl _)
      (by simp only [List.length_cons]; push_cast; omega)
      (fun j c0 hj => by
        have := hfit (j + 1) c0 (by simpa using hj)
        have e : 1 + j = j + 1 := by omega
        rw [e]
        exact this)
    have h1 : ((0 : ℕ) : ℤ) < ((c :: rest).length : ℤ) - 1 := by
      simp only [List.length_cons] at hc ⊢
      push_cast
      omega
    rw [if_pos rfl, if_pos (Or.inl (by simp)), if_pos h1] at hb
    simp only [bkSteps, List.length_append, Nat.cast_add, hb, h, List.map_cons, List.sum_cons]
    simp only [List.length_cons]
    push_cast
    ring

/-- The refined branch of `Geometry::create` for at least two compartments and
at least one transition element per half: with `H` the first half of the
transition vector, the space steps are the blocks of the compartments and the
cell of the sink, and the ranges are those of `bkRanges`. -/
theorem create_BK_form (g : Geometry) (comps : List Compartment) (s : ℤ) (sink : Option Sink)
    (t : Transition) (hs : s ≠ 1) (hc : 2 ≤ comps.length) (hn : 1 ≤ t.n_trans_eles) :
    ∃ H : List ℚ, (H.length : ℤ) = t.n_trans_eles ∧
      H.sum = Geometry.powerSeriesDoubleLastElement t.n_trans_eles t.calcuated_eta ∧
      (g.create DiscMethod.B_AND_K comps s sink t).ok = true ∧
      (g.create DiscMethod.B_AND_K comps s sink t).geometry.m_space_steps
        = bkSteps t (H ++ H.reverse) comps.length 0 comps ++ (if sink.isSome then [1] else []) ∧
      (g.create DiscMethod.B_AND_K comps s sink t).compartments
        = bkRanges t (H ++ H.reverse) comps.length 0 0 comps ∧
      (g.create DiscMethod.B_AND_K comps s sink t).sink = sink.map (fun k =>
        k.setGeometryIdx ((bkSteps t (H ++ H.reverse) comps.length 0 comps).length : ℤ)
          ((bkSteps t (H ++ H.reverse) comps.length 0 comps).length : ℤ)) := by
  obtain ⟨H, hl, htv, hsum, _⟩ := transVec_spec t hn
  have hev : (transVec t).length % 2 = 0 := by
    rw [htv]
    simp only [List.length_append, List.length_reverse]
    omega
  have hne : comps ≠ [] := by
    intro h
    subst h
    simp at hc
  have hbr : ¬ (DiscMethod.B_AND_K = DiscMethod.EQUI_DIST ∨ s = 1 ∨ comps.length = 1) := by
    intro h
    rcases h with h | h | h
    · exact absurd h (by decide)
    · exact hs h
    · omega
  have e : g.create DiscMethod.B_AND_K comps s sink t
      = { g with
          m_disc_method := DiscMethod.B_AND_K
          m_space_steps := []
          m_min_space_step := 1
          m_max_space_step := 1 }.createBK comps sink t := by
    unfold Geometry.create
    simp only [if_neg hbr, if_true]
  obtain ⟨h1, h2, h3, h4⟩ := createBK_spec
    { g with
      m_disc_method := DiscMethod.B_AND_K
      m_space_steps := []
      m_min_space_step := 1
      m_max_space_step := 1 } comps sink t rfl hne hev
  rw [← e] at h1 h2 h3 h4
  rw [htv] at h2 h3 h4
  exact ⟨H, by omega, hsum, h1, h2, h3, h4⟩

/-- The thickness bounds of the compartments by position, with the positions
read as `int`. -/
theorem fits_cast (t : Transition) (comps : List Compartment)
    (hfit : ∀ (k : ℕ) (c0 : Compartment), comps[k]? = some c0 →
      (if k = 0 ∨ k + 1 = comps.length then t.n_trans_size else 2 * t.n_trans_size)
        ≤ c0.m_size) :
    ∀ (j : ℕ) (c0 : Compartment), comps[j]? = some c0 →
      (if (j : ℤ) = 0 ∨ (j : ℤ) = (comps.length : ℤ) - 1 then t.n_trans_size
        else t.n_trans_size * 2) ≤ c0.m_size := by
  intro j c0 h
  have h2 := hfit j c0 h
  by_cases hcnd : j = 0 ∨ j + 1 = comps.length
  · rw [if_pos hcnd] at h2
    rw [if_pos (by omega)]
    exact h2
  · rw [if_neg hcnd] at h2
    rw [if_neg (by omega)]
    linarith

/-- The number of cells of the range of the compartment at position `k` of at
least two: one transition half for an end compartment, two for an interior
one. -/
theorem bkBlock_cells (t : Transition) (H : List ℚ) (comps : List Compartment)
    (hc : 2 ≤ comps.length) (k : ℕ) (c0 : Compartment) (hk : comps[k]? = some c0)
    (hfit : (if (k : ℤ) = 0 ∨ (k : ℤ) = (comps.length : ℤ) - 1 then t.n_trans_size
        else t.n_trans_size * 2) ≤ c0.m_size) :
    ((bkBlock t (H ++ H.reverse) comps.length k c0).length : ℤ)
      = if k = 0 ∨ k + 1 = comps.length then (c0.m_size - t.n_trans_size) + (H.length : ℤ)
        else (c0.m_size - 2 * t.n_trans_size) + 2 * (H.length : ℤ) := by
  have hlt : k < comps.length := by
    rcases Nat.lt_or_ge k comps.length with h | h
    · exact h
    · rw [List.getElem?_eq_none h] at hk
      exact absurd hk (by simp)
  rw [bkBlock_length t H comps.length k c0 hfit]
  by_cases h0 : k = 0
  · subst h0
    rw [if_pos rfl, if_pos (Or.inl (by simp)), if_pos (by push_cast; omega), if_pos (Or.inl rfl)]
    ring
  · by_cases h1 : k + 1 = comps.length
    · rw [if_neg h0, if_pos (Or.inr (by omega)), if_neg (by omega), if_pos (Or.inr h1)]
      ring
    · rw [if_neg h0, if_neg (by omega), if_pos (by omega), if_neg (by omega)]
      ring

/-- C32. Refined-mesh cell ranges: for `Geometry::create` with `B_AND_K`,
`ss_per_um > 1`, `c >= 2` compartments and a sink, with `n >= 1` transition
elements per half and transition length `a` (the values `findOptTransition`
returns), when every end compartment has `h >= a` and every interior
compartment `h >= 2a`: the call returns true, the compartments are the given
ones with only their ranges set, compartment 0 starts at cell 0, each next
compartment starts at the previous `geo_to + 1`, the range of an end
compartment holds exactly `(h - a) + n` cells and that of an interior
compartment exactly `(h - 2a) + 2n` cells, the sink is the single last cell
`size() - 1`, directly after the last compartment, and
`size() = (sum of h_k) - 2a(c-1) + 2n(c-1) + 1`. -/
theorem refined_ranges_partition (g : Geometry) (comps : List Compartment) (s : ℤ) (k0 : Sink)
    (t : Transition) (hs : 1 < s) (hc : 2 ≤ comps.length) (hn : 1 ≤ t.n_trans_eles)
    (hfit : ∀ (k : ℕ) (c0 : Compartment), comps[k]? = some c0 →
      (if k = 0 ∨ k + 1 = comps.length then t.n_trans_size else 2 * t.n_trans_size)
        ≤ c0.m_size)
    (r : CreateResult) (hr : r = g.create DiscMethod.B_AND_K comps s (some k0) t) :
    r.ok = true ∧
    r.compartments.length = comps.length ∧
    (∀ (k : ℕ) (c : Compartment), r.compartments[k]? = some c → ∃ c0 : Compartment,
      comps[k]? = some c0 ∧
      c = c0.setGeometryIdx c.m_geo_from c.m_geo_to ∧
      c.m_geo_to - c.m_geo_from + 1
        = if k = 0 ∨ k + 1 = comps.length then (c0.m_size - t.n_trans_size) + t.n_trans_eles
          else (c0.m_size - 2 * t.n_trans_size) + 2 * t.n_trans_eles) ∧
    (∀ c : Compartment, r.compartments[0]? = some c → c.m_geo_from = 0) ∧
    (∀ (k : ℕ) (c c' : Compartment), r.compartments[k]? = some c →
      r.compartments[k + 1]? = some c' →
      c'.m_geo_from = c.m_geo_to + 1) ∧
    (∃ k1 : Sink, r.sink = some k1 ∧
      k1 = k0.setGeometryIdx k1.m_geo_from k1.m_geo_to ∧
      k1.m_geo_from = (r.geometry.size : ℤ) - 1 ∧ k1.m_geo_to = (r.geometry.size : ℤ) - 1 ∧
      ∀ c : Compartment, r.compartments.getLast? = some c →
        k1.m_geo_from = c.m_geo_to + 1) ∧
    (r.geometry.size : ℤ)
      = (comps.map (fun c => c.m_size)).sum - 2 * t.n_trans_size * ((comps.length : ℤ) - 1)
        + 2 * t.n_trans_eles * ((comps.length : ℤ) - 1) + 1 := by
  obtain ⟨H, hl, _, hok, hsteps, hcomps, hsink⟩ :=
    create_BK_form g comps s (some k0) t (by omega) hc hn
  rw [← hr] at hok hsteps hcomps hsink
  have hfz := fits_cast t comps hfit
  have hlen := bkSteps_length t H comps hc hfz
  have hsize : (r.geometry.size : ℤ)
      = ((bkSteps t (H ++ H.reverse) comps.length 0 comps).length : ℤ) + 1 := by
    unfold Geometry.size
    rw [hsteps]
    simp
  rw [hcomps]
  refine ⟨hok, bkRanges_length t _ _ comps 0 0, ?_, ?_, ?_, ?_, ?_⟩
  · intro k c hk
    obtain ⟨c0, h0, hcc⟩ := bkRanges_get t _ _ comps 0 0 k c hk
    refine ⟨c0, h0, ?_, ?_⟩
    · rw [hcc]
      rfl
    · have hb := bkBlock_cells t H comps hc k c0 h0 (hfz k c0 h0)
      rw [hl] at hb
      rw [← hb, hcc]
      simp only [Compartment.setGeometryIdx, Nat.zero_add]
      ring
  · intro c hk
    obtain ⟨c0, _, hcc⟩ := bkRanges_get t _ _ comps 0 0 0 c hk
    rw [hcc]
    simp [Compartment.setGeometryIdx, bkSteps]
  · intro k c c' hk hk'
    obtain ⟨c0, h0, hcc⟩ := bkRanges_get t _ _ comps 0 0 k c hk
    obtain ⟨c1, _, hcc'⟩ := bkRanges_get t _ _ comps 0 0 (k + 1) c' hk'
    rw [hcc, hcc', bkSteps_take_succ t _ _ comps 0 k c0 h0]
    simp only [Compartment.setGeometryIdx, List.length_append, Nat.cast_add]
    ring
  · refine ⟨_, hsink, rfl, ?_, ?_, ?_⟩
    · simp only [Sink.setGeometryIdx]
      omega
    · simp only [Sink.setGeometryIdx]
      omega
    · intro c hlast
      rw [List.getLast?_eq_getElem?, bkRanges_length] at hlast
      obtain ⟨c0, h0, hcc⟩ := bkRanges_get t _ _ comps 0 0 (comps.length - 1) c hlast
      have e := bkSteps_take_succ t (H ++ H.reverse) comps.length comps 0 (comps.length - 1) c0 h0
      have e2 : comps.length - 1 + 1 = comps.length := by omega
      rw [e2, List.take_length] at e
      rw [hcc, e]
      simp only [Sink.setGeometryIdx, Compartment.setGeometryIdx, List.length_append,
        Nat.cast_add]
      ring
  · rw [hsize, hlen, hl]
    ring

/-- C32, witness: thicknesses 3, 4 and 3 with resolution 2 and the transition
`halfTransition` (`n = 2`, `a = 1`): the end compartments hold
`(3 - 1) + 2 = 4` cells, the interior one `(4 - 2) + 4 = 6`, and the mesh has
`10 - 4 + 8 + 1 = 15` cells. -/
theorem refined_ranges_partition_witness :
    bkGeo.compartments.map (fun c => (c.m_geo_from, c.m_geo_to)) = [(0, 3), (4, 9), (10, 13)] ∧
    bkGeo.sink.map (fun k => (k.m_geo_from, k.m_geo_to)) = some (14, 14) ∧
    (bkGeo.geometry.size : ℤ) = 15 ∧
    (∀ (k : ℕ) (c c' : Compartment), bkGeo.compartments[k]? = some c →
      bkGeo.compartments[k + 1]? = some c' →
      c'.m_geo_from = c.m_geo_to + 1) :=
  ⟨by decide!, by decide!, by decide!,
    (refined_ranges_partition Geometry.new
      [Compartment.new 3 1 1 1 "vehicle", Compartment.new 4 1 1 1 "layer",
        Compartment.new 3 1 1 1 "deep"] 2 perfectSink halfTransition (by decide) (by decide)
      (by decide)
      (fun k c0 h => by
        rcases k with _ | _ | _ | k
        · simp only [List.getElem?_cons_zero, Option.some.injEq] at h
          subst h
          decide
        · simp only [List.getElem?_cons_succ, List.getElem?_cons_zero, Option.some.injEq] at h
          subst h
          decide
        · simp only [List.getElem?_cons_succ, List.getElem?_cons_zero, Option.some.injEq] at h
          subst h
          decide
        · simp at h)
      bkGeo rfl).2.2.2.2.1⟩

/-- The reads of a vector over all its positions add up to its sum. -/
theorem sum_rd_range (B : List ℚ) : (∑ k in Finset.range B.length, rd B k) = B.sum := by
  induction B with
  | nil => simp
  | cons b bs ih =>
    rw [List.length_cons, Finset.sum_range_succ', List.sum_cons, ← ih, add_comm]
    congr 1

/-- The reads over the cells `|A| .. |A| + |B| - 1` of `A ++ B ++ C` add up to
the sum of `B`. -/
theorem sum_Icc_rdZ (A B C : List ℚ) :
    (∑ i in Finset.Icc (A.length : ℤ) ((A.length : ℤ) + (B.length : ℤ) - 1),
      rdZ (A ++ B ++ C) i) = B.sum := by
  rw [Int.Icc_eq_finset_map, Finset.sum_map]
  have e : ((A.length : ℤ) + (B.length : ℤ) - 1 + 1 - (A.length : ℤ)).toNat = B.length := by
    omega
  rw [e, ← sum_rd_range B]
  apply Finset.sum_congr rfl
  intro k hk
  rw [Finset.mem_range] at hk
  simp only [Function.Embedding.trans_apply, Nat.castEmbedding_apply, addLeftEmbedding_apply]
  rw [rdZ_nonneg _ _ (by omega)]
  have e2 : ((A.length : ℤ) + (k : ℤ)).toNat = A.length + k := by omega
  rw [e2, List.append_assoc]
  unfold rd
  rw [List.getD_eq_getElem?_getD, List.getD_eq_getElem?_getD,
    List.getElem?_append_right (by omega), Nat.add_sub_cancel_left, List.getElem?_append_left hk]

/-- The sum of the thicknesses, split at position `k`. -/
theorem sum_sizes_split (comps : List Compartment) (k : ℕ) (c0 : Compartment)
    (h : comps[k]? = some c0) :
    (comps.map (fun c => c.m_size)).sum
      = ((comps.take k).map (fun c => c.m_size)).sum + c0.m_size
        + ((comps.drop (k + 1)).map (fun c => c.m_size)).sum := by
  induction comps generalizing k with
  | nil => simp at h
  | cons x xs ih =>
    cases k with
    | zero =>
      simp only [List.getElem?_cons_zero, Option.some.injEq] at h
      subst h
      simp
    | succ k =>
      simp only [List.getElem?_cons_succ] at h
      simp only [List.map_cons, List.sum_cons, List.take_succ_cons, List.drop_succ_cons, ih k h]
      ring

/-- Thicknesses of at least 1 have a non-negative sum. -/
theorem sum_sizes_nonneg (comps : List Compartment) (hh : ∀ c ∈ comps, 1 ≤ c.m_size) :
    0 ≤ (comps.map (fun c => c.m_size)).sum := by
  apply List.sum_nonneg
  intro x hx
  obtain ⟨c, hc, rfl⟩ := List.mem_map.mp hx
  have := hh c hc
  omega

/-- In the equidistant branch the space steps over the range of a compartment
add up to its thickness. -/
theorem equi_range_sum (g : Geometry) (comps : List Compartment) (s : ℤ) (sink : Option Sink)
    (hne : comps ≠ []) (hh : ∀ c ∈ comps, 1 ≤ c.m_size) (hs : 1 ≤ s)
    (k : ℕ) (c : Compartment) (hk : (g.createEqui comps s sink).compartments[k]? = some c) :
    ∃ c0 : Compartment, comps[k]? = some c0 ∧ c.m_size = c0.m_size ∧
      (∑ i in Finset.Icc c.m_geo_from c.m_geo_to,
        rdZ (g.createEqui comps s sink).geometry.m_space_steps i) = (c.m_size : ℚ) := by
  obtain ⟨_, hsize, hsteps, _, _, hcomps, _⟩ := createEqui_spec g comps s sink hne hh hs
  rw [hcomps] at hk
  obtain ⟨c0, h0, hc⟩ := assignRanges_get s comps 0 k c hk
  refine ⟨c0, h0, by rw [hc]; rfl, ?_⟩
  have hsplit := sum_sizes_split comps k c0 h0
  have h1 := sum_sizes_nonneg (comps.take k) (fun c hc => hh c (List.mem_of_mem_take hc))
  have h2 := sum_sizes_nonneg (comps.drop (k + 1)) (fun c hc => hh c (List.mem_of_mem_drop hc))
  have h3 : 1 ≤ c0.m_size := hh c0 (List.mem_iff_getElem?.mpr ⟨k, h0⟩)
  generalize ((comps.take k).map (fun c => c.m_size)).sum = a at hc hsplit h1
  generalize ((comps.drop (k + 1)).map (fun c => c.m_size)).sum = b at hsplit h2
  generalize (g.createEqui comps s sink).geometry.size = N at hsize hsteps
  have ha : 0 ≤ a * s := by positivity
  have hb : 0 ≤ b * s := by positivity
  have hc0 : 0 ≤ c0.m_size * s := by positivity
  have hN : N = (a * s).toNat + (c0.m_size * s).toNat
      + ((b * s).toNat + (if sink.isSome then 1 else 0)) := by
    have e : (N : ℤ) = a * s + c0.m_size * s + (b * s + (if sink.isSome then 1 else 0)) := by
      rw [hsize, hsplit]
      ring
    have e4 : (((if sink.isSome then 1 else 0) : ℕ) : ℤ) = (if sink.isSome then 1 else 0) := by
      split <;> rfl
    have e1 := Int.toNat_of_nonneg ha
    have e2 := Int.toNat_of_nonneg hb
    have e3 := Int.toNat_of_nonneg hc0
    omega
  rw [hsteps, hN, List.replicate_add, List.replicate_add, hc]
  simp only [Compartment.setGeometryIdx]
  have e1 : (0 : ℤ) + a * s = ((List.replicate (a * s).toNat (1 / (s : ℚ))).length : ℤ) := by
    rw [List.length_replicate, Int.toNat_of_nonneg ha, zero_add]
  have e2 : ∀ x : ℤ, x + (c0.m_size * s - 1)
      = x + ((List.replicate (c0.m_size * s).toNat (1 / (s : ℚ))).length : ℤ) - 1 := by
    intro x
    rw [List.length_replicate, Int.toNat_of_nonneg hc0]
    ring
  rw [e1, e2, sum_Icc_rdZ, List.sum_replicate, nsmul_eq_mul]
  have e3 : (((c0.m_size * s).toNat : ℕ) : ℚ) = (c0.m_size : ℚ) * (s : ℚ) := by
    have := Int.toNat_of_nonneg hc0
    exact_mod_cast this
  rw [e3]
  have hs0 : (s : ℚ) ≠ 0 := by
    have : (0 : ℚ) < (s : ℚ) := by exact_mod_cast (show (0 : ℤ) < s by omega)
    exact ne_of_gt this
  field_simp

/-- In the refined branch the space steps over the range of a compartment add
up to its thickness, when the steps of one transition half add up to the
transition length. -/
theorem bk_range_sum (g : Geometry) (comps : List Compartment) (s : ℤ) (sink : Option Sink)
    (t : Transition) (hs : s ≠ 1) (hc : 2 ≤ comps.length) (hn : 1 ≤ t.n_trans_eles)
    (hx : Geometry.powerSeriesDoubleLastElement t.n_trans_eles t.calcuated_eta
      = (t.n_trans_size : ℚ))
    (hfit : ∀ (k : ℕ) (c0 : Compartment), comps[k]? = some c0 →
      (if k = 0 ∨ k + 1 = comps.length then t.n_trans_size else 2 * t.n_trans_size)
        ≤ c0.m_size)
    (k : ℕ) (c : Compartment)
    (hk : (g.create DiscMethod.B_AND_K comps s sink t).compartments[k]? = some c) :
    ∃ c0 : Compartment, comps[k]? = some c0 ∧ c.m_size = c0.m_size ∧
      (∑ i in Finset.Icc c.m_geo_from c.m_geo_to,
        rdZ (g.create DiscMethod.B_AND_K comps s sink t).geometry.m_space_steps i)
        = (c.m_size : ℚ) := by
  obtain ⟨H, _, hsum, _, hsteps, hcomps, _⟩ := create_BK_form g comps s sink t hs hc hn
  rw [hcomps] at hk
  obtain ⟨c0, h0, hcc⟩ := bkRanges_get t _ _ comps 0 0 k c hk
  refine ⟨c0, h0, by rw [hcc]; rfl, ?_⟩
  have hfz := fits_cast t comps hfit k c0 h0
  have hlt : k < comps.length := by
    rcases Nat.lt_or_ge k comps.length with h | h
    · exact h
    · rw [List.getElem?_eq_none h] at h0
      exact absurd h0 (by simp)
  have hbs := bkBlock_sum t H comps.length k c0 hfz
  rw [hsteps, bkSteps_split t _ _ comps 0 k c0 h0, List.append_assoc (_ ++ _) _ _, hcc]
  simp only [Compartment.setGeometryIdx, zero_add, Nat.zero_add]
  rw [sum_Icc_rdZ, hbs, hsum, hx]
  by_cases hk0 : k = 0
  · subst hk0
    rw [if_pos rfl, if_pos (Or.inl (by simp)), if_pos (by push_cast; omega)]
    push_cast
    ring
  · by_cases hk1 : k + 1 = comps.length
    · rw [if_neg hk0, if_pos (Or.inr (by omega)), if_neg (by omega)]
      push_cast
      ring
    · rw [if_neg hk0, if_neg (by omega), if_pos (by omega)]
      push_cast
      ring

/-- C33. Space steps of a compartment sum to its thickness: for a geometry
produced by `Geometry::create`, the compartments keep their thickness and the
sum of the space steps over each compartment's range `[geo_from, geo_to]`
equals that thickness `h`: in the equidistant branch (method `EQUI_DIST`, or
`ss_per_um = 1`, or a single compartment; thicknesses `h >= 1`,
`ss_per_um >= 1`), and in the `B_AND_K` branch (`ss_per_um > 1`, at least two
compartments, `n >= 1` transition elements per half) whenever the refined
ratio `x` satisfies `x + x^2 + .. + x^(n-1) + x^(n-1) = a`, the value of
`powerSeriesDoubleLastElement(n, x)`, and every end compartment has `h >= a`
and every interior compartment `h >= 2a`. -/
theorem space_steps_sum_to_thickness (g : Geometry) (method : DiscMethod)
    (comps : List Compartment) (s : ℤ) (sink : Option Sink) (t : Transition)
    (hb : ((method = DiscMethod.EQUI_DIST ∨ s = 1 ∨ comps.length = 1) ∧ comps ≠ [] ∧
        (∀ c ∈ comps, 1 ≤ c.m_size) ∧ 1 ≤ s) ∨
      (method = DiscMethod.B_AND_K ∧ 1 < s ∧ 2 ≤ comps.length ∧ 1 ≤ t.n_trans_eles ∧
        Geometry.powerSeriesDoubleLastElement t.n_trans_eles t.calcuated_eta
          = (t.n_trans_size : ℚ) ∧
        ∀ (k : ℕ) (c0 : Compartment), comps[k]? = some c0 →
          (if k = 0 ∨ k + 1 = comps.length then t.n_trans_size else 2 * t.n_trans_size)
            ≤ c0.m_size))
    (r : CreateResult) (hr : r = g.create method comps s sink t) :
    r.compartments.length = comps.length ∧
    ∀ (k : ℕ) (c : Compartment), r.compartments[k]? = some c → ∃ c0 : Compartment,
      comps[k]? = some c0 ∧ c.m_size = c0.m_size ∧
      (∑ i in Finset.Icc c.m_geo_from c.m_geo_to, rdZ r.geometry.m_space_steps i)
        = (c.m_size : ℚ) := by
  rcases hb with ⟨hm, hne, hh, hs⟩ | ⟨hm, hs, hc, hn, hx, hfit⟩
  · have hr' : r = { g with
        m_disc_method := method
        m_space_steps := []
        m_min_space_step := 1
        m_max_space_step := 1 }.createEqui comps s sink := by
      rw [hr]
      unfold Geometry.create
      exact if_pos hm
    rw [hr']
    refine ⟨?_, fun k c hk => equi_range_sum _ comps s sink hne hh hs k c hk⟩
    rw [(createEqui_spec _ comps s sink hne hh hs).2.2.2.2.2.1]
    exact assignRanges_length s comps 0
  · subst hm
    rw [hr]
    refine ⟨?_, fun k c hk => bk_range_sum g comps s sink t (by omega) hc hn hx hfit k c hk⟩
    obtain ⟨H, _, _, _, _, hcomps, _⟩ := create_BK_form g comps s sink t (by omega) hc hn
    rw [hcomps]
    exact bkRanges_length t _ _ comps 0 0

/-- C33, witness: the refined mesh `bkGeo` (thicknesses 3, 4 and 3, transition
halves `1/2, 1/2` of length 1) and the equidistant mesh of scenario S1
(vehicle and layer of thickness 10, one subdivision): the steps over the
ranges add up to 3, 4, 3 and to 10, 10. -/
theorem space_steps_sum_to_thickness_witness :
    (bkGeo.compartments.map (fun c =>
        ∑ i in Finset.Icc c.m_geo_from c.m_geo_to, rdZ bkGeo.geometry.m_space_steps i)
      = [3, 4, 3]) ∧
    (∀ (k : ℕ) (c : Compartment), bkGeo.compartments[k]? = some c →
      (∑ i in Finset.Icc c.m_geo_from c.m_geo_to, rdZ bkGeo.geometry.m_space_steps i)
        = (c.m_size : ℚ)) ∧
    (∀ (k : ℕ) (c : Compartment), s1Geo.compartments[k]? = some c →
      (∑ i in Finset.Icc c.m_geo_from c.m_geo_to, rdZ s1Geo.geometry.m_space_steps i)
        = (c.m_size : ℚ)) := by
  have h1 := space_steps_sum_to_thickness Geometry.new DiscMethod.B_AND_K
    [Compartment.new 3 1 1 1 "vehicle", Compartment.new 4 1 1 1 "layer",
      Compartment.new 3 1 1 1 "deep"] 2 (some perfectSink) halfTransition
    (Or.inr ⟨rfl, by decide, by decide, by decide, by decide!,
      fun k c0 h => by
        rcases k with _ | _ | _ | k
        · simp only [List.getElem?_cons_zero, Option.some.injEq] at h
          subst h
          decide
        · simp only [List.getElem?_cons_succ, List.getElem?_cons_zero, Option.some.injEq] at h
          subst h
          decide
        · simp only [List.getElem?_cons_succ, List.getElem?_cons_zero, Option.some.injEq] at h
          subst h
          decide
        · simp at h⟩) bkGeo rfl
  have h2 := space_steps_sum_to_thickness Geometry.new DiscMethod.EQUI_DIST scenarioS1 1
    (some perfectSink) noTransition
    (Or.inl ⟨Or.inl rfl, by decide, by decide, by decide⟩) s1Geo rfl
  refine ⟨by decide!, fun k c hk => ?_, fun k c hk => ?_⟩
  · obtain ⟨_, _, _, h⟩ := h1.2 k c hk
    exact h
  · obtain ⟨_, _, _, h⟩ := h2.2 k c hk
    exact h

end sc
